import Mathlib

/-!
# staszek backend (`src/server/server.js`): a shallow embedding

The request pipeline of the backend is embedded as pure Lean functions.

* Mutable process state (the limiter maps, the sweep tick, the admin session id)
  is passed explicitly; a JavaScript `Map` keyed by strings is a function
  `String → Option _`.
* `Date.now()` is an explicit argument `now` (milliseconds, an integer).
* Built-ins of the JavaScript runtime that the code calls (HMAC, JSON, UTF-8,
  `Number(..)`) are fields of a `Runtime` record; the upstream services are
  oracles whose answers are inputs.
-/

namespace Staszek

/-! ## Strings -/

/-- Code points removed by `String.prototype.trim` (WhiteSpace and LineTerminator). -/
def isJsWhitespace (c : Char) : Bool :=
  let n := c.toNat
  n == 0x09 || n == 0x0A || n == 0x0B || n == 0x0C || n == 0x0D || n == 0x20 ||
  n == 0xA0 || n == 0x1680 || (0x2000 ≤ n && n ≤ 0x200A) || n == 0x2028 || n == 0x2029 ||
  n == 0x202F || n == 0x205F || n == 0x3000 || n == 0xFEFF

/-- Drop the leading and trailing white space of a list of characters. -/
def trimChars (cs : List Char) : List Char :=
  ((cs.dropWhile isJsWhitespace).reverse.dropWhile isJsWhitespace).reverse

/-- The method `s.trim()`. -/
def jsTrim (s : String) : String := String.mk (trimChars s.data)

/-! ## Rate limiter (`server.js` 634-743) -/

/-- One entry of a rule list: `{ key, windowMs, limit }`. -/
structure Rule where
  key : String
  windowMs : Int
  limit : Int
deriving DecidableEq, Repr

def REQUEST_RATE_LIMIT_RULES : List Rule :=
  [ { key := "sec", windowMs := 1000, limit := 2 },
    { key := "min", windowMs := 60 * 1000, limit := 60 },
    { key := "hour", windowMs := 60 * 60 * 1000, limit := 600 },
    { key := "day", windowMs := 24 * 60 * 60 * 1000, limit := 1000 } ]

def COMMENT_RATE_LIMIT_RULES : List Rule :=
  [ { key := "tenSec", windowMs := 10 * 1000, limit := 2 },
    { key := "hour", windowMs := 60 * 60 * 1000, limit := 10 },
    { key := "day", windowMs := 24 * 60 * 60 * 1000, limit := 15 } ]

/-- The per-rule counter `{ start, count }` stored under `rec[r.key]`. -/
structure Window where
  start : Int
  count : Int
deriving DecidableEq, Repr

/-- The per-IP record `{ last, [key]: { start, count }, ... }`.  The field `last` and the
windows live in one JavaScript object; here they are kept apart, which is the same thing
for every rule key that is not a reserved property name (`reservedRecordKeys`). -/
structure LimiterRec where
  last : Int
  windows : String → Option Window

abbrev LimiterMap := String → Option LimiterRec

/-- The record of `adminLoginFailuresByIp`: `{ last, fails, blockedUntil }`. -/
structure AdminLoginFailure where
  last : Int
  fails : Int
  blockedUntil : Int
deriving DecidableEq, Repr

/-- The module-level limiter state: the three maps and `rateLimitSweepTick`. -/
structure Limiters where
  rateLimitRequestsByIp : LimiterMap
  rateLimitCommentsByIp : LimiterMap
  adminLoginFailuresByIp : String → Option AdminLoginFailure
  rateLimitSweepTick : Nat

/-- The state at process start: empty maps, tick 0. -/
def Limiters.initial : Limiters :=
  { rateLimitRequestsByIp := fun _ => none
    rateLimitCommentsByIp := fun _ => none
    adminLoginFailuresByIp := fun _ => none
    rateLimitSweepTick := 0 }

/-- Which map a call site hands to `hitRateLimit`. -/
inductive LimiterId where
  | requests
  | comments
deriving DecidableEq, Repr

def Limiters.get (s : Limiters) : LimiterId → LimiterMap
  | .requests => s.rateLimitRequestsByIp
  | .comments => s.rateLimitCommentsByIp

def Limiters.set (s : Limiters) (which : LimiterId) (m : LimiterMap) : Limiters :=
  match which with
  | .requests => { s with rateLimitRequestsByIp := m }
  | .comments => { s with rateLimitCommentsByIp := m }

/-- Property names a rule key must avoid for the record model to be exact: the record's own
`last` field and the names inherited from `Object.prototype`. -/
def reservedRecordKeys : List String :=
  ["last", "__proto__", "constructor", "hasOwnProperty", "isPrototypeOf",
   "propertyIsEnumerable", "toLocaleString", "toString", "valueOf",
   "__defineGetter__", "__defineSetter__", "__lookupGetter__", "__lookupSetter__"]

/-- A rule list whose keys are pairwise distinct and not reserved, so that every rule owns
its window (both rule lists of the server are of this kind). -/
def RulesWellFormed (rules : List Rule) : Prop :=
  (rules.map Rule.key).Nodup ∧ ∀ k ∈ rules.map Rule.key, k ∉ reservedRecordKeys

instance (rules : List Rule) : Decidable (RulesWellFormed rules) := by
  unfold RulesWellFormed; infer_instance

/-- Assignment `obj[k] = v` on a string-keyed table. -/
def setKey {α : Type} (m : String → Option α) (k : String) (v : α) : String → Option α :=
  fun x => if x = k then some v else m x

/-- The function `ensureLimiterRec`: the stored record, or a fresh one with a window
`{ start: now, count: 0 }` under every rule key. -/
def ensureLimiterRec (map : LimiterMap) (ip : String) (rules : List Rule) (now : Int) :
    LimiterRec :=
  match map ip with
  | some rec => rec
  | none =>
    { last := now
      windows := fun k => if k ∈ rules.map Rule.key then some ⟨now, 0⟩ else none }

/-- The function `sweepLimiterMap`: delete every record whose `last` is 0 or older than
`ttlMs`. -/
def sweepLimiterMap {α : Type} (last : α → Int) (map : String → Option α) (ttlMs now : Int) :
    String → Option α :=
  fun ip => (map ip).filter (fun rec => !(last rec == 0 || decide (now - last rec > ttlMs)))

/-- The expression `Math.ceil(x / 1000)` for an integer `x`. -/
def ceilDiv1000 (x : Int) : Int := -((-x) / 1000)

/-- What `hitRateLimit` returns: `{ ok, retryAfter, rule }`. -/
structure HitResult where
  ok : Bool
  retryAfter : Int
  rule : Option Rule
deriving DecidableEq, Repr

/-- The body of the loop of `hitRateLimit` for rule `r`, up to `w.count += 1`: the window
under `r.key` (a fresh one if absent), reset if it has expired, with its count raised. -/
def bumpWindow (now : Int) (r : Rule) (ws : String → Option Window) : Window :=
  let w0 : Window := (ws r.key).getD ⟨now, 0⟩
  let w1 : Window := if now - w0.start ≥ r.windowMs then ⟨now, 0⟩ else w0
  ⟨w1.start, w1.count + 1⟩

/-- The loop `for (const r of rules)` of `hitRateLimit` over the windows of one record:
the updated windows and, when a rule is exceeded, `(retryAfter, rule)`. -/
def hitRules (now : Int) : List Rule → (String → Option Window) →
    (String → Option Window) × Option (Int × Rule)
  | [], ws => (ws, none)
  | r :: rs, ws =>
    let w := bumpWindow now r ws
    if w.count > r.limit then
      (setKey ws r.key w, some (max 1 (ceilDiv1000 (w.start + r.windowMs - now)), r))
    else hitRules now rs (setKey ws r.key w)

/-- The sweep TTL of `hitRateLimit`: `2 * 24 * 60 * 60 * 1000` ms. -/
def SWEEP_TTL_MS : Int := 2 * 24 * 60 * 60 * 1000

/-- The three sweeps run on every 500th accepted call. -/
def sweepAll (s : Limiters) (now : Int) : Limiters :=
  { s with
    rateLimitRequestsByIp :=
      sweepLimiterMap LimiterRec.last s.rateLimitRequestsByIp SWEEP_TTL_MS now
    rateLimitCommentsByIp :=
      sweepLimiterMap LimiterRec.last s.rateLimitCommentsByIp SWEEP_TTL_MS now
    adminLoginFailuresByIp :=
      sweepLimiterMap AdminLoginFailure.last s.adminLoginFailuresByIp SWEEP_TTL_MS now }

/-- The function `hitRateLimit(map, ip, rules)` at clock value `now`. -/
def hitRateLimit (s : Limiters) (which : LimiterId) (ip : String) (rules : List Rule)
    (now : Int) : HitResult × Limiters :=
  let cleanIp := jsTrim ip
  if cleanIp = "" then (⟨true, 0, none⟩, s)
  else
    let rec0 := ensureLimiterRec (s.get which) cleanIp rules now
    let out := hitRules now rules rec0.windows
    let s1 := s.set which (setKey (s.get which) cleanIp ⟨now, out.1⟩)
    match out.2 with
    | some (retryAfter, r) => (⟨false, retryAfter, some r⟩, s1)
    | none =>
      let s2 := { s1 with rateLimitSweepTick := s1.rateLimitSweepTick + 1 }
      let s3 := if s2.rateLimitSweepTick % 500 = 0 then sweepAll s2 now else s2
      (⟨true, 0, none⟩, s3)

/-- Successive calls `hitRateLimit(map, ip, rules)` from one IP at the listed clock values:
the final state and the results in call order. -/
def hitMany (s : Limiters) (which : LimiterId) (ip : String) (rules : List Rule) :
    List Int → Limiters × List HitResult
  | [] => (s, [])
  | t :: ts =>
    let r1 := hitRateLimit s which ip rules t
    let rest := hitMany r1.2 which ip rules ts
    (rest.1, r1.1 :: rest.2)

/-- How many of the results are `ok: true`. -/
def countOk (rs : List HitResult) : Nat := (rs.filter (fun r => r.ok)).length

/-- One call in a mixed trace: which limiter, from which IP, at which clock value. -/
structure Call where
  which : LimiterId
  ip : String
  now : Int
deriving DecidableEq, Repr

/-- A trace of calls, each limiter being used with its own rule list (as at the call sites:
the request map with the request rules, the comment map with the comment rules): the final
state and every call with its result. -/
def runCalls (rulesOf : LimiterId → List Rule) (s : Limiters) :
    List Call → Limiters × List (Call × HitResult)
  | [] => (s, [])
  | c :: cs =>
    let r1 := hitRateLimit s c.which c.ip (rulesOf c.which) c.now
    let rest := runCalls rulesOf r1.2 cs
    (rest.1, (c, r1.1) :: rest.2)

/-- The number of calls on limiter `which` from the IP that trims to `cleanIp` that returned
`ok: true` at a clock value in `[a, a + len)`. -/
def acceptedWithin (which : LimiterId) (cleanIp : String) (a len : Int)
    (log : List (Call × HitResult)) : Nat :=
  (log.filter (fun e => e.2.ok && decide (e.1.which = which) && decide (jsTrim e.1.ip = cleanIp)
    && decide (a ≤ e.1.now) && decide (e.1.now < a + len))).length

/-- The rule list each limiter of the server is used with. -/
def serverRules : LimiterId → List Rule
  | .requests => REQUEST_RATE_LIMIT_RULES
  | .comments => COMMENT_RATE_LIMIT_RULES

/-- Sixty clock values, two per second over thirty seconds: 1, 2, 1001, 1002, ..., 29001,
29002 (ms). -/
def twoPerSecond : List Int :=
  (List.range 30).flatMap (fun i => [1000 * (i : Int) + 1, 1000 * (i : Int) + 2])

/-- A rule list with one rule: one call per week (604800000 ms). -/
def weekRules : List Rule := [⟨"week", 604800000, 1⟩]

/-- A limiter state without records whose sweep counter stands at 498: the second accepted
call from here runs the sweep. -/
def beforeSweep : Limiters := { Limiters.initial with rateLimitSweepTick := 498 }

/-- A call from "1.2.3.4" at 1 ms and, three days later, a call from "5.6.7.8". -/
def weekTrace : List Call :=
  [⟨.requests, "1.2.3.4", 1⟩, ⟨.requests, "5.6.7.8", 259200001⟩]

/-- A rule list whose two rules share the key `a`, and so one window. -/
def sharedKeyRules : List Rule := [⟨"a", 1000, 3⟩, ⟨"a", 1, 100⟩]

/-- Whether a logged call counts for `acceptedWithin`, as 0 or 1. -/
def countsWithin (which : LimiterId) (cleanIp : String) (a len : Int)
    (e : Call × HitResult) : Nat :=
  if (e.2.ok && decide (e.1.which = which) && decide (jsTrim e.1.ip = cleanIp)
    && decide (a ≤ e.1.now) && decide (e.1.now < a + len)) = true then 1 else 0

/-- The invariant behind the fixed-window bound, for rule `r`, the interval
`[a, a + r.windowMs)`, the last clock value `prev` and the number `A` of accepted calls counted
so far: the calls counted belong to at most two windows of `r`, the one open when the interval
began and the one opened inside it. -/
def FixedWindowInv (which : LimiterId) (cleanIp : String) (r : Rule) (a : Int)
    (s : Limiters) (prev : Int) (A : Int) : Prop :=
  A ≤ 2 * (r.limit.toNat : Int) ∧ (prev < a → A = 0) ∧
  match s.get which cleanIp with
  | none => prev < a + r.windowMs → A ≤ (r.limit.toNat : Int)
  | some rec =>
    ∃ w, rec.windows r.key = some w ∧ 0 < rec.last ∧ rec.last ≤ prev ∧ w.start ≤ rec.last ∧
      0 ≤ w.count ∧
      (w.start < a → A ≤ w.count ∧ A ≤ (r.limit.toNat : Int)) ∧
      (a ≤ w.start → w.start < a + r.windowMs →
        A ≤ (r.limit.toNat : Int) + w.count ∧ A ≤ 2 * (r.limit.toNat : Int))

/-! ## Bytes, UTF-8 and base64 (`server.js` 197-218) -/

/-- One octet of a `Buffer`. -/
abbrev Byte := Fin 256

/-- The octet `n mod 256`. -/
def byte (n : Nat) : Byte := ⟨n % 256, Nat.mod_lt _ (by decide)⟩

/-- UTF-8 encoding of one code point. -/
def utf8EncodeChar (c : Char) : List Byte :=
  let v := c.toNat
  if v < 0x80 then [byte v]
  else if v < 0x800 then [byte (0xC0 + v / 64), byte (0x80 + v % 64)]
  else if v < 0x10000 then
    [byte (0xE0 + v / 4096), byte (0x80 + v / 64 % 64), byte (0x80 + v % 64)]
  else
    [byte (0xF0 + v / 262144), byte (0x80 + v / 4096 % 64), byte (0x80 + v / 64 % 64),
     byte (0x80 + v % 64)]

/-- The built-in `Buffer.from(s, "utf8")`. -/
def utf8Encode (s : String) : List Byte := s.data.flatMap utf8EncodeChar

/-- The property `s.length` of a JavaScript string: UTF-16 code units. -/
def utf16Length (s : String) : Nat :=
  (s.data.map (fun c => if c.toNat < 0x10000 then 1 else 2)).sum

/-- The function `timingSafeEqualStr`: equal lengths and equal octets of the UTF-8
encodings. -/
def timingSafeEqualStr (a b : String) : Bool :=
  let aa := utf8Encode a
  let bb := utf8Encode b
  if aa.length ≠ bb.length then false else decide (aa = bb)

/-- The 64 digits of standard base64. -/
def base64Alphabet : List Char :=
  "ABCDEFGHIJKLMNOPQRSTUVWXYZabcdefghijklmnopqrstuvwxyz0123456789+/".data

/-- The base64 digit of a sextet. -/
def base64Char (n : Nat) : Char := base64Alphabet.getD n 'A'

/-- The built-in `buf.toString("base64")`: three octets give four digits, a rest of one or
two octets is padded with `=`. -/
def toBase64 : List Byte → List Char
  | a :: b :: c :: rest =>
    base64Char (a.val / 4) :: base64Char (a.val % 4 * 16 + b.val / 16) ::
      base64Char (b.val % 16 * 4 + c.val / 64) :: base64Char (c.val % 64) :: toBase64 rest
  | [a, b] =>
    [base64Char (a.val / 4), base64Char (a.val % 4 * 16 + b.val / 16),
     base64Char (b.val % 16 * 4), '=']
  | [a] => [base64Char (a.val / 4), base64Char (a.val % 4 * 16), '=', '=']
  | [] => []

/-- Replace every occurrence of one character, `s.replace(/x/g, "y")`. -/
def replaceChar (x y : Char) (cs : List Char) : List Char :=
  cs.map (fun c => if c = x then y else c)

/-- Remove the trailing run of `=`, `s.replace(/=+$/g, "")`. -/
def stripTrailingEq (cs : List Char) : List Char :=
  (cs.reverse.dropWhile (fun c => c == '=')).reverse

/-- The function `base64urlEncode` on a buffer. -/
def base64urlEncode (buf : List Byte) : String :=
  String.mk (stripTrailingEq (replaceChar '/' '_' (replaceChar '+' '-' (toBase64 buf))))

/-- The sextet of a base64 digit, as read by the decoder of `Buffer.from(s, "base64")`, which
accepts the standard and the URL-safe digits. -/
def base64Value (c : Char) : Option Nat :=
  let v := c.toNat
  if 65 ≤ v ∧ v ≤ 90 then some (v - 65)
  else if 97 ≤ v ∧ v ≤ 122 then some (v - 97 + 26)
  else if 48 ≤ v ∧ v ≤ 57 then some (v - 48 + 52)
  else if c = '+' ∨ c = '-' then some 62
  else if c = '/' ∨ c = '_' then some 63
  else none

/-- Four sextets give three octets; a rest of three gives two, of two gives one. -/
def fromSextets : List Nat → List Byte
  | s1 :: s2 :: s3 :: s4 :: rest =>
    byte (s1 * 4 + s2 / 16) :: byte (s2 % 16 * 16 + s3 / 4) :: byte (s3 % 4 * 64 + s4) ::
      fromSextets rest
  | [s1, s2, s3] => [byte (s1 * 4 + s2 / 16), byte (s2 % 16 * 16 + s3 / 4)]
  | [s1, s2] => [byte (s1 * 4 + s2 / 16)]
  | _ => []

/-- The built-in `Buffer.from(s, "base64")`: decoding stops at the first `=`, characters that
are no base64 digits are skipped. -/
def fromBase64 (cs : List Char) : List Byte :=
  fromSextets ((cs.takeWhile (fun c => c != '=')).filterMap base64Value)

/-- The function `base64urlDecodeToBuffer`. -/
def base64urlDecodeToBuffer (s : String) : List Byte :=
  let raw := replaceChar '_' '/' (replaceChar '-' '+' s.data)
  let padLen := (4 - utf16Length (String.mk raw) % 4) % 4
  fromBase64 (raw ++ List.replicate padLen '=')

/-- The sextets of an octet list, without padding. -/
def sextets : List Byte → List Nat
  | a :: b :: c :: rest =>
    a.val / 4 :: (a.val % 4 * 16 + b.val / 16) :: (b.val % 16 * 4 + c.val / 64) ::
      c.val % 64 :: sextets rest
  | [a, b] => [a.val / 4, a.val % 4 * 16 + b.val / 16, b.val % 16 * 4]
  | [a] => [a.val / 4, a.val % 4 * 16]
  | [] => []

/-- The URL-safe form of a base64 character, as `base64urlEncode` rewrites it. -/
def urlSafe (c : Char) : Char :=
  (fun d => if d = '/' then '_' else d) (if c = '+' then '-' else c)

/-- The standard form of a character, as `base64urlDecodeToBuffer` rewrites it. -/
def urlUnsafe (c : Char) : Char :=
  (fun d => if d = '_' then '/' else d) (if c = '-' then '+' else c)

/-- The characters `base64urlEncode` can produce. -/
def isBase64UrlChar (c : Char) : Bool :=
  let v := c.toNat
  (65 ≤ v && v ≤ 90) || (97 ≤ v && v ≤ 122) || (48 ≤ v && v ≤ 57) || c == '-' || c == '_'

/-- The call `s.split(sep)` for a one-character separator. -/
def splitChars (sep : Char) : List Char → List (List Char)
  | [] => [[]]
  | c :: cs =>
    if c = sep then [] :: splitChars sep cs
    else
      match splitChars sep cs with
      | [] => [[c]]
      | x :: xs => (c :: x) :: xs

/-- The call `s.split(".")`. -/
def splitDot (s : String) : List String := (splitChars '.' s.data).map String.mk

/-! ## JSON values and the runtime -/

/-- A JSON value as `JSON.parse` returns it.  Numbers are integers (exact for safe integers);
an object is the list of its own properties. -/
inductive Json where
  | null
  | bool (b : Bool)
  | num (n : Int)
  | str (s : String)
  | arr (items : List Json)
  | obj (fields : List (String × Json))

/-- Property access `v.k` (`none` is `undefined`); only objects have own properties here. -/
def Json.get : Json → String → Option Json
  | .obj fields, k => (fields.find? (fun f => f.1 == k)).map (fun f => f.2)
  | _, _ => none

/-- Whether `typeof v === "object"` and `v` is not `null`. -/
def Json.isObject : Json → Bool
  | .arr _ => true
  | .obj _ => true
  | _ => false

/-- Truthiness of a value (`none` is `undefined`). -/
def jsTruthy : Option Json → Bool
  | none => false
  | some .null => false
  | some (.bool b) => b
  | some (.num n) => n != 0
  | some (.str s) => s != ""
  | some (.arr _) => true
  | some (.obj _) => true

mutual
/-- The conversion `String(v)`. -/
def jsToString : Json → String
  | .null => "null"
  | .bool b => if b then "true" else "false"
  | .num n => toString n
  | .str s => s
  | .arr items => jsJoin items
  | .obj _ => "[object Object]"
/-- The conversion of an array: `items.join(",")`. -/
def jsJoin : List Json → String
  | [] => ""
  | [x] => jsJoinItem x
  | x :: y :: rest => jsJoinItem x ++ "," ++ jsJoin (y :: rest)
/-- One element inside `join`: `null` gives the empty string. -/
def jsJoinItem : Json → String
  | .null => ""
  | .bool b => if b then "true" else "false"
  | .num n => toString n
  | .str s => s
  | .arr items => jsJoin items
  | .obj _ => "[object Object]"
end

/-- The built-ins of the JavaScript runtime that the token code calls.  Their behaviour is not
part of the repository; theorems hold for every runtime unless they say otherwise. -/
structure Runtime where
  /-- The digest `crypto.createHmac("sha256", secret).update(data).digest()`. -/
  hmacSha256 : String → String → List Byte
  /-- The built-in `JSON.stringify`. -/
  jsonStringify : Json → String
  /-- The built-in `JSON.parse`; `none` when it throws. -/
  jsonParse : String → Option Json
  /-- The built-in `buf.toString("utf8")`. -/
  utf8Decode : List Byte → String
  /-- The conversion `Number(s)` of a string; `none` is `NaN`. -/
  stringToNumber : String → Option Int

/-- The conversion `Number(v)` (`none` as argument is `undefined`, `none` as result is
`NaN`). -/
def jsToNumber (R : Runtime) : Option Json → Option Int
  | none => none
  | some .null => some 0
  | some (.bool b) => some (if b then 1 else 0)
  | some (.num n) => some n
  | some (.str s) => R.stringToNumber s
  | some (.arr items) => R.stringToNumber (jsJoin items)
  | some (.obj _) => none

/-! ## Admin tokens (`server.js` 160-246, 349-360, 1310-1320) -/

def ADMIN_JWT_ISSUER : String := "staszek-backend"
def ADMIN_JWT_AUDIENCE : String := "staszek-admin"

/-- The header object `{ alg: "HS256", typ: "JWT" }`. -/
def jwtHeader : Json := .obj [("alg", .str "HS256"), ("typ", .str "JWT")]

/-- The function `jwtSign`. -/
def jwtSign (R : Runtime) (payload : Json) (secret : String) : String :=
  let h := base64urlEncode (utf8Encode (R.jsonStringify jwtHeader))
  let p := base64urlEncode (utf8Encode (R.jsonStringify payload))
  let data := h ++ "." ++ p
  let sig := R.hmacSha256 secret data
  data ++ "." ++ base64urlEncode sig

/-- The value `Number(payload.exp) || 0`. -/
def tokenExp (R : Runtime) (payload : Json) : Int :=
  (jsToNumber R (payload.get "exp")).getD 0

/-- The function `jwtVerify` at clock value `now` (ms): the payload, or `none` for `null`. -/
def jwtVerify (R : Runtime) (token secret : String) (now : Int) : Option Json :=
  let t := jsTrim token
  match splitDot t with
  | [h, p, sig] =>
    let data := h ++ "." ++ p
    let expected := base64urlEncode (R.hmacSha256 secret data)
    if !timingSafeEqualStr sig expected then none
    else
      match R.jsonParse (R.utf8Decode (base64urlDecodeToBuffer p)) with
      | none => none
      | some payload =>
        if !payload.isObject then none
        else
          let exp := tokenExp R payload
          if exp ≠ 0 ∧ now > exp * 1000 then none
          else some payload
  | _ => none

/-- Strict equality of a property with a string, `v === s`. -/
def jsIsString (v : Option Json) (s : String) : Bool :=
  match v with
  | some (.str x) => x == s
  | _ => false

/-- The function `isAdmin`, given the bearer token of the request, the configured
`ADMIN_TOKEN_SECRET` and the current `adminSessionId`. -/
def isAdmin (R : Runtime) (secret adminSessionId token : String) (now : Int) : Bool :=
  if token = "" then false
  else if secret = "" ∨ utf16Length secret < 24 then false
  else
    match jwtVerify R token secret now with
    | none => false
    | some payload =>
      if !jsIsString (payload.get "sub") "admin" then false
      else if !jsIsString (payload.get "iss") ADMIN_JWT_ISSUER then false
      else if !jsIsString (payload.get "aud") ADMIN_JWT_AUDIENCE then false
      else if !jsTruthy (payload.get "sid")
          || (match payload.get "sid" with
              | some v => jsToString v != adminSessionId
              | none => true) then false
      else true

/-- The function `rotateAdminSession`: the new `adminSessionId`, from the 18 octets that
`crypto.randomBytes(18)` returns. -/
def rotateAdminSession (randomBytes : List Byte) : String := base64urlEncode randomBytes

/-- The payload that a successful `POST /admin/login` signs, `nowSec` being
`Math.floor(Date.now() / 1000)`. -/
def adminTokenPayload (sid : String) (nowSec ttlDays : Int) : Json :=
  .obj [("sub", .str "admin"), ("sid", .str sid), ("iss", .str ADMIN_JWT_ISSUER),
        ("aud", .str ADMIN_JWT_AUDIENCE), ("iat", .num nowSec),
        ("exp", .num (nowSec + ttlDays * 24 * 3600))]

/-! ## A reference runtime

The built-ins are implemented here after their standards (FIPS 180-4 and RFC 2104 for
HMAC-SHA-256, RFC 8259 for JSON, RFC 3629 for UTF-8) so that the token code can be run on
concrete inputs.  The general theorems do not depend on it. -/

/-- The round constants of SHA-256. -/
def sha256K : List Nat :=
  [0x428a2f98, 0x71374491, 0xb5c0fbcf, 0xe9b5dba5, 0x3956c25b, 0x59f111f1, 0x923f82a4,
   0xab1c5ed5, 0xd807aa98, 0x12835b01, 0x243185be, 0x550c7dc3, 0x72be5d74, 0x80deb1fe,
   0x9bdc06a7, 0xc19bf174, 0xe49b69c1, 0xefbe4786, 0x0fc19dc6, 0x240ca1cc, 0x2de92c6f,
   0x4a7484aa, 0x5cb0a9dc, 0x76f988da, 0x983e5152, 0xa831c66d, 0xb00327c8, 0xbf597fc7,
   0xc6e00bf3, 0xd5a79147, 0x06ca6351, 0x14292967, 0x27b70a85, 0x2e1b2138, 0x4d2c6dfc,
   0x53380d13, 0x650a7354, 0x766a0abb, 0x81c2c92e, 0x92722c85, 0xa2bfe8a1, 0xa81a664b,
   0xc24b8b70, 0xc76c51a3, 0xd192e819, 0xd6990624, 0xf40e3585, 0x106aa070, 0x19a4c116,
   0x1e376c08, 0x2748774c, 0x34b0bcb5, 0x391c0cb3, 0x4ed8aa4a, 0x5b9cca4f, 0x682e6ff3,
   0x748f82ee, 0x78a5636f, 0x84c87814, 0x8cc70208, 0x90befffa, 0xa4506ceb, 0xbef9a3f7,
   0xc67178f2]

/-- Rotate a 32-bit word right. -/
def rotr32 (x n : Nat) : Nat := (x >>> n ||| x <<< (32 - n)) % 4294967296

/-- Big-endian 32-bit words of an octet list. -/
def sha256Words : List Nat → List Nat
  | a :: b :: c :: d :: rest => (a * 16777216 + b * 65536 + c * 256 + d) :: sha256Words rest
  | _ => []

/-- Message padding: `0x80`, zeros, and the bit length in 64 bits. -/
def sha256Pad (msg : List Nat) : List Nat :=
  let l := msg.length
  msg ++ [0x80] ++ List.replicate ((119 - l % 64) % 64) 0 ++
    (List.range 8).map (fun i => l * 8 / 256 ^ (7 - i) % 256)

/-- The message schedule of one block. -/
def sha256Schedule (block : List Nat) : List Nat :=
  (List.range 48).foldl (fun w _ =>
    let t := w.length
    let w15 := w.getD (t - 15) 0
    let w2 := w.getD (t - 2) 0
    let s0 := rotr32 w15 7 ^^^ rotr32 w15 18 ^^^ (w15 >>> 3)
    let s1 := rotr32 w2 17 ^^^ rotr32 w2 19 ^^^ (w2 >>> 10)
    w ++ [(w.getD (t - 16) 0 + s0 + w.getD (t - 7) 0 + s1) % 4294967296]) block

/-- The eight working variables of SHA-256. -/
structure Sha256State where
  a : Nat
  b : Nat
  c : Nat
  d : Nat
  e : Nat
  f : Nat
  g : Nat
  h : Nat

/-- One round, with the round constant and the schedule word. -/
def sha256Round (s : Sha256State) (kw : Nat × Nat) : Sha256State :=
  let s1 := rotr32 s.e 6 ^^^ rotr32 s.e 11 ^^^ rotr32 s.e 25
  let ch := (s.e &&& s.f) ^^^ ((4294967295 - s.e) &&& s.g)
  let t1 := (s.h + s1 + ch + kw.1 + kw.2) % 4294967296
  let s0 := rotr32 s.a 2 ^^^ rotr32 s.a 13 ^^^ rotr32 s.a 22
  let maj := (s.a &&& s.b) ^^^ (s.a &&& s.c) ^^^ (s.b &&& s.c)
  let t2 := (s0 + maj) % 4294967296
  ⟨(t1 + t2) % 4294967296, s.a, s.b, s.c, (s.d + t1) % 4294967296, s.e, s.f, s.g⟩

/-- The compression of one block into the hash state. -/
def sha256Compress (hs : Sha256State) (block : List Nat) : Sha256State :=
  let r := (sha256K.zip (sha256Schedule block)).foldl sha256Round hs
  ⟨(hs.a + r.a) % 4294967296, (hs.b + r.b) % 4294967296, (hs.c + r.c) % 4294967296,
   (hs.d + r.d) % 4294967296, (hs.e + r.e) % 4294967296, (hs.f + r.f) % 4294967296,
   (hs.g + r.g) % 4294967296, (hs.h + r.h) % 4294967296⟩

/-- The first `n` blocks of 16 words. -/
def sha256Blocks : Nat → List Nat → List (List Nat)
  | 0, _ => []
  | n + 1, ws => ws.take 16 :: sha256Blocks n (ws.drop 16)

/-- SHA-256 of an octet list, as 32 octets. -/
def sha256 (msg : List Nat) : List Nat :=
  let ws := sha256Words (sha256Pad msg)
  let r := (sha256Blocks (ws.length / 16) ws).foldl sha256Compress
    ⟨0x6a09e667, 0xbb67ae85, 0x3c6ef372, 0xa54ff53a, 0x510e527f, 0x9b05688c, 0x1f83d9ab,
     0x5be0cd19⟩
  [r.a, r.b, r.c, r.d, r.e, r.f, r.g, r.h].flatMap
    (fun w => [w / 16777216, w / 65536 % 256, w / 256 % 256, w % 256])

/-- HMAC-SHA-256 of a message under a key, both as octet lists. -/
def hmacSha256Bytes (key msg : List Nat) : List Nat :=
  let k0 := if key.length > 64 then sha256 key else key
  let k := k0 ++ List.replicate (64 - k0.length) 0
  sha256 (k.map (fun x => x ^^^ 0x5c) ++ sha256 (k.map (fun x => x ^^^ 0x36) ++ msg))

/-- Four lower-case hexadecimal digits. -/
def hex4 (n : Nat) : List Char :=
  [n / 4096 % 16, n / 256 % 16, n / 16 % 16, n % 16].map
    (fun d => "0123456789abcdef".data.getD d '0')

/-- The quoted form of a string in `JSON.stringify`. -/
def jsonQuote (s : String) : List Char :=
  ['"'] ++ s.data.flatMap (fun c =>
    if c = '"' then ['\\', '"']
    else if c = '\\' then ['\\', '\\']
    else if c = '\n' then ['\\', 'n']
    else if c = '\r' then ['\\', 'r']
    else if c = '\t' then ['\\', 't']
    else if c.toNat = 8 then ['\\', 'b']
    else if c.toNat = 12 then ['\\', 'f']
    else if c.toNat < 32 then ['\\', 'u'] ++ hex4 c.toNat
    else [c]) ++ ['"']

mutual
/-- The text that `JSON.stringify` gives for a value. -/
def stringifyChars : Json → List Char
  | .null => "null".data
  | .bool b => if b then "true".data else "false".data
  | .num n => (toString n).data
  | .str s => jsonQuote s
  | .arr items => ['['] ++ stringifyItems items ++ [']']
  | .obj fields => ['{'] ++ stringifyFields fields ++ ['}']
/-- The elements of an array, separated by commas. -/
def stringifyItems : List Json → List Char
  | [] => []
  | [x] => stringifyChars x
  | x :: y :: rest => stringifyChars x ++ [','] ++ stringifyItems (y :: rest)
/-- The properties of an object, separated by commas. -/
def stringifyFields : List (String × Json) → List Char
  | [] => []
  | [(k, v)] => jsonQuote k ++ [':'] ++ stringifyChars v
  | (k, v) :: f :: rest =>
    jsonQuote k ++ [':'] ++ stringifyChars v ++ [','] ++ stringifyFields (f :: rest)
end

/-- JSON white space. -/
def skipJsonWs (cs : List Char) : List Char :=
  cs.dropWhile (fun c => c = ' ' || c = '\t' || c = '\n' || c = '\r')

/-- The value of a hexadecimal digit. -/
def hexValue (c : Char) : Option Nat :=
  let v := c.toNat
  if 48 ≤ v ∧ v ≤ 57 then some (v - 48)
  else if 97 ≤ v ∧ v ≤ 102 then some (v - 87)
  else if 65 ≤ v ∧ v ≤ 70 then some (v - 55)
  else none

/-- The rest of a string literal after its opening quote: the string and what follows the
closing quote. -/
def parseJsonString : List Char → List Char → Option (String × List Char)
  | [], _ => none
  | '"' :: rest, acc => some (String.mk acc.reverse, rest)
  | '\\' :: 'u' :: a :: b :: c :: d :: rest, acc =>
    match hexValue a, hexValue b, hexValue c, hexValue d with
    | some x, some y, some z, some w =>
      parseJsonString rest (Char.ofNat (x * 4096 + y * 256 + z * 16 + w) :: acc)
    | _, _, _, _ => none
  | '\\' :: e :: rest, acc =>
    if e = '"' then parseJsonString rest ('"' :: acc)
    else if e = '\\' then parseJsonString rest ('\\' :: acc)
    else if e = '/' then parseJsonString rest ('/' :: acc)
    else if e = 'n' then parseJsonString rest ('\n' :: acc)
    else if e = 'r' then parseJsonString rest ('\r' :: acc)
    else if e = 't' then parseJsonString rest ('\t' :: acc)
    else if e = 'b' then parseJsonString rest (Char.ofNat 8 :: acc)
    else if e = 'f' then parseJsonString rest (Char.ofNat 12 :: acc)
    else none
  | c :: rest, acc =>
    if c = '\\' ∨ c.toNat < 32 then none else parseJsonString rest (c :: acc)

/-- A run of decimal digits: its value and what follows. -/
def parseDigits : List Char → Nat → Nat × List Char
  | [], n => (n, [])
  | c :: rest, n =>
    if 48 ≤ c.toNat ∧ c.toNat ≤ 57 then parseDigits rest (n * 10 + (c.toNat - 48))
    else (n, c :: rest)

/-- An integer literal without sign; a leading zero, a fraction or an exponent is refused. -/
def parseJsonNat (cs : List Char) : Option (Nat × List Char) :=
  match cs with
  | [] => none
  | c :: rest =>
    if 48 ≤ c.toNat ∧ c.toNat ≤ 57 then
      let r := parseDigits (c :: rest) 0
      let bad := match r.2 with
        | d :: _ => d = '.' || d = 'e' || d = 'E'
        | [] => false
      let lead := match rest with
        | d :: _ => c = '0' && decide (48 ≤ d.toNat ∧ d.toNat ≤ 57)
        | [] => false
      if bad || lead then none else some r
    else none

/-- Assignment of a property while parsing: a repeated name replaces the earlier value. -/
def setField (fields : List (String × Json)) (k : String) (v : Json) : List (String × Json) :=
  if fields.any (fun f => f.1 == k) then fields.map (fun f => if f.1 == k then (k, v) else f)
  else fields ++ [(k, v)]

mutual
/-- A JSON value at the head of the input (no leading white space), with recursion depth
bounded by the fuel. -/
def parseJsonValue : Nat → List Char → Option (Json × List Char)
  | 0, _ => none
  | _ + 1, 'n' :: 'u' :: 'l' :: 'l' :: rest => some (.null, rest)
  | _ + 1, 't' :: 'r' :: 'u' :: 'e' :: rest => some (.bool true, rest)
  | _ + 1, 'f' :: 'a' :: 'l' :: 's' :: 'e' :: rest => some (.bool false, rest)
  | _ + 1, '"' :: rest => (parseJsonString rest []).map (fun r => (.str r.1, r.2))
  | _ + 1, '-' :: rest => (parseJsonNat rest).map (fun r => (.num (-(r.1 : Int)), r.2))
  | n + 1, '[' :: rest =>
    match skipJsonWs rest with
    | ']' :: rest2 => some (.arr [], rest2)
    | cs => (parseJsonItems n cs []).map (fun r => (.arr r.1, r.2))
  | n + 1, '{' :: rest =>
    match skipJsonWs rest with
    | '}' :: rest2 => some (.obj [], rest2)
    | cs => (parseJsonFields n cs []).map (fun r => (.obj r.1, r.2))
  | _ + 1, cs => (parseJsonNat cs).map (fun r => (.num (r.1 : Int), r.2))
/-- The elements of an array up to the closing bracket. -/
def parseJsonItems : Nat → List Char → List Json → Option (List Json × List Char)
  | 0, _, _ => none
  | n + 1, cs, acc =>
    match parseJsonValue n cs with
    | none => none
    | some (v, rest) =>
      match skipJsonWs rest with
      | ',' :: rest2 => parseJsonItems n (skipJsonWs rest2) (acc ++ [v])
      | ']' :: rest2 => some (acc ++ [v], rest2)
      | _ => none
/-- The properties of an object up to the closing brace. -/
def parseJsonFields : Nat → List Char → List (String × Json) →
    Option (List (String × Json) × List Char)
  | 0, _, _ => none
  | n + 1, cs, acc =>
    match cs with
    | '"' :: rest =>
      match parseJsonString rest [] with
      | none => none
      | some (k, rest1) =>
        match skipJsonWs rest1 with
        | ':' :: rest2 =>
          match parseJsonValue n (skipJsonWs rest2) with
          | none => none
          | some (v, rest3) =>
            match skipJsonWs rest3 with
            | ',' :: rest4 => parseJsonFields n (skipJsonWs rest4) (setField acc k v)
            | '}' :: rest4 => some (setField acc k v, rest4)
            | _ => none
        | _ => none
    | _ => none
end

/-- The reference `JSON.parse`: one value surrounded by white space. -/
def refJsonParse (s : String) : Option Json :=
  match parseJsonValue (s.data.length + 1) (skipJsonWs s.data) with
  | some (v, rest) => if skipJsonWs rest = [] then some v else none
  | none => none

/-- One UTF-8 sequence at the head of the input: the code point and the number of octets
used; an ill-formed sequence gives U+FFFD for one octet. -/
def utf8DecodeOne (bs : List Nat) : Nat × Nat :=
  let cont := fun (b : Nat) => 128 ≤ b ∧ b < 192
  match bs with
  | [] => (0xFFFD, 1)
  | b0 :: rest =>
    if b0 < 128 then (b0, 1)
    else if 194 ≤ b0 ∧ b0 < 224 then
      match rest with
      | b1 :: _ => if cont b1 then ((b0 - 192) * 64 + (b1 - 128), 2) else (0xFFFD, 1)
      | _ => (0xFFFD, 1)
    else if 224 ≤ b0 ∧ b0 < 240 then
      match rest with
      | b1 :: b2 :: _ =>
        let v := (b0 - 224) * 4096 + (b1 - 128) * 64 + (b2 - 128)
        if cont b1 ∧ cont b2 ∧ 0x800 ≤ v ∧ ¬ (0xD800 ≤ v ∧ v < 0xE000) then (v, 3)
        else (0xFFFD, 1)
      | _ => (0xFFFD, 1)
    else if 240 ≤ b0 ∧ b0 < 245 then
      match rest with
      | b1 :: b2 :: b3 :: _ =>
        let v := (b0 - 240) * 262144 + (b1 - 128) * 4096 + (b2 - 128) * 64 + (b3 - 128)
        if cont b1 ∧ cont b2 ∧ cont b3 ∧ 0x10000 ≤ v ∧ v < 0x110000 then (v, 4)
        else (0xFFFD, 1)
      | _ => (0xFFFD, 1)
    else (0xFFFD, 1)

/-- UTF-8 decoding with replacement, bounded by the fuel (the number of octets suffices). -/
def utf8DecodeChars : Nat → List Nat → List Char
  | 0, _ => []
  | _ + 1, [] => []
  | n + 1, b :: bs =>
    let r := utf8DecodeOne (b :: bs)
    Char.ofNat r.1 :: utf8DecodeChars n ((b :: bs).drop r.2)

/-- The reference `Number(s)` for strings: white space gives 0, a decimal integer its value,
anything else `NaN`. -/
def refStringToNumber (s : String) : Option Int :=
  match trimChars s.data with
  | [] => some 0
  | '-' :: c :: rest =>
    let r := parseDigits (c :: rest) 0
    if 48 ≤ c.toNat ∧ c.toNat ≤ 57 ∧ r.2 = [] then some (-(r.1 : Int)) else none
  | '+' :: c :: rest =>
    let r := parseDigits (c :: rest) 0
    if 48 ≤ c.toNat ∧ c.toNat ≤ 57 ∧ r.2 = [] then some (r.1 : Int) else none
  | c :: rest =>
    let r := parseDigits (c :: rest) 0
    if 48 ≤ c.toNat ∧ c.toNat ≤ 57 ∧ r.2 = [] then some (r.1 : Int) else none

/-- The reference runtime. -/
def refRuntime : Runtime where
  hmacSha256 := fun secret data =>
    (hmacSha256Bytes ((utf8Encode secret).map Fin.val) ((utf8Encode data).map Fin.val)).map byte
  jsonStringify := fun v => String.mk (stringifyChars v)
  jsonParse := refJsonParse
  utf8Decode := fun bs => String.mk (utf8DecodeChars bs.length (bs.map Fin.val))
  stringToNumber := refStringToNumber

/-- The body of `POST /admin/login` after the password has been accepted, at clock value
`nowMs`: the new session id and the token of the response. -/
def adminLogin (R : Runtime) (secret : String) (randomBytes : List Byte) (nowMs ttlDays : Int) :
    String × String :=
  let sid := rotateAdminSession randomBytes
  let now := nowMs / 1000
  (sid, jwtSign R (adminTokenPayload sid now ttlDays) secret)

/-- The text that `jwtSign` signs for a payload: `${h}.${p}`. -/
def jwtSigningInput (R : Runtime) (payload : Json) : String :=
  base64urlEncode (utf8Encode (R.jsonStringify jwtHeader)) ++ "." ++
    base64urlEncode (utf8Encode (R.jsonStringify payload))

/-- The text whose signature `jwtVerify` computes for a token: `${h}.${p}` when the trimmed
token has three parts. -/
def signedData (token : String) : Option String :=
  match splitDot (jsTrim token) with
  | [h, p, _] => some (h ++ "." ++ p)
  | _ => none

/-- Two strings that differ in exactly one bit: the same characters except at one position,
where the two code points differ in one binary digit. -/
def OneBitApart (t t2 : String) : Prop :=
  ∃ pre c d post, t.data = pre ++ c :: post ∧ t2.data = pre ++ d :: post ∧
    ∃ k, c.toNat ^^^ d.toNat = 2 ^ k

/-! ## Names and keys (`server.js` 362-478) -/

/-- The character class `[a-zA-Z0-9]`. -/
def isAsciiAlnum (c : Char) : Bool :=
  let v := c.toNat
  (65 ≤ v && v ≤ 90) || (97 ≤ v && v ≤ 122) || (48 ≤ v && v ≤ 57)

/-- The function `isValidName`: non-empty, at most 128 code units, and matching
`/^[a-zA-Z0-9][a-zA-Z0-9-_]{0,127}$/`. -/
def isValidName (name : String) : Bool :=
  match name.data with
  | [] => false
  | c :: rest =>
    decide (utf16Length name ≤ 128) && isAsciiAlnum c &&
      rest.all (fun x => isAsciiAlnum x || x == '-' || x == '_') && decide (rest.length ≤ 127)

/-- The method `s.startsWith(pre)`. -/
def jsStartsWith (s pre : String) : Bool := pre.data.isPrefixOf s.data

/-- The function `isAllowedCounterName`. -/
def isAllowedCounterName (name : String) : Bool :=
  isValidName name &&
    (jsStartsWith name "staszek-" || jsStartsWith name "like-" || jsStartsWith name "like_" ||
      jsStartsWith name "forum-")

/-- The function `isAllowedPublicCounterName`. -/
def isAllowedPublicCounterName (name : String) : Bool :=
  isValidName name &&
    (name == "staszek-views" || name == "staszek-visitors" || name == "staszek-vote" ||
      jsStartsWith name "like-news-" || jsStartsWith name "like-program-" ||
      jsStartsWith name "like-poster-")

/-- The function `isAllowedForumThreadKey`. -/
def isAllowedForumThreadKey (key : String) : Bool :=
  isValidName key &&
    (key == "staszek-forum" || jsStartsWith key "staszek-news-" ||
      jsStartsWith key "staszek-program-" || jsStartsWith key "staszek-poster-")

/-- The function `isAllowedBasicDbKey`. -/
def isAllowedBasicDbKey (key : String) : Bool :=
  isValidName key && (jsStartsWith key "staszek-" || jsStartsWith key "pv-")

/-- The function `isProtectedBasicDbReadKey`. -/
def isProtectedBasicDbReadKey (key : String) : Bool := jsStartsWith key "pv-"

/-- The configuration read from the environment that the forum code uses. -/
structure Config where
  ADMIN_TOKEN_SECRET : String
  LICZNIK_API_KEY : String
  TOGETHER_API_KEY : String

/-- The call `s.slice(0, n)` on a string of BMP characters. -/
def jsSliceTo (s : String) (n : Nat) : String := String.mk (s.data.take n)

/-- The function `moderationIpHash`, with `sha256Hex` given. -/
def moderationIpHash (sha256Hex : String → String) (cfg : Config) (ip : String) : String :=
  let secret := if cfg.ADMIN_TOKEN_SECRET ≠ "" then cfg.ADMIN_TOKEN_SECRET else cfg.LICZNIK_API_KEY
  jsSliceTo (sha256Hex (secret ++ "|" ++ ip)) 16

def moderationBanCounterName (ipHash : String) : String := "forum-ban-" ++ ipHash
def moderationCountCounterName (ipHash : String) : String := "forum-mod-count-" ++ ipHash
def moderationSumCounterName (ipHash : String) : String := "forum-mod-sum-" ++ ipHash

/-- The function `forumIpCounterName`, with `sha256Hex` given. -/
def forumIpCounterName (sha256Hex : String → String) (cfg : Config) (threadKey ip : String) :
    String :=
  let threadHash := jsSliceTo (sha256Hex threadKey) 12
  let secret := if cfg.ADMIN_TOKEN_SECRET ≠ "" then cfg.ADMIN_TOKEN_SECRET else cfg.LICZNIK_API_KEY
  let ipHash := jsSliceTo (sha256Hex (secret ++ "|" ++ ip)) 16
  "forum-ip-" ++ threadHash ++ "-" ++ ipHash

/-- The function `forumUniqueCounterName`, with `sha256Hex` given. -/
def forumUniqueCounterName (sha256Hex : String → String) (threadKey : String) : String :=
  "forum-unique-" ++ jsSliceTo (sha256Hex threadKey) 12

/-! ## Moderation (`server.js` 480-632) -/

/-- The function `shouldBanByAverage` for an integer `count`; `avg` is `none` when it is not a
finite number, and a rational otherwise (every finite double is one). -/
def shouldBanByAverage (count : Int) (avg : Option Rat) : Bool :=
  match avg with
  | none => false
  | some a =>
    if count ≤ 0 then false
    else if count ≥ 10 ∧ a < 5 then true
    else if count ≥ 5 ∧ a < 4 then true
    else if count ≥ 3 ∧ a ≤ 2 then true
    else false

def COMMENT_MIN_PUBLISH_SCORE : Int := 5

/-- The built-ins that the forum code calls besides those of `Runtime`. -/
structure ForumRuntime extends Runtime where
  /-- The digest `crypto.createHash("sha256").update(s, "utf8").digest("hex")`. -/
  sha256Hex : String → String
  /-- The method `s.normalize("NFKD")`. -/
  normalizeNFKD : String → String
  /-- The method `s.toLowerCase()`. -/
  toLowerCase : String → String
  /-- For a text `?...`: the value of `u.search` after `u = new URL("http://x" + text)` and
  `u.searchParams.delete("key")`; `none` when the constructor throws. -/
  urlSearchWithoutKey : String → Option String

/-- The function `tryParseJsonObject`. -/
def tryParseJsonObject (R : Runtime) (s : String) : Option Json :=
  match R.jsonParse s with
  | some v => if v.isObject then some v else none
  | none => none

/-- The operator `a ?? b` (`none` is `undefined`). -/
def jsNullish (a b : Option Json) : Option Json :=
  match a with
  | none => b
  | some .null => b
  | some v => some v

/-- The operator `a || b` (`none` is `undefined`). -/
def jsOr (a b : Option Json) : Option Json := if jsTruthy a then a else b

/-- Optional property access `v?.k`. -/
def jsOptGet (v : Option Json) (k : String) : Option Json :=
  match v with
  | none => none
  | some .null => none
  | some x => x.get k

/-- Optional element access `v?.[0]`. -/
def jsOptIndex0 (v : Option Json) : Option Json :=
  match v with
  | some (.arr (x :: _)) => some x
  | some (.obj fields) => (Json.obj fields).get "0"
  | some (.str s) =>
    match s.data with
    | c :: _ => some (.str (String.singleton c))
    | [] => none
  | _ => none

/-- The conversion `String(v)` of a possibly undefined value. -/
def jsString (v : Option Json) : String :=
  match v with
  | none => "undefined"
  | some x => jsToString x

/-- What `extractCommentFields` returns: `{ name, msg, time, obj }`. -/
structure CommentFields where
  name : String
  msg : String
  time : Int
  obj : Option Json

/-- The function `extractCommentFields`. -/
def extractCommentFields (R : Runtime) (rawElement : String) : CommentFields :=
  let raw := jsTrim rawElement
  match tryParseJsonObject R raw with
  | some o =>
    let name := jsTrim (jsString (jsNullish (jsNullish (o.get "n") (o.get "name"))
      (some (.str ""))))
    let msg := jsTrim (jsString (jsNullish (jsNullish (o.get "m") (o.get "message"))
      (some (.str ""))))
    let time := (jsToNumber R (jsNullish (jsNullish (o.get "t") (o.get "time"))
      (some (.num 0)))).getD 0
    if msg ≠ "" then ⟨name, msg, time, some o⟩ else ⟨"", raw, 0, none⟩
  | none => ⟨"", raw, 0, none⟩

/-- The function `normalizeForNameCheck`. -/
def normalizeForNameCheck (R : ForumRuntime) (value : String) : String :=
  let s := jsTrim value
  if s = "" then ""
  else
    let decomposed := R.normalizeNFKD s
    let unmarked := String.mk (decomposed.data.filter
      (fun c => !(decide (0x300 ≤ c.toNat) && decide (c.toNat ≤ 0x36F))))
    let lower := R.toLowerCase unmarked
    String.mk (lower.data.filter
      (fun c => (decide (97 ≤ c.toNat) && decide (c.toNat ≤ 122)) ||
        (decide (48 ≤ c.toNat) && decide (c.toNat ≤ 57))))

/-- The function `isAdminImpersonationName`. -/
def isAdminImpersonationName (R : ForumRuntime) (name : String) : Bool :=
  let n := normalizeForNameCheck R name
  if n = "" then false else jsStartsWith n "admin"

/-- What a `fetch` gives back once the body has been read: `{ ok, status, text }`. -/
structure FetchResult where
  ok : Bool
  status : Nat
  text : String
deriving DecidableEq, Repr

/-- The moderation service as an oracle: for the thread key, name and message of the request
body, the response, or `none` when `fetch` throws or is aborted by the timeout. -/
abbrev Together := String → String → String → Option FetchResult

/-- What `togetherModerate` returns: `{ ok: true, score }` or `{ ok: false, error, status }`. -/
inductive Moderation where
  | ok (score : Int)
  | failed (error : String) (status : Option Nat)
deriving DecidableEq, Repr

/-- The digit that `/^\s*([0-9])\s*$/` captures in a trimmed string, if it matches: the string
is then that one digit. -/
def matchSingleDigit (content : String) : Option Int :=
  match content.data with
  | [c] => if 48 ≤ c.toNat ∧ c.toNat ≤ 57 then some ((c.toNat : Int) - 48) else none
  | _ => none

/-- The function `togetherModerate`. -/
def togetherModerate (R : Runtime) (cfg : Config) (together : Together)
    (threadKey name msg : String) (isAdmin : Bool) : Moderation :=
  if isAdmin then .ok 8
  else if cfg.TOGETHER_API_KEY = "" then .failed "missing_together_api_key" none
  else
    match together threadKey name msg with
    | none => .failed "together_unreachable" none
    | some r =>
      if !r.ok then .failed "together_error" (some r.status)
      else
        let json := (tryParseJsonObject R r.text).getD (.obj [])
        let choice := jsOptIndex0 (jsOptGet (some json) "choices")
        let content := jsTrim (jsString (jsOr (jsOr (jsOptGet (jsOptGet choice "message")
          "content") (jsOptGet choice "text")) (some (.str ""))))
        let score := (matchSingleDigit content).getD 0
        if score < 0 ∨ score > 9 then .ok 0 else .ok score

/-! ## The upstream service (`server.js` 754-869) -/

/-- A request sent to the upstream counter service. -/
inductive UpstreamReq where
  /-- The read `GET /ile/{name}`. -/
  | ile (name : String)
  /-- The increment `GET /dodaj/{name}/{delta}`. -/
  | dodaj (name : String) (delta : Int)
  /-- The moderated append `GET /baza-podstawowa/dodaj/{key}/{element}`, the element being
  `JSON.stringify(entry)`. -/
  | basicDbAppend (key : String) (entry : Json) (search : String)
  /-- A request path passed on as it was received, with its query string. -/
  | passthrough (path search : String)
  /-- The read `GET /ile/{name}{qs}` that the `/ile` endpoint sends. -/
  | counterRead (name qs : String)
  /-- The increment `GET /dodaj/{name}/{delta}{qs}` that the `/dodaj` endpoint sends. -/
  | counterAdd (name : String) (delta : Int) (qs : String)
  /-- The reset `GET /wyzeruj/{name}`. -/
  | wyzeruj (name : String)

/-- Whether a request writes to the basic DB: a moderated append, or a write path passed on. -/
def UpstreamReq.isBasicDbWrite : UpstreamReq → Bool
  | .basicDbAppend _ _ _ => true
  | .passthrough _ _ => true
  | _ => false

/-- The upstream service as an oracle: for the requests sent so far and the next request, the
response, or `none` when `fetch` throws. -/
abbrev Upstream := List UpstreamReq → UpstreamReq → Option FetchResult

/-- The position of the highest binary digit of a natural number, counted by halving; `fuel`
bounds the number of halvings. -/
def highBit : Nat → Nat → Nat
  | 0, _ => 0
  | fuel + 1, n => if n < 2 then 0 else highBit fuel (n / 2) + 1

/-- The integer part of the binary logarithm (0 for 0). -/
def log2Floor (n : Nat) : Nat := highBit n n

/-- The double nearest to a natural number (round to nearest, ties to even): the number itself
below 2^53; beyond, the lowest `e` binary digits are rounded away so that 53 remain. -/
def roundNatToDouble (a : Nat) : Nat :=
  if a < 2 ^ 53 then a
  else
    let e := log2Floor a - 52
    let q := a >>> e
    let rest := a % 2 ^ e
    let half := 2 ^ (e - 1)
    (if rest > half ∨ (rest = half ∧ q % 2 = 1) then q + 1 else q) <<< e

/-- The number value of an integer: the double nearest to it, for an integer in the range of
the finite doubles. -/
def roundToDouble (n : Int) : Int :=
  if n < 0 then -(roundNatToDouble n.natAbs : Int) else (roundNatToDouble n.natAbs : Int)

/-- The quotient `a / b` of two integer-valued numbers, for `b > 0`: the double nearest to the
exact quotient (round to nearest, ties to even, the subnormal range included); `none` when
that is an infinity.  With `e` the binary exponent of the quotient (not below -1022) the
result is a multiple `r * 2^(e - 52)`, `r` being the quotient in units of `2^(e - 52)` rounded
to an integer. -/
def jsDivide (a b : Int) : Option Rat :=
  if a = 0 then some 0
  else
    let n := a.natAbs
    let d := b.natAbs
    let guess : Int := (log2Floor n : Int) - (log2Floor d : Int)
    let reached : Bool :=
      if 0 ≤ guess then decide (2 ^ guess.toNat * d ≤ n) else decide (d ≤ n * 2 ^ (-guess).toNat)
    let e : Int := max (-1022) (if reached then guess else guess - 1)
    let k : Int := e - 52
    let num := n * 2 ^ (-k).toNat
    let den := d * 2 ^ k.toNat
    let low := num / den
    let rest := num % den
    let r := if 2 * rest > den ∨ (2 * rest = den ∧ low % 2 = 1) then low + 1 else low
    if (r * 2 ^ k.toNat) >>> 1024 ≠ 0 then none
    else
      some (mkRat (if a < 0 then -((r * 2 ^ k.toNat : Nat) : Int) else ((r * 2 ^ k.toNat : Nat) : Int))
        (2 ^ (-k).toNat))

/-- Whether the number that `Number.parseInt` gives for an integer passes
`Number.isFinite`: from 2^1024 - 2^970 on, which is (2^54 - 1) * 2^970, the nearest double is
`Infinity`. -/
def jsIsFiniteInt (n : Int) : Bool := decide (n.natAbs >>> 970 < 2 ^ 54 - 1)

/-- The number that `Number.parseInt(s, 10)` reads at the head of a string (after white
space): an optional sign and digits, as the double nearest to that integer; `none` is `NaN` or
an infinity.  Every caller in `server.js` tests the result with `Number.isFinite`, which
treats the two alike. -/
def jsParseInt (s : String) : Option Int :=
  (match s.data.dropWhile isJsWhitespace with
  | '-' :: c :: rest =>
    if 48 ≤ c.toNat ∧ c.toNat ≤ 57 then some (-((parseDigits (c :: rest) 0).1 : Int)) else none
  | '+' :: c :: rest =>
    if 48 ≤ c.toNat ∧ c.toNat ≤ 57 then some ((parseDigits (c :: rest) 0).1 : Int) else none
  | c :: rest =>
    if 48 ≤ c.toNat ∧ c.toNat ≤ 57 then some ((parseDigits (c :: rest) 0).1 : Int) else none
  | [] => none).filter jsIsFiniteInt |>.map roundToDouble

/-- The function `parseIntOrNull`. -/
def parseIntOrNull (text : String) : Option Int := jsParseInt (jsTrim text)

/-- The function `licznikGetInt`: the number read, or `none` for `null`; and the requests sent
so far. -/
def licznikGetInt (up : Upstream) (sent : List UpstreamReq) (counterName : String) :
    Option Int × List UpstreamReq :=
  match up sent (.ile counterName) with
  | none => (none, sent ++ [.ile counterName])
  | some r => (if r.ok then parseIntOrNull r.text else none, sent ++ [.ile counterName])

/-- The function `licznikAddInt` for an integer delta. -/
def licznikAddInt (up : Upstream) (sent : List UpstreamReq) (counterName : String)
    (delta : Int) : Option Int × List UpstreamReq :=
  match up sent (.dodaj counterName delta) with
  | none => (none, sent ++ [.dodaj counterName delta])
  | some r =>
    (if r.ok then parseIntOrNull r.text else none, sent ++ [.dodaj counterName delta])

/-- The function `isIpBanned`. -/
def isIpBanned (R : ForumRuntime) (cfg : Config) (up : Upstream) (sent : List UpstreamReq)
    (ip : String) : Bool × List UpstreamReq :=
  let clean := jsTrim ip
  if clean = "" then (false, sent)
  else
    let banName := moderationBanCounterName (moderationIpHash R.sha256Hex cfg clean)
    let cur := licznikGetInt up sent banName
    (match cur.1 with
     | some n => decide (n ≥ 1)
     | none => false, cur.2)

/-- What `updateIpStatsAndMaybeBan` returns: `{ ok, banned, count, avg }`; `avg` is `none`
when it is not a finite number. -/
structure IpStats where
  ok : Bool
  banned : Bool
  count : Int
  avg : Option Rat

/-- The expression `typeof v === "number" ? v : (await licznikGetInt(name)) || 0`. -/
def numberOrCounter (up : Upstream) (sent : List UpstreamReq) (v : Option Int)
    (name : String) : Int × List UpstreamReq :=
  match v with
  | some n => (n, sent)
  | none => ((licznikGetInt up sent name).1.getD 0, (licznikGetInt up sent name).2)

/-- The block of `updateIpStatsAndMaybeBan` that sets the ban flag: read the ban counter and
raise it unless it already is at least 1. -/
def raiseBanFlag (up : Upstream) (sent : List UpstreamReq) (banName : String) :
    List UpstreamReq :=
  match (licznikGetInt up sent banName).1 with
  | some n =>
    if n ≥ 1 then (licznikGetInt up sent banName).2
    else (licznikAddInt up (licznikGetInt up sent banName).2 banName 1).2
  | none => (licznikAddInt up (licznikGetInt up sent banName).2 banName 1).2

/-- The function `updateIpStatsAndMaybeBan`. -/
def updateIpStatsAndMaybeBan (R : ForumRuntime) (cfg : Config) (up : Upstream)
    (sent : List UpstreamReq) (ip : String) (score : Int) : IpStats × List UpstreamReq :=
  let clean := jsTrim ip
  if clean = "" then (⟨false, false, 0, some 0⟩, sent)
  else
    let ipHash := moderationIpHash R.sha256Hex cfg clean
    let countName := moderationCountCounterName ipHash
    let sumName := moderationSumCounterName ipHash
    let banName := moderationBanCounterName ipHash
    let s := max 0 (min 9 score)
    let newCount := licznikAddInt up sent countName 1
    let newSum := licznikAddInt up newCount.2 sumName s
    let count := numberOrCounter up newSum.2 newCount.1 countName
    let sum := numberOrCounter up count.2 newSum.1 sumName
    let avg : Option Rat :=
      if count.1 > 0 then jsDivide sum.1 count.1 else some 0
    if shouldBanByAverage count.1 avg then
      (⟨true, true, count.1, avg⟩, raiseBanFlag up sum.2 banName)
    else (⟨true, false, count.1, avg⟩, sum.2)

/-- The function `markForumIpSeen`, which runs after the response has been written; `ip` is
`normalizeIp(clientIp(req))`. -/
def markForumIpSeen (R : ForumRuntime) (cfg : Config) (up : Upstream)
    (sent : List UpstreamReq) (ip threadKey : String) : List UpstreamReq :=
  if ip = "" then sent
  else
    let ipCounter := forumIpCounterName R.sha256Hex cfg threadKey ip
    let uniqueCounter := forumUniqueCounterName R.sha256Hex threadKey
    match up sent (.ile ipCounter) with
    | none => sent ++ [.ile ipCounter]
    | some cur =>
      let sent1 := sent ++ [.ile ipCounter]
      let seen := match jsParseInt (jsTrim cur.text) with
        | some n => decide (n ≥ 1)
        | none => false
      if seen then sent1
      else
        match up sent1 (.dodaj ipCounter 1) with
        | none => sent1 ++ [.dodaj ipCounter 1]
        | some _ => sent1 ++ [.dodaj ipCounter 1, .dodaj uniqueCounter 1]

/-! ## Query strings (`server.js` 777-792) -/

/-- Upper case of an ASCII letter; every other character is left as it is.  Under the flag
`i` (without `u`) a pattern character in ASCII matches exactly the characters with the same
image. -/
def asciiUpper (c : Char) : Char :=
  if 97 ≤ c.toNat ∧ c.toNat ≤ 122 then Char.ofNat (c.toNat - 32) else c

/-- The replacement `.replace(/([?&])key=[^&]*&?/gi, "$1")`, reading the text from the left:
`drop` counts the characters of a matched `key=` still to be dropped, and `skip` says that the
value of a matched parameter is being dropped, up to and including the next `&`. -/
def dropKeyParams : Nat → Bool → List Char → List Char
  | _, _, [] => []
  | drop + 1, skip, _ :: cs => dropKeyParams drop skip cs
  | 0, true, c :: cs => if c == '&' then dropKeyParams 0 false cs else dropKeyParams 0 true cs
  | 0, false, c :: cs =>
    if (c == '?' || c == '&') && ("key=".data.map asciiUpper).isPrefixOf (cs.map asciiUpper) then
      c :: dropKeyParams 4 true cs
    else c :: dropKeyParams 0 false cs

/-- The replacement `.replace(/\?&/, "?")` of the first `?&`. -/
def mergeQuestionAmp : List Char → List Char
  | '?' :: '&' :: cs => '?' :: cs
  | c :: cs => c :: mergeQuestionAmp cs
  | [] => []

/-- The replacement `.replace(/[?&]$/, "")`. -/
def dropTrailingSep (cs : List Char) : List Char :=
  match cs.reverse with
  | c :: rest => if c == '?' || c == '&' then rest.reverse else cs
  | [] => cs

/-- The function `stripKeyQuery`. -/
def stripKeyQuery (R : ForumRuntime) (urlSearch : String) : String :=
  if urlSearch = "" then ""
  else
    match R.urlSearchWithoutKey (if jsStartsWith urlSearch "?" then urlSearch
      else "?" ++ urlSearch) with
    | some out => if out = "?" then "" else out
    | none => String.mk (dropTrailingSep (mergeQuestionAmp (dropKeyParams 0 false urlSearch.data)))

/-! ## The forum write handler (`server.js` 1524-1684) -/

/-- The process state that the handler reads and writes. -/
structure ServerState where
  limiters : Limiters
  adminSessionId : String

/-- A request `GET /baza-podstawowa/dodaj/{key}/{element...}` as the handler sees it. -/
structure WriteRequest where
  /-- The path below the API prefix, `p`. -/
  path : String
  /-- The query string, `url.search`. -/
  search : String
  /-- The decoded key, `decodePathSegment(parts[2])`. -/
  key : String
  /-- The decoded element, `decodePathSegment(parts.slice(3).join("/"))`. -/
  rawElement : String
  /-- The client address, `normalizeIp(clientIp(req))`. -/
  ip : String
  /-- The bearer token, `bearerToken(req)`. -/
  token : String

/-- The readings of `Date.now()` during one run of the handler, in order: in the two calls of
`hitRateLimit`, in `jwtVerify`, and when the entry is built. -/
structure WriteClock where
  atRequestLimit : Int
  atCommentLimit : Int
  atAuth : Int
  atStore : Int

/-- The response written: the status, the `error` member of a JSON error body (empty when the
upstream response is passed on) and the body text passed on. -/
structure Response where
  status : Nat
  error : String
  body : String
deriving DecidableEq, Repr

/-- What one run of the handler does: the response, the new state, the requests sent to the
upstream service in order, and the value of the variable `score` if the run computed it. -/
structure WriteOutcome where
  response : Response
  state : ServerState
  sent : List UpstreamReq
  score : Option Int

/-- Assignment `obj[k] = v` on a parsed object: a present property is replaced, a new one is
added. -/
def Json.set : Json → String → Json → Json
  | .obj fields, k, v => .obj (setField fields k v)
  | j, _, _ => j

/-- The entry that the handler stores for a moderated comment (`elementToStore` before
`JSON.stringify`). -/
def entryToStore (fields : CommentFields) (rawElement : String) (score now : Int) : Json :=
  match fields.obj with
  | some o =>
    let o1 := o.set "s" (.num score)
    if !jsTruthy (o1.get "t") then o1.set "t" (.num (if fields.time ≠ 0 then fields.time else now))
    else o1
  | none =>
    .obj [("t", .num (if fields.time ≠ 0 then fields.time else now)),
          ("n", .str fields.name),
          ("m", .str (if fields.msg ≠ "" then fields.msg else rawElement)),
          ("s", .num score)]

/-- The last step of the handler: send the write upstream, pass the response on, and mark the
IP as seen after a successful forum write. -/
def sendWrite (R : ForumRuntime) (cfg : Config) (up : Upstream) (st : ServerState)
    (req : WriteRequest) (isForumWrite : Bool) (write : UpstreamReq)
    (sent : List UpstreamReq) (score : Option Int) : WriteOutcome :=
  match up sent write with
  | none => ⟨⟨502, "upstream_unreachable", ""⟩, st, sent ++ [write], score⟩
  | some r =>
    let sent1 := sent ++ [write]
    let sent2 := if r.ok && isForumWrite then markForumIpSeen R cfg up sent1 req.ip req.key
      else sent1
    ⟨⟨r.status, "", r.text⟩, st, sent2, score⟩

/-- The moderation part of the handler for a forum write, after the rate limits and the ban
check: score the comment, update the reputation of the IP, apply the publish threshold, and
send the entry upstream. -/
def moderateAndWrite (R : ForumRuntime) (cfg : Config) (up : Upstream) (together : Together)
    (st : ServerState) (req : WriteRequest) (admin : Bool) (sent : List UpstreamReq)
    (now : Int) : WriteOutcome :=
  if utf16Length req.rawElement > 2200 then ⟨⟨413, "payload_too_large", ""⟩, st, sent, none⟩
  else
    let fields := extractCommentFields R.toRuntime req.rawElement
    let scored : Option Int :=
      if !admin && isAdminImpersonationName R fields.name then some 3
      else
        match togetherModerate R.toRuntime cfg together req.key fields.name fields.msg admin with
        | .ok score => some score
        | .failed _ _ => none
    match scored with
    | none => ⟨⟨503, "moderation_unavailable", ""⟩, st, sent, none⟩
    | some score =>
      let stats := if !admin then updateIpStatsAndMaybeBan R cfg up sent req.ip score
        else (⟨true, false, 0, some 0⟩, sent)
      if !admin && stats.1.banned then ⟨⟨403, "ip_banned", ""⟩, st, stats.2, some score⟩
      else if !admin && decide (score < COMMENT_MIN_PUBLISH_SCORE) then
        ⟨⟨403, "comment_rejected", ""⟩, st, stats.2, some score⟩
      else
        sendWrite R cfg up st req true
          (.basicDbAppend req.key (entryToStore fields req.rawElement score now)
            (stripKeyQuery R req.search))
          stats.2 (some score)

/-- The handler after both rate limits have let the request through: the admin check, the
ban check for a non-admin forum write, then moderation or the plain write. -/
def writeAfterLimits (R : ForumRuntime) (cfg : Config) (up : Upstream) (together : Together)
    (st : ServerState) (req : WriteRequest) (clock : WriteClock) : WriteOutcome :=
  let isForumWrite := jsStartsWith req.key "staszek-"
  let admin := isAdmin R.toRuntime cfg.ADMIN_TOKEN_SECRET st.adminSessionId req.token
    clock.atAuth
  let banned := if isForumWrite && !admin then isIpBanned R cfg up [] req.ip else (false, [])
  if banned.1 then ⟨⟨403, "ip_banned", ""⟩, st, banned.2, none⟩
  else if isForumWrite then
    moderateAndWrite R cfg up together st req admin banned.2 clock.atStore
  else sendWrite R cfg up st req false
    (.passthrough req.path (stripKeyQuery R req.search)) banned.2 none

/-- The handler after the key and the element have been validated: the request rate limit
and, for a forum key, the comment rate limit. -/
def writeAfterValidation (R : ForumRuntime) (cfg : Config) (up : Upstream)
    (together : Together) (st : ServerState) (req : WriteRequest) (clock : WriteClock) :
    WriteOutcome :=
  let rl := hitRateLimit st.limiters .requests req.ip REQUEST_RATE_LIMIT_RULES
    clock.atRequestLimit
  let st1 : ServerState := { st with limiters := rl.2 }
  if !rl.1.ok then ⟨⟨429, "rate_limited", ""⟩, st1, [], none⟩
  else
    let cl := if jsStartsWith req.key "staszek-" then
        hitRateLimit st1.limiters .comments req.ip COMMENT_RATE_LIMIT_RULES clock.atCommentLimit
      else (⟨true, 0, none⟩, st1.limiters)
    let st2 : ServerState := { st1 with limiters := cl.2 }
    if !cl.1.ok then ⟨⟨429, "rate_limited", ""⟩, st2, [], none⟩
    else writeAfterLimits R cfg up together st2 req clock

/-- The handler of `GET /baza-podstawowa/dodaj/{key}/{element...}` (at least four path
segments). -/
def handleBasicDbDodaj (R : ForumRuntime) (cfg : Config) (up : Upstream) (together : Together)
    (st : ServerState) (req : WriteRequest) (clock : WriteClock) : WriteOutcome :=
  if !isAllowedBasicDbKey req.key then ⟨⟨400, "invalid_key", ""⟩, st, [], none⟩
  else if jsStartsWith req.key "staszek-" && !isAllowedForumThreadKey req.key then
    ⟨⟨400, "invalid_key", ""⟩, st, [], none⟩
  else if jsStartsWith req.key "pv-" && req.key != "pv-mesege-staszek" then
    ⟨⟨400, "invalid_key", ""⟩, st, [], none⟩
  else if req.rawElement = "" then ⟨⟨400, "invalid_element", ""⟩, st, [], none⟩
  else if utf16Length req.rawElement > 4000 then ⟨⟨413, "payload_too_large", ""⟩, st, [], none⟩
  else writeAfterValidation R cfg up together st req clock

/-! ## Reference values for the forum handler -/

/-- Lower-case hexadecimal text of an octet list. -/
def hexOfBytes (bs : List Nat) : String :=
  String.mk (bs.flatMap (fun b =>
    ["0123456789abcdef".data.getD (b / 16 % 16) '0', "0123456789abcdef".data.getD (b % 16) '0']))

/-- The reference forum runtime: SHA-256 as in the reference runtime; normalisation and
lower-casing act on ASCII letters only; a query that has no `key` parameter comes back from
the URL parser as it went in. -/
def refForumRuntime : ForumRuntime where
  toRuntime := refRuntime
  sha256Hex := fun s => hexOfBytes (sha256 ((utf8Encode s).map Fin.val))
  normalizeNFKD := fun s => s
  toLowerCase := fun s =>
    String.mk (s.data.map (fun c =>
      if 65 ≤ c.toNat ∧ c.toNat ≤ 90 then Char.ofNat (c.toNat + 32) else c))
  urlSearchWithoutKey := fun s => some s

/-- An upstream whose counters show an IP with two earlier comments of score 0: after the
increments of the handler the comment count reads 3 and the score sum 6; every other counter
reads 0. -/
def twoBadCommentsUpstream : Upstream := fun _ req =>
  match req with
  | .dodaj name _ =>
    if jsStartsWith name "forum-mod-count-" then some ⟨true, 200, "3"⟩
    else if jsStartsWith name "forum-mod-sum-" then some ⟨true, 200, "6"⟩
    else some ⟨true, 200, "1"⟩
  | .ile _ => some ⟨true, 200, "0"⟩
  | _ => some ⟨true, 200, "ok"⟩

/-- A moderation service that answers every comment with the score 6. -/
def scoreSixTogether : Together := fun _ _ _ =>
  some ⟨true, 200, "\x7b\"choices\":[\x7b\"message\":\x7b\"role\":\"assistant\",\"content\":\"6\"\x7d\x7d]\x7d"⟩

/-- A moderation service that answers every comment with the score 2. -/
def scoreTwoTogether : Together := fun _ _ _ =>
  some ⟨true, 200, "\x7b\"choices\":[\x7b\"message\":\x7b\"role\":\"assistant\",\"content\":\"2\"\x7d\x7d]\x7d"⟩

/-- An upstream whose counters all read 1 after an increment and 0 before. -/
def freshUpstream : Upstream := fun _ req =>
  match req with
  | .dodaj _ _ => some ⟨true, 200, "1"⟩
  | .ile _ => some ⟨true, 200, "0"⟩
  | _ => some ⟨true, 200, "ok"⟩

/-- A configuration with all three secrets set. -/
def exampleConfig : Config :=
  { ADMIN_TOKEN_SECRET := "0123456789abcdef01234567"
    LICZNIK_API_KEY := "licznik-key"
    TOGETHER_API_KEY := "together-key" }

/-- A non-admin forum comment in plain text. -/
def exampleComment : WriteRequest :=
  { path := "/baza-podstawowa/dodaj/staszek-forum/Dobry%20pomys%C5%82"
    search := ""
    key := "staszek-forum"
    rawElement := "Dobry pomysł"
    ip := "203.0.113.7"
    token := "" }

/-- A non-admin forum comment posted under the name "Ad-min". -/
def impersonationComment : WriteRequest :=
  { path := "/baza-podstawowa/dodaj/staszek-forum/%7B%22n%22%3A%22Ad-min%22%2C%22m%22%3A%22Dobry%20pomys%C5%82%22%7D"
    search := ""
    key := "staszek-forum"
    rawElement := "\x7b\"n\":\"Ad-min\",\"m\":\"Dobry pomysł\"\x7d"
    ip := "203.0.113.7"
    token := "" }

/-- An upstream on which every counter reads 1, the ban flags included. -/
def bannedUpstream : Upstream := fun _ _ => some ⟨true, 200, "1"⟩

/-- An upstream that answers the first request of a run with HTTP 503 and every later one as
`after` does: a counter service that is briefly unavailable. -/
def firstRequestFails (after : Upstream) : Upstream := fun sent req =>
  if sent.isEmpty then some ⟨false, 503, "unavailable"⟩ else after sent req


/-! ## The counter endpoints (`server.js` 770-792, 871-921, 1327-1522) -/

/-- The constant `MIN_PUBLIC_VOTE_COUNT`. -/
def MIN_PUBLIC_VOTE_COUNT : Int := 20

/-- Whether the text begins with `flag` (ASCII case ignored) followed by `&` or the end: the
part `flag(?:&|$)` of the patterns below. -/
def matchFlagHere : List Char → List Char → Bool
  | [], [] => true
  | [], c :: _ => c == '&'
  | _ :: _, [] => false
  | f :: fs, c :: cs => asciiUpper f == asciiUpper c && matchFlagHere fs cs

/-- Whether `flag(?:&|$)` matches right after some `?` or `&` of the text. -/
def matchFlagAfterSep (flag : List Char) : List Char → Bool
  | [] => false
  | c :: cs => ((c == '?' || c == '&') && matchFlagHere flag cs) || matchFlagAfterSep flag cs

/-- The test `/(?:^|[?&])flag(?:&|$)/i.test(s)` for a flag such as `format=json`. -/
def hasQueryFlag (flag s : String) : Bool :=
  matchFlagHere flag.data s.data || matchFlagAfterSep flag.data s.data

/-- The method `s.includes(sub)`. -/
def jsIncludes (s sub : String) : Bool := s.data.tails.any (fun t => sub.data.isPrefixOf t)

/-- The built-ins that the counter endpoints need beyond those of the forum handler. -/
structure ProxyRuntime extends ForumRuntime where
  /-- The conversion `String(n)` of an integer-valued number beyond 2^53: the shortest digits
  that read back as `n`, padded with zeros, and in exponent notation from 1e21 on. -/
  numberToString : Int → String

instance : Coe ProxyRuntime ForumRuntime := ⟨ProxyRuntime.toForumRuntime⟩

/-- The conversion `String(n)` of an integer-valued number: up to 2^53 every integer is a
number and its text is its decimal numeral; beyond, the text is the built-in's. -/
def jsNumberToString (R : ProxyRuntime) (n : Int) : String :=
  if n.natAbs ≤ 2 ^ 53 then toString n else R.numberToString n

/-- A request `GET /ile/{name}`, `GET /wyzeruj/{name}` or `GET /dodaj/{name}[/{delta}]` as the
handler sees it. -/
structure CounterRequest where
  /-- The path below the API prefix, `p`. -/
  path : String
  /-- The query string, `url.search`. -/
  search : String
  /-- The header `String(req.headers.accept || "")`. -/
  accept : String
  /-- The decoded name, `decodePathSegment(parts[1])`. -/
  name : String
  /-- The decoded third path segment, `decodePathSegment(parts[2])`, when there is one. -/
  deltaSegment : Option String
  /-- The client address, `normalizeIp(clientIp(req))`. -/
  ip : String
  /-- The bearer token, `bearerToken(req)`. -/
  token : String

/-- The function `wantsJsonResponse`. -/
def wantsJsonResponse (R : ProxyRuntime) (req : CounterRequest) : Bool :=
  hasQueryFlag "format=json" req.search ||
    jsIncludes (R.toLowerCase req.accept) "application/json"

/-- What one run of a counter handler does: the response, the new state, and the requests
sent to the upstream service in order. -/
structure CounterOutcome where
  response : Response
  state : ServerState
  sent : List UpstreamReq

/-- The readings of `Date.now()` during one run of a counter handler: in `hitRateLimit` and in
`jwtVerify`. -/
structure CounterClock where
  atLimit : Int
  atAuth : Int

/-- The function `proxyToLicznik` for a `GET` request: the response and the requests sent. -/
def proxyToLicznik (R : ProxyRuntime) (cfg : Config) (up : Upstream) (sent : List UpstreamReq)
    (apiPath urlSearch : String) : Response × List UpstreamReq :=
  if cfg.LICZNIK_API_KEY = "" then (⟨500, "missing_api_key", ""⟩, sent)
  else
    match up sent (.passthrough apiPath (stripKeyQuery R urlSearch)) with
    | none =>
      (⟨502, "upstream_unreachable", ""⟩,
        sent ++ [.passthrough apiPath (stripKeyQuery R urlSearch)])
    | some r => (⟨r.status, "", r.text⟩, sent ++ [.passthrough apiPath (stripKeyQuery R urlSearch)])

/-- The response that the server writes when an exception leaves the handler: 500 with the
text `internal error`. -/
def internalError : Response := ⟨500, "", "internal error"⟩

/-- The response that passes on an upstream failure: status `up.status || 502` and the
upstream text. -/
def upstreamFailure (r : FetchResult) : Response :=
  ⟨if r.status ≠ 0 then r.status else 502, "", r.text⟩

/-- The response `text(res, 200, String(Math.max(0, n ?? 0)))`. -/
def clampedText (R : ProxyRuntime) (n : Option Int) : Response :=
  ⟨200, "", jsNumberToString R (max 0 (n.getD 0))⟩

/-- The plain-text branch of `GET /ile/{name}`: read the counter, reset it when it reads
negative, and answer with a number that is not negative. -/
def ilePlainText (R : ProxyRuntime) (cfg : Config) (up : Upstream) (sent : List UpstreamReq)
    (req : CounterRequest) : Response × List UpstreamReq :=
  if cfg.LICZNIK_API_KEY = "" then (⟨500, "missing_api_key", ""⟩, sent)
  else
    let read := UpstreamReq.counterRead req.name (stripKeyQuery R req.search)
    match up sent read with
    | none => (internalError, sent ++ [read])
    | some r =>
      if !r.ok then (upstreamFailure r, sent ++ [read])
      else
        match parseIntOrNull r.text with
        | some n =>
          if n < 0 then (⟨200, "", "0"⟩, sent ++ [read, .wyzeruj req.name])
          else (clampedText R (some n), sent ++ [read])
        | none => (clampedText R none, sent ++ [read])

/-- The handler of `GET /ile/{name}` (two path segments); `now` is the reading of
`Date.now()` in `jwtVerify`. -/
def handleIle (R : ProxyRuntime) (cfg : Config) (up : Upstream) (st : ServerState)
    (req : CounterRequest) (now : Int) : Response × List UpstreamReq :=
  if !isAllowedCounterName req.name then (⟨400, "invalid_counter", ""⟩, [])
  else
    let admin := isAdmin R.toRuntime cfg.ADMIN_TOKEN_SECRET st.adminSessionId req.token now
    if !admin && !isAllowedPublicCounterName req.name then (⟨404, "", "not found"⟩, [])
    else
      let vote := if !admin && req.name == "staszek-vote" then licznikGetInt up [] req.name
        else (none, [])
      if (match vote.1 with
          | some n => decide (n < MIN_PUBLIC_VOTE_COUNT)
          | none => false) then (⟨404, "", "hidden"⟩, vote.2)
      else if !wantsJsonResponse R req then ilePlainText R cfg up vote.2 req
      else proxyToLicznik R cfg up vote.2 req.path (stripKeyQuery R req.search)

/-- The handler of `GET /wyzeruj/{name}` (two path segments). -/
def handleWyzeruj (R : ProxyRuntime) (cfg : Config) (up : Upstream) (st : ServerState)
    (req : CounterRequest) (clock : CounterClock) : CounterOutcome :=
  let rl := hitRateLimit st.limiters .requests req.ip REQUEST_RATE_LIMIT_RULES clock.atLimit
  let st1 : ServerState := { st with limiters := rl.2 }
  if !rl.1.ok then ⟨⟨429, "rate_limited", ""⟩, st1, []⟩
  else if !isAdmin R.toRuntime cfg.ADMIN_TOKEN_SECRET st.adminSessionId req.token clock.atAuth
  then ⟨⟨401, "admin_required", ""⟩, st1, []⟩
  else if !(isAllowedCounterName req.name || isAllowedBasicDbKey req.name) then
    ⟨⟨400, "invalid_name", ""⟩, st1, []⟩
  else
    ⟨(proxyToLicznik R cfg up [] req.path req.search).1, st1,
      (proxyToLicznik R cfg up [] req.path req.search).2⟩

/-- The test `/^-?\d{1,8}$/.test(deltaRaw)`. -/
def isDeltaText (deltaRaw : String) : Bool :=
  let digits := match deltaRaw.data with
    | '-' :: rest => rest
    | cs => cs
  decide (1 ≤ digits.length) && decide (digits.length ≤ 8) &&
    digits.all (fun c => decide (48 ≤ c.toNat) && decide (c.toNat ≤ 57))

/-- The variable `deltaRaw` of the `/dodaj` handler: the third path segment, or `"1"`. -/
def deltaRawOf (req : CounterRequest) : String := req.deltaSegment.getD "1"

/-- The plain-text branch of `GET /dodaj`: send the increment; when the counter then reads
negative, reset it and send the increment again. -/
def dodajPlainText (R : ProxyRuntime) (cfg : Config) (up : Upstream) (req : CounterRequest)
    (delta : Int) : Response × List UpstreamReq :=
  if cfg.LICZNIK_API_KEY = "" then (⟨500, "missing_api_key", ""⟩, [])
  else
    let add := UpstreamReq.counterAdd req.name delta (stripKeyQuery R req.search)
    match up [] add with
    | none => (internalError, [add])
    | some r =>
      if !r.ok then (upstreamFailure r, [add])
      else
        match parseIntOrNull r.text with
        | some n =>
          if n < 0 then
            match up [add, .wyzeruj req.name] add with
            | none => (internalError, [add, .wyzeruj req.name, add])
            | some r2 =>
              (clampedText R (if r2.ok then parseIntOrNull r2.text else none),
                [add, .wyzeruj req.name, add])
          else (clampedText R (some n), [add])
        | none => (clampedText R none, [add])

/-- The `/dodaj` handler after the checks on the name and the delta: the plain-text branch,
or the request passed on for a JSON or pixel response. -/
def dodajForward (R : ProxyRuntime) (cfg : Config) (up : Upstream) (req : CounterRequest)
    (delta : Int) : Response × List UpstreamReq :=
  if !wantsJsonResponse R req && !hasQueryFlag "pixel=1" (stripKeyQuery R req.search) then
    dodajPlainText R cfg up req delta
  else proxyToLicznik R cfg up [] req.path (stripKeyQuery R req.search)

/-- The checks of the `/dodaj` handler on the delta and on the caller: the delta to apply, or
the error response. -/
def dodajDelta (req : CounterRequest) (admin : Bool) : Except Response Int :=
  if !isDeltaText (deltaRawOf req) then .error ⟨400, "invalid_delta", ""⟩
  else
    match jsParseInt (deltaRawOf req) with
    | none => .error ⟨400, "invalid_delta", ""⟩
    | some delta =>
      if delta < 0 then .error ⟨400, "invalid_delta", ""⟩
      else if !admin then
        if delta ≠ 1 then .error ⟨403, "admin_required", ""⟩
        else if !isAllowedPublicCounterName req.name then .error ⟨403, "admin_required", ""⟩
        else .ok delta
      else if delta > 1000000 then .error ⟨400, "delta_too_large", ""⟩
      else .ok delta

/-- The handler of `GET /dodaj/{name}` and `GET /dodaj/{name}/{delta}`. -/
def handleDodaj (R : ProxyRuntime) (cfg : Config) (up : Upstream) (st : ServerState)
    (req : CounterRequest) (clock : CounterClock) : CounterOutcome :=
  let rl := hitRateLimit st.limiters .requests req.ip REQUEST_RATE_LIMIT_RULES clock.atLimit
  let st1 : ServerState := { st with limiters := rl.2 }
  if !rl.1.ok then ⟨⟨429, "rate_limited", ""⟩, st1, []⟩
  else if !isAllowedCounterName req.name then ⟨⟨400, "invalid_counter", ""⟩, st1, []⟩
  else
    match dodajDelta req (isAdmin R.toRuntime cfg.ADMIN_TOKEN_SECRET st.adminSessionId
      req.token clock.atAuth) with
    | .error response => ⟨response, st1, []⟩
    | .ok delta =>
      ⟨(dodajForward R cfg up req delta).1, st1, (dodajForward R cfg up req delta).2⟩

/-- The shortest decimal digits `s` (with `k` digits, `k` from `fuel` tried upwards) such
that `s * 10^(n - k)` reads back as the double `x` of `n` decimal digits; of two candidates
the one nearer to `x`, the even one on a tie. -/
def shortestDigits (x n : Nat) : Nat → Nat → Nat × Nat
  | 0, k => (x, k)
  | fuel + 1, k =>
    let p := 10 ^ (n - k)
    let lo := x / p
    let hi := lo + 1
    let okLo := roundNatToDouble (lo * p) == x && decide (10 ^ (k - 1) ≤ lo)
    let okHi := roundNatToDouble (hi * p) == x && decide (hi < 10 ^ k)
    if okLo && okHi then
      (if x - lo * p < hi * p - x then lo
        else if hi * p - x < x - lo * p then hi
        else if lo % 2 = 0 then lo else hi, k)
    else if okLo then (lo, k)
    else if okHi then (hi, k)
    else shortestDigits x n fuel (k + 1)

/-- The reference `String(n)` for an integer-valued number: the shortest digits that read
back as `n`, followed by zeros up to 21 digits, and in exponent notation beyond. -/
def refNumberToString (n : Int) : String :=
  let x := n.natAbs
  let len := (toString x).length
  let sk := shortestDigits x len len 1
  let digits := (toString sk.1).data
  let sign := if n < 0 then "-" else ""
  if len ≤ 21 then sign ++ String.mk (digits ++ List.replicate (len - sk.2) '0')
  else
    sign ++ String.mk (digits.take 1 ++ (if sk.2 > 1 then '.' :: digits.drop 1 else []))
      ++ "e+" ++ toString (len - 1)

/-- The reference runtime for the counter endpoints. -/
def refProxyRuntime : ProxyRuntime where
  toForumRuntime := refForumRuntime
  numberToString := refNumberToString

/-- The character class `[A-Za-z0-9]` of the specification. -/
def IsPatternHead (c : Char) : Prop :=
  ('A' ≤ c ∧ c ≤ 'Z') ∨ ('a' ≤ c ∧ c ≤ 'z') ∨ ('0' ≤ c ∧ c ≤ '9')

/-- The pattern `^[A-Za-z0-9][A-Za-z0-9_-]{0,127}$` of the specification, read on the
characters of a string: one letter or digit, then at most 127 letters, digits, `_` or `-`,
and nothing else. -/
def MatchesNamePattern (s : String) : Prop :=
  ∃ c rest, s.data = c :: rest ∧ IsPatternHead c ∧
    (∀ x ∈ rest, IsPatternHead x ∨ x = '_' ∨ x = '-') ∧ rest.length ≤ 127

/-- Whether a name begins with one of the listed texts. -/
def StartsWithOneOf (allowed : List String) (s : String) : Prop :=
  ∃ p ∈ allowed, p.data <+: s.data

/-- The allowed beginnings of a counter name, as the specification lists them. -/
def counterNameStarts : List String := ["staszek-", "like-", "like_", "forum-"]

/-- The beginnings that `/wyzeruj` lets through: those of a counter name or of a basic DB
key. -/
def resetNameStarts : List String := ["staszek-", "like-", "like_", "forum-", "pv-"]

/-- An upstream on which every counter reads 5. -/
def fiveUpstream : Upstream := fun _ _ => some ⟨true, 200, "5"⟩

/-- An upstream on which every request is answered with the given text. -/
def readingUpstream (text : String) : Upstream := fun _ _ => some ⟨true, 200, text⟩

/-- An upstream on which a counter reads -3 until it is reset and 0 after the reset, an
increment giving the sum. -/
def negativeUpstream : Upstream := fun sent req =>
  let healed := sent.any (fun r => match r with
    | .wyzeruj _ => true
    | _ => false)
  match req with
  | .counterAdd _ delta _ => some ⟨true, 200, toString (if healed then delta else -3 + delta)⟩
  | .wyzeruj _ => some ⟨true, 200, "0"⟩
  | _ => some ⟨true, 200, if healed then "0" else "-3"⟩

/-- An upstream that answers the first request of a run with -3 and cannot be reached after
that. -/
def negativeThenUnreachable : Upstream := fun sent _ =>
  if sent.isEmpty then some ⟨true, 200, "-3"⟩ else none

/-- A request without query string, accept header or token. -/
def counterRequest (path name : String) (deltaSegment : Option String) : CounterRequest :=
  { path := path, search := "", accept := "", name := name, deltaSegment := deltaSegment
    ip := "203.0.113.7", token := "" }

/-! ## Admin login (`server.js` 162-168, 248-251, 668-710, 1240-1321) -/

/-- The constant `ADMIN_TOKEN_TTL_DAYS`, from the environment variable of that name (`none`
when it is not set). -/
def adminTokenTtlDays (env : Option String) : Int :=
  let raw := jsTrim (env.getD "")
  if raw = "" then 7
  else
    match jsParseInt raw with
    | none => 7
    | some n => if n ≤ 0 then 7 else max 1 (min 30 n)

/-- The constant `ADMIN_LOGIN_LOCKOUT_AFTER`. -/
def ADMIN_LOGIN_LOCKOUT_AFTER : Int := 5

/-- The constant `ADMIN_LOGIN_LOCKOUT_MAX_SEC`. -/
def ADMIN_LOGIN_LOCKOUT_MAX_SEC : Int := 6 * 60 * 60

/-- The function `adminLoginRetryAfter` at clock value `now`. -/
def adminLoginRetryAfter (map : String → Option AdminLoginFailure) (ip : String) (now : Int) :
    Int :=
  let cleanIp := jsTrim ip
  if cleanIp = "" then 0
  else
    match map cleanIp with
    | none => 0
    | some rec =>
      if rec.blockedUntil = 0 ∨ now ≥ rec.blockedUntil then 0
      else max 1 (ceilDiv1000 (rec.blockedUntil - now))

/-- The function `adminLoginRegisterFailure` at clock value `now`: what it returns and the new
table. -/
def adminLoginRegisterFailure (map : String → Option AdminLoginFailure) (ip : String)
    (now : Int) : Int × (String → Option AdminLoginFailure) :=
  let cleanIp := jsTrim ip
  if cleanIp = "" then (0, map)
  else
    let rec0 : AdminLoginFailure := (map cleanIp).getD ⟨now, 0, 0⟩
    let fails := rec0.fails + 1
    if fails ≥ ADMIN_LOGIN_LOCKOUT_AFTER then
      let pow := max 0 (fails - ADMIN_LOGIN_LOCKOUT_AFTER)
      let sec := min ADMIN_LOGIN_LOCKOUT_MAX_SEC (60 * 2 ^ pow.toNat)
      (max 1 sec, setKey map cleanIp ⟨now, fails, now + sec * 1000⟩)
    else (0, setKey map cleanIp ⟨now, fails, rec0.blockedUntil⟩)

/-- The function `adminLoginReset`. -/
def adminLoginReset (map : String → Option AdminLoginFailure) (ip : String) :
    String → Option AdminLoginFailure :=
  let cleanIp := jsTrim ip
  if cleanIp = "" then map else fun x => if x = cleanIp then none else map x

/-- Successive calls `adminLoginRegisterFailure(ip)` from one IP at the listed clock values:
the results in call order and the final table. -/
def registerFailures (map : String → Option AdminLoginFailure) (ip : String) :
    List Int → List Int × (String → Option AdminLoginFailure)
  | [] => ([], map)
  | now :: rest =>
    let r := adminLoginRegisterFailure map ip now
    let rs := registerFailures r.2 ip rest
    (r.1 :: rs.1, rs.2)

/-- The function `verifyAdminPassword`. -/
def verifyAdminPassword (adminPassword password : String) : Bool :=
  if adminPassword = "" then false else timingSafeEqualStr password adminPassword

/-- A request `POST /admin/login` as the handler sees it. -/
structure LoginRequest where
  /-- The client address, `normalizeIp(clientIp(req))`. -/
  ip : String
  /-- The header `String(req.headers["content-type"] || "")`. -/
  contentType : String
  /-- The body that `readBody(req, 16 * 1024)` gives; `none` when it rejects. -/
  body : Option (List Byte)

/-- The readings of `Date.now()` during one run of the login handler, in order: in
`adminLoginRetryAfter`, in `hitRateLimit`, in `adminLoginRegisterFailure`, and when the token
is built. -/
structure LoginClock where
  atLock : Int
  atLimit : Int
  atFailure : Int
  atToken : Int

/-- What one run of the login handler does: the response, the `retry_after` member of a
lockout response (0 otherwise), the token of a 200 response, and the new state. -/
structure LoginOutcome where
  response : Response
  retryAfter : Int
  token : Option String
  state : ServerState

/-- The login handler once the body has been parsed: check the password, then register the
failure, or clear the failures of the IP, rotate the session and sign a token. -/
def loginWithBody (R : ForumRuntime) (cfg : Config) (adminPassword : String) (ttlDays : Int)
    (st : ServerState) (req : LoginRequest) (randomBytes : List Byte) (clock : LoginClock)
    (parsed : Json) : LoginOutcome :=
  let password := jsString (jsOr (jsOptGet (some parsed) "password") (some (.str "")))
  if !verifyAdminPassword adminPassword password then
    let after := adminLoginRegisterFailure st.limiters.adminLoginFailuresByIp req.ip
      clock.atFailure
    let st1 : ServerState := { st with limiters :=
      { st.limiters with adminLoginFailuresByIp := after.2 } }
    if after.1 ≠ 0 then ⟨⟨429, "admin_locked", ""⟩, after.1, none, st1⟩
    else ⟨⟨401, "invalid_password", ""⟩, 0, none, st1⟩
  else
    let login := adminLogin R.toRuntime cfg.ADMIN_TOKEN_SECRET randomBytes clock.atToken ttlDays
    let failures := adminLoginReset st.limiters.adminLoginFailuresByIp req.ip
    let limiters : Limiters := { st.limiters with adminLoginFailuresByIp := failures }
    ⟨⟨200, "", ""⟩, 0, some login.2, ⟨limiters, login.1⟩⟩

/-- The handler of `POST /admin/login`; `adminPassword` is the constant `ADMIN_PASSWORD` and
`ttlDays` the constant `ADMIN_TOKEN_TTL_DAYS`. -/
def handleAdminLogin (R : ForumRuntime) (cfg : Config) (adminPassword : String)
    (ttlDays : Int) (st : ServerState) (req : LoginRequest) (randomBytes : List Byte)
    (clock : LoginClock) : LoginOutcome :=
  let blocked := adminLoginRetryAfter st.limiters.adminLoginFailuresByIp req.ip clock.atLock
  if blocked ≠ 0 then ⟨⟨429, "admin_locked", ""⟩, blocked, none, st⟩
  else
    let rl := hitRateLimit st.limiters .requests req.ip REQUEST_RATE_LIMIT_RULES clock.atLimit
    let st1 : ServerState := { st with limiters := rl.2 }
    if !rl.1.ok then ⟨⟨429, "rate_limited", ""⟩, 0, none, st1⟩
    else if adminPassword = "" ∨ cfg.ADMIN_TOKEN_SECRET = "" then
      ⟨⟨500, "admin_not_configured", ""⟩, 0, none, st1⟩
    else if !jsIncludes (R.toLowerCase req.contentType) "application/json" then
      ⟨⟨415, "unsupported_media_type", ""⟩, 0, none, st1⟩
    else
      match req.body with
      | none => ⟨⟨413, "payload_too_large", ""⟩, 0, none, st1⟩
      | some body =>
        match R.jsonParse (R.utf8Decode body) with
        | none => ⟨⟨400, "invalid_json", ""⟩, 0, none, st1⟩
        | some parsed => loginWithBody R cfg adminPassword ttlDays st1 req randomBytes clock parsed

/-- The handler of `POST /admin/logout`: the response and the new state; `randomBytes` is
what `crypto.randomBytes(18)` returns when the session is rotated, `now` the reading of
`Date.now()` in `jwtVerify`. -/
def handleAdminLogout (R : Runtime) (cfg : Config) (st : ServerState) (token : String)
    (randomBytes : List Byte) (now : Int) : Response × ServerState :=
  if !isAdmin R cfg.ADMIN_TOKEN_SECRET st.adminSessionId token now then (⟨401, "", ""⟩, st)
  else (⟨200, "", ""⟩, { st with adminSessionId := rotateAdminSession randomBytes })

/-- A login request with the password "haslo123" in a JSON body. -/
def exampleLogin : LoginRequest :=
  { ip := "203.0.113.7"
    contentType := "application/json"
    body := some (utf8Encode "\x7b\"password\":\"haslo123\"\x7d") }

/-- The state of a server that has seen no request, with the session id "c2Vzc2lvbg". -/
def exampleState : ServerState := ⟨Limiters.initial, "c2Vzc2lvbg"⟩

/-- The token of an admin login into the session "c2Vzc2lvbg" at second 1, valid 7 days. -/
def exampleAdminToken : String :=
  jwtSign refRuntime (adminTokenPayload "c2Vzc2lvbg" 1 7) exampleConfig.ADMIN_TOKEN_SECRET

/-- A request without query string or accept header that carries the admin token. -/
def adminCounterRequest (path name : String) (deltaSegment : Option String) :
    CounterRequest :=
  { path := path, search := "", accept := "", name := name, deltaSegment := deltaSegment
    ip := "203.0.113.7", token := exampleAdminToken }

/-! ## Moderation replies (`server.js` 623-632) -/

/-- The variable `content` of `togetherModerate`: the trimmed reply of the model in the body
of a successful response. -/
def moderationContent (R : Runtime) (text : String) : String :=
  let json := (tryParseJsonObject R text).getD (.obj [])
  let choice := jsOptIndex0 (jsOptGet (some json) "choices")
  jsTrim (jsString (jsOr (jsOr (jsOptGet (jsOptGet choice "message") "content")
    (jsOptGet choice "text")) (some (.str ""))))

/-- The pattern `^\s*([0-9])\s*$` read on the characters of a string: white space, one digit,
white space. -/
def MatchesDigitPattern (s : String) (d : Char) : Prop :=
  ∃ before after : List Char, s.data = before ++ d :: after ∧
    ('0' ≤ d ∧ d ≤ '9') ∧ (∀ c ∈ before, isJsWhitespace c = true) ∧
    (∀ c ∈ after, isJsWhitespace c = true)

/-- A moderation service that answers every comment with the given reply text. -/
def replyingTogether (reply : String) : Together := fun _ _ _ =>
  some ⟨true, 200, refRuntime.jsonStringify (.obj [("choices",
    .arr [.obj [("message", .obj [("role", .str "assistant"), ("content", .str reply)])]])])⟩

/-! ## Reading the basic DB (`server.js` 1686-1706) -/

/-- A request `GET /baza-podstawowa/odczyt/{key}` as the handler sees it. -/
structure ReadRequest where
  /-- The path below the API prefix, `p`. -/
  path : String
  /-- The query string, `url.search`. -/
  search : String
  /-- The decoded key, `decodePathSegment(parts[2])`. -/
  key : String
  /-- The bearer token, `bearerToken(req)`. -/
  token : String

/-- The handler of `GET /baza-podstawowa/odczyt/{key}` (three path segments); `now` is the
reading of `Date.now()` in `jwtVerify`. -/
def handleBasicDbOdczyt (R : ProxyRuntime) (cfg : Config) (up : Upstream) (st : ServerState)
    (req : ReadRequest) (now : Int) : Response × List UpstreamReq :=
  if !isAllowedBasicDbKey req.key then (⟨400, "invalid_key", ""⟩, [])
  else if jsStartsWith req.key "staszek-" && !isAllowedForumThreadKey req.key then
    (⟨400, "invalid_key", ""⟩, [])
  else if jsStartsWith req.key "pv-" && req.key != "pv-mesege-staszek" then
    (⟨400, "invalid_key", ""⟩, [])
  else if isProtectedBasicDbReadKey req.key &&
      !isAdmin R.toRuntime cfg.ADMIN_TOKEN_SECRET st.adminSessionId req.token now then
    (⟨401, "admin_required", ""⟩, [])
  else proxyToLicznik R cfg up [] req.path req.search

/-! ## Static paths (`server.js` 943-952) -/

/-- The built-ins that `safeResolveStaticPath` calls. -/
structure PathRuntime where
  /-- The built-in `path.resolve(root, relative)`. -/
  resolve : String → String → String
  /-- The built-in `decodeURIComponent`; `none` when it throws. -/
  decodeURIComponent : String → Option String
  /-- The constant `path.sep`. -/
  sep : String

/-- The method `s.endsWith(suffix)`. -/
def jsEndsWith (s suffix : String) : Bool := suffix.data.isSuffixOf s.data

/-- The variable `rootWithSep` of `safeResolveStaticPath`. -/
def rootWithSep (P : PathRuntime) (STATIC_ROOT : String) : String :=
  if jsEndsWith STATIC_ROOT P.sep then STATIC_ROOT else STATIC_ROOT ++ P.sep

/-- The function `safeResolveStaticPath`. -/
def safeResolveStaticPath (P : PathRuntime) (STATIC_ROOT urlPath : String) : String :=
  let decoded := (P.decodeURIComponent urlPath).getD urlPath
  let abs := P.resolve STATIC_ROOT ("." ++ decoded)
  if abs ≠ STATIC_ROOT ∧ !jsStartsWith abs (rootWithSep P STATIC_ROOT) then "" else abs

/-- One step of the normalisation that `path.resolve` does on POSIX: an empty segment and `.`
are dropped, `..` removes the segment before it (none at the root), any other segment is
kept. -/
def normalizeSegment (stack : List (List Char)) (seg : List Char) : List (List Char) :=
  if seg = [] ∨ seg = ['.'] then stack
  else if seg = ['.', '.'] then stack.dropLast
  else stack ++ [seg]

/-- The segments of `path.resolve(root, relative)` on POSIX, for an absolute root and a
relative path that does not begin with `/`. -/
def posixResolveSegments (root relative : String) : List (List Char) :=
  (splitChars '/' (root.data ++ '/' :: relative.data)).foldl normalizeSegment []

/-- The built-in `path.resolve(root, relative)` on POSIX, for an absolute root and a relative
path that does not begin with `/`. -/
def posixResolve (root relative : String) : String :=
  String.mk ('/' :: List.intercalate ['/'] (posixResolveSegments root relative))

/-- The path built-ins on POSIX, with a decoder that gives every text back as it is (right
for a path without `%`). -/
def posixPathRuntime : PathRuntime where
  resolve := posixResolve
  decodeURIComponent := fun s => some s
  sep := "/"

/-! ## Block comments (`server.js` 15-18) -/

/-- Whether `*/` occurs in the text. -/
def hasCommentEnd : List Char → Bool
  | '*' :: '/' :: _ => true
  | _ :: rest => hasCommentEnd rest
  | [] => false

/-- The replacement `.replace(/\/\*[\s\S]*?\*\//g, "")`, reading the text from the left.
Outside a comment, `/*` opens one when a `*/` follows somewhere; inside, everything up to and
including the first `*/` is dropped. When no `*/` follows, no later `/*` can open a comment
either, so the rest of the text is kept as it is. -/
def stripFrom : Bool → List Char → List Char
  | _, [] => []
  | true, '*' :: '/' :: rest => stripFrom false rest
  | true, _ :: rest => stripFrom true rest
  | false, '/' :: '*' :: rest =>
    if hasCommentEnd rest then stripFrom true rest else '/' :: '*' :: rest
  | false, c :: rest => c :: stripFrom false rest

/-- The function `stripJsBlockComments`. -/
def stripJsBlockComments (code : String) : String := String.mk (stripFrom false code.data)

/-- A text that contains `/*` followed later by `*/`. -/
def HasBlockComment (s : String) : Prop :=
  ∃ a b c : List Char, s.data = a ++ '/' :: '*' :: (b ++ '*' :: '/' :: c)

/-! ## Origins (`server.js` 188-195, 291-341, 1166-1176) -/

/-- The function `isOriginAllowed`; `originHeader` is `String(req.headers.origin || "")`. -/
def isOriginAllowed (CORS_ORIGINS : List String) (originHeader : String) : Bool :=
  let origin := jsTrim originHeader
  if origin = "" then true
  else if CORS_ORIGINS.length = 0 then true
  else CORS_ORIGINS.contains origin

/-- The function `resolveCorsOrigin`. -/
def resolveCorsOrigin (CORS_ORIGINS : List String) (originHeader : String) : String :=
  let origin := jsTrim originHeader
  if origin = "" then ""
  else if CORS_ORIGINS.length = 0 then ""
  else if CORS_ORIGINS.contains origin then origin
  else ""

/-- The header `access-control-allow-origin` that `corsHeaders` sets, if it sets one. -/
def accessControlAllowOrigin (CORS_ORIGINS : List String) (originHeader : String) :
    Option String :=
  let allowOrigin := resolveCorsOrigin CORS_ORIGINS originHeader
  if allowOrigin ≠ "" then some allowOrigin else none

/-- The constant `CORS_ORIGINS`, from the value of `CORS_ORIGINS || CORS_ORIGIN` in the
environment: the trimmed non-empty parts between commas. -/
def corsOriginsOf (env : String) : List String :=
  if jsTrim env = "" then []
  else ((splitChars ',' (jsTrim env).data).map (fun part => jsTrim (String.mk part))).filter
    (fun s => s ≠ "")

/-- The head of `handleApi`: the origin check and the answer to `OPTIONS`; `route` is what
the rest of the function answers. -/
def handleApi (CORS_ORIGINS : List String) (originHeader method : String) (route : Response) :
    Response :=
  if !isOriginAllowed CORS_ORIGINS originHeader then ⟨403, "origin_not_allowed", ""⟩
  else if method = "OPTIONS" then ⟨204, "", ""⟩
  else route

/-! ## Internal counter names (`server.js` 447-478) -/

/-- A lower-case hexadecimal digit. -/
def IsLowerHex (c : Char) : Prop := ('0' ≤ c ∧ c ≤ '9') ∨ ('a' ≤ c ∧ c ≤ 'f')

/-- The counter names that the server builds for a thread key and an IP: the per-IP and the
unique-visitor counter of the thread, and the ban, count and sum counters of the IP. -/
def internalCounterNames (sha256Hex : String → String) (cfg : Config)
    (threadKey ip : String) : List String :=
  [forumIpCounterName sha256Hex cfg threadKey ip, forumUniqueCounterName sha256Hex threadKey,
    moderationBanCounterName (moderationIpHash sha256Hex cfg ip),
    moderationCountCounterName (moderationIpHash sha256Hex cfg ip),
    moderationSumCounterName (moderationIpHash sha256Hex cfg ip)]

/-- A configuration whose admin secret has 12 characters. -/
def shortSecretConfig : Config :=
  { ADMIN_TOKEN_SECRET := "short-secret"
    LICZNIK_API_KEY := "licznik-key"
    TOGETHER_API_KEY := "together-key" }


end Staszek

/-! # Theorems -/

set_option maxRecDepth 100000

namespace Staszek

/-! ## Rate limiter: lemmas -/

theorem setKey_same {α : Type} (m : String → Option α) (k : String) (v : α) :
    setKey m k v k = some v := by
  simp [setKey]

theorem setKey_other {α : Type} (m : String → Option α) (k x : String) (v : α) (h : x ≠ k) :
    setKey m k v x = m x := by
  simp [setKey, h]

/-- Rules with other keys leave the window under `k` alone. -/
theorem hitRules_frame (now : Int) (k : String) :
    ∀ (rules : List Rule) (ws : String → Option Window), k ∉ rules.map Rule.key →
      (hitRules now rules ws).1 k = ws k := by
  intro rules
  induction rules with
  | nil => intro ws _; rfl
  | cons r rs ih =>
    intro ws hk
    simp only [List.map_cons, List.mem_cons, not_or] at hk
    simp only [hitRules]
    split
    · exact setKey_other _ _ _ _ hk.1
    · rw [ih _ hk.2]; exact setKey_other _ _ _ _ hk.1

theorem bumpWindow_open (now : Int) (r : Rule) (ws : String → Option Window) (w : Window)
    (hw : ws r.key = some w) (hopen : now - w.start < r.windowMs) :
    bumpWindow now r ws = ⟨w.start, w.count + 1⟩ := by
  have hno : ¬ (now - w.start ≥ r.windowMs) := by omega
  simp [bumpWindow, hw, hno]

/-- A rule whose window is still open keeps its start; its count never decreases, and a call
that passes every rule has raised it by one without exceeding the limit. -/
theorem hitRules_open (now : Int) (r : Rule) :
    ∀ (rules : List Rule) (ws : String → Option Window) (w : Window),
      (rules.map Rule.key).Nodup → r ∈ rules → ws r.key = some w →
      now - w.start < r.windowMs →
      ∃ w2, (hitRules now rules ws).1 r.key = some w2 ∧ w2.start = w.start ∧
        w.count ≤ w2.count ∧
        ((hitRules now rules ws).2 = none → w2.count = w.count + 1 ∧ w2.count ≤ r.limit) := by
  intro rules
  induction rules with
  | nil => intro ws w _ hr; cases hr
  | cons q qs ih =>
    intro ws w hnd hr hw hopen
    simp only [List.map_cons, List.nodup_cons] at hnd
    by_cases hq : q = r
    · subst hq
      simp only [hitRules, bumpWindow_open now q ws w hw hopen]
      split
      · refine ⟨⟨w.start, w.count + 1⟩, setKey_same _ _ _, rfl, by simp, ?_⟩
        intro h; cases h
      · rename_i hle
        refine ⟨⟨w.start, w.count + 1⟩, ?_, rfl, by simp, ?_⟩
        · rw [hitRules_frame now q.key qs _ hnd.1]; exact setKey_same _ _ _
        · intro _; exact ⟨rfl, by simpa using hle⟩
    · have hrqs : r ∈ qs := by
        rcases List.mem_cons.1 hr with h | h
        · exact absurd h.symm hq
        · exact h
      have hkey : r.key ≠ q.key := by
        intro h
        exact hnd.1 (h ▸ List.mem_map_of_mem Rule.key hrqs)
      simp only [hitRules]
      split
      · refine ⟨w, ?_, rfl, le_refl _, ?_⟩
        · show setKey ws q.key _ r.key = some w
          rw [setKey_other _ _ _ _ hkey]; exact hw
        · intro h; cases h
      · exact ih _ w hnd.2 hrqs (by rw [setKey_other _ _ _ _ hkey]; exact hw) hopen

theorem Limiters.get_set (s : Limiters) (which : LimiterId) (m : LimiterMap) :
    (s.set which m).get which = m := by
  cases which <;> rfl

theorem sweepLimiterMap_fresh (m : LimiterMap) (k : String) (now : Int)
    (ws : String → Option Window) (hnow : now ≠ 0) :
    sweepLimiterMap LimiterRec.last (setKey m k ⟨now, ws⟩) SWEEP_TTL_MS now k
      = some ⟨now, ws⟩ := by
  simp [sweepLimiterMap, setKey, Option.filter, hnow, SWEEP_TTL_MS]

theorem sweepAll_get_fresh (s : Limiters) (which : LimiterId) (k : String) (now : Int)
    (ws : String → Option Window) (hnow : now ≠ 0) (tick : Nat) :
    (sweepAll { s.set which (setKey (s.get which) k ⟨now, ws⟩) with
        rateLimitSweepTick := tick } now).get which k = some ⟨now, ws⟩ := by
  cases which <;>
    simp only [sweepAll, Limiters.get, Limiters.set] <;>
    exact sweepLimiterMap_fresh _ _ _ _ hnow

/-- After a call from a non-blank IP at a non-zero clock value the map holds that IP's record
with `last = now` and the windows the rule loop left. -/
theorem hitRateLimit_record (s : Limiters) (which : LimiterId) (ip : String)
    (rules : List Rule) (now : Int) (hip : jsTrim ip ≠ "") (hnow : now ≠ 0) :
    (hitRateLimit s which ip rules now).2.get which (jsTrim ip) =
      some ⟨now, (hitRules now rules
        (ensureLimiterRec (s.get which) (jsTrim ip) rules now).windows).1⟩ := by
  simp only [hitRateLimit, hip, if_false]
  split
  · show (s.set which _).get which (jsTrim ip) = _
    rw [Limiters.get_set]; exact setKey_same _ _ _
  · split
    · exact sweepAll_get_fresh s which _ now _ hnow _
    · cases which <;> simp [Limiters.get, Limiters.set, setKey]

/-- The call is accepted exactly when the rule loop ran to its end. -/
theorem hitRateLimit_ok_iff (s : Limiters) (which : LimiterId) (ip : String)
    (rules : List Rule) (now : Int) (hip : jsTrim ip ≠ "") :
    (hitRateLimit s which ip rules now).1.ok = true ↔
      (hitRules now rules
        (ensureLimiterRec (s.get which) (jsTrim ip) rules now).windows).2 = none := by
  simp only [hitRateLimit, hip, if_false]
  split
  · rename_i h; simp [h]
  · rename_i h; simp [h]

/-- Whatever the rule loop reports as `retryAfter` is at least 1. -/
theorem hitRules_retryAfter_pos (now : Int) :
    ∀ (rules : List Rule) (ws : String → Option Window) (ra : Int) (r : Rule),
      (hitRules now rules ws).2 = some (ra, r) → 1 ≤ ra := by
  intro rules
  induction rules with
  | nil => intro ws ra r h; cases h
  | cons q qs ih =>
    intro ws ra r h
    simp only [hitRules] at h
    split at h
    · simp only [Option.some.injEq, Prod.mk.injEq] at h
      rw [← h.1]; exact le_max_left _ _
    · exact ih _ _ _ h

/-- A rejected call carries `retryAfter ≥ 1`. -/
theorem hitRateLimit_retryAfter_pos (s : Limiters) (which : LimiterId) (ip : String)
    (rules : List Rule) (now : Int)
    (hrej : (hitRateLimit s which ip rules now).1.ok = false) :
    1 ≤ (hitRateLimit s which ip rules now).1.retryAfter := by
  revert hrej
  simp only [hitRateLimit]
  split
  · intro h; cases h
  · split
    · rename_i h; intro _; exact hitRules_retryAfter_pos _ _ _ _ _ h
    · intro h; cases h

/-- One call inside the open window of rule `r`: the window keeps its start, its count grows by
one if the call is accepted, and acceptance means the limit was not yet reached. -/
theorem hitRateLimit_open_step (s : Limiters) (which : LimiterId) (ip : String)
    (rules : List Rule) (r : Rule) (hnd : (rules.map Rule.key).Nodup) (hr : r ∈ rules)
    (hip : jsTrim ip ≠ "") (now : Int) (hnow : now ≠ 0) (w : Window)
    (hw : (ensureLimiterRec (s.get which) (jsTrim ip) rules now).windows r.key = some w)
    (hopen : now - w.start < r.windowMs) :
    ∃ rec2 w2, (hitRateLimit s which ip rules now).2.get which (jsTrim ip) = some rec2 ∧
      rec2.windows r.key = some w2 ∧ w2.start = w.start ∧ w.count ≤ w2.count ∧
      ((hitRateLimit s which ip rules now).1.ok = true →
        w2.count = w.count + 1 ∧ w2.count ≤ r.limit) := by
  obtain ⟨w2, h1, h2, h3, h4⟩ := hitRules_open now r rules _ w hnd hr hw hopen
  refine ⟨_, w2, hitRateLimit_record s which ip rules now hip hnow, h1, h2, h3, ?_⟩
  intro hok
  exact h4 ((hitRateLimit_ok_iff s which ip rules now hip).1 hok)

theorem ensureLimiterRec_some (map : LimiterMap) (ip : String) (rules : List Rule) (now : Int)
    (rec : LimiterRec) (h : map ip = some rec) : ensureLimiterRec map ip rules now = rec := by
  simp [ensureLimiterRec, h]

theorem ensureLimiterRec_none (map : LimiterMap) (ip : String) (rules : List Rule) (now : Int)
    (r : Rule) (hr : r ∈ rules) (h : map ip = none) :
    (ensureLimiterRec map ip rules now).windows r.key = some ⟨now, 0⟩ := by
  have : r.key ∈ rules.map Rule.key := List.mem_map_of_mem Rule.key hr
  simp only [ensureLimiterRec, h]
  exact if_pos this

/-- Calls inside the open window of rule `r`: the count of that window grows at least by the
number of accepted calls. -/
theorem hitMany_open (which : LimiterId) (ip : String) (rules : List Rule) (r : Rule)
    (hnd : (rules.map Rule.key).Nodup) (hr : r ∈ rules) (hip : jsTrim ip ≠ "") (t0 : Int)
    (h0 : 0 < t0) :
    ∀ (ts : List Int) (s : Limiters) (rec : LimiterRec) (w : Window),
      (∀ t ∈ ts, t0 ≤ t ∧ t < t0 + r.windowMs) →
      s.get which (jsTrim ip) = some rec → rec.windows r.key = some w → w.start = t0 →
      ∃ rec2 w2, (hitMany s which ip rules ts).1.get which (jsTrim ip) = some rec2 ∧
        rec2.windows r.key = some w2 ∧ w2.start = t0 ∧
        w.count + (countOk (hitMany s which ip rules ts).2 : Int) ≤ w2.count := by
  intro ts
  induction ts with
  | nil =>
    intro s rec w _ hrec hw hst
    exact ⟨rec, w, hrec, hw, hst, by simp [hitMany, countOk]⟩
  | cons t ts ih =>
    intro s rec w hts hrec hw hst
    have ht := hts t (List.mem_cons_self _ _)
    have hw2 : (ensureLimiterRec (s.get which) (jsTrim ip) rules t).windows r.key = some w := by
      rw [ensureLimiterRec_some _ _ _ _ rec hrec]; exact hw
    obtain ⟨rec1, w1, g1, g2, g3, g4, g5⟩ :=
      hitRateLimit_open_step s which ip rules r hnd hr hip t (by omega) w hw2 (by omega)
    obtain ⟨rec2, w2, k1, k2, k3, k4⟩ :=
      ih (hitRateLimit s which ip rules t).2 rec1 w1
        (fun x hx => hts x (List.mem_cons_of_mem _ hx)) g1 g2 (g3.trans hst)
    refine ⟨rec2, w2, k1, k2, k3, ?_⟩
    simp only [hitMany, countOk, List.filter_cons]
    by_cases hok : (hitRateLimit s which ip rules t).1.ok = true
    · have := (g5 hok).1
      simp only [hok, if_true, List.length_cons, Nat.cast_add, Nat.cast_one]
      simp only [countOk] at k4
      omega
    · simp only [hok]
      simp only [countOk] at k4
      simp only [Bool.false_eq_true, if_false]
      omega

/-! ## C2 -/

/-- What the rule loop does to the window of one rule `r`: it is not reached (an earlier rule
rejected), or it is reset to `{ start: now, count: 1 }`, or its count is raised. -/
theorem hitRules_cases (now : Int) (r : Rule) :
    ∀ (rules : List Rule) (ws : String → Option Window) (w : Window),
      (rules.map Rule.key).Nodup → r ∈ rules → ws r.key = some w →
      ∃ w2, (hitRules now rules ws).1 r.key = some w2 ∧
        (((hitRules now rules ws).2 ≠ none ∧ w2 = w) ∨
         (now - w.start ≥ r.windowMs ∧ w2 = ⟨now, 1⟩ ∧
            ((hitRules now rules ws).2 = none → 1 ≤ r.limit)) ∨
         (now - w.start < r.windowMs ∧ w2 = ⟨w.start, w.count + 1⟩ ∧
            ((hitRules now rules ws).2 = none → w.count + 1 ≤ r.limit))) := by
  intro rules
  induction rules with
  | nil => intro ws w _ hr; cases hr
  | cons q qs ih =>
    intro ws w hnd hr hw
    simp only [List.map_cons, List.nodup_cons] at hnd
    by_cases hq : q = r
    · subst hq
      by_cases hexp : now - w.start ≥ q.windowMs
      · have hb : bumpWindow now q ws = ⟨now, 1⟩ := by simp [bumpWindow, hw, hexp]
        simp only [hitRules, hb]
        split
        · refine ⟨⟨now, 1⟩, setKey_same _ _ _, Or.inr (Or.inl ⟨hexp, rfl, ?_⟩)⟩
          intro h; cases h
        · rename_i hle
          refine ⟨⟨now, 1⟩, ?_, Or.inr (Or.inl ⟨hexp, rfl, ?_⟩)⟩
          · rw [hitRules_frame now q.key qs _ hnd.1]; exact setKey_same _ _ _
          · intro _; simpa using hle
      · have hopen : now - w.start < q.windowMs := by omega
        simp only [hitRules, bumpWindow_open now q ws w hw hopen]
        split
        · refine ⟨⟨w.start, w.count + 1⟩, setKey_same _ _ _,
            Or.inr (Or.inr ⟨hopen, rfl, ?_⟩)⟩
          intro h; cases h
        · rename_i hle
          refine ⟨⟨w.start, w.count + 1⟩, ?_, Or.inr (Or.inr ⟨hopen, rfl, ?_⟩)⟩
          · rw [hitRules_frame now q.key qs _ hnd.1]; exact setKey_same _ _ _
          · intro _; simpa using hle
    · have hrqs : r ∈ qs := by
        rcases List.mem_cons.1 hr with h | h
        · exact absurd h.symm hq
        · exact h
      have hkey : r.key ≠ q.key := by
        intro h
        exact hnd.1 (h ▸ List.mem_map_of_mem Rule.key hrqs)
      simp only [hitRules]
      split
      · refine ⟨w, ?_, Or.inl ⟨by simp, rfl⟩⟩
        show setKey ws q.key _ r.key = some w
        rw [setKey_other _ _ _ _ hkey]; exact hw
      · exact ih _ w hnd.2 hrqs (by rw [setKey_other _ _ _ _ hkey]; exact hw)

theorem sweepLimiterMap_cases (m : LimiterMap) (k : String) (now : Int) :
    sweepLimiterMap LimiterRec.last m SWEEP_TTL_MS now k = m k ∨
    (sweepLimiterMap LimiterRec.last m SWEEP_TTL_MS now k = none ∧
      ∃ rec, m k = some rec ∧ (rec.last = 0 ∨ now - rec.last > SWEEP_TTL_MS)) := by
  unfold sweepLimiterMap
  cases hm : m k with
  | none => left; rfl
  | some rec =>
    by_cases h : rec.last = 0 ∨ now - rec.last > SWEEP_TTL_MS
    · right
      refine ⟨?_, rec, rfl, h⟩
      rcases h with h | h <;> simp [Option.filter, h]
    · left
      simp only [not_or] at h
      simp [Option.filter, h.1, h.2]

theorem sweepAll_get (s : Limiters) (which : LimiterId) (now : Int) :
    (sweepAll s now).get which
      = sweepLimiterMap LimiterRec.last (s.get which) SWEEP_TTL_MS now := by
  cases which <;> rfl

/-- A call for another limiter or another IP leaves the record of `(which, k)` as it is, or the
sweep deletes it because it is stale. -/
theorem hitRateLimit_other (s : Limiters) (which which2 : LimiterId) (k ip : String)
    (rules : List Rule) (now : Int) (hne : which2 ≠ which ∨ jsTrim ip ≠ k) :
    (hitRateLimit s which2 ip rules now).2.get which k = s.get which k ∨
    ((hitRateLimit s which2 ip rules now).2.get which k = none ∧
      ∃ rec, s.get which k = some rec ∧ (rec.last = 0 ∨ now - rec.last > SWEEP_TTL_MS)) := by
  have hset : ∀ v, (s.set which2 (setKey (s.get which2) (jsTrim ip) v)).get which k
      = s.get which k := by
    intro v
    rcases hne with h | h
    · cases which <;> cases which2 <;> first | exact absurd rfl h | rfl
    · by_cases hw : which2 = which
      · subst hw
        rw [Limiters.get_set]; exact setKey_other _ _ _ _ (Ne.symm h)
      · cases which <;> cases which2 <;> first | exact absurd rfl hw | rfl
  simp only [hitRateLimit]
  split
  · left; rfl
  · split
    · left; exact hset _
    · split
      · rw [sweepAll_get]
        have hh : ({ s.set which2 (setKey (s.get which2) (jsTrim ip)
            ⟨now, (hitRules now rules (ensureLimiterRec (s.get which2) (jsTrim ip) rules
              now).windows).1⟩) with
            rateLimitSweepTick := (s.set which2 (setKey (s.get which2) (jsTrim ip)
              ⟨now, (hitRules now rules (ensureLimiterRec (s.get which2) (jsTrim ip) rules
                now).windows).1⟩)).rateLimitSweepTick + 1 } : Limiters).get which
            = (s.set which2 (setKey (s.get which2) (jsTrim ip)
              ⟨now, (hitRules now rules (ensureLimiterRec (s.get which2) (jsTrim ip) rules
                now).windows).1⟩)).get which := by
          cases which <;> rfl
        rw [hh]
        have := sweepLimiterMap_cases ((s.set which2 (setKey (s.get which2) (jsTrim ip)
              ⟨now, (hitRules now rules (ensureLimiterRec (s.get which2) (jsTrim ip) rules
                now).windows).1⟩)).get which) k now
        rw [hset] at this
        exact this
      · left
        have := hset ⟨now, (hitRules now rules (ensureLimiterRec (s.get which2) (jsTrim ip)
          rules now).windows).1⟩
        rw [← this]
        cases which <;> rfl

theorem acceptedWithin_cons (which : LimiterId) (k : String) (a len : Int)
    (e : Call × HitResult) (log : List (Call × HitResult)) :
    acceptedWithin which k a len (e :: log)
      = countsWithin which k a len e + acceptedWithin which k a len log := by
  simp only [acceptedWithin, countsWithin, List.filter_cons]
  split <;> simp [Nat.add_comm]

theorem countsWithin_cases (which : LimiterId) (k : String) (a len : Int)
    (e : Call × HitResult) :
    countsWithin which k a len e = 0 ∨
    (countsWithin which k a len e = 1 ∧ e.2.ok = true ∧ e.1.which = which ∧
      jsTrim e.1.ip = k ∧ a ≤ e.1.now ∧ e.1.now < a + len) := by
  unfold countsWithin
  split
  · rename_i h
    simp only [Bool.and_eq_true, decide_eq_true_eq] at h
    right; exact ⟨rfl, h.1.1.1.1, h.1.1.1.2, h.1.1.2, h.1.2, h.2⟩
  · left; rfl

theorem FixedWindowInv_none (which : LimiterId) (k : String) (r : Rule) (a : Int)
    (s : Limiters) (prev A : Int) (h : s.get which k = none) :
    FixedWindowInv which k r a s prev A ↔
      (A ≤ 2 * (r.limit.toNat : Int) ∧ (prev < a → A = 0) ∧
        (prev < a + r.windowMs → A ≤ (r.limit.toNat : Int))) := by
  simp only [FixedWindowInv, h]

theorem FixedWindowInv_some (which : LimiterId) (k : String) (r : Rule) (a : Int)
    (s : Limiters) (prev A : Int) (rec : LimiterRec) (h : s.get which k = some rec) :
    FixedWindowInv which k r a s prev A ↔
      (A ≤ 2 * (r.limit.toNat : Int) ∧ (prev < a → A = 0) ∧
        ∃ w, rec.windows r.key = some w ∧ 0 < rec.last ∧ rec.last ≤ prev ∧
          w.start ≤ rec.last ∧ 0 ≤ w.count ∧
          (w.start < a → A ≤ w.count ∧ A ≤ (r.limit.toNat : Int)) ∧
          (a ≤ w.start → w.start < a + r.windowMs →
            A ≤ (r.limit.toNat : Int) + w.count ∧ A ≤ 2 * (r.limit.toNat : Int))) := by
  simp only [FixedWindowInv, h]

/-- A call for another limiter or another IP preserves the invariant. -/
theorem FixedWindowInv_step_other (which : LimiterId) (k : String) (r : Rule)
    (hW : r.windowMs ≤ SWEEP_TTL_MS) (a : Int) (s : Limiters) (prev A : Int)
    (which2 : LimiterId) (ip : String) (rules : List Rule) (now : Int)
    (hne : which2 ≠ which ∨ jsTrim ip ≠ k) (hprev : prev ≤ now)
    (hinv : FixedWindowInv which k r a s prev A) :
    FixedWindowInv which k r a (hitRateLimit s which2 ip rules now).2 now A := by
  rcases hitRateLimit_other s which which2 k ip rules now hne with h | ⟨h, rec, hrec, hstale⟩
  · cases hs : s.get which k with
    | none =>
      rw [FixedWindowInv_none _ _ _ _ _ _ _ hs] at hinv
      rw [FixedWindowInv_none _ _ _ _ _ _ _ (h.trans hs)]
      obtain ⟨h1, h2, h3⟩ := hinv
      exact ⟨h1, fun hh => h2 (by omega), fun hh => h3 (by omega)⟩
    | some rec =>
      rw [FixedWindowInv_some _ _ _ _ _ _ _ rec hs] at hinv
      rw [FixedWindowInv_some _ _ _ _ _ _ _ rec (h.trans hs)]
      obtain ⟨h1, h2, w, g1, g2, g3, g4⟩ := hinv
      exact ⟨h1, fun hh => h2 (by omega), w, g1, g2, by omega, g4⟩
  · rw [FixedWindowInv_some _ _ _ _ _ _ _ rec hrec] at hinv
    rw [FixedWindowInv_none _ _ _ _ _ _ _ h]
    obtain ⟨h1, h2, w, g1, g2, g3, g4, g5, g6, g7⟩ := hinv
    refine ⟨h1, fun hh => h2 (by omega), fun hh => ?_⟩
    have hst : now - rec.last > SWEEP_TTL_MS := by
      rcases hstale with h0 | h0
      · omega
      · exact h0
    have : w.start < a := by omega
    exact (g6 this).2

/-- The arithmetic of one call on the window of `r`: from the facts the invariant gives about
the window `w` before the call, the facts about the window `w2` after it. -/
theorem fixedWindow_arith (W limit a now prev A : Int) (d : Nat) (w w2 : Window)
    (hprev : prev ≤ now) (hstart : w.start ≤ now) (hc : 0 ≤ w.count)
    (hA : A ≤ 2 * (limit.toNat : Int)) (hA0 : prev < a → A = 0)
    (h1 : w.start < a → A ≤ w.count ∧ A ≤ (limit.toNat : Int))
    (h2 : a ≤ w.start → w.start < a + W →
      A ≤ (limit.toNat : Int) + w.count ∧ A ≤ 2 * (limit.toNat : Int))
    (hd : d = 0 ∨ (d = 1 ∧ a ≤ now ∧ now < a + W ∧
      ((now - w.start ≥ W ∧ 1 ≤ limit) ∨ (now - w.start < W ∧ w.count + 1 ≤ limit))))
    (hw2 : w2 = w ∧ d = 0 ∨ (now - w.start ≥ W ∧ w2 = ⟨now, 1⟩) ∨
      (now - w.start < W ∧ w2 = ⟨w.start, w.count + 1⟩)) :
    A + (d : Int) ≤ 2 * (limit.toNat : Int) ∧ (now < a → A + (d : Int) = 0) ∧
      w2.start ≤ now ∧ 0 ≤ w2.count ∧
      (w2.start < a → A + (d : Int) ≤ w2.count ∧ A + (d : Int) ≤ (limit.toNat : Int)) ∧
      (a ≤ w2.start → w2.start < a + W →
        A + (d : Int) ≤ (limit.toNat : Int) + w2.count ∧
        A + (d : Int) ≤ 2 * (limit.toNat : Int)) := by
  have hL : (0 : Int) ≤ (limit.toNat : Int) := Int.ofNat_nonneg _
  have hL2 : limit ≤ (limit.toNat : Int) := Int.self_le_toNat limit
  rcases hw2 with ⟨e, hd0⟩ | ⟨hx, e⟩ | ⟨hx, e⟩
  · subst e; subst hd0
    simp only [Nat.cast_zero, add_zero]
    refine ⟨hA, fun h => hA0 (by omega), hstart, hc, h1, h2⟩
  · subst e
    simp only
    have hAL : now < a + W → A ≤ (limit.toNat : Int) := by
      intro h
      by_cases hq : w.start < a
      · exact (h1 hq).2
      · omega
    rcases hd with hd | ⟨hd, ha1, ha2, hb⟩
    · subst hd
      simp only [Nat.cast_zero, add_zero]
      refine ⟨hA, fun h => hA0 (by omega), le_refl _, by omega, ?_, ?_⟩
      · intro h; have := hA0 (by omega); omega
      · intro h3 h4; have := hAL h4; omega
    · subst hd
      simp only [Nat.cast_one]
      have := hAL ha2
      have hl1 : 1 ≤ limit := by
        rcases hb with hb | hb
        · exact hb.2
        · omega
      refine ⟨by omega, fun h => by omega, le_refl _, by omega, ?_, ?_⟩
      · intro h; omega
      · intro h3 h4; omega
  · subst e
    simp only
    rcases hd with hd | ⟨hd, ha1, ha2, hb⟩
    · subst hd
      simp only [Nat.cast_zero, add_zero]
      refine ⟨hA, fun h => hA0 (by omega), hstart, by omega, ?_, ?_⟩
      · intro h; have := h1 h; omega
      · intro h3 h4; have := h2 h3 h4; omega
    · subst hd
      simp only [Nat.cast_one]
      have hl1 : w.count + 1 ≤ limit := by
        rcases hb with hb | hb
        · omega
        · exact hb.2
      have hcase : w.start < a ∨ (a ≤ w.start ∧ w.start < a + W) := by omega
      rcases hcase with hq | ⟨hq1, hq2⟩
      · have := h1 hq
        refine ⟨by omega, fun h => by omega, hstart, by omega, ?_, ?_⟩
        · intro _; omega
        · intro h3 _; omega
      · have := h2 hq1 hq2
        refine ⟨by omega, fun h => by omega, hstart, by omega, ?_, ?_⟩
        · intro h; omega
        · intro _ _; omega

/-- A call on the limiter from the IP itself preserves the invariant, the accepted call being
counted when its clock value lies in the interval. -/
theorem FixedWindowInv_step_same (which : LimiterId) (ip : String) (r : Rule)
    (rules : List Rule) (hnd : (rules.map Rule.key).Nodup) (hr : r ∈ rules)
    (hip : jsTrim ip ≠ "") (a : Int) (s : Limiters) (prev A : Int) (now : Int)
    (hprev : prev ≤ now) (hpos : 0 < now)
    (hinv : FixedWindowInv which (jsTrim ip) r a s prev A) :
    FixedWindowInv which (jsTrim ip) r a (hitRateLimit s which ip rules now).2 now
      (A + (countsWithin which (jsTrim ip) a r.windowMs
        (⟨which, ip, now⟩, (hitRateLimit s which ip rules now).1) : Nat)) := by
  have hrecord := hitRateLimit_record s which ip rules now hip (by omega)
  have hok := hitRateLimit_ok_iff s which ip rules now hip
  rw [FixedWindowInv_some _ _ _ _ _ _ _ _ hrecord]
  -- the window of `r` before the call, with what the invariant says about it
  have hw : ∃ w, (ensureLimiterRec (s.get which) (jsTrim ip) rules now).windows r.key = some w ∧
      w.start ≤ now ∧ 0 ≤ w.count ∧ A ≤ 2 * (r.limit.toNat : Int) ∧ (prev < a → A = 0) ∧
      (w.start < a → A ≤ w.count ∧ A ≤ (r.limit.toNat : Int)) ∧
      (a ≤ w.start → w.start < a + r.windowMs →
        A ≤ (r.limit.toNat : Int) + w.count ∧ A ≤ 2 * (r.limit.toNat : Int)) := by
    cases hs : s.get which (jsTrim ip) with
    | none =>
      rw [FixedWindowInv_none _ _ _ _ _ _ _ hs] at hinv
      obtain ⟨h1, h2, h3⟩ := hinv
      refine ⟨⟨now, 0⟩, ?_, le_refl _, le_refl _, h1, h2, ?_, ?_⟩
      · exact ensureLimiterRec_none (s.get which) (jsTrim ip) rules now r hr hs
      · intro h
        have := h2 (by simp only at h; omega)
        simp only; omega
      · intro h4 h5
        have := h3 (by simp only at h5; omega)
        simp only; omega
    | some rec =>
      rw [FixedWindowInv_some _ _ _ _ _ _ _ rec hs] at hinv
      obtain ⟨h1, h2, w, g1, g2, g3, g4, g5, g6, g7⟩ := hinv
      refine ⟨w, ?_, by omega, g5, h1, h2, g6, g7⟩
      have := ensureLimiterRec_some (s.get which) (jsTrim ip) rules now rec hs
      rw [this]; exact g1
  obtain ⟨w, hw0, hst, hc, hA, hA0, h1, h2⟩ := hw
  obtain ⟨w2, hw2, hcases⟩ := hitRules_cases now r rules _ w hnd hr hw0
  have hd := countsWithin_cases which (jsTrim ip) a r.windowMs
    (⟨which, ip, now⟩, (hitRateLimit s which ip rules now).1)
  simp only at hd
  have key := fixedWindow_arith r.windowMs r.limit a now prev A
    (countsWithin which (jsTrim ip) a r.windowMs
      (⟨which, ip, now⟩, (hitRateLimit s which ip rules now).1)) w w2 hprev hst hc hA hA0 h1 h2
    (by
      rcases hd with hd | ⟨hd, hokk, _, _, ha1, ha2⟩
      · left; exact hd
      · right
        refine ⟨hd, ha1, ha2, ?_⟩
        have hnone := hok.1 hokk
        rcases hcases with ⟨hx, _⟩ | ⟨hx, _, hy⟩ | ⟨hx, _, hy⟩
        · exact absurd hnone hx
        · left; exact ⟨hx, hy hnone⟩
        · right; exact ⟨hx, hy hnone⟩)
    (by
      rcases hcases with ⟨hx, e⟩ | ⟨hx, e, _⟩ | ⟨hx, e, _⟩
      · left
        refine ⟨e, ?_⟩
        rcases hd with hd | ⟨_, hokk, _⟩
        · exact hd
        · exact absurd (hok.1 hokk) hx
      · right; left; exact ⟨hx, e⟩
      · right; right; exact ⟨hx, e⟩)
  obtain ⟨k1, k2, k3, k4, k5, k6⟩ := key
  exact ⟨k1, k2, w2, hw2, hpos, le_refl _, k3, k4, k5, k6⟩

/-- One call of a trace preserves the invariant. -/
theorem FixedWindowInv_step (rulesOf : LimiterId → List Rule) (which : LimiterId)
    (ip : String) (r : Rule) (hnd : ((rulesOf which).map Rule.key).Nodup)
    (hr : r ∈ rulesOf which) (hip : jsTrim ip ≠ "") (hW : r.windowMs ≤ SWEEP_TTL_MS)
    (a : Int) (s : Limiters) (prev A : Int) (c : Call) (hprev : prev ≤ c.now)
    (hpos : 0 < c.now) (hinv : FixedWindowInv which (jsTrim ip) r a s prev A) :
    FixedWindowInv which (jsTrim ip) r a
      (hitRateLimit s c.which c.ip (rulesOf c.which) c.now).2 c.now
      (A + (countsWithin which (jsTrim ip) a r.windowMs
        (c, (hitRateLimit s c.which c.ip (rulesOf c.which) c.now).1) : Nat)) := by
  by_cases hsame : c.which = which ∧ jsTrim c.ip = jsTrim ip
  · obtain ⟨e1, e2⟩ := hsame
    have h := FixedWindowInv_step_same c.which c.ip r (rulesOf c.which)
      (by rw [e1]; exact hnd) (by rw [e1]; exact hr) (by rw [e2]; exact hip) a s prev A c.now
      hprev hpos (by rw [e1, e2]; exact hinv)
    rw [e1, e2] at h
    rw [e1]
    have hcw : countsWithin which (jsTrim ip) a r.windowMs
        (c, (hitRateLimit s which c.ip (rulesOf which) c.now).1)
        = countsWithin which (jsTrim ip) a r.windowMs
          (⟨which, c.ip, c.now⟩, (hitRateLimit s which c.ip (rulesOf which) c.now).1) := by
      simp only [countsWithin, e1]
    rw [hcw]; exact h
  · have hne : c.which ≠ which ∨ jsTrim c.ip ≠ jsTrim ip := by
      by_cases h1 : c.which = which
      · right; exact fun h2 => hsame ⟨h1, h2⟩
      · left; exact h1
    have h0 : countsWithin which (jsTrim ip) a r.windowMs
        (c, (hitRateLimit s c.which c.ip (rulesOf c.which) c.now).1) = 0 := by
      rcases countsWithin_cases which (jsTrim ip) a r.windowMs
        (c, (hitRateLimit s c.which c.ip (rulesOf c.which) c.now).1) with h | ⟨_, _, h1, h2, _⟩
      · exact h
      · exact absurd ⟨h1, h2⟩ hsame
    rw [h0]
    simp only [Nat.cast_zero, add_zero]
    exact FixedWindowInv_step_other which (jsTrim ip) r hW a s prev A c.which c.ip _ c.now hne
      hprev hinv

/-- Along a trace with a non-decreasing positive clock the invariant bounds the total. -/
theorem FixedWindowInv_run (rulesOf : LimiterId → List Rule) (which : LimiterId)
    (ip : String) (r : Rule) (hnd : ((rulesOf which).map Rule.key).Nodup)
    (hr : r ∈ rulesOf which) (hip : jsTrim ip ≠ "") (hW : r.windowMs ≤ SWEEP_TTL_MS)
    (a : Int) :
    ∀ (cs : List Call) (s : Limiters) (prev A : Int),
      FixedWindowInv which (jsTrim ip) r a s prev A →
      (∀ c ∈ cs, prev ≤ c.now ∧ 0 < c.now) → (cs.map Call.now).Pairwise (· ≤ ·) →
      A + (acceptedWithin which (jsTrim ip) a r.windowMs (runCalls rulesOf s cs).2 : Nat)
        ≤ 2 * (r.limit.toNat : Int) := by
  intro cs
  induction cs with
  | nil =>
    intro s prev A hinv _ _
    simp only [runCalls, acceptedWithin, List.filter_nil, List.length_nil, Nat.cast_zero,
      add_zero]
    exact hinv.1
  | cons c cs ih =>
    intro s prev A hinv hcs hmono
    have hc := hcs c (List.mem_cons_self _ _)
    have hstep := FixedWindowInv_step rulesOf which ip r hnd hr hip hW a s prev A c hc.1 hc.2
      hinv
    simp only [List.map_cons, List.pairwise_cons] at hmono
    have hrest := ih _ _ _ hstep
      (fun d hd => ⟨hmono.1 d.now (List.mem_map_of_mem Call.now hd),
        (hcs d (List.mem_cons_of_mem _ hd)).2⟩) hmono.2
    simp only [runCalls, acceptedWithin_cons, Nat.cast_add]
    omega

/-- C2 as stated fails: with the request rules (2 per 1000 ms) the calls at 5, 999, 1005 and
1006 ms are all accepted, and three of them lie in the interval `[999, 1999)` of length
`windowMs`, more than the limit 2. -/
theorem hitRateLimit_not_sliding_window :
    (⟨"sec", 1000, 2⟩ : Rule) ∈ serverRules .requests ∧
    (([⟨.requests, "1.2.3.4", 5⟩, ⟨.requests, "1.2.3.4", 999⟩, ⟨.requests, "1.2.3.4", 1005⟩,
        ⟨.requests, "1.2.3.4", 1006⟩] : List Call).map Call.now).Pairwise (· ≤ ·) ∧
    acceptedWithin .requests (jsTrim "1.2.3.4") 999 1000
      (runCalls serverRules Limiters.initial
        [⟨.requests, "1.2.3.4", 5⟩, ⟨.requests, "1.2.3.4", 999⟩, ⟨.requests, "1.2.3.4", 1005⟩,
          ⟨.requests, "1.2.3.4", 1006⟩]).2 = 3 := by
  decide

/-- C2, amended. The limiter enforces every rule as a fixed window: for every rule `r` of a
limiter whose rules own their windows, with `r.windowMs` at most the sweep TTL of two days,
every non-blank IP without a record at the start and every trace of `hitRateLimit` calls (any
limiter, any IP) with positive non-decreasing clock values, the number of calls from that IP
on that limiter that return `ok = true` at a clock value in any interval
`[a, a + r.windowMs)` is at most `2 * r.limit`. -/
theorem hitRateLimit_fixed_window_bound (rulesOf : LimiterId → List Rule)
    (which : LimiterId) (ip : String) (r : Rule) (hwf : RulesWellFormed (rulesOf which))
    (hr : r ∈ rulesOf which) (hip : jsTrim ip ≠ "") (hW : r.windowMs ≤ SWEEP_TTL_MS)
    (s : Limiters) (hnew : s.get which (jsTrim ip) = none) (cs : List Call)
    (hpos : ∀ c ∈ cs, 0 < c.now) (hmono : (cs.map Call.now).Pairwise (· ≤ ·)) (a : Int) :
    acceptedWithin which (jsTrim ip) a r.windowMs (runCalls rulesOf s cs).2
      ≤ 2 * r.limit.toNat := by
  cases cs with
  | nil => simp [runCalls, acceptedWithin]
  | cons c cs =>
    have hinv : FixedWindowInv which (jsTrim ip) r a s c.now 0 := by
      rw [FixedWindowInv_none _ _ _ _ _ _ _ hnew]
      exact ⟨by positivity, fun _ => rfl, fun _ => Int.ofNat_nonneg _⟩
    have hall : ∀ d ∈ c :: cs, c.now ≤ d.now ∧ 0 < d.now := by
      intro d hd
      refine ⟨?_, hpos d hd⟩
      rcases List.mem_cons.1 hd with h | h
      · rw [h]
      · simp only [List.map_cons, List.pairwise_cons] at hmono
        exact hmono.1 d.now (List.mem_map_of_mem Call.now h)
    have := FixedWindowInv_run rulesOf which ip r hwf.1 hr hip hW a (c :: cs) s c.now 0 hinv
      hall hmono
    omega

/-- C2 amended, at the trace of the counterexample: three accepted calls in `[999, 1999)`,
within the bound `2 * 2`. -/
theorem hitRateLimit_fixed_window_bound_witness :
    acceptedWithin .requests (jsTrim "1.2.3.4") 999 (1000 : Int)
      (runCalls serverRules Limiters.initial
        [⟨.requests, "1.2.3.4", 5⟩, ⟨.requests, "1.2.3.4", 999⟩, ⟨.requests, "1.2.3.4", 1005⟩,
          ⟨.requests, "1.2.3.4", 1006⟩]).2 ≤ 2 * (2 : Int).toNat :=
  hitRateLimit_fixed_window_bound serverRules .requests "1.2.3.4" ⟨"sec", 1000, 2⟩
    (by decide) (by decide) (by decide) (by decide) Limiters.initial rfl
    [⟨.requests, "1.2.3.4", 5⟩, ⟨.requests, "1.2.3.4", 999⟩, ⟨.requests, "1.2.3.4", 1005⟩,
      ⟨.requests, "1.2.3.4", 1006⟩] (by decide) (by decide) 999

/-! ## Rate limiter: the rejecting rule -/

theorem bumpWindow_congr (now : Int) (r : Rule) (ws ws2 : String → Option Window)
    (h : ws r.key = ws2 r.key) : bumpWindow now r ws = bumpWindow now r ws2 := by
  simp only [bumpWindow, h]

/-- The rule that the loop reports is a rule of the list whose raised count exceeds its limit;
its window holds that count, and `retryAfter` is computed from that window. -/
theorem hitRules_rejecting_rule (now : Int) :
    ∀ (rules : List Rule) (ws : String → Option Window) (ra : Int) (q : Rule),
      (rules.map Rule.key).Nodup → (hitRules now rules ws).2 = some (ra, q) →
      q ∈ rules ∧ q.limit < (bumpWindow now q ws).count ∧
        (hitRules now rules ws).1 q.key = some (bumpWindow now q ws) ∧
        ra = max 1 (ceilDiv1000 ((bumpWindow now q ws).start + q.windowMs - now)) := by
  intro rules
  induction rules with
  | nil => intro ws ra q _ h; cases h
  | cons p ps ih =>
    intro ws ra q hnd h
    simp only [List.map_cons, List.nodup_cons] at hnd
    simp only [hitRules] at h ⊢
    split at h
    · rename_i hgt
      simp only [Option.some.injEq, Prod.mk.injEq] at h
      obtain ⟨h1, h2⟩ := h
      subst h2
      rw [if_pos hgt]
      exact ⟨List.mem_cons_self _ _, hgt, setKey_same _ _ _, h1.symm⟩
    · rename_i hle
      rw [if_neg hle]
      obtain ⟨k1, k2, k3, k4⟩ := ih _ ra q hnd.2 h
      have hkey : q.key ≠ p.key := by
        intro e
        exact hnd.1 (e ▸ List.mem_map_of_mem Rule.key k1)
      have hb := bumpWindow_congr now q (setKey ws p.key (bumpWindow now p ws)) ws
        (setKey_other _ _ _ _ hkey)
      rw [hb] at k2 k3 k4
      exact ⟨List.mem_cons_of_mem _ k1, k2, k3, k4⟩

/-- Two rules of a list with distinct keys that share a key are the same rule. -/
theorem rule_eq_of_key_eq : ∀ (rules : List Rule) (p q : Rule),
    (rules.map Rule.key).Nodup → p ∈ rules → q ∈ rules → p.key = q.key → p = q := by
  intro rules
  induction rules with
  | nil => intro p q _ hp; cases hp
  | cons x xs ih =>
    intro p q hnd hp hq hk
    simp only [List.map_cons, List.nodup_cons] at hnd
    rcases List.mem_cons.1 hp with h1 | h1 <;> rcases List.mem_cons.1 hq with h2 | h2
    · rw [h1, h2]
    · exact absurd (by rw [← h1, hk]; exact List.mem_map_of_mem Rule.key h2) hnd.1
    · exact absurd (by rw [← h2, ← hk]; exact List.mem_map_of_mem Rule.key h1) hnd.1
    · exact ih p q hnd.2 h1 h2 hk

/-- What a rejected call leaves behind: the IP is not blank, the loop reported the rule, and
the record holds the windows of the loop. -/
theorem hitRateLimit_rejected (s : Limiters) (which : LimiterId) (ip : String)
    (rules : List Rule) (now : Int)
    (hrej : (hitRateLimit s which ip rules now).1.ok = false) :
    jsTrim ip ≠ "" ∧
    ∃ ra q, (hitRules now rules
        (ensureLimiterRec (s.get which) (jsTrim ip) rules now).windows).2 = some (ra, q) ∧
      (hitRateLimit s which ip rules now).1 = ⟨false, ra, some q⟩ ∧
      (hitRateLimit s which ip rules now).2.get which (jsTrim ip) = some ⟨now, (hitRules now
        rules (ensureLimiterRec (s.get which) (jsTrim ip) rules now).windows).1⟩ := by
  revert hrej
  simp only [hitRateLimit]
  split
  · intro h; cases h
  · rename_i hip
    split
    · rename_i ra q h
      intro _
      refine ⟨hip, ra, q, h, rfl, ?_⟩
      show (s.set which _).get which (jsTrim ip) = _
      rw [Limiters.get_set]; exact setKey_same _ _ _
    · intro h; cases h

/-- The result of a call from a non-blank IP in terms of the rule loop. -/
theorem hitRateLimit_result (s : Limiters) (which : LimiterId) (ip : String)
    (rules : List Rule) (now : Int) (hip : jsTrim ip ≠ "") :
    (hitRateLimit s which ip rules now).1 =
      match (hitRules now rules
        (ensureLimiterRec (s.get which) (jsTrim ip) rules now).windows).2 with
      | some (ra, q) => ⟨false, ra, some q⟩
      | none => ⟨true, 0, none⟩ := by
  simp only [hitRateLimit, hip, if_false]
  split <;> rename_i h <;> simp [h]

/-! ## base64 -/

theorem sextets_lt : ∀ (bs : List Byte), ∀ x ∈ sextets bs, x < 64 := by
  intro bs
  induction bs using sextets.induct with
  | case1 a b c rest ih =>
    intro x hx
    simp only [sextets, List.mem_cons] at hx
    have := a.isLt; have := b.isLt; have := c.isLt
    rcases hx with h | h | h | h | h
    · omega
    · omega
    · omega
    · omega
    · exact ih x h
  | case2 a b =>
    intro x hx
    simp only [sextets, List.mem_cons, List.not_mem_nil, or_false] at hx
    have := a.isLt; have := b.isLt
    rcases hx with h | h | h
    · omega
    · omega
    · omega
  | case3 a =>
    intro x hx
    simp only [sextets, List.mem_cons, List.not_mem_nil, or_false] at hx
    have := a.isLt
    rcases hx with h | h
    · omega
    · omega
  | case4 => intro x hx; simp [sextets] at hx

theorem fromSextets_sextets : ∀ (bs : List Byte), fromSextets (sextets bs) = bs := by
  intro bs
  induction bs using sextets.induct with
  | case1 a b c rest ih =>
    simp only [sextets, fromSextets, ih]
    have := a.isLt; have := b.isLt; have := c.isLt
    congr 1
    · apply Fin.ext; simp only [byte]; omega
    · congr 1
      · apply Fin.ext; simp only [byte]; omega
      · congr 1
        apply Fin.ext; simp only [byte]; omega
  | case2 a b =>
    simp only [sextets, fromSextets]
    have := a.isLt; have := b.isLt
    congr 1
    · apply Fin.ext; simp only [byte]; omega
    · congr 1
      apply Fin.ext; simp only [byte]; omega
  | case3 a =>
    simp only [sextets, fromSextets]
    have := a.isLt
    congr 1
    apply Fin.ext; simp only [byte]; omega
  | case4 => rfl

/-- What the encoder writes: the digits of the sextets, then padding. -/
theorem toBase64_eq : ∀ (bs : List Byte),
    ∃ k, toBase64 bs = (sextets bs).map base64Char ++ List.replicate k '=' := by
  intro bs
  induction bs using sextets.induct with
  | case1 a b c rest ih =>
    obtain ⟨k, hk⟩ := ih
    exact ⟨k, by simp only [toBase64, sextets, hk, List.map_cons, List.cons_append]⟩
  | case2 a b => exact ⟨1, by simp [toBase64, sextets]⟩
  | case3 a => exact ⟨2, by simp [toBase64, sextets]⟩
  | case4 => exact ⟨0, by simp [toBase64, sextets]⟩

theorem base64Char_facts : ∀ n : Fin 64,
    urlSafe (base64Char n.val) ≠ '=' ∧ isBase64UrlChar (urlSafe (base64Char n.val)) = true ∧
    urlUnsafe (urlSafe (base64Char n.val)) ≠ '=' ∧
    base64Value (urlUnsafe (urlSafe (base64Char n.val))) = some n.val := by
  decide

theorem base64Char_facts_of_lt (n : Nat) (h : n < 64) :
    urlSafe (base64Char n) ≠ '=' ∧ isBase64UrlChar (urlSafe (base64Char n)) = true ∧
    urlUnsafe (urlSafe (base64Char n)) ≠ '=' ∧
    base64Value (urlUnsafe (urlSafe (base64Char n))) = some n :=
  base64Char_facts ⟨n, h⟩

theorem replaceChar_urlSafe (cs : List Char) :
    replaceChar '/' '_' (replaceChar '+' '-' cs) = cs.map urlSafe := by
  simp only [replaceChar, List.map_map]
  rfl

theorem replaceChar_urlUnsafe (cs : List Char) :
    replaceChar '_' '/' (replaceChar '-' '+' cs) = cs.map urlUnsafe := by
  simp only [replaceChar, List.map_map]
  rfl

theorem dropWhile_replicate_append {α : Type} (p : α → Bool) (x : α) (hx : p x = true)
    (l : List α) (hl : ∀ y, l.head? = some y → p y = false) :
    ∀ k, (List.replicate k x ++ l).dropWhile p = l := by
  intro k
  induction k with
  | zero =>
    cases l with
    | nil => rfl
    | cons y ys =>
      have := hl y rfl
      simp [List.dropWhile, this]
  | succ k ih =>
    simp only [List.replicate_succ, List.cons_append, List.dropWhile_cons, hx, if_true]
    exact ih

theorem stripTrailingEq_append (l : List Char) (hl : ∀ c ∈ l, c ≠ '=') (k : Nat) :
    stripTrailingEq (l ++ List.replicate k '=') = l := by
  unfold stripTrailingEq
  rw [List.reverse_append, List.reverse_replicate]
  rw [dropWhile_replicate_append (fun c => c == '=') '=' (by decide) l.reverse ?_ k]
  · exact List.reverse_reverse l
  · intro y hy
    have hmem : y ∈ l := by
      have : y ∈ l.reverse := List.mem_of_mem_head? hy
      exact List.mem_reverse.1 this
    simpa using hl y hmem

/-- The text `base64urlEncode` returns: the URL-safe digits of the sextets. -/
theorem base64urlEncode_data (bs : List Byte) :
    (base64urlEncode bs).data = (sextets bs).map (fun n => urlSafe (base64Char n)) := by
  obtain ⟨k, hk⟩ := toBase64_eq bs
  have hpad : (List.replicate k '=').map urlSafe = List.replicate k '=' := by
    rw [List.map_replicate]; rfl
  simp only [base64urlEncode, replaceChar_urlSafe, hk, List.map_append, List.map_map, hpad]
  apply stripTrailingEq_append
  intro c hc
  obtain ⟨n, hn, rfl⟩ := List.mem_map.1 hc
  exact (base64Char_facts_of_lt n (sextets_lt bs n hn)).1

theorem takeWhile_append_replicate {α : Type} (p : α → Bool) (x : α) (hx : p x = false) :
    ∀ (l : List α), (∀ y ∈ l, p y = true) → ∀ k,
      (l ++ List.replicate k x).takeWhile p = l := by
  intro l
  induction l with
  | nil =>
    intro _ k
    cases k with
    | zero => rfl
    | succ k => simp [List.replicate_succ, List.takeWhile, hx]
  | cons y ys ih =>
    intro h k
    have hy := h y (List.mem_cons_self _ _)
    simp only [List.cons_append, List.takeWhile_cons, hy, if_true]
    rw [ih (fun z hz => h z (List.mem_cons_of_mem _ hz)) k]

theorem filterMap_map_some {α β : Type} (f : α → Option β) (g : β → α) :
    ∀ (l : List β), (∀ n ∈ l, f (g n) = some n) → (l.map g).filterMap f = l := by
  intro l
  induction l with
  | nil => intro _; rfl
  | cons n ns ih =>
    intro h
    simp only [List.map_cons, List.filterMap_cons, h n (List.mem_cons_self _ _)]
    rw [ih (fun m hm => h m (List.mem_cons_of_mem _ hm))]

theorem fromBase64_digits (ns : List Nat) (h : ∀ n ∈ ns, n < 64) (k : Nat) :
    fromBase64 (ns.map (fun n => urlUnsafe (urlSafe (base64Char n))) ++ List.replicate k '=')
      = fromSextets ns := by
  unfold fromBase64
  rw [takeWhile_append_replicate (fun c => c != '=') '=' (by decide)]
  · rw [filterMap_map_some base64Value (fun n => urlUnsafe (urlSafe (base64Char n)))]
    intro n hn
    exact (base64Char_facts_of_lt n (h n hn)).2.2.2
  · intro y hy
    obtain ⟨n, hn, hy2⟩ := List.mem_map.1 hy
    have h3 := (base64Char_facts_of_lt n (h n hn)).2.2.1
    rw [← hy2]
    simp only [bne_iff_ne, ne_eq]
    exact h3

/-- Decoding what `base64urlEncode` wrote gives the octets back. -/
theorem base64url_roundtrip (bs : List Byte) :
    base64urlDecodeToBuffer (base64urlEncode bs) = bs := by
  unfold base64urlDecodeToBuffer
  simp only [replaceChar_urlUnsafe, base64urlEncode_data, List.map_map, Function.comp_def]
  rw [fromBase64_digits _ (sextets_lt bs)]
  exact fromSextets_sextets bs

/-- Every character of an encoding is a URL-safe base64 digit. -/
theorem base64urlEncode_chars (bs : List Byte) :
    ∀ c ∈ (base64urlEncode bs).data, isBase64UrlChar c = true := by
  intro c hc
  rw [base64urlEncode_data] at hc
  obtain ⟨n, hn, rfl⟩ := List.mem_map.1 hc
  exact (base64Char_facts_of_lt n (sextets_lt bs n hn)).2.1

/-! ## Token text: splitting and trimming -/

theorem isBase64UrlChar_facts : ∀ n : Fin 128,
    isBase64UrlChar (Char.ofNat n.val) = true →
      Char.ofNat n.val ≠ '.' ∧ isJsWhitespace (Char.ofNat n.val) = false := by
  decide

theorem isBase64UrlChar_lt (c : Char) (h : isBase64UrlChar c = true) : c.toNat < 128 := by
  simp only [isBase64UrlChar, Bool.or_eq_true, Bool.and_eq_true, decide_eq_true_eq,
    beq_iff_eq] at h
  rcases h with (((h | h) | h) | h) | h
  · omega
  · omega
  · omega
  · rw [h]; decide
  · rw [h]; decide

theorem isBase64UrlChar_not_dot (c : Char) (h : isBase64UrlChar c = true) :
    c ≠ '.' ∧ isJsWhitespace c = false := by
  have hlt := isBase64UrlChar_lt c h
  have hc : Char.ofNat c.toNat = c := Char.ofNat_toNat c
  have := isBase64UrlChar_facts ⟨c.toNat, hlt⟩
  simp only [hc] at this
  exact this h

theorem splitChars_clean (sep : Char) : ∀ (a : List Char), sep ∉ a →
    splitChars sep a = [a] := by
  intro a
  induction a with
  | nil => intro _; rfl
  | cons c cs ih =>
    intro h
    simp only [List.mem_cons, not_or] at h
    have hc : c ≠ sep := fun e => h.1 e.symm
    simp only [splitChars, hc, if_false, ih h.2]

theorem splitChars_ne_nil (sep : Char) : ∀ (l : List Char), splitChars sep l ≠ [] := by
  intro l
  induction l with
  | nil => simp [splitChars]
  | cons c cs ih =>
    simp only [splitChars]
    split
    · simp
    · split <;> simp

theorem splitChars_append (sep : Char) : ∀ (a rest : List Char), sep ∉ a →
    splitChars sep (a ++ sep :: rest) = a :: splitChars sep rest := by
  intro a
  induction a with
  | nil => intro rest _; simp [splitChars]
  | cons c cs ih =>
    intro rest h
    simp only [List.mem_cons, not_or] at h
    have hc : c ≠ sep := fun e => h.1 e.symm
    have e : splitChars sep ((c :: cs) ++ sep :: rest)
        = match splitChars sep (cs ++ sep :: rest) with
          | [] => [[c]]
          | x :: xs => (c :: x) :: xs := by
      simp only [List.cons_append, splitChars, hc, if_false]
      rfl
    rw [e, ih rest h.2]

theorem dropWhile_all_false {α : Type} (p : α → Bool) :
    ∀ (l : List α), (∀ x ∈ l, p x = false) → l.dropWhile p = l := by
  intro l h
  cases l with
  | nil => rfl
  | cons x xs => simp [List.dropWhile, h x (List.mem_cons_self _ _)]

theorem trimChars_clean (l : List Char) (h : ∀ c ∈ l, isJsWhitespace c = false) :
    trimChars l = l := by
  unfold trimChars
  rw [dropWhile_all_false _ l h, dropWhile_all_false _ l.reverse ?_, List.reverse_reverse]
  intro c hc
  exact h c (List.mem_reverse.1 hc)

theorem timingSafeEqualStr_self (a : String) : timingSafeEqualStr a a = true := by
  simp [timingSafeEqualStr]

/-- The text of a signed token: header, payload and signature digits, separated by dots. -/
theorem jwtSign_data (R : Runtime) (payload : Json) (secret : String) :
    (jwtSign R payload secret).data =
      (base64urlEncode (utf8Encode (R.jsonStringify jwtHeader))).data ++ '.' ::
        ((base64urlEncode (utf8Encode (R.jsonStringify payload))).data ++ '.' ::
          (base64urlEncode (R.hmacSha256 secret
            (base64urlEncode (utf8Encode (R.jsonStringify jwtHeader)) ++ "." ++
              base64urlEncode (utf8Encode (R.jsonStringify payload))))).data) := by
  simp only [jwtSign, String.data_append, List.append_assoc]
  rfl

theorem base64urlEncode_no_dot (bs : List Byte) : '.' ∉ (base64urlEncode bs).data := by
  intro h
  exact (isBase64UrlChar_not_dot '.' (base64urlEncode_chars bs '.' h)).1 rfl

/-- A signed token has no white space at its ends and splits into its three parts. -/
theorem jwtSign_parts (R : Runtime) (payload : Json) (secret : String) :
    jsTrim (jwtSign R payload secret) = jwtSign R payload secret ∧
    splitDot (jwtSign R payload secret) =
      [base64urlEncode (utf8Encode (R.jsonStringify jwtHeader)),
       base64urlEncode (utf8Encode (R.jsonStringify payload)),
       base64urlEncode (R.hmacSha256 secret
         (base64urlEncode (utf8Encode (R.jsonStringify jwtHeader)) ++ "." ++
           base64urlEncode (utf8Encode (R.jsonStringify payload))))] := by
  constructor
  · unfold jsTrim
    rw [trimChars_clean]
    intro c hc
    rw [jwtSign_data] at hc
    simp only [List.mem_append, List.mem_cons] at hc
    rcases hc with h | h | h | h | h
    · exact (isBase64UrlChar_not_dot c (base64urlEncode_chars _ c h)).2
    · rw [h]; decide
    · exact (isBase64UrlChar_not_dot c (base64urlEncode_chars _ c h)).2
    · rw [h]; decide
    · exact (isBase64UrlChar_not_dot c (base64urlEncode_chars _ c h)).2
  · unfold splitDot
    rw [jwtSign_data, splitChars_append _ _ _ (base64urlEncode_no_dot _),
      splitChars_append _ _ _ (base64urlEncode_no_dot _),
      splitChars_clean _ _ (base64urlEncode_no_dot _)]
    rfl

/-- Verification of a freshly signed token, for a runtime whose JSON and UTF-8 built-ins give
the payload back: the payload unless it has expired. -/
theorem jwtVerify_jwtSign_eq (R : Runtime) (payload : Json) (secret : String) (now : Int)
    (hrt : R.jsonParse (R.utf8Decode (utf8Encode (R.jsonStringify payload))) = some payload)
    (hobj : payload.isObject = true) :
    jwtVerify R (jwtSign R payload secret) secret now =
      if tokenExp R payload ≠ 0 ∧ now > tokenExp R payload * 1000 then none
      else some payload := by
  obtain ⟨h1, h2⟩ := jwtSign_parts R payload secret
  unfold jwtVerify
  simp only [h1, h2, timingSafeEqualStr_self, Bool.not_true, Bool.false_eq_true, if_false,
    base64url_roundtrip, hrt, hobj]

/-! ## Admin tokens: what verification checks -/

/-- What `jwtVerify` checks, in order: three parts, the signature over the first two, a JSON
object as payload, and `exp` (when it is a non-zero number) not yet passed. -/
theorem jwtVerify_eq_some_iff (R : Runtime) (token secret : String) (now : Int)
    (payload : Json) :
    jwtVerify R token secret now = some payload ↔
      ∃ h p sig, splitDot (jsTrim token) = [h, p, sig] ∧
        timingSafeEqualStr sig (base64urlEncode (R.hmacSha256 secret (h ++ "." ++ p))) = true ∧
        R.jsonParse (R.utf8Decode (base64urlDecodeToBuffer p)) = some payload ∧
        payload.isObject = true ∧
        ¬ (tokenExp R payload ≠ 0 ∧ now > tokenExp R payload * 1000) := by
  simp only [jwtVerify]
  constructor
  · intro hv
    split at hv
    · rename_i h p sig hsplit
      refine ⟨h, p, sig, hsplit, ?_⟩
      split at hv
      · cases hv
      · rename_i hsig
        split at hv
        · cases hv
        · rename_i pl hparse
          split at hv
          · cases hv
          · rename_i hobj
            split at hv
            · cases hv
            · rename_i hexp
              simp only [Option.some.injEq] at hv
              subst hv
              refine ⟨by simpa using hsig, hparse, by simpa using hobj, hexp⟩
    · cases hv
  · rintro ⟨h, p, sig, hsplit, hsig, hparse, hobj, hexp⟩
    simp only [hsplit, hsig, hparse, hobj, Bool.not_true, Bool.false_eq_true, if_false]
    simp only [hexp, if_false]

/-- The result of `jwtVerify` depends on the clock only through expiry. -/
theorem jwtVerify_other_time (R : Runtime) (token secret : String) (now now2 : Int)
    (payload payload2 : Json) (h1 : jwtVerify R token secret now = some payload)
    (h2 : jwtVerify R token secret now2 = some payload2) : payload2 = payload := by
  obtain ⟨h, p, sig, a1, _, a3, _, _⟩ := (jwtVerify_eq_some_iff R token secret now payload).1 h1
  obtain ⟨h', p', sig', b1, _, b3, _, _⟩ :=
    (jwtVerify_eq_some_iff R token secret now2 payload2).1 h2
  rw [a1] at b1
  simp only [List.cons.injEq, and_true] at b1
  obtain ⟨_, e, _⟩ := b1
  subst e
  rw [a3] at b3
  simp only [Option.some.injEq] at b3
  exact b3.symm

/-- What `isAdmin` checks: a non-empty token, a secret of at least 24 code units, a payload
that `jwtVerify` returns, `sub`, `iss` and `aud` equal to the expected strings, and a truthy
`sid` whose string form is the current session id. -/
theorem isAdmin_eq_true_iff (R : Runtime) (secret sid token : String) (now : Int) :
    isAdmin R secret sid token now = true ↔
      token ≠ "" ∧ secret ≠ "" ∧ 24 ≤ utf16Length secret ∧
      ∃ payload, jwtVerify R token secret now = some payload ∧
        jsIsString (payload.get "sub") "admin" = true ∧
        jsIsString (payload.get "iss") ADMIN_JWT_ISSUER = true ∧
        jsIsString (payload.get "aud") ADMIN_JWT_AUDIENCE = true ∧
        ∃ v, payload.get "sid" = some v ∧ jsTruthy (some v) = true ∧ jsToString v = sid := by
  unfold isAdmin
  constructor
  · intro h
    split at h
    · cases h
    · rename_i htok
      split at h
      · cases h
      · rename_i hsec
        simp only [not_or, not_lt] at hsec
        split at h
        · cases h
        · rename_i payload hv
          refine ⟨htok, hsec.1, hsec.2, payload, hv, ?_⟩
          split at h
          · cases h
          · rename_i hsub
            split at h
            · cases h
            · rename_i hiss
              split at h
              · cases h
              · rename_i haud
                split at h
                · cases h
                · rename_i hsid
                  simp only [Bool.not_eq_true, Bool.not_eq_eq_eq_not, Bool.not_true,
                    Bool.not_false] at hsub hiss haud
                  refine ⟨by simpa using hsub, by simpa using hiss, by simpa using haud, ?_⟩
                  cases hget : payload.get "sid" with
                  | none => simp [hget, jsTruthy] at hsid
                  | some v =>
                    simp only [hget, Bool.or_eq_true, Bool.not_eq_true', not_or,
                      Bool.not_eq_false, bne_iff_ne, ne_eq, Decidable.not_not] at hsid
                    exact ⟨v, rfl, hsid.1, hsid.2⟩
  · rintro ⟨htok, hsec, hlen, payload, hv, hsub, hiss, haud, v, hget, htr, hstr⟩
    have hsec2 : ¬ (secret = "" ∨ utf16Length secret < 24) := by
      simp only [not_or, not_lt]; exact ⟨hsec, hlen⟩
    simp only [htok, hsec2, if_false, hv, hsub, hiss, haud, hget, htr, hstr, Bool.not_true,
      Bool.false_eq_true, bne_self_eq_false, Bool.or_self]

theorem jwtSign_ne_empty (R : Runtime) (payload : Json) (secret : String) :
    jwtSign R payload secret ≠ "" := by
  intro h
  have := congrArg String.data h
  rw [jwtSign_data] at this
  simp at this

/-- The verdict of `isAdmin` on a freshly signed token, for a runtime whose JSON and UTF-8
built-ins give the payload back. -/
theorem isAdmin_jwtSign_iff (R : Runtime) (secret sid : String) (payload : Json) (now : Int)
    (hrt : R.jsonParse (R.utf8Decode (utf8Encode (R.jsonStringify payload))) = some payload)
    (hobj : payload.isObject = true) :
    isAdmin R secret sid (jwtSign R payload secret) now = true ↔
      secret ≠ "" ∧ 24 ≤ utf16Length secret ∧
      ¬ (tokenExp R payload ≠ 0 ∧ now > tokenExp R payload * 1000) ∧
      jsIsString (payload.get "sub") "admin" = true ∧
      jsIsString (payload.get "iss") ADMIN_JWT_ISSUER = true ∧
      jsIsString (payload.get "aud") ADMIN_JWT_AUDIENCE = true ∧
      ∃ v, payload.get "sid" = some v ∧ jsTruthy (some v) = true ∧ jsToString v = sid := by
  rw [isAdmin_eq_true_iff, jwtVerify_jwtSign_eq R payload secret now hrt hobj]
  constructor
  · rintro ⟨_, h2, h3, pl, h4, h5⟩
    split at h4
    · cases h4
    · rename_i hexp
      simp only [Option.some.injEq] at h4
      subst h4
      exact ⟨h2, h3, hexp, h5⟩
  · rintro ⟨h2, h3, hexp, h5⟩
    exact ⟨jwtSign_ne_empty R payload secret, h2, h3, payload, by simp only [hexp, if_false], h5⟩

/-! ## C5 -/

/-- C5. Token round trip: for every secret and every payload that is a JSON object, that the
JSON and UTF-8 built-ins of the runtime give back from its text, and that is unexpired at
verification time, `jwtVerify(jwtSign(payload, secret), secret)` returns the payload that was
signed. -/
theorem jwtVerify_jwtSign_roundtrip (R : Runtime) (secret : String) (payload : Json)
    (now : Int) (hobj : payload.isObject = true)
    (hrt : R.jsonParse (R.utf8Decode (utf8Encode (R.jsonStringify payload))) = some payload)
    (hunexpired : ¬ (tokenExp R payload ≠ 0 ∧ now > tokenExp R payload * 1000)) :
    jwtVerify R (jwtSign R payload secret) secret now = some payload := by
  rw [jwtVerify_jwtSign_eq R payload secret now hrt hobj]
  simp only [hunexpired, if_false]

/-- C5 at the reference runtime, for the payload of an admin login. -/
theorem jwtVerify_jwtSign_roundtrip_witness :
    jwtVerify refRuntime
      (jwtSign refRuntime (adminTokenPayload "c2Vzc2lvbg" 1000 7) "0123456789abcdef01234567")
      "0123456789abcdef01234567" 5000000 = some (adminTokenPayload "c2Vzc2lvbg" 1000 7) :=
  jwtVerify_jwtSign_roundtrip refRuntime "0123456789abcdef01234567"
    (adminTokenPayload "c2Vzc2lvbg" 1000 7) 5000000 rfl (by rfl) (by decide)

/-! ## C7 -/

/-- C7 as stated fails: a token presented exactly at its `exp` instant is accepted, and so is
a token that carries no `exp` at all. -/
theorem isAdmin_accepts_at_exp_and_without_exp :
    isAdmin refRuntime "0123456789abcdef01234567" "c2Vzc2lvbg"
      (jwtSign refRuntime (adminTokenPayload "c2Vzc2lvbg" 1000 7) "0123456789abcdef01234567")
      ((1000 + 7 * 24 * 3600) * 1000) = true ∧
    isAdmin refRuntime "0123456789abcdef01234567" "c2Vzc2lvbg"
      (jwtSign refRuntime
        (.obj [("sub", .str "admin"), ("sid", .str "c2Vzc2lvbg"), ("iss", .str "staszek-backend"),
          ("aud", .str "staszek-admin")]) "0123456789abcdef01234567")
      4102444800000 = true := by
  constructor
  · exact (isAdmin_jwtSign_iff refRuntime "0123456789abcdef01234567" "c2Vzc2lvbg"
      (adminTokenPayload "c2Vzc2lvbg" 1000 7) ((1000 + 7 * 24 * 3600) * 1000) (by rfl) rfl).2
      ⟨by decide, by decide, by decide, rfl, rfl, rfl, _, rfl, by decide, rfl⟩
  · exact (isAdmin_jwtSign_iff refRuntime "0123456789abcdef01234567" "c2Vzc2lvbg"
      (.obj [("sub", .str "admin"), ("sid", .str "c2Vzc2lvbg"), ("iss", .str "staszek-backend"),
        ("aud", .str "staszek-admin")]) 4102444800000 (by rfl) rfl).2
      ⟨by decide, by decide, by decide, rfl, rfl, rfl, _, rfl, by decide, rfl⟩

/-- C7, amended. `isAdmin` accepts a token exactly when the token and the secret are
non-empty, the secret has at least 24 code units, the token has three parts of which the
third is the signature over the first two, the payload is a JSON object whose `sub`, `iss` and
`aud` are the expected strings and whose `sid` is truthy with the current session id as its
string form, and the payload has no (or a zero or non-numeric) `exp` or the current time in
seconds is at most `exp`. -/
theorem isAdmin_accepts_iff (R : Runtime) (secret sid token : String) (now : Int) :
    isAdmin R secret sid token now = true ↔
      token ≠ "" ∧ secret ≠ "" ∧ 24 ≤ utf16Length secret ∧
      ∃ h p sig payload, splitDot (jsTrim token) = [h, p, sig] ∧
        timingSafeEqualStr sig (base64urlEncode (R.hmacSha256 secret (h ++ "." ++ p))) = true ∧
        R.jsonParse (R.utf8Decode (base64urlDecodeToBuffer p)) = some payload ∧
        payload.isObject = true ∧
        jsIsString (payload.get "sub") "admin" = true ∧
        jsIsString (payload.get "iss") ADMIN_JWT_ISSUER = true ∧
        jsIsString (payload.get "aud") ADMIN_JWT_AUDIENCE = true ∧
        (∃ v, payload.get "sid" = some v ∧ jsTruthy (some v) = true ∧ jsToString v = sid) ∧
        (tokenExp R payload = 0 ∨ now ≤ tokenExp R payload * 1000) := by
  rw [isAdmin_eq_true_iff]
  constructor
  · rintro ⟨h1, h2, h3, payload, hv, h5, h6, h7, h8⟩
    obtain ⟨h, p, sig, a1, a2, a3, a4, a5⟩ :=
      (jwtVerify_eq_some_iff R token secret now payload).1 hv
    refine ⟨h1, h2, h3, h, p, sig, payload, a1, a2, a3, a4, h5, h6, h7, h8, ?_⟩
    by_cases h0 : tokenExp R payload = 0
    · left; exact h0
    · right
      by_contra hlt
      exact a5 ⟨h0, by omega⟩
  · rintro ⟨h1, h2, h3, h, p, sig, payload, a1, a2, a3, a4, h5, h6, h7, h8, h9⟩
    refine ⟨h1, h2, h3, payload, ?_, h5, h6, h7, h8⟩
    refine (jwtVerify_eq_some_iff R token secret now payload).2 ⟨h, p, sig, a1, a2, a3, a4, ?_⟩
    rintro ⟨hne, hgt⟩
    rcases h9 with h0 | hle
    · exact hne h0
    · omega

/-! ## UTF-8 is injective -/

theorem byte_val (n : Nat) : (byte n).val = n % 256 := rfl

theorem char_toNat_lt (c : Char) : c.toNat < 0x110000 := by
  have h := c.valid
  simp only [UInt32.isValidChar, Nat.isValidChar] at h
  have : c.toNat = c.val.toNat := rfl
  omega

theorem char_eq_of_toNat_eq (c d : Char) (h : c.toNat = d.toNat) : c = d := by
  rw [← Char.ofNat_toNat c, ← Char.ofNat_toNat d, h]

/-- The encodings of two code points, each followed by further octets, agree only if the code
points agree. -/
theorem utf8EncodeChar_append_inj (c d : Char) (x y : List Byte)
    (h : utf8EncodeChar c ++ x = utf8EncodeChar d ++ y) : c = d ∧ x = y := by
  have hc := char_toNat_lt c
  have hd := char_toNat_lt d
  unfold utf8EncodeChar at h
  simp only at h
  split at h <;> split at h <;> (try split at h) <;> (try split at h) <;> (try split at h) <;>
    (try split at h) <;>
    simp only [List.cons_append, List.nil_append, List.cons.injEq, Fin.ext_iff, byte_val] at h <;>
    first
    | (refine ⟨char_eq_of_toNat_eq c d (by omega), ?_⟩
       first
       | exact h.2
       | exact h.2.2
       | exact h.2.2.2
       | exact h.2.2.2.2)
    | (exfalso; omega)

theorem utf8Encode_inj : ∀ (a b : List Char),
    a.flatMap utf8EncodeChar = b.flatMap utf8EncodeChar → a = b := by
  intro a
  induction a with
  | nil =>
    intro b h
    cases b with
    | nil => rfl
    | cons d ds =>
      exfalso
      simp only [List.flatMap_nil, List.flatMap_cons] at h
      have := congrArg List.length h
      simp only [List.length_nil, List.length_append] at this
      have hpos : 0 < (utf8EncodeChar d).length := by
        unfold utf8EncodeChar
        simp only
        split <;> (try split) <;> (try split) <;> simp
      omega
  | cons c cs ih =>
    intro b h
    cases b with
    | nil =>
      exfalso
      simp only [List.flatMap_nil, List.flatMap_cons] at h
      have := congrArg List.length h
      simp only [List.length_nil, List.length_append] at this
      have hpos : 0 < (utf8EncodeChar c).length := by
        unfold utf8EncodeChar
        simp only
        split <;> (try split) <;> (try split) <;> simp
      omega
    | cons d ds =>
      simp only [List.flatMap_cons] at h
      obtain ⟨h1, h2⟩ := utf8EncodeChar_append_inj c d _ _ h
      rw [h1, ih ds h2]

/-- The function `timingSafeEqualStr` answers true only for equal strings. -/
theorem timingSafeEqualStr_eq (a b : String) (h : timingSafeEqualStr a b = true) : a = b := by
  unfold timingSafeEqualStr at h
  simp only at h
  split at h
  · cases h
  · simp only [decide_eq_true_eq] at h
    have := utf8Encode_inj a.data b.data h
    exact String.ext this

/-! ## Parts of a token text -/

/-- The parts of a split, joined by the separator, are the text; no part holds the
separator. -/
theorem splitChars_join (sep : Char) : ∀ (l : List Char),
    List.intercalate [sep] (splitChars sep l) = l ∧ ∀ part ∈ splitChars sep l, sep ∉ part := by
  intro l
  induction l with
  | nil => simp [splitChars, List.intercalate]
  | cons c cs ih =>
    obtain ⟨ih1, ih2⟩ := ih
    by_cases hc : c = sep
    · subst hc
      have e : splitChars c (c :: cs) = [] :: splitChars c cs := by simp [splitChars]
      rw [e]
      constructor
      · cases hs : splitChars c cs with
        | nil => exact absurd hs (splitChars_ne_nil c cs)
        | cons x xs =>
          rw [hs] at ih1
          simp only [List.intercalate, List.intersperse, List.flatten, List.nil_append] at ih1 ⊢
          simp only [List.singleton_append]
          rw [ih1]
      · intro part hp
        rcases List.mem_cons.1 hp with h | h
        · rw [h]; simp
        · exact ih2 part h
    · cases hs : splitChars sep cs with
      | nil => exact absurd hs (splitChars_ne_nil sep cs)
      | cons x xs =>
        have e : splitChars sep (c :: cs) = (c :: x) :: xs := by simp [splitChars, hc, hs]
        rw [e]
        rw [hs] at ih1 ih2
        constructor
        · cases xs with
          | nil =>
            simp only [List.intercalate, List.intersperse, List.flatten, List.append_nil]
              at ih1 ⊢
            rw [ih1]
          | cons y ys =>
            simp only [List.intercalate, List.intersperse, List.flatten, List.cons_append]
              at ih1 ⊢
            rw [ih1]
        · intro part hp
          rcases List.mem_cons.1 hp with h | h
          · rw [h]
            intro hm
            rcases List.mem_cons.1 hm with h2 | h2
            · exact hc h2.symm
            · exact ih2 x (List.mem_cons_self _ _) h2
          · exact ih2 part (List.mem_cons_of_mem _ h)

/-- A text that splits into three parts is those parts with two dots between them. -/
theorem splitDot_three (s a b c : String) (h : splitDot s = [a, b, c]) :
    s.data = a.data ++ '.' :: (b.data ++ '.' :: c.data) ∧
    '.' ∉ a.data ∧ '.' ∉ b.data ∧ '.' ∉ c.data := by
  unfold splitDot at h
  obtain ⟨h1, h2⟩ := splitChars_join '.' s.data
  cases hs : splitChars '.' s.data with
  | nil => rw [hs] at h; cases h
  | cons x xs =>
    cases xs with
    | nil => rw [hs] at h; cases h
    | cons y ys =>
      cases ys with
      | nil => rw [hs] at h; cases h
      | cons z zs =>
        cases zs with
        | cons w ws => rw [hs] at h; simp at h
        | nil =>
          rw [hs] at h h1 h2
          simp only [List.map_cons, List.map_nil, List.cons.injEq, and_true] at h
          obtain ⟨ea, eb, ec⟩ := h
          subst ea; subst eb; subst ec
          refine ⟨?_, h2 x (by simp), h2 y (by simp), h2 z (by simp)⟩
          rw [← h1]
          simp [List.intercalate, List.intersperse, List.flatten]

/-- A text has one decomposition into a dot-free head, a dot and a rest. -/
theorem dot_decomp_unique : ∀ (a b x y : List Char), '.' ∉ a → '.' ∉ b →
    a ++ '.' :: x = b ++ '.' :: y → a = b ∧ x = y := by
  intro a
  induction a with
  | nil =>
    intro b x y _ hb h
    cases b with
    | nil => simp only [List.nil_append, List.cons.injEq, true_and] at h; exact ⟨rfl, h⟩
    | cons e es =>
      simp only [List.nil_append, List.cons_append, List.cons.injEq] at h
      exact absurd (by rw [← h.1]; exact List.mem_cons_self _ _) hb
  | cons c cs ih =>
    intro b x y ha hb h
    cases b with
    | nil =>
      simp only [List.nil_append, List.cons_append, List.cons.injEq] at h
      exact absurd (by rw [h.1]; exact List.mem_cons_self _ _) ha
    | cons e es =>
      simp only [List.cons_append, List.cons.injEq] at h
      obtain ⟨r1, r2⟩ := ih es x y (fun hm => ha (List.mem_cons_of_mem _ hm))
        (fun hm => hb (List.mem_cons_of_mem _ hm)) h.2
      exact ⟨by rw [h.1, r1], r2⟩

/-- Two texts that differ in one character which is not a dot, each cut at its first dot:
the heads agree and the rests differ in that character, or the rests agree and the heads
differ. -/
theorem dot_decomp_edit (c d : Char) (post : List Char) (hc : c ≠ '.') (hd : d ≠ '.')
    (hcd : c ≠ d) :
    ∀ (pre a b x y : List Char), '.' ∉ a → '.' ∉ b →
      a ++ '.' :: x = pre ++ c :: post → b ++ '.' :: y = pre ++ d :: post →
      (a = b ∧ ∃ pre2, x = pre2 ++ c :: post ∧ y = pre2 ++ d :: post) ∨ (x = y ∧ a ≠ b) := by
  intro pre
  induction pre with
  | nil =>
    intro a b x y ha hb h1 h2
    cases a with
    | nil =>
      simp only [List.nil_append, List.cons.injEq] at h1
      exact absurd h1.1.symm hc
    | cons e es =>
      cases b with
      | nil =>
        simp only [List.nil_append, List.cons.injEq] at h2
        exact absurd h2.1.symm hd
      | cons f fs =>
        simp only [List.nil_append, List.cons_append, List.cons.injEq] at h1 h2
        right
        obtain ⟨r1, r2⟩ := dot_decomp_unique es fs x y
          (fun hm => ha (List.mem_cons_of_mem _ hm)) (fun hm => hb (List.mem_cons_of_mem _ hm))
          (h1.2.trans h2.2.symm)
        refine ⟨r2, ?_⟩
        intro e2
        simp only [List.cons.injEq] at e2
        exact hcd (h1.1.symm.trans (e2.1.trans h2.1))
  | cons g gs ih =>
    intro a b x y ha hb h1 h2
    cases a with
    | nil =>
      simp only [List.nil_append, List.cons_append, List.cons.injEq] at h1
      cases b with
      | nil =>
        simp only [List.nil_append, List.cons_append, List.cons.injEq] at h2
        left
        exact ⟨rfl, gs, h1.2, h2.2⟩
      | cons f fs =>
        simp only [List.cons_append, List.cons.injEq] at h2
        exact absurd (by rw [h2.1, ← h1.1]; exact List.mem_cons_self _ _) hb
    | cons e es =>
      simp only [List.cons_append, List.cons.injEq] at h1
      cases b with
      | nil =>
        simp only [List.nil_append, List.cons_append, List.cons.injEq] at h2
        exact absurd (by rw [h1.1, ← h2.1]; exact List.mem_cons_self _ _) ha
      | cons f fs =>
        simp only [List.cons_append, List.cons.injEq] at h2
        rcases ih es fs x y (fun hm => ha (List.mem_cons_of_mem _ hm))
          (fun hm => hb (List.mem_cons_of_mem _ hm)) h1.2 h2.2 with ⟨r1, r2⟩ | ⟨r1, r2⟩
        · left
          exact ⟨by rw [h1.1, h2.1, r1], r2⟩
        · right
          refine ⟨r1, ?_⟩
          intro e2
          simp only [List.cons.injEq] at e2
          exact r2 e2.2

theorem splitChars_length (sep : Char) : ∀ (l : List Char),
    (splitChars sep l).length = l.count sep + 1 := by
  intro l
  induction l with
  | nil => simp [splitChars]
  | cons c cs ih =>
    by_cases hc : c = sep
    · subst hc
      simp [splitChars, ih]
    · cases hs : splitChars sep cs with
      | nil => exact absurd hs (splitChars_ne_nil sep cs)
      | cons x xs =>
        rw [hs] at ih
        have hne : (c == sep) = false := by simpa using hc
        simp only [splitChars, hc, if_false, hs, List.length_cons, List.count_cons, hne]
        simp only [List.length_cons] at ih
        simpa using ih

/-- Trimming a text that has white space at most at one position: nothing is removed, or
that position is the first and is removed, or it is the last and is removed. -/
theorem trimChars_one_suspect (pre post : List Char) (d : Char)
    (hpre : ∀ x ∈ pre, isJsWhitespace x = false)
    (hpost : ∀ x ∈ post, isJsWhitespace x = false) :
    trimChars (pre ++ d :: post) = pre ++ d :: post ∨
    (pre = [] ∧ trimChars (pre ++ d :: post) = post) ∨
    (post = [] ∧ trimChars (pre ++ d :: post) = pre) := by
  by_cases hd : isJsWhitespace d = true
  · cases pre with
    | nil =>
      right; left
      refine ⟨rfl, ?_⟩
      simp only [trimChars, List.nil_append, List.dropWhile_cons, hd, if_true]
      rw [dropWhile_all_false _ post hpost, dropWhile_all_false _ post.reverse ?_,
        List.reverse_reverse]
      intro x hx
      exact hpost x (List.mem_reverse.1 hx)
    | cons e es =>
      have he := hpre e (List.mem_cons_self _ _)
      have h1 : ((e :: es) ++ d :: post).dropWhile isJsWhitespace = (e :: es) ++ d :: post := by
        simp [List.dropWhile, he]
      rcases List.eq_nil_or_concat post with hp | ⟨init, z, hp⟩
      · right; right
        subst hp
        refine ⟨rfl, ?_⟩
        simp only [trimChars, h1]
        rw [List.reverse_append]
        simp only [List.reverse_cons, List.reverse_nil, List.nil_append, List.singleton_append,
          List.dropWhile_cons, hd, if_true]
        have hrev : ∀ x ∈ es.reverse ++ [e], isJsWhitespace x = false := by
          intro x hx
          apply hpre x
          simp only [List.mem_append, List.mem_reverse, List.mem_singleton] at hx
          rcases hx with h | h
          · exact List.mem_cons_of_mem _ h
          · rw [h]; exact List.mem_cons_self _ _
        rw [dropWhile_all_false _ _ hrev]
        simp
      · left
        rw [List.concat_eq_append] at hp
        subst hp
        have hz : isJsWhitespace z = false := hpost z (by simp)
        simp only [trimChars, h1]
        have hr : ((e :: es) ++ d :: (init ++ [z])).reverse
            = z :: ((e :: es) ++ d :: init).reverse := by
          simp [List.reverse_append]
        rw [hr]
        simp only [List.dropWhile_cons, hz, Bool.false_eq_true, if_false]
        rw [← hr, List.reverse_reverse]
  · left
    apply trimChars_clean
    intro x hx
    simp only [List.mem_append, List.mem_cons] at hx
    rcases hx with h | h | h
    · exact hpre x h
    · rw [h]; simpa using hd
    · exact hpost x h

/-! ## C6 -/

theorem jwtSign_no_whitespace (R : Runtime) (payload : Json) (secret : String) :
    ∀ c ∈ (jwtSign R payload secret).data, isJsWhitespace c = false := by
  intro c hc
  rw [jwtSign_data] at hc
  simp only [List.mem_append, List.mem_cons] at hc
  rcases hc with h | h | h | h | h
  · exact (isBase64UrlChar_not_dot c (base64urlEncode_chars _ c h)).2
  · rw [h]; decide
  · exact (isBase64UrlChar_not_dot c (base64urlEncode_chars _ c h)).2
  · rw [h]; decide
  · exact (isBase64UrlChar_not_dot c (base64urlEncode_chars _ c h)).2

theorem base64urlEncode_inj (a b : List Byte) (h : base64urlEncode a = base64urlEncode b) :
    a = b := by
  rw [← base64url_roundtrip a, ← base64url_roundtrip b, h]

theorem count_dot_three (a b c : List Char) (ha : '.' ∉ a) (hb : '.' ∉ b) (hc : '.' ∉ c) :
    (a ++ '.' :: (b ++ '.' :: c)).count '.' = 2 := by
  simp [List.count_append, List.count_cons, List.count_eq_zero_of_not_mem ha,
    List.count_eq_zero_of_not_mem hb, List.count_eq_zero_of_not_mem hc]

/-- How the three parts of a token text relate to the three parts of a text one character
and possibly one trimmed end away from it: the first two agree and the third differs, or one
of the first two differs and the third agrees. -/
theorem token_parts_after_edit (H P S h p s pre post : List Char) (c d : Char)
    (hH : '.' ∉ H) (hP : '.' ∉ P) (hS : '.' ∉ S) (hh : '.' ∉ h) (hp : '.' ∉ p)
    (hs : '.' ∉ s) (hcd : c ≠ d)
    (hws : ∀ x ∈ H ++ '.' :: (P ++ '.' :: S), isJsWhitespace x = false)
    (hT : H ++ '.' :: (P ++ '.' :: S) = pre ++ c :: post)
    (hu : trimChars (pre ++ d :: post) = h ++ '.' :: (p ++ '.' :: s)) :
    (h = H ∧ p = P ∧ s ≠ S) ∨ ((h ≠ H ∨ p ≠ P) ∧ s = S) := by
  have hpre : ∀ x ∈ pre, isJsWhitespace x = false := by
    intro x hx; apply hws; rw [hT]; exact List.mem_append_left _ hx
  have hpost : ∀ x ∈ post, isJsWhitespace x = false := by
    intro x hx; apply hws; rw [hT]
    exact List.mem_append_right _ (List.mem_cons_of_mem _ hx)
  rcases trimChars_one_suspect pre post d hpre hpost with hA | ⟨hpre0, hB⟩ | ⟨hpost0, hC⟩
  · -- nothing trimmed
    rw [hA] at hu
    have c1 := count_dot_three H P S hH hP hS
    have c2 := count_dot_three h p s hh hp hs
    rw [hT] at c1
    rw [← hu] at c2
    simp only [List.count_append, List.count_cons] at c1 c2
    have hcdot : c ≠ '.' := by
      intro e
      have hd1 : (d == '.') = false := by
        simp only [beq_eq_false_iff_ne, ne_eq]
        intro e2; exact hcd (e.trans e2.symm)
      simp only [e, beq_self_eq_true, if_true] at c1
      simp only [hd1, Bool.false_eq_true, if_false] at c2
      omega
    have hddot : d ≠ '.' := by
      intro e
      have hc1 : (c == '.') = false := by simpa using hcdot
      simp only [hc1, Bool.false_eq_true, if_false] at c1
      simp only [e, beq_self_eq_true, if_true] at c2
      omega
    rcases dot_decomp_edit c d post hcdot hddot hcd pre H h _ _ hH hh hT hu.symm with
      ⟨e1, pre2, e2, e3⟩ | ⟨e1, e2⟩
    · rcases dot_decomp_edit c d post hcdot hddot hcd pre2 P p _ _ hP hp e2 e3 with
        ⟨f1, pre3, f2, f3⟩ | ⟨f1, f2⟩
      · left
        refine ⟨e1.symm, f1.symm, ?_⟩
        intro e
        rw [f2, f3] at e
        have := List.append_cancel_left e
        simp only [List.cons.injEq] at this
        exact hcd this.1.symm
      · right
        exact ⟨Or.inr (fun e => f2 e.symm), f1.symm⟩
    · obtain ⟨g1, g2⟩ := dot_decomp_unique P p _ _ hP hp e1
      right
      exact ⟨Or.inl (fun e => e2 e.symm), g2.symm⟩
  · -- the first character was trimmed
    subst hpre0
    rw [hB] at hu
    simp only [List.nil_append] at hT
    rw [hu] at hT
    by_cases hcdot : c = '.'
    · exfalso
      subst hcdot
      obtain ⟨g1, g2⟩ := dot_decomp_unique H [] _ _ hH (by simp) hT
      obtain ⟨g3, g4⟩ := dot_decomp_unique P h _ _ hP hh g2
      exact hS (by rw [g4]; simp)
    · have hch : '.' ∉ c :: h := by
        intro hm
        rcases List.mem_cons.1 hm with e | e
        · exact hcdot e.symm
        · exact hh e
      obtain ⟨g1, g2⟩ := dot_decomp_unique H (c :: h) _ _ hH hch hT
      obtain ⟨g3, g4⟩ := dot_decomp_unique P p _ _ hP hp g2
      right
      refine ⟨Or.inl ?_, g4.symm⟩
      intro e
      rw [e] at g1
      have := congrArg List.length g1
      simp at this
  · -- the last character was trimmed
    subst hpost0
    rw [hC] at hu
    rw [hu] at hT
    have hT2 : H ++ '.' :: (P ++ '.' :: S) = h ++ '.' :: (p ++ '.' :: (s ++ [c])) := by
      rw [hT]; simp
    obtain ⟨g1, g2⟩ := dot_decomp_unique H h _ _ hH hh hT2
    obtain ⟨g3, g4⟩ := dot_decomp_unique P p _ _ hP hp g2
    left
    refine ⟨g1.symm, g3.symm, ?_⟩
    intro e
    rw [e] at g4
    have := congrArg List.length g4
    simp at this

/-- C6. Token tamper rejection: for every secret, every token produced by `jwtSign` and every
string that differs from it in exactly one bit, `jwtVerify` returns `null`, provided HMAC does
not give the text that the altered token presents for signing the digest of the text that was
signed. -/
theorem jwtVerify_rejects_one_bit_mutation (R : Runtime) (secret : String) (payload : Json)
    (t2 : String) (now : Int) (hbit : OneBitApart (jwtSign R payload secret) t2)
    (hmac : ∀ d, signedData t2 = some d → d ≠ jwtSigningInput R payload →
      R.hmacSha256 secret d ≠ R.hmacSha256 secret (jwtSigningInput R payload)) :
    jwtVerify R t2 secret now = none := by
  cases hv : jwtVerify R t2 secret now with
  | none => rfl
  | some pl =>
    exfalso
    obtain ⟨h, p, sig, hsplit, hsig, _, _, _⟩ := (jwtVerify_eq_some_iff R t2 secret now pl).1 hv
    have hsigeq := timingSafeEqualStr_eq _ _ hsig
    have hsd : signedData t2 = some (h ++ "." ++ p) := by simp only [signedData, hsplit]
    obtain ⟨hu, nh, np, ns⟩ := splitDot_three (jsTrim t2) h p sig hsplit
    obtain ⟨pre, c, d, post, hT, ht2, k, hk⟩ := hbit
    have hcd : c ≠ d := by
      intro e
      rw [e, Nat.xor_self] at hk
      have hpos : 0 < 2 ^ k := Nat.two_pow_pos k
      omega
    rw [jwtSign_data] at hT
    have hu2 : trimChars (pre ++ d :: post) = h.data ++ '.' :: (p.data ++ '.' :: sig.data) := by
      rw [← ht2]; exact hu
    have hws : ∀ x ∈ (base64urlEncode (utf8Encode (R.jsonStringify jwtHeader))).data ++ '.' ::
        ((base64urlEncode (utf8Encode (R.jsonStringify payload))).data ++ '.' ::
          (base64urlEncode (R.hmacSha256 secret
            (base64urlEncode (utf8Encode (R.jsonStringify jwtHeader)) ++ "." ++
              base64urlEncode (utf8Encode (R.jsonStringify payload))))).data),
        isJsWhitespace x = false := by
      have := jwtSign_no_whitespace R payload secret
      rw [jwtSign_data] at this
      exact this
    rcases token_parts_after_edit _ _ _ h.data p.data sig.data pre post c d
      (base64urlEncode_no_dot _) (base64urlEncode_no_dot _) (base64urlEncode_no_dot _)
      nh np ns hcd hws hT hu2 with ⟨e1, e2, e3⟩ | ⟨e1, e2⟩
    · -- same signed text, other signature
      have eh := String.ext e1
      have ep := String.ext e2
      rw [eh, ep] at hsigeq
      exact e3 (congrArg String.data hsigeq)
    · -- other signed text, same signature
      have hdne : h ++ "." ++ p ≠ jwtSigningInput R payload := by
        intro e
        have e' := congrArg String.data e
        simp only [jwtSigningInput, String.data_append] at e'
        have e'' : h.data ++ '.' :: p.data =
            (base64urlEncode (utf8Encode (R.jsonStringify jwtHeader))).data ++ '.' ::
              (base64urlEncode (utf8Encode (R.jsonStringify payload))).data := by
          simpa using e'
        obtain ⟨g1, g2⟩ := dot_decomp_unique _ _ _ _ nh (base64urlEncode_no_dot _) e''
        rcases e1 with e1 | e1
        · exact e1 g1
        · exact e1 g2
      have hne := hmac _ hsd hdne
      apply hne
      apply base64urlEncode_inj
      rw [← hsigeq]
      exact String.ext e2

/-- C6 at the reference runtime: in the token signed for the payload `{}` the payload digit
`0` is changed into `1` (one bit); the HMAC-SHA-256 digests of the two signed texts differ and
the altered token is rejected. -/
theorem jwtVerify_rejects_one_bit_mutation_witness :
    jwtVerify refRuntime
      "eyJhbGciOiJIUzI1NiIsInR5cCI6IkpXVCJ9.e31.R2bUgk57p25GjQXcCZIqNDS1SsJJCIzmytDS-zhjl-A"
      "0123456789abcdef01234567" 1000 = none :=
  jwtVerify_rejects_one_bit_mutation refRuntime "0123456789abcdef01234567" (.obj [])
    "eyJhbGciOiJIUzI1NiIsInR5cCI6IkpXVCJ9.e31.R2bUgk57p25GjQXcCZIqNDS1SsJJCIzmytDS-zhjl-A" 1000
    ⟨"eyJhbGciOiJIUzI1NiIsInR5cCI6IkpXVCJ9.e3".data, '0', '1',
      ".R2bUgk57p25GjQXcCZIqNDS1SsJJCIzmytDS-zhjl-A".data, by decide, by decide, 0, by decide⟩
    (by
      intro d hd _
      have e : signedData
          "eyJhbGciOiJIUzI1NiIsInR5cCI6IkpXVCJ9.e31.R2bUgk57p25GjQXcCZIqNDS1SsJJCIzmytDS-zhjl-A"
          = some "eyJhbGciOiJIUzI1NiIsInR5cCI6IkpXVCJ9.e31" := by decide
      rw [e] at hd
      simp only [Option.some.injEq] at hd
      subst hd
      decide)

/-! ## C8 -/

/-- C8. `shouldBanByAverage(count, avg)` returns true exactly when
`(count ≥ 10 ∧ avg < 5) ∨ (count ≥ 5 ∧ avg < 4) ∨ (count ≥ 3 ∧ avg ≤ 2)`, for every integer
count and every finite avg; in particular (2, 0) gives false, (3, 2) true, (5, 3.9) true,
(5, 4) false and (10, 4.9) true. -/
theorem shouldBanByAverage_iff :
    (∀ (count : Int) (avg : Rat), shouldBanByAverage count (some avg) = true ↔
      (count ≥ 10 ∧ avg < 5) ∨ (count ≥ 5 ∧ avg < 4) ∨ (count ≥ 3 ∧ avg ≤ 2)) ∧
    shouldBanByAverage 2 (some 0) = false ∧
    shouldBanByAverage 3 (some 2) = true ∧
    shouldBanByAverage 5 (some (39 / 10)) = true ∧
    shouldBanByAverage 5 (some 4) = false ∧
    shouldBanByAverage 10 (some (49 / 10)) = true := by
  refine ⟨?_, by decide!, by decide!, by decide!, by decide!, by decide!⟩
  intro count avg
  unfold shouldBanByAverage
  simp only
  constructor
  · intro h
    split at h
    · cases h
    · split at h
      · rename_i h1; exact Or.inl h1
      · split at h
        · rename_i h2; exact Or.inr (Or.inl h2)
        · split at h
          · rename_i h3; exact Or.inr (Or.inr h3)
          · cases h
  · intro h
    have hpos : ¬ count ≤ 0 := by
      rcases h with h | h | h <;> omega
    rw [if_neg hpos]
    by_cases h1 : count ≥ 10 ∧ avg < 5
    · rw [if_pos h1]
    · rw [if_neg h1]
      by_cases h2 : count ≥ 5 ∧ avg < 4
      · rw [if_pos h2]
      · rw [if_neg h2]
        by_cases h3 : count ≥ 3 ∧ avg ≤ 2
        · rw [if_pos h3]
        · exfalso
          rcases h with h | h | h
          · exact h1 h
          · exact h2 h
          · exact h3 h

/-! ## Forum write handler: what is sent upstream -/

theorem writes_append_single (sent : List UpstreamReq) (r : UpstreamReq)
    (hr : r.isBasicDbWrite = false) :
    (sent ++ [r]).filter UpstreamReq.isBasicDbWrite = sent.filter UpstreamReq.isBasicDbWrite := by
  simp [List.filter_append, List.filter_cons, hr]

theorem licznikGetInt_writes (up : Upstream) (sent : List UpstreamReq) (name : String) :
    (licznikGetInt up sent name).2.filter UpstreamReq.isBasicDbWrite
      = sent.filter UpstreamReq.isBasicDbWrite := by
  unfold licznikGetInt
  split <;> simp [List.filter_append, List.filter_cons, UpstreamReq.isBasicDbWrite]

theorem licznikAddInt_writes (up : Upstream) (sent : List UpstreamReq) (name : String)
    (delta : Int) :
    (licznikAddInt up sent name delta).2.filter UpstreamReq.isBasicDbWrite
      = sent.filter UpstreamReq.isBasicDbWrite := by
  unfold licznikAddInt
  split <;> simp [List.filter_append, List.filter_cons, UpstreamReq.isBasicDbWrite]

theorem isIpBanned_writes (R : ForumRuntime) (cfg : Config) (up : Upstream)
    (sent : List UpstreamReq) (ip : String) :
    (isIpBanned R cfg up sent ip).2.filter UpstreamReq.isBasicDbWrite
      = sent.filter UpstreamReq.isBasicDbWrite := by
  simp only [isIpBanned]
  split
  · rfl
  · exact licznikGetInt_writes up sent _

theorem numberOrCounter_writes (up : Upstream) (sent : List UpstreamReq) (v : Option Int)
    (name : String) :
    (numberOrCounter up sent v name).2.filter UpstreamReq.isBasicDbWrite
      = sent.filter UpstreamReq.isBasicDbWrite := by
  cases v with
  | none => exact licznikGetInt_writes up sent name
  | some n => rfl

theorem raiseBanFlag_writes (up : Upstream) (sent : List UpstreamReq) (banName : String) :
    (raiseBanFlag up sent banName).filter UpstreamReq.isBasicDbWrite
      = sent.filter UpstreamReq.isBasicDbWrite := by
  unfold raiseBanFlag
  split
  · split
    · exact licznikGetInt_writes up sent banName
    · rw [licznikAddInt_writes, licznikGetInt_writes]
  · rw [licznikAddInt_writes, licznikGetInt_writes]

theorem ite_snd_writes {α : Type} (c : Prop) [Decidable c] (a b : α × List UpstreamReq)
    (target : List UpstreamReq)
    (ha : a.2.filter UpstreamReq.isBasicDbWrite = target)
    (hb : b.2.filter UpstreamReq.isBasicDbWrite = target) :
    (if c then a else b).2.filter UpstreamReq.isBasicDbWrite = target := by
  split <;> assumption

/-- The reputation update sends counter requests only. -/
theorem updateIpStatsAndMaybeBan_writes (R : ForumRuntime) (cfg : Config) (up : Upstream)
    (sent : List UpstreamReq) (ip : String) (score : Int) :
    (updateIpStatsAndMaybeBan R cfg up sent ip score).2.filter UpstreamReq.isBasicDbWrite
      = sent.filter UpstreamReq.isBasicDbWrite := by
  simp only [updateIpStatsAndMaybeBan]
  apply ite_snd_writes
  · rfl
  · apply ite_snd_writes
    · show (raiseBanFlag up _ _).filter _ = _
      rw [raiseBanFlag_writes, numberOrCounter_writes, numberOrCounter_writes,
        licznikAddInt_writes, licznikAddInt_writes]
    · show (numberOrCounter up _ _ _).2.filter _ = _
      rw [numberOrCounter_writes, numberOrCounter_writes, licznikAddInt_writes,
        licznikAddInt_writes]

/-- Marking the IP as seen sends counter requests only. -/
theorem markForumIpSeen_writes (R : ForumRuntime) (cfg : Config) (up : Upstream)
    (sent : List UpstreamReq) (ip threadKey : String) :
    (markForumIpSeen R cfg up sent ip threadKey).filter UpstreamReq.isBasicDbWrite
      = sent.filter UpstreamReq.isBasicDbWrite := by
  simp only [markForumIpSeen]
  split
  · rfl
  · split
    · simp [List.filter_append, List.filter_cons, UpstreamReq.isBasicDbWrite]
    · split
      · simp [List.filter_append, List.filter_cons, UpstreamReq.isBasicDbWrite]
      · split <;> simp [List.filter_append, List.filter_cons, UpstreamReq.isBasicDbWrite]

/-- Sending a write adds exactly that write to the writes sent. -/
theorem sendWrite_writes (R : ForumRuntime) (cfg : Config) (up : Upstream) (st : ServerState)
    (req : WriteRequest) (isForumWrite : Bool) (write : UpstreamReq)
    (sent : List UpstreamReq) (score : Option Int) (hw : write.isBasicDbWrite = true) :
    (sendWrite R cfg up st req isForumWrite write sent score).sent.filter
        UpstreamReq.isBasicDbWrite
      = sent.filter UpstreamReq.isBasicDbWrite ++ [write] := by
  simp only [sendWrite]
  split
  · simp [List.filter_append, List.filter_cons, hw]
  · simp only
    split
    · rw [markForumIpSeen_writes]
      simp [List.filter_append, List.filter_cons, hw]
    · simp [List.filter_append, List.filter_cons, hw]

theorem sendWrite_score (R : ForumRuntime) (cfg : Config) (up : Upstream) (st : ServerState)
    (req : WriteRequest) (isForumWrite : Bool) (write : UpstreamReq)
    (sent : List UpstreamReq) (score : Option Int) :
    (sendWrite R cfg up st req isForumWrite write sent score).score = score := by
  simp only [sendWrite]
  split <;> rfl

/-- The moderation part for a non-admin request: it ends without a score, or it computes a
score and then bans, rejects or writes. -/
theorem moderateAndWrite_eq (R : ForumRuntime) (cfg : Config) (up : Upstream)
    (together : Together) (st : ServerState) (req : WriteRequest) (sent : List UpstreamReq)
    (now : Int) :
    (moderateAndWrite R cfg up together st req false sent now).score = none ∨
    ∃ score, moderateAndWrite R cfg up together st req false sent now =
      (if (updateIpStatsAndMaybeBan R cfg up sent req.ip score).1.banned = true then
        ⟨⟨403, "ip_banned", ""⟩, st, (updateIpStatsAndMaybeBan R cfg up sent req.ip score).2,
          some score⟩
      else if score < COMMENT_MIN_PUBLISH_SCORE then
        ⟨⟨403, "comment_rejected", ""⟩, st,
          (updateIpStatsAndMaybeBan R cfg up sent req.ip score).2, some score⟩
      else
        sendWrite R cfg up st req true
          (.basicDbAppend req.key
            (entryToStore (extractCommentFields R.toRuntime req.rawElement) req.rawElement score
              now) (stripKeyQuery R req.search))
          (updateIpStatsAndMaybeBan R cfg up sent req.ip score).2 (some score)) := by
  simp only [moderateAndWrite, Bool.not_false, Bool.true_and, if_true]
  split
  · left; rfl
  · split
    · left; rfl
    · rename_i score _
      right
      refine ⟨score, ?_⟩
      simp only [decide_eq_true_eq]

/-- What the moderation part does once it has computed a score `s`, for a non-admin request:
403 `ip_banned` without a write when the reputation update bans the IP; otherwise 403
`comment_rejected` without a write when `s` is below the publish threshold; otherwise exactly
one append, of the entry built with `s`. -/
theorem moderateAndWrite_scored (R : ForumRuntime) (cfg : Config) (up : Upstream)
    (together : Together) (st : ServerState) (req : WriteRequest) (sent : List UpstreamReq)
    (now : Int) (s : Int)
    (hscore : (moderateAndWrite R cfg up together st req false sent now).score = some s) :
    ((updateIpStatsAndMaybeBan R cfg up sent req.ip s).1.banned = true ∧
      (moderateAndWrite R cfg up together st req false sent now).response
        = ⟨403, "ip_banned", ""⟩ ∧
      (moderateAndWrite R cfg up together st req false sent now).sent.filter
        UpstreamReq.isBasicDbWrite = sent.filter UpstreamReq.isBasicDbWrite) ∨
    ((updateIpStatsAndMaybeBan R cfg up sent req.ip s).1.banned = false ∧ s < 5 ∧
      (moderateAndWrite R cfg up together st req false sent now).response
        = ⟨403, "comment_rejected", ""⟩ ∧
      (moderateAndWrite R cfg up together st req false sent now).sent.filter
        UpstreamReq.isBasicDbWrite = sent.filter UpstreamReq.isBasicDbWrite) ∨
    ((updateIpStatsAndMaybeBan R cfg up sent req.ip s).1.banned = false ∧ 5 ≤ s ∧
      (moderateAndWrite R cfg up together st req false sent now).sent.filter
        UpstreamReq.isBasicDbWrite = sent.filter UpstreamReq.isBasicDbWrite ++
          [.basicDbAppend req.key
            (entryToStore (extractCommentFields R.toRuntime req.rawElement) req.rawElement s now)
            (stripKeyQuery R req.search)]) := by
  rcases moderateAndWrite_eq R cfg up together st req sent now with hnone | ⟨score, heq⟩
  · rw [hnone] at hscore; cases hscore
  · rw [heq] at hscore ⊢
    cases hb : (updateIpStatsAndMaybeBan R cfg up sent req.ip score).1.banned with
    | true =>
      simp only [hb, if_true, Option.some.injEq] at hscore ⊢
      subst hscore
      left
      exact ⟨hb, trivial, updateIpStatsAndMaybeBan_writes R cfg up sent req.ip score⟩
    | false =>
      simp only [hb, Bool.false_eq_true, if_false] at hscore ⊢
      by_cases hlow : score < COMMENT_MIN_PUBLISH_SCORE
      · simp only [hlow, if_true, Option.some.injEq] at hscore ⊢
        subst hscore
        right; left
        exact ⟨hb, hlow, trivial, updateIpStatsAndMaybeBan_writes R cfg up sent req.ip score⟩
      · simp only [hlow, if_false] at hscore ⊢
        rw [sendWrite_score] at hscore
        simp only [Option.some.injEq] at hscore
        subst hscore
        right; right
        refine ⟨hb, by simp only [COMMENT_MIN_PUBLISH_SCORE] at hlow; omega, ?_⟩
        rw [sendWrite_writes R cfg up st req true _ _ _ (by rfl), updateIpStatsAndMaybeBan_writes]

/-- A run of the handler that computed a score, for a non-admin request, is a run of the
moderation part on a forum key, after a ban check that sent counter requests only. -/
theorem writeAfterLimits_scored (R : ForumRuntime) (cfg : Config) (up : Upstream)
    (together : Together) (st : ServerState) (req : WriteRequest) (clock : WriteClock)
    (s : Int)
    (hadmin : isAdmin R.toRuntime cfg.ADMIN_TOKEN_SECRET st.adminSessionId req.token
      clock.atAuth = false)
    (hscore : (writeAfterLimits R cfg up together st req clock).score = some s) :
    writeAfterLimits R cfg up together st req clock
      = moderateAndWrite R cfg up together st req false (isIpBanned R cfg up [] req.ip).2
          clock.atStore := by
  revert hscore
  simp only [writeAfterLimits, hadmin, Bool.not_false, Bool.and_true]
  cases hf : jsStartsWith req.key "staszek-" with
  | false =>
    simp only [Bool.false_eq_true, if_false]
    intro h
    rw [sendWrite_score] at h
    cases h
  | true =>
    simp only [if_true]
    split
    · intro h; cases h
    · intro _; rfl

theorem handleBasicDbDodaj_scored (R : ForumRuntime) (cfg : Config) (up : Upstream)
    (together : Together) (st : ServerState) (req : WriteRequest) (clock : WriteClock)
    (s : Int)
    (hadmin : isAdmin R.toRuntime cfg.ADMIN_TOKEN_SECRET st.adminSessionId req.token
      clock.atAuth = false)
    (hscore : (handleBasicDbDodaj R cfg up together st req clock).score = some s) :
    ∃ st2, handleBasicDbDodaj R cfg up together st req clock
      = moderateAndWrite R cfg up together st2 req false (isIpBanned R cfg up [] req.ip).2
          clock.atStore := by
  have hval : handleBasicDbDodaj R cfg up together st req clock
      = writeAfterValidation R cfg up together st req clock := by
    revert hscore
    unfold handleBasicDbDodaj
    split
    · intro h; cases h
    · split
      · intro h; cases h
      · split
        · intro h; cases h
        · split
          · intro h; cases h
          · split
            · intro h; cases h
            · intro _; rfl
  rw [hval] at hscore ⊢
  revert hscore
  simp only [writeAfterValidation]
  repeat' split
  all_goals
    first
    | (intro h; cases h)
    | (intro h; exact ⟨_, writeAfterLimits_scored R cfg up together _ req clock s hadmin h⟩)

/-! ## Stored entries carry the score -/

theorem find_setField_same (k : String) (v : Json) : ∀ (fs : List (String × Json)),
    (setField fs k v).find? (fun f => f.1 == k) = some (k, v) := by
  intro fs
  unfold setField
  split
  · rename_i hany
    induction fs with
    | nil => simp at hany
    | cons f rest ih =>
      by_cases hf : (f.1 == k) = true
      · simp [List.find?, hf]
      · have hrest : rest.any (fun f => f.1 == k) = true := by
          simp only [List.any_cons, Bool.or_eq_true] at hany
          rcases hany with h | h
          · exact absurd h hf
          · exact h
        simp only [List.map_cons, hf, Bool.false_eq_true, if_false, List.find?_cons]
        exact ih hrest
  · rename_i hany
    have hnone : fs.find? (fun f => f.1 == k) = none := by
      rw [List.find?_eq_none]
      intro x hx hxk
      apply hany
      simp only [List.any_eq_true]
      exact ⟨x, hx, hxk⟩
    rw [List.find?_append, hnone]
    simp [List.find?]

theorem find_setField_other (k k2 : String) (v : Json) (hne : (k == k2) = false) :
    ∀ (fs : List (String × Json)),
      ((setField fs k v).find? (fun f => f.1 == k2)).map (fun f => f.2)
        = (fs.find? (fun f => f.1 == k2)).map (fun f => f.2) := by
  intro fs
  unfold setField
  split
  · rename_i hany
    clear hany
    induction fs with
    | nil => rfl
    | cons f rest ih =>
      by_cases hf : (f.1 == k) = true
      · have hfk : f.1 = k := by simpa using hf
        have h2 : (f.1 == k2) = false := by rw [hfk]; exact hne
        simp only [List.map_cons, hf, if_true, List.find?_cons, hne, h2]
        exact ih
      · simp only [List.map_cons, hf, Bool.false_eq_true, if_false, List.find?_cons]
        cases h2 : (f.1 == k2) with
        | true => rfl
        | false => exact ih
  · rw [List.find?_append]
    cases h : fs.find? (fun f => f.1 == k2) with
    | some x => rfl
    | none => simp [List.find?, hne]

theorem jsTrim_empty : jsTrim "" = "" := by decide

/-- The parsed object that `extractCommentFields` hands on is a plain object. -/
theorem extractCommentFields_obj (R : Runtime) (rawElement : String) (o : Json)
    (h : (extractCommentFields R rawElement).obj = some o) : ∃ fs, o = .obj fs := by
  revert h
  simp only [extractCommentFields]
  split
  · rename_i parsed _
    split
    · intro h
      simp only [Option.some.injEq] at h
      subst h
      rename_i hmsg
      cases parsed with
      | obj fs => exact ⟨fs, rfl⟩
      | null => exact absurd jsTrim_empty hmsg
      | bool b => exact absurd jsTrim_empty hmsg
      | num n => exact absurd jsTrim_empty hmsg
      | str s => exact absurd jsTrim_empty hmsg
      | arr items => exact absurd jsTrim_empty hmsg
    · intro h; cases h
  · intro h; cases h

/-- The entry built for a comment has the score under `s`. -/
theorem entryToStore_score (R : Runtime) (rawElement : String) (score now : Int) :
    (entryToStore (extractCommentFields R rawElement) rawElement score now).get "s"
      = some (.num score) := by
  unfold entryToStore
  cases ho : (extractCommentFields R rawElement).obj with
  | none => rfl
  | some o =>
    obtain ⟨fs, rfl⟩ := extractCommentFields_obj R rawElement o ho
    simp only [Json.set]
    split
    · simp only [Json.get]
      rw [find_setField_other "t" "s" _ (by decide), find_setField_same]
      rfl
    · simp only [Json.get]
      rw [find_setField_same]
      rfl

/-! ## C9 -/

/-- C9. In the forum write handler, for every non-admin request for which the handler computes
a moderation score below 5, no write to the basic DB is sent upstream and the response is a
403. -/
theorem forumWrite_low_score_rejected (R : ForumRuntime) (cfg : Config) (up : Upstream)
    (together : Together) (st : ServerState) (req : WriteRequest) (clock : WriteClock)
    (s : Int)
    (hadmin : isAdmin R.toRuntime cfg.ADMIN_TOKEN_SECRET st.adminSessionId req.token
      clock.atAuth = false)
    (hscore : (handleBasicDbDodaj R cfg up together st req clock).score = some s)
    (hlow : s < 5) :
    (handleBasicDbDodaj R cfg up together st req clock).response.status = 403 ∧
    (handleBasicDbDodaj R cfg up together st req clock).sent.filter
      UpstreamReq.isBasicDbWrite = [] := by
  obtain ⟨st2, heq⟩ := handleBasicDbDodaj_scored R cfg up together st req clock s hadmin hscore
  rw [heq] at hscore ⊢
  have hban := isIpBanned_writes R cfg up [] req.ip
  simp only [List.filter_nil] at hban
  rcases moderateAndWrite_scored R cfg up together st2 req _ _ s hscore with
    ⟨_, hr, hs⟩ | ⟨_, _, hr, hs⟩ | ⟨_, h5, _⟩
  · exact ⟨by rw [hr], by rw [hs, hban]⟩
  · exact ⟨by rw [hr], by rw [hs, hban]⟩
  · omega

/-- C9 at a plain-text comment that the moderation service scores 2. -/
theorem forumWrite_low_score_rejected_witness :
    (handleBasicDbDodaj refForumRuntime exampleConfig freshUpstream scoreTwoTogether
      ⟨Limiters.initial, "c2Vzc2lvbg"⟩ exampleComment ⟨1000, 1001, 1002, 1003⟩).response.status
      = 403 ∧
    (handleBasicDbDodaj refForumRuntime exampleConfig freshUpstream scoreTwoTogether
      ⟨Limiters.initial, "c2Vzc2lvbg"⟩ exampleComment ⟨1000, 1001, 1002, 1003⟩).sent.filter
      UpstreamReq.isBasicDbWrite = [] :=
  forumWrite_low_score_rejected refForumRuntime exampleConfig freshUpstream scoreTwoTogether
    ⟨Limiters.initial, "c2Vzc2lvbg"⟩ exampleComment ⟨1000, 1001, 1002, 1003⟩ 2
    (by decide) (by decide!) (by decide)

/-! ## C10 -/

/-- C10 as stated fails: a non-admin comment scored 6, from an IP whose reputation counters
read 3 comments with score sum 6 after the update (average 2), triggers the ban; the response
is 403 `ip_banned` and no write is sent upstream. -/
theorem forumWrite_high_score_banned :
    isAdmin refForumRuntime.toRuntime exampleConfig.ADMIN_TOKEN_SECRET "c2Vzc2lvbg"
      exampleComment.token 1002 = false ∧
    (handleBasicDbDodaj refForumRuntime exampleConfig twoBadCommentsUpstream scoreSixTogether
      ⟨Limiters.initial, "c2Vzc2lvbg"⟩ exampleComment ⟨1000, 1001, 1002, 1003⟩).score
      = some 6 ∧
    (handleBasicDbDodaj refForumRuntime exampleConfig twoBadCommentsUpstream scoreSixTogether
      ⟨Limiters.initial, "c2Vzc2lvbg"⟩ exampleComment ⟨1000, 1001, 1002, 1003⟩).response
      = ⟨403, "ip_banned", ""⟩ ∧
    ((handleBasicDbDodaj refForumRuntime exampleConfig twoBadCommentsUpstream scoreSixTogether
      ⟨Limiters.initial, "c2Vzc2lvbg"⟩ exampleComment ⟨1000, 1001, 1002, 1003⟩).sent.filter
      UpstreamReq.isBasicDbWrite).length = 0 := by
  decide!

/-- C10, amended. In the forum write handler, every non-admin comment that receives a
moderation score of 5 or more results in exactly one append request to the upstream basic DB,
carrying that score in the stored entry, unless the reputation update for the IP triggers a
ban; then the response is 403 `ip_banned` and nothing is written. -/
theorem forumWrite_high_score_stored_unless_banned (R : ForumRuntime) (cfg : Config)
    (up : Upstream) (together : Together) (st : ServerState) (req : WriteRequest)
    (clock : WriteClock) (s : Int)
    (hadmin : isAdmin R.toRuntime cfg.ADMIN_TOKEN_SECRET st.adminSessionId req.token
      clock.atAuth = false)
    (hscore : (handleBasicDbDodaj R cfg up together st req clock).score = some s)
    (hhigh : 5 ≤ s) :
    ((updateIpStatsAndMaybeBan R cfg up (isIpBanned R cfg up [] req.ip).2 req.ip s).1.banned
        = true ∧
      (handleBasicDbDodaj R cfg up together st req clock).response = ⟨403, "ip_banned", ""⟩ ∧
      (handleBasicDbDodaj R cfg up together st req clock).sent.filter
        UpstreamReq.isBasicDbWrite = []) ∨
    ((updateIpStatsAndMaybeBan R cfg up (isIpBanned R cfg up [] req.ip).2 req.ip s).1.banned
        = false ∧
      ∃ entry, (handleBasicDbDodaj R cfg up together st req clock).sent.filter
          UpstreamReq.isBasicDbWrite
            = [.basicDbAppend req.key entry (stripKeyQuery R req.search)] ∧
        entry.get "s" = some (.num s)) := by
  obtain ⟨st2, heq⟩ := handleBasicDbDodaj_scored R cfg up together st req clock s hadmin hscore
  rw [heq] at hscore ⊢
  have hban := isIpBanned_writes R cfg up [] req.ip
  simp only [List.filter_nil] at hban
  rcases moderateAndWrite_scored R cfg up together st2 req _ _ s hscore with
    ⟨hb, hr, hs⟩ | ⟨_, h5, _, _⟩ | ⟨hb, _, hs⟩
  · left
    exact ⟨hb, hr, by rw [hs, hban]⟩
  · omega
  · right
    refine ⟨hb, _, ?_, entryToStore_score R.toRuntime req.rawElement s clock.atStore⟩
    rw [hs, hban]
    rfl

/-- C10 amended, at a plain-text comment scored 6 from an IP without history: one append. -/
theorem forumWrite_high_score_stored_unless_banned_witness :
    ((updateIpStatsAndMaybeBan refForumRuntime exampleConfig freshUpstream
        (isIpBanned refForumRuntime exampleConfig freshUpstream [] exampleComment.ip).2
        exampleComment.ip 6).1.banned = true ∧
      (handleBasicDbDodaj refForumRuntime exampleConfig freshUpstream scoreSixTogether
        ⟨Limiters.initial, "c2Vzc2lvbg"⟩ exampleComment ⟨1000, 1001, 1002, 1003⟩).response
        = ⟨403, "ip_banned", ""⟩ ∧
      (handleBasicDbDodaj refForumRuntime exampleConfig freshUpstream scoreSixTogether
        ⟨Limiters.initial, "c2Vzc2lvbg"⟩ exampleComment ⟨1000, 1001, 1002, 1003⟩).sent.filter
        UpstreamReq.isBasicDbWrite = []) ∨
    ((updateIpStatsAndMaybeBan refForumRuntime exampleConfig freshUpstream
        (isIpBanned refForumRuntime exampleConfig freshUpstream [] exampleComment.ip).2
        exampleComment.ip 6).1.banned = false ∧
      ∃ entry, (handleBasicDbDodaj refForumRuntime exampleConfig freshUpstream scoreSixTogether
          ⟨Limiters.initial, "c2Vzc2lvbg"⟩ exampleComment ⟨1000, 1001, 1002, 1003⟩).sent.filter
          UpstreamReq.isBasicDbWrite
            = [.basicDbAppend exampleComment.key entry
                (stripKeyQuery refForumRuntime exampleComment.search)] ∧
        entry.get "s" = some (.num 6)) :=
  forumWrite_high_score_stored_unless_banned refForumRuntime exampleConfig freshUpstream
    scoreSixTogether ⟨Limiters.initial, "c2Vzc2lvbg"⟩ exampleComment ⟨1000, 1001, 1002, 1003⟩ 6
    (by decide) (by decide!) (by decide)

/-! ## Requests that reach the ban check -/

theorem jsStartsWith_trans (s a b : String) (hab : jsStartsWith b a = true)
    (h : jsStartsWith s b = true) : jsStartsWith s a = true := by
  simp only [jsStartsWith, List.isPrefixOf_iff_prefix] at *
  exact hab.trans h

theorem isAllowedForumThreadKey_forum (key : String) (h : isAllowedForumThreadKey key = true) :
    isValidName key = true ∧ jsStartsWith key "staszek-" = true := by
  simp only [isAllowedForumThreadKey, Bool.and_eq_true, Bool.or_eq_true, beq_iff_eq] at h
  refine ⟨h.1, ?_⟩
  rcases h.2 with ((h1 | h1) | h1) | h1
  · rw [h1]; decide
  · exact jsStartsWith_trans _ _ _ (by decide) h1
  · exact jsStartsWith_trans _ _ _ (by decide) h1
  · exact jsStartsWith_trans _ _ _ (by decide) h1

theorem jsStartsWith_staszek_not_pv (key : String) (h : jsStartsWith key "staszek-" = true) :
    jsStartsWith key "pv-" = false := by
  simp only [jsStartsWith, List.isPrefixOf_iff_prefix] at h
  obtain ⟨t, ht⟩ := h
  simp only [jsStartsWith, ← ht]
  rfl

/-- The handler on a request with a valid forum key and an element of 1 to 4000 code units
that both rate limits let through: what is left is the admin and ban checks and the
moderation. -/
theorem handleBasicDbDodaj_reach (R : ForumRuntime) (cfg : Config) (up : Upstream)
    (together : Together) (st : ServerState) (req : WriteRequest) (clock : WriteClock)
    (hkey : isAllowedForumThreadKey req.key = true)
    (helem : req.rawElement ≠ "") (hsize : utf16Length req.rawElement ≤ 4000)
    (hrl : (hitRateLimit st.limiters .requests req.ip REQUEST_RATE_LIMIT_RULES
      clock.atRequestLimit).1.ok = true)
    (hcl : (hitRateLimit (hitRateLimit st.limiters .requests req.ip REQUEST_RATE_LIMIT_RULES
      clock.atRequestLimit).2 .comments req.ip COMMENT_RATE_LIMIT_RULES
      clock.atCommentLimit).1.ok = true) :
    handleBasicDbDodaj R cfg up together st req clock
      = writeAfterLimits R cfg up together
          ⟨(hitRateLimit (hitRateLimit st.limiters .requests req.ip REQUEST_RATE_LIMIT_RULES
            clock.atRequestLimit).2 .comments req.ip COMMENT_RATE_LIMIT_RULES
            clock.atCommentLimit).2, st.adminSessionId⟩ req clock := by
  obtain ⟨hvalid, hforum⟩ := isAllowedForumThreadKey_forum req.key hkey
  have hpv := jsStartsWith_staszek_not_pv req.key hforum
  have hdb : isAllowedBasicDbKey req.key = true := by
    simp only [isAllowedBasicDbKey, hvalid, hforum, Bool.true_or, Bool.and_self]
  have hs : ¬ utf16Length req.rawElement > 4000 := by omega
  simp only [handleBasicDbDodaj, hdb, hkey, hforum, hpv, helem, hs, Bool.not_true,
    Bool.and_false, Bool.false_and, Bool.false_eq_true, if_false, writeAfterValidation, hrl,
    hcl, if_true]

/-- The moderation part does not use the moderation service for a non-admin comment under a
name that imitates the admin: the score is 3 and the response is 403 without a write. -/
theorem moderateAndWrite_impersonation (R : ForumRuntime) (cfg : Config) (up : Upstream)
    (together : Together) (st : ServerState) (req : WriteRequest) (sent : List UpstreamReq)
    (now : Int) (hsize : utf16Length req.rawElement ≤ 2200)
    (hname : isAdminImpersonationName R
      (extractCommentFields R.toRuntime req.rawElement).name = true) :
    moderateAndWrite R cfg up together st req false sent now
      = ⟨⟨403, if (updateIpStatsAndMaybeBan R cfg up sent req.ip 3).1.banned = true
            then "ip_banned" else "comment_rejected", ""⟩, st,
          (updateIpStatsAndMaybeBan R cfg up sent req.ip 3).2, some 3⟩ := by
  have hs : ¬ utf16Length req.rawElement > 2200 := by omega
  simp only [moderateAndWrite, hs, if_false, hname, Bool.not_false, Bool.and_self, if_true,
    Bool.true_and]
  cases hb : (updateIpStatsAndMaybeBan R cfg up sent req.ip 3).1.banned with
  | true => simp only [if_true]
  | false =>
    simp only [Bool.false_eq_true, if_false]
    rw [if_pos (by decide)]

/-! ## C11 -/

/-- C11. For every non-admin forum write whose comment name normalizes to a string starting
with "admin", the score is fixed at 3 without consulting the moderation model and the write is
rejected (403, nothing appended upstream), whatever the message content: for a request that
passes the key and size checks, both rate limits and the ban check, the handler sets the score
to 3, answers 403, sends no write upstream, and does the same for every moderation service. -/
theorem forumWrite_impersonation_rejected (R : ForumRuntime) (cfg : Config) (up : Upstream)
    (together : Together) (st : ServerState) (req : WriteRequest) (clock : WriteClock)
    (hkey : isAllowedForumThreadKey req.key = true)
    (helem : req.rawElement ≠ "") (hsize : utf16Length req.rawElement ≤ 2200)
    (hrl : (hitRateLimit st.limiters .requests req.ip REQUEST_RATE_LIMIT_RULES
      clock.atRequestLimit).1.ok = true)
    (hcl : (hitRateLimit (hitRateLimit st.limiters .requests req.ip REQUEST_RATE_LIMIT_RULES
      clock.atRequestLimit).2 .comments req.ip COMMENT_RATE_LIMIT_RULES
      clock.atCommentLimit).1.ok = true)
    (hadmin : isAdmin R.toRuntime cfg.ADMIN_TOKEN_SECRET st.adminSessionId req.token
      clock.atAuth = false)
    (hban : (isIpBanned R cfg up [] req.ip).1 = false)
    (hname : isAdminImpersonationName R
      (extractCommentFields R.toRuntime req.rawElement).name = true) :
    (handleBasicDbDodaj R cfg up together st req clock).score = some 3 ∧
    (handleBasicDbDodaj R cfg up together st req clock).response.status = 403 ∧
    (handleBasicDbDodaj R cfg up together st req clock).sent.filter
      UpstreamReq.isBasicDbWrite = [] ∧
    ∀ together2 : Together, handleBasicDbDodaj R cfg up together2 st req clock
      = handleBasicDbDodaj R cfg up together st req clock := by
  have hforum := (isAllowedForumThreadKey_forum req.key hkey).2
  have key : ∀ t : Together, handleBasicDbDodaj R cfg up t st req clock
      = ⟨⟨403, if (updateIpStatsAndMaybeBan R cfg up (isIpBanned R cfg up [] req.ip).2 req.ip
              3).1.banned = true then "ip_banned" else "comment_rejected", ""⟩,
          ⟨(hitRateLimit (hitRateLimit st.limiters .requests req.ip REQUEST_RATE_LIMIT_RULES
            clock.atRequestLimit).2 .comments req.ip COMMENT_RATE_LIMIT_RULES
            clock.atCommentLimit).2, st.adminSessionId⟩,
          (updateIpStatsAndMaybeBan R cfg up (isIpBanned R cfg up [] req.ip).2 req.ip 3).2,
          some 3⟩ := by
    intro t
    rw [handleBasicDbDodaj_reach R cfg up t st req clock hkey helem (by omega) hrl hcl]
    simp only [writeAfterLimits, hforum, hadmin, Bool.not_false, Bool.and_self, if_true, hban,
      Bool.false_eq_true, if_false]
    exact moderateAndWrite_impersonation R cfg up t _ req _ _ hsize hname
  refine ⟨by rw [key], by rw [key], ?_, fun t => by rw [key, key]⟩
  rw [key]
  show (updateIpStatsAndMaybeBan R cfg up (isIpBanned R cfg up [] req.ip).2 req.ip 3).2.filter
    UpstreamReq.isBasicDbWrite = []
  rw [updateIpStatsAndMaybeBan_writes, isIpBanned_writes]
  rfl

/-- C11 at a comment posted as "Ad-min" through a moderation service that would score it 6. -/
theorem forumWrite_impersonation_rejected_witness :
    (handleBasicDbDodaj refForumRuntime exampleConfig freshUpstream scoreSixTogether
      ⟨Limiters.initial, "c2Vzc2lvbg"⟩ impersonationComment ⟨1000, 1001, 1002, 1003⟩).score
      = some 3 ∧
    (handleBasicDbDodaj refForumRuntime exampleConfig freshUpstream scoreSixTogether
      ⟨Limiters.initial, "c2Vzc2lvbg"⟩ impersonationComment
      ⟨1000, 1001, 1002, 1003⟩).response.status = 403 ∧
    (handleBasicDbDodaj refForumRuntime exampleConfig freshUpstream scoreSixTogether
      ⟨Limiters.initial, "c2Vzc2lvbg"⟩ impersonationComment
      ⟨1000, 1001, 1002, 1003⟩).sent.filter UpstreamReq.isBasicDbWrite = [] ∧
    ∀ together2 : Together, handleBasicDbDodaj refForumRuntime exampleConfig freshUpstream
        together2 ⟨Limiters.initial, "c2Vzc2lvbg"⟩ impersonationComment ⟨1000, 1001, 1002, 1003⟩
      = handleBasicDbDodaj refForumRuntime exampleConfig freshUpstream scoreSixTogether
          ⟨Limiters.initial, "c2Vzc2lvbg"⟩ impersonationComment ⟨1000, 1001, 1002, 1003⟩ :=
  forumWrite_impersonation_rejected refForumRuntime exampleConfig freshUpstream scoreSixTogether
    ⟨Limiters.initial, "c2Vzc2lvbg"⟩ impersonationComment ⟨1000, 1001, 1002, 1003⟩
    (by decide) (by decide) (by decide) (by decide) (by decide) (by decide) (by decide!)
    (by decide!)

/-! ## Names -/

theorem isPatternHead_iff (c : Char) : isAsciiAlnum c = true ↔ IsPatternHead c := by
  have hle : ∀ a b : Char, a ≤ b ↔ a.toNat ≤ b.toNat := fun a b => Iff.rfl
  simp only [isAsciiAlnum, IsPatternHead, hle, Bool.or_eq_true, Bool.and_eq_true,
    decide_eq_true_eq]
  have hA : 'A'.toNat = 65 := by decide
  have hZ : 'Z'.toNat = 90 := by decide
  have ha : 'a'.toNat = 97 := by decide
  have hz : 'z'.toNat = 122 := by decide
  have h0 : '0'.toNat = 48 := by decide
  have h9 : '9'.toNat = 57 := by decide
  rw [hA, hZ, ha, hz, h0, h9]
  tauto

theorem utf16Length_ascii (cs : List Char) (h : ∀ x ∈ cs, x.toNat < 0x10000) :
    (cs.map (fun c => if c.toNat < 0x10000 then 1 else 2)).sum = cs.length := by
  induction cs with
  | nil => rfl
  | cons c rest ih =>
    have hc := h c (List.mem_cons_self _ _)
    have := ih (fun x hx => h x (List.mem_cons_of_mem _ hx))
    simp only [List.map_cons, List.sum_cons, hc, if_true, List.length_cons, this]
    omega

theorem isPatternHead_small (c : Char) (h : IsPatternHead c) : c.toNat < 0x10000 := by
  have h2 := (isPatternHead_iff c).2 h
  simp only [isAsciiAlnum, Bool.or_eq_true, Bool.and_eq_true, decide_eq_true_eq] at h2
  omega

/-- The function `isValidName` accepts exactly the strings that match the pattern of the
specification; its length check adds nothing to the pattern. -/
theorem isValidName_iff (s : String) : isValidName s = true ↔ MatchesNamePattern s := by
  unfold isValidName MatchesNamePattern
  constructor
  · intro h
    split at h
    · cases h
    · rename_i c rest hd
      simp only [Bool.and_eq_true, decide_eq_true_eq, List.all_eq_true, Bool.or_eq_true,
        beq_iff_eq] at h
      refine ⟨c, rest, hd, (isPatternHead_iff c).1 h.1.1.2, ?_, h.2⟩
      intro x hx
      rcases h.1.2 x hx with (h1 | h1) | h1
      · exact Or.inl ((isPatternHead_iff x).1 h1)
      · exact Or.inr (Or.inr h1)
      · exact Or.inr (Or.inl h1)
  · rintro ⟨c, rest, hd, hc, hrest, hlen⟩
    rw [hd]
    simp only [Bool.and_eq_true, decide_eq_true_eq, List.all_eq_true, Bool.or_eq_true,
      beq_iff_eq]
    refine ⟨⟨⟨?_, (isPatternHead_iff c).2 hc⟩, ?_⟩, hlen⟩
    · unfold utf16Length
      rw [hd, utf16Length_ascii]
      · simp only [List.length_cons]; omega
      · intro x hx
        rcases List.mem_cons.1 hx with e | e
        · rw [e]; exact isPatternHead_small c hc
        · rcases hrest x e with h1 | h1 | h1
          · exact isPatternHead_small x h1
          · rw [h1]; decide
          · rw [h1]; decide
    · intro x hx
      rcases hrest x hx with h1 | h1 | h1
      · exact Or.inl (Or.inl ((isPatternHead_iff x).2 h1))
      · exact Or.inr h1
      · exact Or.inl (Or.inr h1)

theorem startsWithOneOf_iff (allowed : List String) (s : String) :
    StartsWithOneOf allowed s ↔ allowed.any (fun p => jsStartsWith s p) = true := by
  simp only [StartsWithOneOf, List.any_eq_true, jsStartsWith, List.isPrefixOf_iff_prefix]

theorem isAllowedCounterName_iff (s : String) :
    isAllowedCounterName s = true ↔ MatchesNamePattern s ∧ StartsWithOneOf counterNameStarts s := by
  rw [startsWithOneOf_iff, ← isValidName_iff]
  simp only [isAllowedCounterName, counterNameStarts, List.any_cons, List.any_nil,
    Bool.or_false, Bool.and_eq_true, Bool.or_eq_true]
  tauto

theorem isAllowedBasicDbKey_iff (s : String) :
    isAllowedBasicDbKey s = true ↔ MatchesNamePattern s ∧ StartsWithOneOf ["staszek-", "pv-"] s := by
  rw [startsWithOneOf_iff, ← isValidName_iff]
  simp only [isAllowedBasicDbKey, List.any_cons, List.any_nil,
    Bool.or_false, Bool.and_eq_true, Bool.or_eq_true]

theorem not_allowed_counter (s : String)
    (h : ¬ MatchesNamePattern s ∨ ¬ StartsWithOneOf counterNameStarts s) :
    isAllowedCounterName s = false := by
  cases hc : isAllowedCounterName s with
  | false => rfl
  | true =>
    have := (isAllowedCounterName_iff s).1 hc
    rcases h with h | h
    · exact absurd this.1 h
    · exact absurd this.2 h

theorem not_allowed_reset (s : String)
    (h : ¬ MatchesNamePattern s ∨ ¬ StartsWithOneOf resetNameStarts s) :
    (isAllowedCounterName s || isAllowedBasicDbKey s) = false := by
  cases hc : (isAllowedCounterName s || isAllowedBasicDbKey s) with
  | false => rfl
  | true =>
    exfalso
    have hall : MatchesNamePattern s ∧ StartsWithOneOf resetNameStarts s := by
      simp only [Bool.or_eq_true] at hc
      rcases hc with hc | hc
      · obtain ⟨h1, p, hp, hpre⟩ := (isAllowedCounterName_iff s).1 hc
        refine ⟨h1, p, ?_, hpre⟩
        simp only [counterNameStarts, List.mem_cons, List.mem_singleton, List.not_mem_nil,
          or_false] at hp
        simp only [resetNameStarts, List.mem_cons, List.mem_singleton, List.not_mem_nil,
          or_false]
        tauto
      · obtain ⟨h1, p, hp, hpre⟩ := (isAllowedBasicDbKey_iff s).1 hc
        refine ⟨h1, p, ?_, hpre⟩
        simp only [List.mem_cons, List.mem_singleton, List.not_mem_nil, or_false] at hp
        simp only [resetNameStarts, List.mem_cons, List.mem_singleton, List.not_mem_nil,
          or_false]
        tauto
    rcases h with h | h
    · exact h hall.1
    · exact h hall.2

theorem handleIle_invalid (R : ProxyRuntime) (cfg : Config) (up : Upstream) (st : ServerState)
    (req : CounterRequest) (now : Int) (h : isAllowedCounterName req.name = false) :
    handleIle R cfg up st req now = (⟨400, "invalid_counter", ""⟩, []) := by
  simp only [handleIle, h, Bool.not_false, if_true]

theorem handleDodaj_invalid (R : ProxyRuntime) (cfg : Config) (up : Upstream)
    (st : ServerState) (req : CounterRequest) (clock : CounterClock)
    (h : isAllowedCounterName req.name = false) :
    ((handleDodaj R cfg up st req clock).response.status = 400 ∨
      (handleDodaj R cfg up st req clock).response.status = 429) ∧
    (handleDodaj R cfg up st req clock).sent = [] := by
  simp only [handleDodaj, h, Bool.not_false, if_true]
  split
  · exact ⟨Or.inr rfl, rfl⟩
  · exact ⟨Or.inl rfl, rfl⟩

theorem handleWyzeruj_invalid (R : ProxyRuntime) (cfg : Config) (up : Upstream)
    (st : ServerState) (req : CounterRequest) (clock : CounterClock)
    (h : (isAllowedCounterName req.name || isAllowedBasicDbKey req.name) = false) :
    ((handleWyzeruj R cfg up st req clock).response.status = 400 ∨
      (handleWyzeruj R cfg up st req clock).response.status = 401 ∨
      (handleWyzeruj R cfg up st req clock).response.status = 429) ∧
    (handleWyzeruj R cfg up st req clock).sent = [] := by
  simp only [handleWyzeruj, h, Bool.not_false, if_true]
  split
  · exact ⟨Or.inr (Or.inr rfl), rfl⟩
  · split
    · exact ⟨Or.inr (Or.inl rfl), rfl⟩
    · exact ⟨Or.inl rfl, rfl⟩

/-! ## C13 -/

/-- C13. Name validation precedes every upstream call: `isValidName(s)` holds exactly when `s`
matches `^[A-Za-z0-9][A-Za-z0-9_-]{0,127}$`, and for `/ile`, `/dodaj` and `/wyzeruj` any
request whose decoded name fails that pattern or lacks an allowed beginning is answered with
an error (400 for `/ile`; 400 or 429 for `/dodaj`; 400, 401 or 429 for `/wyzeruj`) without any
request being sent to the upstream service. -/
theorem name_validation_precedes_upstream :
    (∀ s : String, isValidName s = true ↔ MatchesNamePattern s) ∧
    (∀ (R : ProxyRuntime) (cfg : Config) (up : Upstream) (st : ServerState)
        (req : CounterRequest) (now : Int),
      (¬ MatchesNamePattern req.name ∨ ¬ StartsWithOneOf counterNameStarts req.name) →
      (handleIle R cfg up st req now).1.status = 400 ∧ (handleIle R cfg up st req now).2 = []) ∧
    (∀ (R : ProxyRuntime) (cfg : Config) (up : Upstream) (st : ServerState)
        (req : CounterRequest) (clock : CounterClock),
      (¬ MatchesNamePattern req.name ∨ ¬ StartsWithOneOf counterNameStarts req.name) →
      ((handleDodaj R cfg up st req clock).response.status = 400 ∨
        (handleDodaj R cfg up st req clock).response.status = 429) ∧
      (handleDodaj R cfg up st req clock).sent = []) ∧
    (∀ (R : ProxyRuntime) (cfg : Config) (up : Upstream) (st : ServerState)
        (req : CounterRequest) (clock : CounterClock),
      (¬ MatchesNamePattern req.name ∨ ¬ StartsWithOneOf resetNameStarts req.name) →
      ((handleWyzeruj R cfg up st req clock).response.status = 400 ∨
        (handleWyzeruj R cfg up st req clock).response.status = 401 ∨
        (handleWyzeruj R cfg up st req clock).response.status = 429) ∧
      (handleWyzeruj R cfg up st req clock).sent = []) := by
  refine ⟨isValidName_iff, ?_, ?_, ?_⟩
  · intro R cfg up st req now h
    rw [handleIle_invalid R cfg up st req now (not_allowed_counter _ h)]
    exact ⟨rfl, rfl⟩
  · intro R cfg up st req clock h
    exact handleDodaj_invalid R cfg up st req clock (not_allowed_counter _ h)
  · intro R cfg up st req clock h
    exact handleWyzeruj_invalid R cfg up st req clock (not_allowed_reset _ h)

/-- C13 at the name "licznik", which matches the pattern but has no allowed beginning: `/ile`
answers 400 and sends nothing. -/
theorem name_validation_precedes_upstream_witness :
    (handleIle refProxyRuntime exampleConfig fiveUpstream exampleState
      (counterRequest "/ile/licznik" "licznik" none) 1000).1.status = 400 ∧
    (handleIle refProxyRuntime exampleConfig fiveUpstream exampleState
      (counterRequest "/ile/licznik" "licznik" none) 1000).2 = [] :=
  name_validation_precedes_upstream.2.1 refProxyRuntime exampleConfig fiveUpstream exampleState
    (counterRequest "/ile/licznik" "licznik" none) 1000
    (Or.inr (by
      rw [startsWithOneOf_iff]
      decide))

/-! ## Reading a counter -/

theorem toString_nonneg (x : Int) (h : 0 ≤ x) : toString x = toString x.toNat := by
  cases x with
  | ofNat k => rfl
  | negSucc k => exact absurd h (by simp [Int.negSucc_lt_zero])

theorem isAllowedPublicCounterName_allowed (s : String)
    (h : isAllowedPublicCounterName s = true) : isAllowedCounterName s = true := by
  simp only [isAllowedPublicCounterName, Bool.and_eq_true, Bool.or_eq_true, beq_iff_eq] at h
  simp only [isAllowedCounterName, h.1, Bool.true_and, Bool.or_eq_true]
  rcases h.2 with ((((h1 | h1) | h1) | h1) | h1) | h1
  · left; left; left; rw [h1]; decide
  · left; left; left; rw [h1]; decide
  · left; left; left; rw [h1]; decide
  · left; left; right; exact jsStartsWith_trans _ _ _ (by decide) h1
  · left; left; right; exact jsStartsWith_trans _ _ _ (by decide) h1
  · left; left; right; exact jsStartsWith_trans _ _ _ (by decide) h1

/-- The verdict of the vote check of `/ile`: whether the request is answered `hidden`. -/
theorem handleIle_visible (R : ProxyRuntime) (cfg : Config) (up : Upstream) (st : ServerState)
    (req : CounterRequest) (now : Int)
    (hname : isAllowedCounterName req.name = true)
    (hpublic : isAdmin R.toRuntime cfg.ADMIN_TOKEN_SECRET st.adminSessionId req.token now = true
      ∨ isAllowedPublicCounterName req.name = true)
    (hvisible : isAdmin R.toRuntime cfg.ADMIN_TOKEN_SECRET st.adminSessionId req.token now = true
      ∨ req.name ≠ "staszek-vote"
      ∨ ∀ n, (licznikGetInt up [] req.name).1 = some n → 20 ≤ n)
    (hplain : wantsJsonResponse R req = false) :
    ∃ sent, handleIle R cfg up st req now = ilePlainText R cfg up sent req := by
  simp only [handleIle, hname, Bool.not_true, Bool.false_eq_true, if_false, hplain,
    Bool.not_false, if_true]
  cases hadmin : isAdmin R.toRuntime cfg.ADMIN_TOKEN_SECRET st.adminSessionId req.token now with
  | true =>
    simp only [Bool.not_true, Bool.false_and, Bool.false_eq_true, if_false]
    exact ⟨_, rfl⟩
  | false =>
    simp only [hadmin, Bool.false_eq_true, false_or] at hpublic hvisible
    simp only [hpublic, Bool.not_false, Bool.not_true, Bool.and_false, Bool.false_eq_true,
      if_false, Bool.true_and]
    by_cases hv : req.name = "staszek-vote"
    · have h20 := hvisible.resolve_left (fun h => h hv)
      simp only [hv, beq_self_eq_true, if_true] at h20 ⊢
      cases hread : (licznikGetInt up [] "staszek-vote").1 with
      | none => exact ⟨_, rfl⟩
      | some n =>
        have := h20 n hread
        have hnot : ¬ n < MIN_PUBLIC_VOTE_COUNT := by
          simp only [MIN_PUBLIC_VOTE_COUNT]; omega
        simp only [hnot, decide_False, Bool.false_eq_true, if_false]
        exact ⟨_, rfl⟩
    · have hb : (req.name == "staszek-vote") = false := by simpa using hv
      simp only [hb, Bool.false_eq_true, if_false]
      exact ⟨_, rfl⟩

theorem handleIle_hidden (R : ProxyRuntime) (cfg : Config) (up : Upstream) (st : ServerState)
    (req : CounterRequest) (now : Int) (n : Int)
    (hname : req.name = "staszek-vote")
    (hadmin : isAdmin R.toRuntime cfg.ADMIN_TOKEN_SECRET st.adminSessionId req.token now
      = false)
    (hread : (licznikGetInt up [] "staszek-vote").1 = some n) (hn : n < 20) :
    handleIle R cfg up st req now = (⟨404, "", "hidden"⟩, [.ile "staszek-vote"]) := by
  have h1 : isAllowedCounterName "staszek-vote" = true := by decide
  have h2 : isAllowedPublicCounterName "staszek-vote" = true := by decide
  have hlt : n < MIN_PUBLIC_VOTE_COUNT := hn
  simp only [handleIle, hname, h1, h2, hadmin, Bool.not_true, Bool.not_false, Bool.and_false,
    Bool.false_eq_true, if_false, beq_self_eq_true, Bool.and_self, if_true, hread, hlt,
    decide_True]
  have : (licznikGetInt up [] "staszek-vote").2 = [.ile "staszek-vote"] := by
    unfold licznikGetInt
    split <;> rfl
  rw [this]

/-! ## Incrementing a counter -/

/-- The `/dodaj` handler on a request that the rate limit lets through, for an allowed name:
the checks on the delta, then the forward. -/
theorem handleDodaj_allowed (R : ProxyRuntime) (cfg : Config) (up : Upstream)
    (st : ServerState) (req : CounterRequest) (clock : CounterClock)
    (hrl : (hitRateLimit st.limiters .requests req.ip REQUEST_RATE_LIMIT_RULES
      clock.atLimit).1.ok = true)
    (hname : isAllowedCounterName req.name = true) :
    handleDodaj R cfg up st req clock
      = match dodajDelta req (isAdmin R.toRuntime cfg.ADMIN_TOKEN_SECRET st.adminSessionId
          req.token clock.atAuth) with
        | .error response =>
          ⟨response, ⟨(hitRateLimit st.limiters .requests req.ip REQUEST_RATE_LIMIT_RULES
            clock.atLimit).2, st.adminSessionId⟩, []⟩
        | .ok delta =>
          ⟨(dodajForward R cfg up req delta).1,
            ⟨(hitRateLimit st.limiters .requests req.ip REQUEST_RATE_LIMIT_RULES
              clock.atLimit).2, st.adminSessionId⟩,
            (dodajForward R cfg up req delta).2⟩ := by
  simp only [handleDodaj, hrl, hname, Bool.not_true, Bool.false_eq_true, if_false]

/-- What the `/dodaj` handler can send: nothing when a check fails, else what the forward
sends for the checked delta. -/
theorem handleDodaj_sent (R : ProxyRuntime) (cfg : Config) (up : Upstream)
    (st : ServerState) (req : CounterRequest) (clock : CounterClock) :
    (handleDodaj R cfg up st req clock).sent = [] ∨
    ∃ delta, dodajDelta req (isAdmin R.toRuntime cfg.ADMIN_TOKEN_SECRET st.adminSessionId
        req.token clock.atAuth) = .ok delta ∧
      (handleDodaj R cfg up st req clock).sent = (dodajForward R cfg up req delta).2 := by
  simp only [handleDodaj]
  split
  · exact Or.inl rfl
  · split
    · exact Or.inl rfl
    · split
      · exact Or.inl rfl
      · rename_i delta hd
        exact Or.inr ⟨delta, hd, rfl⟩

/-- What the checks of `/dodaj` guarantee about a delta that they let through. -/
theorem dodajDelta_ok (req : CounterRequest) (admin : Bool) (delta : Int)
    (h : dodajDelta req admin = .ok delta) :
    isDeltaText (deltaRawOf req) = true ∧ jsParseInt (deltaRawOf req) = some delta ∧
    0 ≤ delta ∧ delta ≤ 1000000 ∧
    (admin = false → delta = 1 ∧ isAllowedPublicCounterName req.name = true) := by
  unfold dodajDelta at h
  split at h
  · cases h
  · rename_i htext
    split at h
    · cases h
    · rename_i d hd
      split at h
      · cases h
      · rename_i hneg
        split at h
        · rename_i hadmin
          split at h
          · cases h
          · rename_i h1
            split at h
            · cases h
            · rename_i hpub
              simp only [Except.ok.injEq] at h
              subst h
              simp only [ne_eq, Decidable.not_not] at h1
              refine ⟨by simpa using htext, hd, by omega, by omega,
                fun _ => ⟨h1, by simpa using hpub⟩⟩
        · rename_i hadmin
          split at h
          · cases h
          · simp only [Except.ok.injEq] at h
            subst h
            refine ⟨by simpa using htext, hd, by omega, by omega, fun ha => ?_⟩
            rw [ha] at hadmin
            simp at hadmin

/-- The requests that the forward of `/dodaj` can send: the increment by the checked delta,
the reset, or the request as it was received. -/
theorem dodajForward_sent (R : ProxyRuntime) (cfg : Config) (up : Upstream)
    (req : CounterRequest) (delta : Int) :
    ∀ x ∈ (dodajForward R cfg up req delta).2,
      x = .counterAdd req.name delta (stripKeyQuery R req.search) ∨ x = .wyzeruj req.name ∨
      x = .passthrough req.path (stripKeyQuery R (stripKeyQuery R req.search)) := by
  intro x hx
  unfold dodajForward at hx
  split at hx
  · unfold dodajPlainText at hx
    split at hx
    · simp at hx
    · simp only at hx
      split at hx
      · simp only [List.mem_singleton] at hx; exact Or.inl hx
      · split at hx
        · simp only [List.mem_singleton] at hx; exact Or.inl hx
        · split at hx
          · split at hx
            · split at hx <;>
              · simp only [List.mem_cons, List.mem_singleton, List.not_mem_nil, or_false] at hx
                rcases hx with h | h | h
                · exact Or.inl h
                · exact Or.inr (Or.inl h)
                · exact Or.inl h
            · simp only [List.mem_singleton] at hx; exact Or.inl hx
          · simp only [List.mem_singleton] at hx; exact Or.inl hx
  · unfold proxyToLicznik at hx
    split at hx
    · simp at hx
    · split at hx <;>
      · simp only [List.nil_append, List.mem_singleton] at hx
        exact Or.inr (Or.inr hx)

/-! ## The example admin token -/

/-- The example admin token is accepted in the session it was issued for. -/
theorem exampleAdminToken_isAdmin :
    isAdmin refRuntime exampleConfig.ADMIN_TOKEN_SECRET "c2Vzc2lvbg" exampleAdminToken 1001
      = true :=
  (isAdmin_jwtSign_iff refRuntime exampleConfig.ADMIN_TOKEN_SECRET "c2Vzc2lvbg"
    (adminTokenPayload "c2Vzc2lvbg" 1 7) 1001 (by rfl) rfl).2
    ⟨by decide, by decide, by decide, rfl, rfl, rfl, _, rfl, by decide, rfl⟩

/-! ## C16 -/

theorem dodajDelta_negative (req : CounterRequest) (admin : Bool) (d : Int)
    (hparse : jsParseInt (deltaRawOf req) = some d) (hneg : d < 0) :
    dodajDelta req admin = .error ⟨400, "invalid_delta", ""⟩ := by
  unfold dodajDelta
  split
  · rfl
  · simp only [hparse, hneg, if_true]

/-- C16. For `/dodaj`, every delta that is forwarded upstream is an integer with
0 ≤ delta ≤ 1,000,000, is exactly 1 whenever the caller is not admin (and then the target is a
public counter), and defaults to 1 when the path has no delta segment; a negative delta is
rejected for admin and non-admin alike: whenever the handler sends anything upstream, the
delta `d` read from the path (or from "1") satisfies these bounds and every request sent is the
increment by `d`, the reset of the auto-heal, or the request as it was received. -/
theorem handleDodaj_forwarded_delta (R : ProxyRuntime) (cfg : Config) (up : Upstream)
    (st : ServerState) (req : CounterRequest) (clock : CounterClock) :
    ((handleDodaj R cfg up st req clock).sent ≠ [] →
      ∃ d : Int, jsParseInt (deltaRawOf req) = some d ∧ 0 ≤ d ∧ d ≤ 1000000 ∧
        (isAdmin R.toRuntime cfg.ADMIN_TOKEN_SECRET st.adminSessionId req.token clock.atAuth
          = false → d = 1 ∧ isAllowedPublicCounterName req.name = true) ∧
        (req.deltaSegment = none → d = 1) ∧
        ∀ x ∈ (handleDodaj R cfg up st req clock).sent,
          x = .counterAdd req.name d (stripKeyQuery R req.search) ∨ x = .wyzeruj req.name ∨
          x = .passthrough req.path (stripKeyQuery R (stripKeyQuery R req.search))) ∧
    (∀ d : Int, jsParseInt (deltaRawOf req) = some d → d < 0 →
      ((handleDodaj R cfg up st req clock).response.status = 400 ∨
        (handleDodaj R cfg up st req clock).response.status = 429) ∧
      (handleDodaj R cfg up st req clock).sent = []) := by
  constructor
  · intro hsent
    rcases handleDodaj_sent R cfg up st req clock with h | ⟨delta, hd, hs⟩
    · exact absurd h hsent
    · obtain ⟨_, hparse, h0, h1, hadmin⟩ := dodajDelta_ok req _ delta hd
      refine ⟨delta, hparse, h0, h1, hadmin, ?_, ?_⟩
      · intro hnone
        simp only [deltaRawOf, hnone, Option.getD_none] at hparse
        have h1 : jsParseInt "1" = some 1 := by decide
        rw [h1] at hparse
        exact (Option.some.inj hparse).symm
      · rw [hs]
        exact dodajForward_sent R cfg up req delta
  · intro d hparse hneg
    simp only [handleDodaj]
    split
    · exact ⟨Or.inr rfl, rfl⟩
    · split
      · exact ⟨Or.inl rfl, rfl⟩
      · rw [dodajDelta_negative req _ d hparse hneg]
        exact ⟨Or.inl rfl, rfl⟩

/-- C16 at a request for -1 on "staszek-views": 400, nothing sent. -/
theorem handleDodaj_forwarded_delta_witness :
    ((handleDodaj refProxyRuntime exampleConfig fiveUpstream exampleState
        (counterRequest "/dodaj/staszek-views/-1" "staszek-views" (some "-1"))
        ⟨1000, 1001⟩).response.status = 400 ∨
      (handleDodaj refProxyRuntime exampleConfig fiveUpstream exampleState
        (counterRequest "/dodaj/staszek-views/-1" "staszek-views" (some "-1"))
        ⟨1000, 1001⟩).response.status = 429) ∧
    (handleDodaj refProxyRuntime exampleConfig fiveUpstream exampleState
      (counterRequest "/dodaj/staszek-views/-1" "staszek-views" (some "-1"))
      ⟨1000, 1001⟩).sent = [] :=
  (handleDodaj_forwarded_delta refProxyRuntime exampleConfig fiveUpstream exampleState
    (counterRequest "/dodaj/staszek-views/-1" "staszek-views" (some "-1")) ⟨1000, 1001⟩).2
    (-1) (by decide) (by decide)

/-! ## Admin login lockout -/

theorem lockout_sec_pos (p : Nat) : 1 ≤ min ADMIN_LOGIN_LOCKOUT_MAX_SEC (60 * 2 ^ p) := by
  have h : (1 : Int) ≤ 2 ^ p := by
    have := Nat.two_pow_pos p
    exact_mod_cast this
  simp only [ADMIN_LOGIN_LOCKOUT_MAX_SEC]
  omega

/-- One call of `adminLoginRegisterFailure` on a record with `j` failures (no record when
`j = 0`). -/
theorem adminLoginRegisterFailure_step (map : String → Option AdminLoginFailure) (ip : String)
    (now : Int) (j : Nat) (hip : jsTrim ip ≠ "")
    (hfails : ((map (jsTrim ip)).getD ⟨0, 0, 0⟩).fails = j)
    (hblocked : j < 5 → ((map (jsTrim ip)).getD ⟨0, 0, 0⟩).blockedUntil = 0) :
    adminLoginRegisterFailure map ip now
      = (if j + 1 < 5 then 0 else min 21600 (60 * 2 ^ (j + 1 - 5)),
          setKey map (jsTrim ip) ⟨now, (j + 1 : Nat),
            if j + 1 < 5 then 0 else now + min 21600 (60 * 2 ^ (j + 1 - 5)) * 1000⟩) := by
  have hf : ((map (jsTrim ip)).getD ⟨now, 0, 0⟩).fails = j := by
    rw [← hfails]; cases map (jsTrim ip) <;> rfl
  have hb : ((map (jsTrim ip)).getD ⟨now, 0, 0⟩).blockedUntil
      = ((map (jsTrim ip)).getD ⟨0, 0, 0⟩).blockedUntil := by
    cases map (jsTrim ip) <;> rfl
  simp only [adminLoginRegisterFailure, hip, if_false, hf, hb, ADMIN_LOGIN_LOCKOUT_AFTER]
  by_cases hj : j + 1 < 5
  · have h1 : ¬ ((j : Int) + 1 ≥ 5) := by omega
    simp only [h1, if_false, hj, if_true, hblocked (by omega), Nat.cast_add, Nat.cast_one]
  · have h1 : (j : Int) + 1 ≥ 5 := by omega
    have hpow : (max 0 ((j : Int) + 1 - 5)).toNat = j + 1 - 5 := by omega
    have hpos := lockout_sec_pos (j + 1 - 5)
    simp only [ADMIN_LOGIN_LOCKOUT_MAX_SEC] at hpos
    simp only [h1, if_true, hj, if_false, hpow, ADMIN_LOGIN_LOCKOUT_MAX_SEC, Nat.cast_add,
      Nat.cast_one]
    rw [max_eq_right (by omega)]
    norm_num

/-- The record of an IP after `k` consecutive failures that began without a record. -/
theorem registerFailures_record (ip : String) (hip : jsTrim ip ≠ "") :
    ∀ (nows : List Int) (map : String → Option AdminLoginFailure) (j : Nat),
      ((map (jsTrim ip)).getD ⟨0, 0, 0⟩).fails = j →
      (j < 5 → ((map (jsTrim ip)).getD ⟨0, 0, 0⟩).blockedUntil = 0) →
      (((registerFailures map ip nows).2 (jsTrim ip)).getD ⟨0, 0, 0⟩).fails
        = (j + nows.length : Nat) ∧
      (j + nows.length < 5 →
        (((registerFailures map ip nows).2 (jsTrim ip)).getD ⟨0, 0, 0⟩).blockedUntil = 0) := by
  intro nows
  induction nows with
  | nil =>
    intro map j hf hb
    exact ⟨hf, hb⟩
  | cons now rest ih =>
    intro map j hf hb
    have hstep := adminLoginRegisterFailure_step map ip now j hip hf hb
    have hrec : (adminLoginRegisterFailure map ip now).2 (jsTrim ip)
        = some ⟨now, (j + 1 : Nat),
            if j + 1 < 5 then 0 else now + min 21600 (60 * 2 ^ (j + 1 - 5)) * 1000⟩ := by
      rw [hstep]; simp only [setKey, if_true]
    have := ih (adminLoginRegisterFailure map ip now).2 (j + 1)
      (by rw [hrec]; rfl)
      (by intro h; rw [hrec]; simp only [Option.getD_some, h, if_true])
    simp only [registerFailures, List.length_cons]
    have e : j + (rest.length + 1) = j + 1 + rest.length := by omega
    rw [e]
    exact this

theorem adminLoginReset_deletes (map : String → Option AdminLoginFailure) (ip : String)
    (hip : jsTrim ip ≠ "") : adminLoginReset map ip (jsTrim ip) = none := by
  simp only [adminLoginReset, hip, if_false, if_true]

/-- A login answered 200 leaves no failure record for the IP. -/
theorem handleAdminLogin_success_resets (R : ForumRuntime) (cfg : Config)
    (adminPassword : String) (ttlDays : Int) (st : ServerState) (req : LoginRequest)
    (randomBytes : List Byte) (clock : LoginClock) (hip : jsTrim req.ip ≠ "")
    (h200 : (handleAdminLogin R cfg adminPassword ttlDays st req randomBytes
      clock).response.status = 200) :
    (handleAdminLogin R cfg adminPassword ttlDays st req randomBytes
      clock).state.limiters.adminLoginFailuresByIp (jsTrim req.ip) = none := by
  revert h200
  simp only [handleAdminLogin]
  split
  · intro h; simp at h
  · split
    · intro h; simp at h
    · split
      · intro h; simp at h
      · split
        · intro h; simp at h
        · split
          · intro h; simp at h
          · split
            · intro h; simp at h
            · simp only [loginWithBody]
              split
              · split
                · intro h; simp at h
                · intro h; simp at h
              · intro _
                exact adminLoginReset_deletes _ _ hip

/-- The token and the state of a login answered with a token. -/
theorem handleAdminLogin_token (R : ForumRuntime) (cfg : Config)
    (adminPassword : String) (ttlDays : Int) (st : ServerState) (req : LoginRequest)
    (randomBytes : List Byte) (clock : LoginClock) (t : String)
    (ht : (handleAdminLogin R cfg adminPassword ttlDays st req randomBytes clock).token
      = some t) :
    t = (adminLogin R.toRuntime cfg.ADMIN_TOKEN_SECRET randomBytes clock.atToken ttlDays).2 := by
  revert ht
  simp only [handleAdminLogin]
  split
  · intro h; cases h
  · split
    · intro h; cases h
    · split
      · intro h; cases h
      · split
        · intro h; cases h
        · split
          · intro h; cases h
          · split
            · intro h; cases h
            · simp only [loginWithBody]
              split
              · split
                · intro h; cases h
                · intro h; cases h
              · intro h
                simp only [Option.some.injEq] at h
                exact h.symm

/-! ## C19 -/

/-- C19. Admin login lockout: `adminLoginRegisterFailure` imposes no lockout for the first 4
consecutive failures of an IP; for the k-th consecutive failure with k ≥ 5 it sets
`blockedUntil = now + 1000·d` and returns `d = min(21600, 60·2^(k−5))` seconds, so the lockout
doubles with each further failure and never exceeds 6 hours; a successful login deletes the
IP's failure record.  Here `nows` lists the clock values of the k−1 failures before the one at
`now`, the first of them finding no record. -/
theorem adminLogin_lockout (map : String → Option AdminLoginFailure) (ip : String)
    (nows : List Int) (now : Int)
    (hip : jsTrim ip ≠ "") (hfresh : map (jsTrim ip) = none) :
    (nows.length + 1 < 5 →
      (adminLoginRegisterFailure (registerFailures map ip nows).2 ip now).1 = 0 ∧
      ∀ later : Int, adminLoginRetryAfter
        (adminLoginRegisterFailure (registerFailures map ip nows).2 ip now).2 ip later = 0) ∧
    (5 ≤ nows.length + 1 →
      (adminLoginRegisterFailure (registerFailures map ip nows).2 ip now).1
        = min 21600 (60 * 2 ^ (nows.length + 1 - 5)) ∧
      (adminLoginRegisterFailure (registerFailures map ip nows).2 ip now).2 (jsTrim ip)
        = some ⟨now, (nows.length + 1 : Nat),
            now + 1000 * min 21600 (60 * 2 ^ (nows.length + 1 - 5))⟩ ∧
      (adminLoginRegisterFailure (registerFailures map ip nows).2 ip now).1 ≤ 21600 ∧
      ∀ next : Int,
        (adminLoginRegisterFailure
          (adminLoginRegisterFailure (registerFailures map ip nows).2 ip now).2 ip next).1
          = min 21600 (2 *
              (adminLoginRegisterFailure (registerFailures map ip nows).2 ip now).1)) ∧
    (∀ m : String → Option AdminLoginFailure, adminLoginReset m ip (jsTrim ip) = none) ∧
    (∀ (R : ForumRuntime) (cfg : Config) (adminPassword : String) (ttlDays : Int)
        (st : ServerState) (req : LoginRequest) (randomBytes : List Byte) (clock : LoginClock),
      req.ip = ip →
      (handleAdminLogin R cfg adminPassword ttlDays st req randomBytes
        clock).response.status = 200 →
      (handleAdminLogin R cfg adminPassword ttlDays st req randomBytes
        clock).state.limiters.adminLoginFailuresByIp (jsTrim ip) = none) := by
  obtain ⟨hf, hb⟩ := registerFailures_record ip hip nows map 0
    (by rw [hfresh]; rfl) (by intro _; rw [hfresh]; rfl)
  simp only [Nat.zero_add] at hf hb
  have hstep := adminLoginRegisterFailure_step (registerFailures map ip nows).2 ip now
    nows.length hip hf hb
  refine ⟨?_, ?_, fun m => adminLoginReset_deletes m ip hip, ?_⟩
  · intro hk
    rw [hstep]
    simp only [hk, if_true, true_and]
    intro later
    simp only [adminLoginRetryAfter, hip, if_false, setKey, if_true, true_or]
  · intro hk
    have hnk : ¬ nows.length + 1 < 5 := by omega
    rw [hstep]
    simp only [hnk, if_false]
    refine ⟨trivial, ?_, min_le_left _ _, ?_⟩
    · simp only [setKey, if_true, mul_comm]
    · intro next
      have hstep2 := adminLoginRegisterFailure_step
        (setKey (registerFailures map ip nows).2 (jsTrim ip)
          ⟨now, (nows.length + 1 : Nat),
            now + min 21600 (60 * 2 ^ (nows.length + 1 - 5)) * 1000⟩) ip next
        (nows.length + 1) hip (by simp only [setKey, if_true]; rfl) (by intro h; omega)
      rw [hstep2]
      have hnk2 : ¬ nows.length + 1 + 1 < 5 := by omega
      simp only [hnk2, if_false]
      have e : nows.length + 1 + 1 - 5 = (nows.length + 1 - 5) + 1 := by omega
      rw [e, pow_succ]
      have hpos : (1 : Int) ≤ 2 ^ (nows.length + 1 - 5) := by
        have := Nat.two_pow_pos (nows.length + 1 - 5)
        exact_mod_cast this
      generalize (2 : Int) ^ (nows.length + 1 - 5) = x at hpos ⊢
      omega
  · intro R cfg adminPassword ttlDays st req randomBytes clock hreq h200
    subst hreq
    exact handleAdminLogin_success_resets R cfg adminPassword ttlDays st req randomBytes clock
      hip h200

/-- C19 at the sixth consecutive failure of an IP: locked for 120 seconds. -/
theorem adminLogin_lockout_witness :
    (adminLoginRegisterFailure
      (registerFailures (fun _ => none) "203.0.113.7" [1000, 2000, 3000, 4000, 5000]).2
      "203.0.113.7" 6000).1 = min 21600 (60 * 2 ^ (5 + 1 - 5)) :=
  ((adminLogin_lockout (fun _ => none) "203.0.113.7" [1000, 2000, 3000, 4000, 5000] 6000
    (by decide) rfl).2.1 (by decide)).1

/-! ## C20 -/

/-- C20. The admin token lifetime is always a whole number of days between 1 and 30: it is 7
when `ADMIN_TOKEN_TTL_DAYS` is empty, unparsable or not positive, and otherwise the parsed
integer capped at 30; every token issued by login has `exp = iat + days·86400`. -/
theorem adminTokenTtlDays_range :
    (∀ env : Option String,
      1 ≤ adminTokenTtlDays env ∧ adminTokenTtlDays env ≤ 30 ∧
      (jsTrim (env.getD "") = "" → adminTokenTtlDays env = 7) ∧
      (jsParseInt (jsTrim (env.getD "")) = none → adminTokenTtlDays env = 7) ∧
      (∀ n : Int, jsParseInt (jsTrim (env.getD "")) = some n → n ≤ 0 →
        adminTokenTtlDays env = 7) ∧
      (∀ n : Int, jsTrim (env.getD "") ≠ "" → jsParseInt (jsTrim (env.getD "")) = some n →
        0 < n → adminTokenTtlDays env = min 30 n)) ∧
    (∀ (R : ForumRuntime) (cfg : Config) (adminPassword : String) (env : Option String)
        (st : ServerState) (req : LoginRequest) (randomBytes : List Byte) (clock : LoginClock)
        (t : String),
      (handleAdminLogin R cfg adminPassword (adminTokenTtlDays env) st req randomBytes
        clock).token = some t →
      ∃ payload : Json, t = jwtSign R.toRuntime payload cfg.ADMIN_TOKEN_SECRET ∧
        payload.get "iat" = some (.num (clock.atToken / 1000)) ∧
        payload.get "exp"
          = some (.num (clock.atToken / 1000 + adminTokenTtlDays env * 86400))) := by
  constructor
  · intro env
    have key : adminTokenTtlDays env
        = if jsTrim (env.getD "") = "" then 7
          else match jsParseInt (jsTrim (env.getD "")) with
            | none => 7
            | some n => if n ≤ 0 then 7 else max 1 (min 30 n) := rfl
    rw [key]
    generalize jsTrim (env.getD "") = raw
    generalize jsParseInt raw = p
    by_cases hraw : raw = ""
    · rw [if_pos hraw]
      refine ⟨by decide, by decide, fun _ => rfl, fun _ => rfl, fun _ _ _ => rfl, ?_⟩
      intro n h
      exact absurd hraw h
    · rw [if_neg hraw]
      cases p with
      | none =>
        refine ⟨by decide, by decide, fun h => absurd h hraw, fun _ => rfl, ?_, ?_⟩
        · intro n h; cases h
        · intro n _ h; cases h
      | some n =>
        refine ⟨?_, ?_, fun h => absurd h hraw, ?_, ?_, ?_⟩
        · show (1 : Int) ≤ if n ≤ 0 then 7 else max 1 (min 30 n)
          split <;> omega
        · show (if n ≤ 0 then 7 else max 1 (min 30 n)) ≤ (30 : Int)
          split <;> omega
        · intro h; cases h
        · intro m hm hle
          cases hm
          show (if n ≤ 0 then 7 else max 1 (min 30 n)) = (7 : Int)
          rw [if_pos hle]
        · intro m _ hm hpos
          cases hm
          show (if n ≤ 0 then 7 else max 1 (min 30 n)) = min 30 n
          rw [if_neg (by omega)]
          omega
  · intro R cfg adminPassword env st req randomBytes clock t ht
    have := handleAdminLogin_token R cfg adminPassword _ st req randomBytes clock t ht
    refine ⟨_, this, rfl, ?_⟩
    show some (Json.num (clock.atToken / 1000 + adminTokenTtlDays env * 24 * 3600)) = _
    congr 2
    omega

/-- C20 at a login with the right password while `ADMIN_TOKEN_TTL_DAYS` is "14". -/
theorem adminTokenTtlDays_range_witness :
    ∃ payload : Json,
      (adminLogin refRuntime exampleConfig.ADMIN_TOKEN_SECRET (List.replicate 18 (byte 7))
        5000 (adminTokenTtlDays (some "14"))).2
        = jwtSign refForumRuntime.toRuntime payload exampleConfig.ADMIN_TOKEN_SECRET ∧
      payload.get "iat" = some (.num ((⟨1000, 2000, 3000, 5000⟩ : LoginClock).atToken / 1000)) ∧
      payload.get "exp"
        = some (.num ((⟨1000, 2000, 3000, 5000⟩ : LoginClock).atToken / 1000
            + adminTokenTtlDays (some "14") * 86400)) :=
  adminTokenTtlDays_range.2 refForumRuntime exampleConfig "haslo123" (some "14") exampleState
    exampleLogin (List.replicate 18 (byte 7)) ⟨1000, 2000, 3000, 5000⟩ _ (by rfl)

/-! ## Moderation replies -/

theorem dropWhile_head_false {α : Type} (p : α → Bool) :
    ∀ (l : List α) (c : α) (rest : List α), l.dropWhile p = c :: rest → p c = false := by
  intro l
  induction l with
  | nil => intro c rest h; cases h
  | cons x xs ih =>
    intro c rest h
    simp only [List.dropWhile_cons] at h
    split at h
    · exact ih c rest h
    · rename_i hx
      simp only [List.cons.injEq] at h
      rw [← h.1]
      simpa using hx

theorem trimChars_head (l : List Char) (c : Char) (rest : List Char)
    (h : trimChars l = c :: rest) : isJsWhitespace c = false := by
  unfold trimChars at h
  have hsuf : ((l.dropWhile isJsWhitespace).reverse.dropWhile isJsWhitespace)
      <:+ (l.dropWhile isJsWhitespace).reverse := List.dropWhile_suffix _
  have hpre := List.reverse_prefix.2 hsuf
  rw [h, List.reverse_reverse] at hpre
  obtain ⟨t, ht⟩ := hpre
  exact dropWhile_head_false isJsWhitespace l c (rest ++ t) (by rw [← ht]; rfl)

theorem trimChars_last (l : List Char) (c : Char) (init : List Char)
    (h : trimChars l = init ++ [c]) : isJsWhitespace c = false := by
  unfold trimChars at h
  have h2 := congrArg List.reverse h
  rw [List.reverse_reverse] at h2
  simp only [List.reverse_append, List.reverse_cons, List.reverse_nil, List.nil_append,
    List.singleton_append] at h2
  exact dropWhile_head_false isJsWhitespace _ c _ h2

/-- On a trimmed text the pattern `^\s*([0-9])\s*$` matches exactly the texts of one digit. -/
theorem matchesDigitPattern_trimmed (x : String) (d : Char) :
    MatchesDigitPattern (jsTrim x) d ↔
      (jsTrim x = String.singleton d ∧ '0' ≤ d ∧ d ≤ '9') := by
  constructor
  · rintro ⟨before, after, hdata, hd, hb, ha⟩
    have hdata2 : trimChars x.data = before ++ d :: after := hdata
    have hbefore : before = [] := by
      cases before with
      | nil => rfl
      | cons b bs =>
        have := trimChars_head x.data b (bs ++ d :: after) hdata2
        rw [hb b (List.mem_cons_self _ _)] at this
        cases this
    have hafter : after = [] := by
      rcases List.eq_nil_or_concat after with h | ⟨init, z, h⟩
      · exact h
      · rw [List.concat_eq_append] at h
        have hz : isJsWhitespace z = true := ha z (by rw [h]; simp)
        have e : trimChars x.data = (before ++ d :: init) ++ [z] := by
          rw [hdata2, h]; simp
        rw [trimChars_last x.data z _ e] at hz
        cases hz
    subst hbefore
    subst hafter
    exact ⟨String.ext hdata, hd⟩
  · rintro ⟨h, hd⟩
    refine ⟨[], [], ?_, hd, ?_, ?_⟩
    · rw [h]; rfl
    · intro c hc; cases hc
    · intro c hc; cases hc

theorem matchSingleDigit_singleton (d : Char) (hd : '0' ≤ d ∧ d ≤ '9') :
    matchSingleDigit (String.singleton d) = some ((d.toNat : Int) - 48) := by
  have h0 : '0'.toNat = 48 := by decide
  have h9 : '9'.toNat = 57 := by decide
  have h1 : 48 ≤ d.toNat := by rw [← h0]; exact hd.1
  have h2 : d.toNat ≤ 57 := by rw [← h9]; exact hd.2
  show (if 48 ≤ d.toNat ∧ d.toNat ≤ 57 then some ((d.toNat : Int) - 48) else none) = _
  rw [if_pos ⟨h1, h2⟩]

theorem matchSingleDigit_some (s : String) (v : Int) (h : matchSingleDigit s = some v) :
    ∃ d : Char, s = String.singleton d ∧ ('0' ≤ d ∧ d ≤ '9') ∧ v = (d.toNat : Int) - 48 := by
  unfold matchSingleDigit at h
  split at h
  · rename_i c hdata
    split at h
    · rename_i hc
      have h0 : '0'.toNat = 48 := by decide
      have h9 : '9'.toNat = 57 := by decide
      simp only [Option.some.injEq] at h
      refine ⟨c, String.ext hdata, ⟨?_, ?_⟩, h.symm⟩
      · show '0'.toNat ≤ c.toNat
        rw [h0]; exact hc.1
      · show c.toNat ≤ '9'.toNat
        rw [h9]; exact hc.2
    · cases h
  · cases h

theorem togetherModerate_ok (R : Runtime) (cfg : Config) (together : Together)
    (threadKey name msg : String) (r : FetchResult)
    (hkey : cfg.TOGETHER_API_KEY ≠ "") (hresp : together threadKey name msg = some r)
    (hok : r.ok = true) :
    togetherModerate R cfg together threadKey name msg false
      = if (matchSingleDigit (moderationContent R r.text)).getD 0 < 0 ∨
            (matchSingleDigit (moderationContent R r.text)).getD 0 > 9 then .ok 0
        else .ok ((matchSingleDigit (moderationContent R r.text)).getD 0) := by
  simp only [togetherModerate, Bool.false_eq_true, if_false, hkey, hresp, hok, Bool.not_true,
    moderationContent]

/-! ## C21 -/

/-- C21. Moderation score parsing in `togetherModerate`: for every successful upstream
response body, the returned score is an integer in [0,9]; it equals the digit d when the
model's reply, after trimming whitespace, is the single character d (the texts that the
pattern `^\s*([0-9])\s*$` matches), and is 0 for every other reply. -/
theorem togetherModerate_score (R : Runtime) (cfg : Config) (together : Together)
    (threadKey name msg : String) (r : FetchResult)
    (hkey : cfg.TOGETHER_API_KEY ≠ "") (hresp : together threadKey name msg = some r)
    (hok : r.ok = true) :
    ∃ s : Int, togetherModerate R cfg together threadKey name msg false = .ok s ∧
      0 ≤ s ∧ s ≤ 9 ∧
      (∀ d : Char, '0' ≤ d ∧ d ≤ '9' → moderationContent R r.text = String.singleton d →
        s = (d.toNat : Int) - 48) ∧
      ((∀ d : Char, '0' ≤ d ∧ d ≤ '9' → moderationContent R r.text ≠ String.singleton d) →
        s = 0) ∧
      (s ≠ 0 → ∃ d : Char, MatchesDigitPattern (moderationContent R r.text) d ∧
        s = (d.toNat : Int) - 48) := by
  rw [togetherModerate_ok R cfg together threadKey name msg r hkey hresp hok]
  have h0 : '0'.toNat = 48 := by decide
  have h9 : '9'.toNat = 57 := by decide
  cases hm : matchSingleDigit (moderationContent R r.text) with
  | none =>
    refine ⟨0, by simp, le_refl _, by decide, ?_, fun _ => rfl, fun h => absurd rfl h⟩
    intro d hd hc
    rw [hc, matchSingleDigit_singleton d hd] at hm
    cases hm
  | some v =>
    obtain ⟨d, hs, hd, hv⟩ := matchSingleDigit_some _ v hm
    have h1 : 48 ≤ d.toNat := by rw [← h0]; exact hd.1
    have h2 : d.toNat ≤ 57 := by rw [← h9]; exact hd.2
    have hrange : ¬ (v < 0 ∨ v > 9) := by omega
    refine ⟨v, by simp only [Option.getD_some, hrange, if_false], by omega, by omega, ?_, ?_,
      ?_⟩
    · intro d2 hd2 hc
      rw [hc, matchSingleDigit_singleton d2 hd2] at hm
      simp only [Option.some.injEq] at hm
      exact hm.symm
    · intro hall
      exact absurd hs (hall d hd)
    · intro _
      refine ⟨d, ?_, hv⟩
      have : moderationContent R r.text = jsTrim (jsString (jsOr (jsOr (jsOptGet (jsOptGet
          (jsOptIndex0 (jsOptGet (some ((tryParseJsonObject R r.text).getD (.obj [])))
            "choices")) "message") "content")
          (jsOptGet (jsOptIndex0 (jsOptGet (some ((tryParseJsonObject R r.text).getD
            (.obj []))) "choices")) "text")) (some (.str "")))) := rfl
      rw [this] at hs ⊢
      exact (matchesDigitPattern_trimmed _ d).2 ⟨hs, hd⟩

/-- C21 at the reply " 7 " of the model: the score is 7. -/
theorem togetherModerate_score_witness :
    togetherModerate refRuntime exampleConfig (replyingTogether " 7 ") "staszek-forum" ""
      "Dobry pomysł" false = .ok 7 := by
  obtain ⟨s, h, _, _, hd, _, _⟩ := togetherModerate_score refRuntime exampleConfig
    (replyingTogether " 7 ") "staszek-forum" "" "Dobry pomysł" _ (by decide) rfl rfl
  rw [h, hd '7' (by decide) (by decide)]
  rfl

/-! ## C22 -/

theorem proxyToLicznik_sent (R : ProxyRuntime) (cfg : Config) (up : Upstream)
    (apiPath urlSearch : String) (hkey : cfg.LICZNIK_API_KEY ≠ "") :
    (proxyToLicznik R cfg up [] apiPath urlSearch).2
      = [.passthrough apiPath (stripKeyQuery R urlSearch)] := by
  simp only [proxyToLicznik, hkey, if_false]
  split <;> rfl

theorem handleBasicDbOdczyt_private_denied (R : ProxyRuntime) (cfg : Config) (up : Upstream)
    (st : ServerState) (req : ReadRequest) (now : Int) (hkey : req.key = "pv-mesege-staszek")
    (hadmin : isAdmin R.toRuntime cfg.ADMIN_TOKEN_SECRET st.adminSessionId req.token now
      = false) :
    handleBasicDbOdczyt R cfg up st req now = (⟨401, "admin_required", ""⟩, []) := by
  have h1 : isAllowedBasicDbKey "pv-mesege-staszek" = true := by decide
  have h2 : jsStartsWith "pv-mesege-staszek" "staszek-" = false := by decide
  have h3 : jsStartsWith "pv-mesege-staszek" "pv-" = true := by decide
  have h4 : isProtectedBasicDbReadKey "pv-mesege-staszek" = true := by decide
  simp only [handleBasicDbOdczyt, hkey, h1, h2, h3, h4, hadmin, Bool.not_true,
    Bool.not_false, Bool.false_and, Bool.false_eq_true, if_false, bne_self_eq_false,
    Bool.and_false, Bool.and_self, if_true]

/-- C22. Basic-DB read access (`GET /baza-podstawowa/odczyt/{key}`): a key is accepted only if
it is an allowed forum thread key or exactly "pv-mesege-staszek" (anything else gets 400 and
nothing is sent); for the accepted key starting with "pv-" the read is forwarded upstream only
when the caller is admin (401 otherwise), and for every other accepted key it is forwarded
without authentication; forwarding sends the request as received when the API key is set. -/
theorem handleBasicDbOdczyt_access (R : ProxyRuntime) (cfg : Config) (up : Upstream)
    (st : ServerState) (req : ReadRequest) (now : Int) :
    (¬ (isAllowedForumThreadKey req.key = true ∨ req.key = "pv-mesege-staszek") →
      handleBasicDbOdczyt R cfg up st req now = (⟨400, "invalid_key", ""⟩, [])) ∧
    (req.key = "pv-mesege-staszek" →
      isAdmin R.toRuntime cfg.ADMIN_TOKEN_SECRET st.adminSessionId req.token now = false →
      handleBasicDbOdczyt R cfg up st req now = (⟨401, "admin_required", ""⟩, [])) ∧
    (req.key = "pv-mesege-staszek" →
      isAdmin R.toRuntime cfg.ADMIN_TOKEN_SECRET st.adminSessionId req.token now = true →
      handleBasicDbOdczyt R cfg up st req now
        = proxyToLicznik R cfg up [] req.path req.search) ∧
    (isAllowedForumThreadKey req.key = true →
      jsStartsWith req.key "pv-" = false ∧
      handleBasicDbOdczyt R cfg up st req now
        = proxyToLicznik R cfg up [] req.path req.search) ∧
    (cfg.LICZNIK_API_KEY ≠ "" →
      (proxyToLicznik R cfg up [] req.path req.search).2
        = [.passthrough req.path (stripKeyQuery R req.search)]) := by
  refine ⟨?_, ?_, ?_, ?_, proxyToLicznik_sent R cfg up req.path req.search⟩
  · intro hnot
    have hforum : isAllowedForumThreadKey req.key = false := by
      cases h : isAllowedForumThreadKey req.key with
      | false => rfl
      | true => exact absurd (Or.inl h) hnot
    have hpv : (req.key != "pv-mesege-staszek") = true := by
      simp only [bne_iff_ne, ne_eq]
      exact fun h => hnot (Or.inr h)
    unfold handleBasicDbOdczyt
    cases hdb : isAllowedBasicDbKey req.key with
    | false => rfl
    | true =>
      simp only [isAllowedBasicDbKey, Bool.and_eq_true, Bool.or_eq_true] at hdb
      rcases hdb.2 with h | h
      · simp only [Bool.not_true, Bool.false_eq_true, if_false, h, hforum, Bool.not_false,
          Bool.and_self, if_true]
      · simp only [Bool.not_true, Bool.false_eq_true, if_false, h, hforum, Bool.not_false,
          Bool.and_true, hpv, Bool.and_self, if_true, ite_self]
  · exact handleBasicDbOdczyt_private_denied R cfg up st req now
  · intro hkey hadmin
    have h1 : isAllowedBasicDbKey "pv-mesege-staszek" = true := by decide
    have h2 : jsStartsWith "pv-mesege-staszek" "staszek-" = false := by decide
    have h3 : jsStartsWith "pv-mesege-staszek" "pv-" = true := by decide
    have h4 : isProtectedBasicDbReadKey "pv-mesege-staszek" = true := by decide
    simp only [handleBasicDbOdczyt, hkey, h1, h2, h3, h4, hadmin, Bool.not_true,
      Bool.false_and, Bool.false_eq_true, if_false, bne_self_eq_false, Bool.and_false]
  · intro hforum
    obtain ⟨hvalid, hst⟩ := isAllowedForumThreadKey_forum req.key hforum
    have hpv := jsStartsWith_staszek_not_pv req.key hst
    have hdb : isAllowedBasicDbKey req.key = true := by
      simp only [isAllowedBasicDbKey, hvalid, hst, Bool.true_or, Bool.and_self]
    refine ⟨hpv, ?_⟩
    simp only [handleBasicDbOdczyt, hdb, hst, hforum, hpv, isProtectedBasicDbReadKey,
      Bool.not_true, Bool.and_false, Bool.false_and, Bool.false_eq_true, if_false]

/-- C22 at the private key without a token: 401, nothing sent. -/
theorem handleBasicDbOdczyt_access_witness :
    handleBasicDbOdczyt refProxyRuntime exampleConfig fiveUpstream exampleState
      ⟨"/baza-podstawowa/odczyt/pv-mesege-staszek", "", "pv-mesege-staszek", ""⟩ 1000
      = (⟨401, "admin_required", ""⟩, []) :=
  (handleBasicDbOdczyt_access refProxyRuntime exampleConfig fiveUpstream exampleState
    ⟨"/baza-podstawowa/odczyt/pv-mesege-staszek", "", "pv-mesege-staszek", ""⟩ 1000).2.1
    rfl (by decide)

/-! ## C23 -/

theorem normalizeSegment_clean (stack : List (List Char)) (seg : List Char)
    (h : ∀ s ∈ stack, s ≠ [] ∧ s ≠ ['.'] ∧ s ≠ ['.', '.']) :
    ∀ s ∈ normalizeSegment stack seg, s ≠ [] ∧ s ≠ ['.'] ∧ s ≠ ['.', '.'] := by
  unfold normalizeSegment
  split
  · exact h
  · rename_i h1
    split
    · intro s hs
      exact h s (List.dropLast_subset _ hs)
    · rename_i h2
      intro s hs
      rcases List.mem_append.1 hs with hs | hs
      · exact h s hs
      · simp only [List.mem_singleton] at hs
        subst hs
        exact ⟨fun e => h1 (Or.inl e), fun e => h1 (Or.inr e), h2⟩

theorem foldl_normalizeSegment_clean (segs : List (List Char)) :
    ∀ stack : List (List Char), (∀ s ∈ stack, s ≠ [] ∧ s ≠ ['.'] ∧ s ≠ ['.', '.']) →
      ∀ s ∈ segs.foldl normalizeSegment stack, s ≠ [] ∧ s ≠ ['.'] ∧ s ≠ ['.', '.'] := by
  induction segs with
  | nil => intro stack h; exact h
  | cons seg rest ih =>
    intro stack h
    exact ih _ (normalizeSegment_clean stack seg h)

/-- C23. Static path resolution is traversal-safe: for every URL path, `safeResolveStaticPath`
returns either the empty string or a path that equals `STATIC_ROOT` or begins with
`STATIC_ROOT` followed by the path separator (`rootWithSep`, which is `STATIC_ROOT + path.sep`
unless the root already ends in the separator), whatever `path.resolve` and
`decodeURIComponent` give; on POSIX the resolved path has no empty, `.` or `..` segment, so a
`..` in the input, encoded or not, cannot lead outside the root. -/
theorem safeResolveStaticPath_safe :
    (∀ (P : PathRuntime) (STATIC_ROOT urlPath : String),
      safeResolveStaticPath P STATIC_ROOT urlPath = "" ∨
      safeResolveStaticPath P STATIC_ROOT urlPath = STATIC_ROOT ∨
      (rootWithSep P STATIC_ROOT).data <+: (safeResolveStaticPath P STATIC_ROOT urlPath).data) ∧
    (∀ (P : PathRuntime) (STATIC_ROOT : String), jsEndsWith STATIC_ROOT P.sep = false →
      rootWithSep P STATIC_ROOT = STATIC_ROOT ++ P.sep) ∧
    (∀ (root relative : String), ∀ seg ∈ posixResolveSegments root relative,
      seg ≠ [] ∧ seg ≠ ['.'] ∧ seg ≠ ['.', '.']) ∧
    safeResolveStaticPath posixPathRuntime "/srv/app" "/../../etc/passwd" = "" ∧
    safeResolveStaticPath posixPathRuntime "/srv/app" "/img/../..//app/./x/../index.html"
      = "/srv/app/index.html" ∧
    safeResolveStaticPath posixPathRuntime "/srv/app" "/../app-secret/key" = "" := by
  refine ⟨?_, ?_, ?_, by decide, by decide, by decide⟩
  · intro P root urlPath
    unfold safeResolveStaticPath
    simp only
    split
    · exact Or.inl rfl
    · rename_i h
      by_cases h1 : P.resolve root ("." ++ (P.decodeURIComponent urlPath).getD urlPath) = root
      · exact Or.inr (Or.inl h1)
      · right; right
        have h2 : jsStartsWith (P.resolve root
            ("." ++ (P.decodeURIComponent urlPath).getD urlPath)) (rootWithSep P root)
            = true := by
          by_contra hc
          apply h
          exact ⟨h1, by simpa using hc⟩
        simpa only [jsStartsWith, List.isPrefixOf_iff_prefix] using h2
  · intro P root h
    simp only [rootWithSep, h, Bool.false_eq_true, if_false]
  · intro root relative seg hseg
    exact foldl_normalizeSegment_clean _ [] (fun s hs => by cases hs) seg hseg

/-! ## Block comments -/

theorem hasCommentEnd_cons (y : Char) (t : List Char) (h : hasCommentEnd t = true) :
    hasCommentEnd (y :: t) = true := by
  unfold hasCommentEnd
  split
  · rfl
  · rename_i heq
    simp only [List.cons.injEq] at heq
    rw [← heq.2]
    exact h
  · rename_i heq
    cases heq

theorem hasCommentEnd_append (x c : List Char) :
    hasCommentEnd (x ++ '*' :: '/' :: c) = true := by
  induction x with
  | nil => rfl
  | cons y x ih => exact hasCommentEnd_cons y _ ih

theorem stripFrom_length : ∀ (inside : Bool) (l : List Char),
    (stripFrom inside l).length ≤ l.length := by
  intro inside l
  induction inside, l using stripFrom.induct with
  | case1 inside => simp [stripFrom]
  | case2 rest ih =>
    simp only [stripFrom, List.length_cons]
    omega
  | case3 c rest _ ih =>
    rw [stripFrom]
    · simp only [List.length_cons]; omega
    · assumption
  | case4 rest h ih =>
    simp only [stripFrom, h, if_true, List.length_cons]
    omega
  | case5 rest h =>
    simp only [stripFrom, h, Bool.false_eq_true, if_false, le_refl]
  | case6 c rest _ ih =>
    rw [stripFrom]
    · simp only [List.length_cons]; omega
    · assumption

theorem hasCommentEnd_of_comment (rest a b c : List Char)
    (h : '/' :: '*' :: rest = a ++ '/' :: '*' :: (b ++ '*' :: '/' :: c)) :
    hasCommentEnd rest = true := by
  cases a with
  | nil =>
    simp only [List.nil_append, List.cons.injEq, true_and] at h
    rw [h]
    exact hasCommentEnd_append b c
  | cons x a1 =>
    cases a1 with
    | nil =>
      simp only [List.cons_append, List.nil_append, List.cons.injEq] at h
      exact absurd h.2.1 (by decide)
    | cons y a2 =>
      simp only [List.cons_append, List.cons.injEq] at h
      rw [h.2.2]
      have e : a2 ++ '/' :: '*' :: (b ++ '*' :: '/' :: c)
          = (a2 ++ '/' :: '*' :: b) ++ '*' :: '/' :: c := by simp
      rw [e]
      exact hasCommentEnd_append _ c

theorem comment_tail (ch : Char) (rest a b c : List Char)
    (hother : ∀ r : List Char, ch = '/' → rest = '*' :: r → False)
    (h : ch :: rest = a ++ '/' :: '*' :: (b ++ '*' :: '/' :: c)) :
    ∃ a1, rest = a1 ++ '/' :: '*' :: (b ++ '*' :: '/' :: c) := by
  cases a with
  | nil =>
    simp only [List.nil_append, List.cons.injEq] at h
    exact absurd h.2 (fun e => hother _ h.1 e)
  | cons x a1 =>
    simp only [List.cons_append, List.cons.injEq] at h
    exact ⟨a1, h.2⟩

theorem hasCommentEnd_split : ∀ rest : List Char, hasCommentEnd rest = true →
    ∃ b c : List Char, rest = b ++ '*' :: '/' :: c := by
  intro rest
  induction rest with
  | nil => intro h; cases h
  | cons y t iht =>
    intro h
    unfold hasCommentEnd at h
    split at h
    · rename_i heq
      simp only [List.cons.injEq] at heq
      exact ⟨[], _, by rw [heq.1, heq.2]; rfl⟩
    · rename_i heq
      simp only [List.cons.injEq] at heq
      rw [← heq.2] at h
      obtain ⟨b, c, hbc⟩ := iht h
      exact ⟨y :: b, c, by rw [hbc]; rfl⟩
    · cases h

/-- A text without `/*` followed by `*/` is left as it is. -/
theorem stripFrom_no_comment : ∀ (inside : Bool) (l : List Char), inside = false →
    (¬ ∃ a b c : List Char, l = a ++ '/' :: '*' :: (b ++ '*' :: '/' :: c)) →
    stripFrom false l = l := by
  intro inside l
  induction inside, l using stripFrom.induct with
  | case1 inside => intro _ _; simp [stripFrom]
  | case2 rest ih => intro h; cases h
  | case3 c rest _ ih => intro h; cases h
  | case4 rest h ih =>
    intro _ hno
    obtain ⟨b, c, hbc⟩ := hasCommentEnd_split rest h
    exact absurd ⟨[], b, c, by rw [hbc]; rfl⟩ hno
  | case5 rest h =>
    intro _ _
    simp only [stripFrom, h, Bool.false_eq_true, if_false]
  | case6 c rest hother ih =>
    intro _ hno
    rw [stripFrom]
    · rw [ih rfl]
      rintro ⟨a, b, c2, habc⟩
      exact hno ⟨c :: a, b, c2, by rw [habc]; rfl⟩
    · exact hother

/-- A text with `/*` followed by `*/` gets shorter. -/
theorem stripFrom_comment_shorter : ∀ (inside : Bool) (l : List Char), inside = false →
    (∃ a b c : List Char, l = a ++ '/' :: '*' :: (b ++ '*' :: '/' :: c)) →
    (stripFrom false l).length < l.length := by
  intro inside l
  induction inside, l using stripFrom.induct with
  | case1 inside =>
    rintro _ ⟨a, b, c, h⟩
    have := congrArg List.length h
    simp only [List.length_nil, List.length_append, List.length_cons] at this
    omega
  | case2 rest ih => intro h; cases h
  | case3 c rest _ ih => intro h; cases h
  | case4 rest h ih =>
    intro _ _
    have := stripFrom_length true rest
    simp only [stripFrom, h, if_true, List.length_cons]
    omega
  | case5 rest h =>
    rintro _ ⟨a, b, c, habc⟩
    exact absurd (hasCommentEnd_of_comment rest a b c habc) h
  | case6 c rest hother ih =>
    rintro _ ⟨a, b, c2, habc⟩
    obtain ⟨a1, ha1⟩ := comment_tail c rest a b c2 hother habc
    have := ih rfl ⟨a1, b, c2, ha1⟩
    rw [stripFrom]
    · simp only [List.length_cons]; omega
    · exact hother

theorem stripFrom_outside (a t : List Char) (ha : '/' ∉ a) :
    stripFrom false (a ++ t) = a ++ stripFrom false t := by
  induction a with
  | nil => rfl
  | cons x a1 ih =>
    have hx : x ≠ '/' := fun e => ha (by rw [e]; exact List.mem_cons_self _ _)
    have ha1 : '/' ∉ a1 := fun h => ha (List.mem_cons_of_mem _ h)
    rw [List.cons_append, stripFrom]
    · rw [ih ha1]; rfl
    · intro r e _; exact hx e

theorem stripFrom_inside (b c : List Char) (hb : '*' ∉ b) :
    stripFrom true (b ++ '*' :: '/' :: c) = stripFrom false c := by
  induction b with
  | nil => simp [stripFrom]
  | cons y b1 ih =>
    have hy : y ≠ '*' := fun e => hb (by rw [e]; exact List.mem_cons_self _ _)
    have hb1 : '*' ∉ b1 := fun h => hb (List.mem_cons_of_mem _ h)
    rw [List.cons_append, stripFrom]
    · exact ih hb1
    · intro r e _; exact hy e

/-! ## C25 -/

/-- C25 as stated fails: when no origin is configured (`CORS_ORIGINS` unset), a request with a
non-empty Origin, which then equals none of the configured origins, passes the origin check
and reaches its handler. -/
theorem handleApi_open_without_origins :
    corsOriginsOf "" = [] ∧
    jsTrim "https://evil.example" ≠ "" ∧
    "https://evil.example" ∉ corsOriginsOf "" ∧
    isOriginAllowed (corsOriginsOf "") "https://evil.example" = true ∧
    handleApi (corsOriginsOf "") "https://evil.example" "GET" ⟨200, "", "ok"⟩
      = ⟨200, "", "ok"⟩ := by
  decide

/-- C25, amended. CORS allow-listing: when at least one origin is configured, every API
request whose Origin header is, after trimming, non-empty and not equal to one of the
configured origins is answered 403 `origin_not_allowed` before any handler runs; when none is
configured no request is refused for its origin; and an `access-control-allow-origin` header
is emitted exactly when the trimmed Origin is non-empty and equals a configured origin, its
value being that origin. -/
theorem handleApi_origin_check (CORS_ORIGINS : List String) (originHeader method : String)
    (route : Response) :
    (CORS_ORIGINS ≠ [] → jsTrim originHeader ≠ "" → jsTrim originHeader ∉ CORS_ORIGINS →
      handleApi CORS_ORIGINS originHeader method route = ⟨403, "origin_not_allowed", ""⟩) ∧
    (CORS_ORIGINS = [] →
      handleApi CORS_ORIGINS originHeader method route
        = if method = "OPTIONS" then ⟨204, "", ""⟩ else route) ∧
    (∀ v : String, accessControlAllowOrigin CORS_ORIGINS originHeader = some v ↔
      (v = jsTrim originHeader ∧ v ≠ "" ∧ v ∈ CORS_ORIGINS)) := by
  refine ⟨?_, ?_, ?_⟩
  · intro hcors horigin hnot
    have hlen : CORS_ORIGINS.length ≠ 0 := by
      intro h; exact hcors (List.length_eq_zero.1 h)
    have hc : CORS_ORIGINS.contains (jsTrim originHeader) = false := by
      simpa using hnot
    simp only [handleApi, isOriginAllowed, horigin, hlen, hc, if_false, Bool.not_false,
      if_true]
  · intro hcors
    subst hcors
    simp only [handleApi, isOriginAllowed, List.length_nil, if_true, ite_self, Bool.not_true,
      Bool.false_eq_true, if_false]
  · intro v
    simp only [accessControlAllowOrigin, resolveCorsOrigin]
    by_cases horigin : jsTrim originHeader = ""
    · simp only [horigin, if_true, ne_eq, not_true_eq_false, if_false]
      constructor
      · intro h; cases h
      · rintro ⟨h1, h2, _⟩; exact absurd h1 h2
    · by_cases hlen : CORS_ORIGINS.length = 0
      · simp only [horigin, hlen, if_false, if_true, ne_eq, not_true_eq_false]
        constructor
        · intro h; cases h
        · rintro ⟨_, _, h3⟩
          rw [List.length_eq_zero.1 hlen] at h3
          cases h3
      · by_cases hc : CORS_ORIGINS.contains (jsTrim originHeader) = true
        · simp only [horigin, hlen, hc, if_false, if_true, ne_eq, not_false_eq_true,
            Option.some.injEq]
          constructor
          · intro h
            subst h
            exact ⟨rfl, horigin, by simpa using hc⟩
          · rintro ⟨h1, _, _⟩; exact h1.symm
        · simp only [horigin, hlen, hc, if_false, ne_eq, not_true_eq_false]
          constructor
          · intro h; cases h
          · rintro ⟨h1, _, h3⟩
            rw [h1] at h3
            exact absurd (by simpa using h3) hc

/-- C25 amended, at a request from an origin that is not among the two configured ones. -/
theorem handleApi_origin_check_witness :
    handleApi (corsOriginsOf "https://staszek.example, https://www.staszek.example")
      "https://evil.example" "GET" ⟨200, "", "ok"⟩ = ⟨403, "origin_not_allowed", ""⟩ :=
  (handleApi_origin_check (corsOriginsOf "https://staszek.example, https://www.staszek.example")
    "https://evil.example" "GET" ⟨200, "", "ok"⟩).1 (by decide) (by decide) (by decide)

/-! ## C26 -/

/-- What the rule loop leaves when it rejects: the rules before the reported one passed, the
reported one is exceeded, and the windows of the rules behind it are as they were. -/
theorem hitRules_reject_split (now : Int) :
    ∀ (rules : List Rule) (ws : String → Option Window) (ra : Int) (q : Rule),
      (rules.map Rule.key).Nodup → (hitRules now rules ws).2 = some (ra, q) →
      ∃ pre post : List Rule, rules = pre ++ q :: post ∧
        (∀ p ∈ pre, (bumpWindow now p ws).count ≤ p.limit) ∧
        q.limit < (bumpWindow now q ws).count ∧
        ra = max 1 (ceilDiv1000 ((bumpWindow now q ws).start + q.windowMs - now)) ∧
        (∀ p ∈ post, (hitRules now rules ws).1 p.key = ws p.key) := by
  intro rules
  induction rules with
  | nil => intro ws ra q _ h; cases h
  | cons p ps ih =>
    intro ws ra q hnd h
    simp only [List.map_cons, List.nodup_cons] at hnd
    simp only [hitRules] at h ⊢
    split at h
    · rename_i hgt
      simp only [Option.some.injEq, Prod.mk.injEq] at h
      obtain ⟨hra, hq⟩ := h
      subst hq
      refine ⟨[], ps, rfl, (fun x hx => by cases hx), hgt, hra.symm, ?_⟩
      intro x hx
      rw [if_pos hgt]
      apply setKey_other
      intro e
      exact hnd.1 (by rw [← e]; exact List.mem_map_of_mem Rule.key hx)
    · rename_i hle
      rw [if_neg hle]
      obtain ⟨pre, post, hsplit, hpre, hq, hra, hpost⟩ := ih _ ra q hnd.2 h
      have hkey : ∀ x ∈ ps, (setKey ws p.key (bumpWindow now p ws)) x.key = ws x.key := by
        intro x hx
        apply setKey_other
        intro e
        exact hnd.1 (by rw [← e]; exact List.mem_map_of_mem Rule.key hx)
      have hqmem : q ∈ ps := by rw [hsplit]; simp
      refine ⟨p :: pre, post, by rw [hsplit]; rfl, ?_, ?_, ?_, ?_⟩
      · intro x hx
        rcases List.mem_cons.1 hx with e | e
        · rw [e]; exact not_lt.1 hle
        · have hxmem : x ∈ ps := by rw [hsplit]; simp [e]
          rw [← bumpWindow_congr now x _ ws (hkey x hxmem)]
          exact hpre x e
      · rw [← bumpWindow_congr now q _ ws (hkey q hqmem)]
        exact hq
      · rw [← bumpWindow_congr now q _ ws (hkey q hqmem)]
        exact hra
      · intro x hx
        have hxmem : x ∈ ps := by rw [hsplit]; simp [hx]
        rw [hpost x hx]
        exact hkey x hxmem

theorem bumpWindow_start_le (now : Int) (q : Rule) (ws : String → Option Window)
    (h : ∀ w, ws q.key = some w → w.start ≤ now) : (bumpWindow now q ws).start ≤ now := by
  unfold bumpWindow
  simp only
  split
  · exact le_refl _
  · cases hw : ws q.key with
    | none => exact le_refl _
    | some w => exact h w hw

/-- C26. When `hitRateLimit` rejects a request, the rule reported is the first rule in list
order whose incremented count exceeds its limit, the returned `retryAfter` equals
`max(1, ceil((start + windowMs − now) / 1000))` for that rule's window (so
1 ≤ retryAfter ≤ max(1, ceil(windowMs/1000)) when the window was started no later than `now`,
as under a non-decreasing clock), and the counters of all rules after it are left unchanged by
that call. -/
theorem hitRateLimit_rejection_report (s : Limiters) (which : LimiterId) (ip : String)
    (rules : List Rule) (now : Int) (hwf : RulesWellFormed rules)
    (hrej : (hitRateLimit s which ip rules now).1.ok = false) :
    ∃ (pre post : List Rule) (q : Rule) (rec : LimiterRec),
      rules = pre ++ q :: post ∧
      (hitRateLimit s which ip rules now).1.rule = some q ∧
      (∀ p ∈ pre, (bumpWindow now p
        (ensureLimiterRec (s.get which) (jsTrim ip) rules now).windows).count ≤ p.limit) ∧
      q.limit < (bumpWindow now q
        (ensureLimiterRec (s.get which) (jsTrim ip) rules now).windows).count ∧
      (hitRateLimit s which ip rules now).1.retryAfter
        = max 1 (ceilDiv1000 ((bumpWindow now q
            (ensureLimiterRec (s.get which) (jsTrim ip) rules now).windows).start
            + q.windowMs - now)) ∧
      1 ≤ (hitRateLimit s which ip rules now).1.retryAfter ∧
      ((∀ w, (ensureLimiterRec (s.get which) (jsTrim ip) rules now).windows q.key = some w →
          w.start ≤ now) →
        (hitRateLimit s which ip rules now).1.retryAfter ≤ max 1 (ceilDiv1000 q.windowMs)) ∧
      (hitRateLimit s which ip rules now).2.get which (jsTrim ip) = some rec ∧
      ∀ p ∈ post, rec.windows p.key
        = (ensureLimiterRec (s.get which) (jsTrim ip) rules now).windows p.key := by
  obtain ⟨_, ra, q, hloop, hres, hrec⟩ := hitRateLimit_rejected s which ip rules now hrej
  obtain ⟨pre, post, hsplit, hpre, hq, hra, hpost⟩ :=
    hitRules_reject_split now rules _ ra q hwf.1 hloop
  refine ⟨pre, post, q, _, hsplit, by rw [hres], hpre, hq, by rw [hres]; exact hra,
    by rw [hres, hra]; exact le_max_left _ _, ?_, hrec, hpost⟩
  intro hstart
  have hle := bumpWindow_start_le now q _ hstart
  rw [hres, hra]
  simp only [ceilDiv1000]
  omega

/-- C26 at the third call within one second under the request rules: rejected by the
one-second rule, the first of the list. -/
theorem hitRateLimit_rejection_report_witness :
    ∃ (pre post : List Rule) (q : Rule) (rec : LimiterRec),
      REQUEST_RATE_LIMIT_RULES = pre ++ q :: post ∧
      (hitRateLimit (hitMany Limiters.initial .requests "1.2.3.4" REQUEST_RATE_LIMIT_RULES
        [5, 6]).1 .requests "1.2.3.4" REQUEST_RATE_LIMIT_RULES 7).1.rule = some q ∧
      (∀ p ∈ pre, (bumpWindow 7 p
        (ensureLimiterRec ((hitMany Limiters.initial .requests "1.2.3.4"
          REQUEST_RATE_LIMIT_RULES [5, 6]).1.get .requests) (jsTrim "1.2.3.4")
          REQUEST_RATE_LIMIT_RULES 7).windows).count ≤ p.limit) ∧
      q.limit < (bumpWindow 7 q
        (ensureLimiterRec ((hitMany Limiters.initial .requests "1.2.3.4"
          REQUEST_RATE_LIMIT_RULES [5, 6]).1.get .requests) (jsTrim "1.2.3.4")
          REQUEST_RATE_LIMIT_RULES 7).windows).count ∧
      (hitRateLimit (hitMany Limiters.initial .requests "1.2.3.4" REQUEST_RATE_LIMIT_RULES
        [5, 6]).1 .requests "1.2.3.4" REQUEST_RATE_LIMIT_RULES 7).1.retryAfter
        = max 1 (ceilDiv1000 ((bumpWindow 7 q
            (ensureLimiterRec ((hitMany Limiters.initial .requests "1.2.3.4"
              REQUEST_RATE_LIMIT_RULES [5, 6]).1.get .requests) (jsTrim "1.2.3.4")
              REQUEST_RATE_LIMIT_RULES 7).windows).start + q.windowMs - 7)) ∧
      1 ≤ (hitRateLimit (hitMany Limiters.initial .requests "1.2.3.4" REQUEST_RATE_LIMIT_RULES
        [5, 6]).1 .requests "1.2.3.4" REQUEST_RATE_LIMIT_RULES 7).1.retryAfter ∧
      ((∀ w, (ensureLimiterRec ((hitMany Limiters.initial .requests "1.2.3.4"
          REQUEST_RATE_LIMIT_RULES [5, 6]).1.get .requests) (jsTrim "1.2.3.4")
          REQUEST_RATE_LIMIT_RULES 7).windows q.key = some w → w.start ≤ 7) →
        (hitRateLimit (hitMany Limiters.initial .requests "1.2.3.4" REQUEST_RATE_LIMIT_RULES
          [5, 6]).1 .requests "1.2.3.4" REQUEST_RATE_LIMIT_RULES 7).1.retryAfter
          ≤ max 1 (ceilDiv1000 q.windowMs)) ∧
      (hitRateLimit (hitMany Limiters.initial .requests "1.2.3.4" REQUEST_RATE_LIMIT_RULES
        [5, 6]).1 .requests "1.2.3.4" REQUEST_RATE_LIMIT_RULES 7).2.get .requests
        (jsTrim "1.2.3.4") = some rec ∧
      ∀ p ∈ post, rec.windows p.key
        = (ensureLimiterRec ((hitMany Limiters.initial .requests "1.2.3.4"
            REQUEST_RATE_LIMIT_RULES [5, 6]).1.get .requests) (jsTrim "1.2.3.4")
            REQUEST_RATE_LIMIT_RULES 7).windows p.key :=
  hitRateLimit_rejection_report (hitMany Limiters.initial .requests "1.2.3.4"
    REQUEST_RATE_LIMIT_RULES [5, 6]).1 .requests "1.2.3.4" REQUEST_RATE_LIMIT_RULES 7
    (by decide) (by decide)

/-! ## Stored entries -/

theorem updateStats_or_not_writes (R : ForumRuntime) (cfg : Config) (up : Upstream)
    (sent : List UpstreamReq) (ip : String) (score : Int) (admin : Bool) :
    (if (!admin) = true then updateIpStatsAndMaybeBan R cfg up sent ip score
      else (⟨true, false, 0, some 0⟩, sent)).2.filter UpstreamReq.isBasicDbWrite
      = sent.filter UpstreamReq.isBasicDbWrite :=
  ite_snd_writes _ _ _ _ (updateIpStatsAndMaybeBan_writes R cfg up sent ip score) rfl

/-- The basic DB writes of the moderation part, for an admin or not: none, or the append of
the entry built with the score. -/
theorem moderateAndWrite_writes (R : ForumRuntime) (cfg : Config) (up : Upstream)
    (together : Together) (st : ServerState) (req : WriteRequest) (admin : Bool)
    (sent : List UpstreamReq) (now : Int)
    (hsent : sent.filter UpstreamReq.isBasicDbWrite = []) :
    (moderateAndWrite R cfg up together st req admin sent now).sent.filter
        UpstreamReq.isBasicDbWrite = [] ∨
    ∃ sc : Int, (moderateAndWrite R cfg up together st req admin sent now).score = some sc ∧
      (moderateAndWrite R cfg up together st req admin sent now).sent.filter
        UpstreamReq.isBasicDbWrite
        = [.basicDbAppend req.key
            (entryToStore (extractCommentFields R.toRuntime req.rawElement) req.rawElement sc
              now) (stripKeyQuery R req.search)] := by
  cases admin with
  | false =>
    simp only [moderateAndWrite, Bool.not_false, Bool.true_and, if_true]
    split
    · exact Or.inl hsent
    · split
      · exact Or.inl hsent
      · rename_i score _
        split
        · left
          rw [← hsent]
          exact updateIpStatsAndMaybeBan_writes R cfg up sent req.ip score
        · split
          · left
            rw [← hsent]
            exact updateIpStatsAndMaybeBan_writes R cfg up sent req.ip score
          · right
            refine ⟨score, sendWrite_score _ _ _ _ _ _ _ _ _, ?_⟩
            rw [sendWrite_writes _ _ _ _ _ _ _ _ _ (by rfl),
              updateIpStatsAndMaybeBan_writes, hsent]
            rfl
  | true =>
    simp only [moderateAndWrite, Bool.not_true, Bool.false_and, Bool.false_eq_true, if_false]
    split
    · exact Or.inl hsent
    · split
      · exact Or.inl hsent
      · rename_i score _
        right
        refine ⟨score, sendWrite_score _ _ _ _ _ _ _ _ _, ?_⟩
        rw [sendWrite_writes _ _ _ _ _ _ _ _ _ (by rfl), hsent]
        rfl

/-- The basic DB writes of the whole handler: none, the append of the entry built with the
score, or (for a key that is not a forum key) the request as it was received. -/
theorem handleBasicDbDodaj_writes (R : ForumRuntime) (cfg : Config) (up : Upstream)
    (together : Together) (st : ServerState) (req : WriteRequest) (clock : WriteClock) :
    (handleBasicDbDodaj R cfg up together st req clock).sent.filter
        UpstreamReq.isBasicDbWrite = [] ∨
    (∃ sc : Int, (handleBasicDbDodaj R cfg up together st req clock).score = some sc ∧
      (handleBasicDbDodaj R cfg up together st req clock).sent.filter
        UpstreamReq.isBasicDbWrite
        = [.basicDbAppend req.key
            (entryToStore (extractCommentFields R.toRuntime req.rawElement) req.rawElement sc
              clock.atStore) (stripKeyQuery R req.search)]) ∨
    (handleBasicDbDodaj R cfg up together st req clock).sent.filter
        UpstreamReq.isBasicDbWrite = [.passthrough req.path (stripKeyQuery R req.search)] := by
  have hlim : ∀ st2 : ServerState,
      (writeAfterLimits R cfg up together st2 req clock).sent.filter
          UpstreamReq.isBasicDbWrite = [] ∨
      (∃ sc : Int, (writeAfterLimits R cfg up together st2 req clock).score = some sc ∧
        (writeAfterLimits R cfg up together st2 req clock).sent.filter
          UpstreamReq.isBasicDbWrite
          = [.basicDbAppend req.key
              (entryToStore (extractCommentFields R.toRuntime req.rawElement) req.rawElement
                sc clock.atStore) (stripKeyQuery R req.search)]) ∨
      (writeAfterLimits R cfg up together st2 req clock).sent.filter
          UpstreamReq.isBasicDbWrite = [.passthrough req.path (stripKeyQuery R req.search)] := by
    intro st2
    have hb : ∀ c : Bool, (if c = true then isIpBanned R cfg up [] req.ip
        else (false, [])).2.filter UpstreamReq.isBasicDbWrite = [] := by
      intro c
      exact ite_snd_writes _ _ _ _ (isIpBanned_writes R cfg up [] req.ip) rfl
    have hb2 := hb (jsStartsWith req.key "staszek-" &&
      !isAdmin R.toRuntime cfg.ADMIN_TOKEN_SECRET st2.adminSessionId req.token clock.atAuth)
    simp only [writeAfterLimits]
    generalize (if (jsStartsWith req.key "staszek-" &&
      !isAdmin R.toRuntime cfg.ADMIN_TOKEN_SECRET st2.adminSessionId req.token clock.atAuth)
        = true then isIpBanned R cfg up [] req.ip else (false, [])) = banned at hb2 ⊢
    by_cases h1 : banned.1 = true
    · rw [if_pos h1]
      exact Or.inl hb2
    · rw [if_neg h1]
      by_cases h2 : jsStartsWith req.key "staszek-" = true
      · rw [if_pos h2]
        rcases moderateAndWrite_writes R cfg up together st2 req _ _ clock.atStore hb2 with
          h | h
        · exact Or.inl h
        · exact Or.inr (Or.inl h)
      · rw [if_neg h2]
        right; right
        rw [sendWrite_writes _ _ _ _ _ _ _ _ _ (by rfl), hb2]
        rfl
  unfold handleBasicDbDodaj
  split
  · exact Or.inl rfl
  · split
    · exact Or.inl rfl
    · split
      · exact Or.inl rfl
      · split
        · exact Or.inl rfl
        · split
          · exact Or.inl rfl
          · simp only [writeAfterValidation]
            repeat' split
            all_goals first | exact Or.inl rfl | exact hlim _

theorem Json.get_set_same (fs : List (String × Json)) (k : String) (v : Json) :
    ((Json.obj fs).set k v).get k = some v := by
  simp only [Json.set, Json.get]
  rw [find_setField_same]
  rfl

theorem Json.get_set_other (fs : List (String × Json)) (k k2 : String) (v : Json)
    (hne : k ≠ k2) : ((Json.obj fs).set k v).get k2 = (Json.obj fs).get k2 := by
  simp only [Json.set, Json.get]
  exact find_setField_other k k2 v (by simpa using hne) fs

theorem Json.set_obj (fs : List (String × Json)) (k : String) (v : Json) :
    (Json.obj fs).set k v = .obj (setField fs k v) := rfl

/-- The fields that `extractCommentFields` gives when it does not hand on a parsed object:
no name, the trimmed element as message, no time. -/
theorem extractCommentFields_plain (R : Runtime) (rawElement : String)
    (h : (extractCommentFields R rawElement).obj = none) :
    extractCommentFields R rawElement = ⟨"", jsTrim rawElement, 0, none⟩ := by
  revert h
  simp only [extractCommentFields]
  split
  · split
    · intro h; cases h
    · intro _; rfl
  · intro _; rfl

/-- What the entry built for a comment holds. -/
theorem entryToStore_fields (R : Runtime) (rawElement : String) (score now : Int) :
    (entryToStore (extractCommentFields R rawElement) rawElement score now).get "s"
      = some (.num score) ∧
    (∀ o : Json, (extractCommentFields R rawElement).obj = some o →
      (∃ fs, entryToStore (extractCommentFields R rawElement) rawElement score now
        = .obj fs) ∧
      (∀ k : String, k ≠ "s" → k ≠ "t" →
        (entryToStore (extractCommentFields R rawElement) rawElement score now).get k
          = o.get k) ∧
      (jsTruthy (o.get "t") = true →
        (entryToStore (extractCommentFields R rawElement) rawElement score now).get "t"
          = o.get "t") ∧
      (jsTruthy (o.get "t") = false →
        (entryToStore (extractCommentFields R rawElement) rawElement score now).get "t"
          = some (.num (if (extractCommentFields R rawElement).time ≠ 0
              then (extractCommentFields R rawElement).time else now)))) ∧
    ((extractCommentFields R rawElement).obj = none →
      entryToStore (extractCommentFields R rawElement) rawElement score now
        = .obj [("t", .num now), ("n", .str ""),
            ("m", .str (if jsTrim rawElement ≠ "" then jsTrim rawElement else rawElement)),
            ("s", .num score)]) := by
  refine ⟨entryToStore_score R rawElement score now, ?_, ?_⟩
  · intro o ho
    obtain ⟨fs, rfl⟩ := extractCommentFields_obj R rawElement o ho
    have ht : ((Json.obj fs).set "s" (.num score)).get "t" = (Json.obj fs).get "t" :=
      Json.get_set_other fs "s" "t" _ (by decide)
    simp only [entryToStore, ho, ht]
    cases htr : jsTruthy ((Json.obj fs).get "t") with
    | true =>
      simp only [Bool.not_true, Bool.false_eq_true, if_false]
      refine ⟨⟨_, Json.set_obj _ _ _⟩, ?_, fun _ => ht, fun h => by cases h⟩
      intro k hs _
      exact Json.get_set_other fs "s" k _ (fun e => hs e.symm)
    | false =>
      simp only [Bool.not_false, if_true]
      rw [Json.set_obj fs "s"]
      refine ⟨⟨_, Json.set_obj _ _ _⟩, ?_, (fun h => by cases h), fun _ => ?_⟩
      · intro k hs hk
        rw [Json.get_set_other _ "t" k _ (fun e => hk e.symm), ← Json.set_obj,
          Json.get_set_other fs "s" k _ (fun e => hs e.symm)]
      · exact Json.get_set_same _ _ _
  · intro hnone
    rw [extractCommentFields_plain R rawElement hnone]
    simp only [entryToStore, ne_eq, not_true_eq_false, if_false]

/-! ## C27 -/

/-- C27 as stated fails for an element of white space only: its trimmed text is empty, and
the entry stored for it has the raw element as `m`, not the trimmed text. -/
theorem forumWrite_whitespace_entry :
    jsTrim " " = "" ∧
    (handleBasicDbDodaj refForumRuntime exampleConfig freshUpstream scoreSixTogether
      exampleState ⟨"/baza-podstawowa/dodaj/staszek-forum/%20", "", "staszek-forum", " ",
        "203.0.113.7", ""⟩ ⟨1000, 1001, 1002, 1003⟩).sent.filter UpstreamReq.isBasicDbWrite
      = [.basicDbAppend "staszek-forum"
          (.obj [("t", .num 1003), ("n", .str ""), ("m", .str " "), ("s", .num 6)]) ""] :=
  ⟨by decide, by rfl⟩

/-- C27, amended. Every forum comment appended upstream is a JSON object whose score field
`s` equals the score computed by the server for that request: when the submitted element is
a JSON object with a message, any client-supplied `s` is overwritten, a missing (or falsy)
time `t` is filled in and the other fields are kept; when it is taken as plain text, the
stored entry is `{t, n, m, s}` with `t` the clock value, `n` empty and `m` equal to the trimmed
raw text, or to the raw text itself when the trimmed text is empty. -/
theorem forumWrite_stored_entry (R : ForumRuntime) (cfg : Config) (up : Upstream)
    (together : Together) (st : ServerState) (req : WriteRequest) (clock : WriteClock)
    (key : String) (entry : Json) (search : String)
    (hsent : UpstreamReq.basicDbAppend key entry search
      ∈ (handleBasicDbDodaj R cfg up together st req clock).sent) :
    ∃ sc : Int, (handleBasicDbDodaj R cfg up together st req clock).score = some sc ∧
      key = req.key ∧ (∃ fs, entry = .obj fs) ∧
      entry.get "s" = some (.num sc) ∧
      (∀ o : Json, (extractCommentFields R.toRuntime req.rawElement).obj = some o →
        (∀ k : String, k ≠ "s" → k ≠ "t" → entry.get k = o.get k) ∧
        (jsTruthy (o.get "t") = true → entry.get "t" = o.get "t") ∧
        (jsTruthy (o.get "t") = false →
          entry.get "t" = some (.num
            (if (extractCommentFields R.toRuntime req.rawElement).time ≠ 0
              then (extractCommentFields R.toRuntime req.rawElement).time
              else clock.atStore)))) ∧
      ((extractCommentFields R.toRuntime req.rawElement).obj = none →
        entry = .obj [("t", .num clock.atStore), ("n", .str ""),
          ("m", .str (if jsTrim req.rawElement ≠ "" then jsTrim req.rawElement
            else req.rawElement)),
          ("s", .num sc)]) := by
  have hmem : UpstreamReq.basicDbAppend key entry search
      ∈ (handleBasicDbDodaj R cfg up together st req clock).sent.filter
          UpstreamReq.isBasicDbWrite :=
    List.mem_filter.2 ⟨hsent, rfl⟩
  rcases handleBasicDbDodaj_writes R cfg up together st req clock with h | ⟨sc, hsc, h⟩ | h
  · rw [h] at hmem; cases hmem
  · rw [h] at hmem
    simp only [List.mem_singleton, UpstreamReq.basicDbAppend.injEq] at hmem
    obtain ⟨hk, he, _⟩ := hmem
    obtain ⟨hs, hobj, hplain⟩ := entryToStore_fields R.toRuntime req.rawElement sc clock.atStore
    refine ⟨sc, hsc, hk, ?_, by rw [he]; exact hs, ?_, by rw [he]; exact hplain⟩
    · rw [he]
      cases ho : (extractCommentFields R.toRuntime req.rawElement).obj with
      | none => exact ⟨_, hplain ho⟩
      | some o => exact (hobj o ho).1
    · intro o ho
      rw [he]
      exact (hobj o ho).2
  · rw [h] at hmem
    simp only [List.mem_singleton] at hmem
    cases hmem

/-- C27 amended, at a plain-text comment scored 6. -/
theorem forumWrite_stored_entry_witness :
    ∃ sc : Int, (handleBasicDbDodaj refForumRuntime exampleConfig freshUpstream
        scoreSixTogether exampleState exampleComment ⟨1000, 1001, 1002, 1003⟩).score = some sc ∧
      "staszek-forum" = exampleComment.key ∧
      (∃ fs, (Json.obj [("t", .num 1003), ("n", .str ""), ("m", .str "Dobry pomysł"),
        ("s", .num 6)]) = .obj fs) ∧
      (Json.obj [("t", .num 1003), ("n", .str ""), ("m", .str "Dobry pomysł"),
        ("s", .num 6)]).get "s" = some (.num sc) :=
  let ⟨sc, h1, h2, h3, h4, _, _⟩ := forumWrite_stored_entry refForumRuntime exampleConfig
    freshUpstream scoreSixTogether exampleState exampleComment ⟨1000, 1001, 1002, 1003⟩
    "staszek-forum"
    (.obj [("t", .num 1003), ("n", .str ""), ("m", .str "Dobry pomysł"), ("s", .num 6)]) ""
    (by
      show UpstreamReq.basicDbAppend "staszek-forum" _ "" ∈ _
      have : (handleBasicDbDodaj refForumRuntime exampleConfig freshUpstream scoreSixTogether
          exampleState exampleComment ⟨1000, 1001, 1002, 1003⟩).sent.filter
            UpstreamReq.isBasicDbWrite
          = [.basicDbAppend "staszek-forum" (.obj [("t", .num 1003), ("n", .str ""),
              ("m", .str "Dobry pomysł"), ("s", .num 6)]) ""] := by rfl
      exact (List.mem_filter.1 (by rw [this]; exact List.mem_singleton.2 rfl)).1)
  ⟨sc, h1, h2, h3, h4⟩

/-! ## C28 -/

theorem isAdmin_short (R : Runtime) (secret sid token : String) (now : Int)
    (hshort : utf16Length secret < 24) : isAdmin R secret sid token now = false := by
  unfold isAdmin
  split
  · rfl
  · rw [if_pos (Or.inr hshort)]

/-- C28. If `ADMIN_TOKEN_SECRET` is shorter than 24 characters (UTF-16 code units, as
`.length` counts; non-empty or not), `isAdmin` returns false for every request, including
one bearing the token that a successful `POST /admin/login` has just issued with that secret,
so the admin-only endpoints stay inaccessible: `/wyzeruj` answers 401 (or 429) and the read of
the private basic DB key answers 401, with nothing sent upstream. -/
theorem isAdmin_short_secret (R : ProxyRuntime) (cfg : Config)
    (hshort : utf16Length cfg.ADMIN_TOKEN_SECRET < 24) :
    (∀ (sid token : String) (now : Int),
      isAdmin R.toRuntime cfg.ADMIN_TOKEN_SECRET sid token now = false) ∧
    (∀ (adminPassword : String) (ttlDays : Int) (st : ServerState) (req : LoginRequest)
        (randomBytes : List Byte) (clock : LoginClock) (t : String) (later : Int),
      (handleAdminLogin R.toForumRuntime cfg adminPassword ttlDays st req randomBytes
        clock).token = some t →
      isAdmin R.toRuntime cfg.ADMIN_TOKEN_SECRET
        (handleAdminLogin R.toForumRuntime cfg adminPassword ttlDays st req randomBytes
          clock).state.adminSessionId t later = false) ∧
    (∀ (up : Upstream) (st : ServerState) (req : CounterRequest) (clock : CounterClock),
      ((handleWyzeruj R cfg up st req clock).response.status = 401 ∨
        (handleWyzeruj R cfg up st req clock).response.status = 429) ∧
      (handleWyzeruj R cfg up st req clock).sent = []) ∧
    (∀ (up : Upstream) (st : ServerState) (req : ReadRequest) (now : Int),
      req.key = "pv-mesege-staszek" →
      handleBasicDbOdczyt R cfg up st req now = (⟨401, "admin_required", ""⟩, [])) := by
  have hfalse : ∀ (sid token : String) (now : Int),
      isAdmin R.toRuntime cfg.ADMIN_TOKEN_SECRET sid token now = false :=
    fun sid token now => isAdmin_short _ _ sid token now hshort
  refine ⟨hfalse, fun _ _ _ _ _ _ t later _ => hfalse _ t later, ?_, ?_⟩
  · intro up st req clock
    simp only [handleWyzeruj, hfalse, Bool.not_false, if_true]
    split
    · exact ⟨Or.inr rfl, rfl⟩
    · exact ⟨Or.inl rfl, rfl⟩
  · intro up st req now hkey
    exact handleBasicDbOdczyt_private_denied R cfg up st req now hkey (hfalse _ _ _)

/-- C28 at a secret of 12 characters: the login with the right password issues a token, and
that token is not accepted. -/
theorem isAdmin_short_secret_witness :
    (handleAdminLogin refForumRuntime shortSecretConfig "haslo123" 7 exampleState exampleLogin
      (List.replicate 18 (byte 7)) ⟨1000, 2000, 3000, 5000⟩).token
      = some (adminLogin refRuntime "short-secret" (List.replicate 18 (byte 7)) 5000 7).2 ∧
    isAdmin refRuntime "short-secret"
      (handleAdminLogin refForumRuntime shortSecretConfig "haslo123" 7 exampleState
        exampleLogin (List.replicate 18 (byte 7)) ⟨1000, 2000, 3000, 5000⟩).state.adminSessionId
      (adminLogin refRuntime "short-secret" (List.replicate 18 (byte 7)) 5000 7).2 6000
      = false :=
  ⟨by rfl, (isAdmin_short_secret refProxyRuntime shortSecretConfig (by decide)).2.1
    "haslo123" 7 exampleState exampleLogin (List.replicate 18 (byte 7))
    ⟨1000, 2000, 3000, 5000⟩ _ 6000 (by rfl)⟩

/-! ## C29 -/

theorem isLowerHex_head (c : Char) (h : IsLowerHex c) : IsPatternHead c := by
  have hle : ∀ a b : Char, a ≤ b ↔ a.toNat ≤ b.toNat := fun a b => Iff.rfl
  simp only [IsLowerHex, IsPatternHead, hle] at h ⊢
  have ha : 'a'.toNat = 97 := by decide
  have hf : 'f'.toNat = 102 := by decide
  have hz : 'z'.toNat = 122 := by decide
  rw [ha, hf] at h
  rw [ha, hz]
  rcases h with h | h
  · exact Or.inr (Or.inr h)
  · exact Or.inr (Or.inl ⟨h.1, by omega⟩)

/-- A name made of a fixed beginning `forum-...` and name characters is an allowed counter
name and not a public one. -/
theorem internalName_props (front tail : List Char)
    (hfront : isAllowedCounterName (String.mk front) = true)
    (hforum : jsStartsWith (String.mk front) "forum-" = true)
    (htail : ∀ c ∈ tail, IsPatternHead c ∨ c = '_' ∨ c = '-')
    (hlen : front.length + tail.length ≤ 128) :
    isAllowedCounterName (String.mk (front ++ tail)) = true ∧
    isAllowedPublicCounterName (String.mk (front ++ tail)) = false ∧
    jsStartsWith (String.mk (front ++ tail)) "forum-" = true := by
  have hpre : "forum-".data <+: front := by
    simpa only [jsStartsWith, List.isPrefixOf_iff_prefix] using hforum
  obtain ⟨rest, hrest⟩ := hpre
  have hstart : jsStartsWith (String.mk (front ++ tail)) "forum-" = true := by
    simp only [jsStartsWith, List.isPrefixOf_iff_prefix]
    exact ⟨rest ++ tail, by rw [← hrest]; simp⟩
  obtain ⟨hmatch, _⟩ := (isAllowedCounterName_iff _).1 hfront
  obtain ⟨c, r, hd, hc, hr, hl⟩ := hmatch
  have hd2 : front = c :: r := hd
  have hvalid : isValidName (String.mk (front ++ tail)) = true := by
    rw [isValidName_iff]
    refine ⟨c, r ++ tail, by rw [hd2]; rfl, hc, ?_, ?_⟩
    · intro x hx
      rcases List.mem_append.1 hx with h | h
      · exact hr x h
      · exact htail x h
    · rw [hd2] at hlen
      simp only [List.length_cons, List.length_append] at hlen ⊢
      omega
  refine ⟨?_, ?_, hstart⟩
  · simp only [isAllowedCounterName, hvalid, hstart, Bool.or_true, Bool.and_self]
  · have hdata : (String.mk (front ++ tail)).data = 'f' :: ('o' :: 'r' :: 'u' :: 'm' :: '-' ::
        (rest ++ tail)) := by
      show front ++ tail = _
      rw [← hrest]; rfl
    have hne : ∀ s : String, s.data.head? ≠ some 'f' → String.mk (front ++ tail) ≠ s := by
      intro s hs e
      rw [← e, hdata] at hs
      exact hs rfl
    have hns : ∀ s : String, s.data.head? ≠ some 'f' → s.data ≠ [] →
        jsStartsWith (String.mk (front ++ tail)) s = false := by
      intro s hs hnil
      cases hb : jsStartsWith (String.mk (front ++ tail)) s with
      | false => rfl
      | true =>
        exfalso
        simp only [jsStartsWith, List.isPrefixOf_iff_prefix, hdata] at hb
        obtain ⟨t, ht⟩ := hb
        cases hsd : s.data with
        | nil => exact hnil hsd
        | cons y ys =>
          rw [hsd] at ht hs
          have hft : front ++ tail = 'f' :: ('o' :: 'r' :: 'u' :: 'm' :: '-' ::
              (rest ++ tail)) := hdata
          rw [hft] at ht
          simp only [List.cons_append, List.cons.injEq] at ht
          exact hs (by rw [ht.1]; rfl)
    simp only [isAllowedPublicCounterName, hvalid, Bool.true_and, Bool.or_eq_false_iff,
      beq_eq_false_iff_ne, ne_eq]
    refine ⟨⟨⟨⟨⟨hne _ (by decide), hne _ (by decide)⟩, hne _ (by decide)⟩,
      hns _ (by decide) (by decide)⟩, hns _ (by decide) (by decide)⟩,
      hns _ (by decide) (by decide)⟩

theorem take_lowerHex (sha256Hex : String → String)
    (hhex : ∀ s : String, ∀ c ∈ (sha256Hex s).data, IsLowerHex c) (s : String) (n : Nat) :
    ∀ c ∈ (jsSliceTo (sha256Hex s) n).data, IsPatternHead c ∨ c = '_' ∨ c = '-' := by
  intro c hc
  exact Or.inl (isLowerHex_head c (hhex s c (List.mem_of_mem_take hc)))

theorem jsSliceTo_length (s : String) (n : Nat) : (jsSliceTo s n).data.length ≤ n := by
  show (s.data.take n).length ≤ n
  exact List.length_take_le n _

/-- The names that the server builds are allowed counter names and not public ones. -/
theorem internalCounterNames_props (sha256Hex : String → String) (cfg : Config)
    (threadKey ip : String)
    (hhex : ∀ s : String, ∀ c ∈ (sha256Hex s).data, IsLowerHex c) :
    ∀ name ∈ internalCounterNames sha256Hex cfg threadKey ip,
      isAllowedCounterName name = true ∧ isAllowedPublicCounterName name = false ∧
      jsStartsWith name "forum-" = true := by
  intro name hname
  simp only [internalCounterNames, List.mem_cons, List.mem_singleton, List.not_mem_nil,
    or_false] at hname
  rcases hname with h | h | h | h | h
  · rw [h]
    have e : forumIpCounterName sha256Hex cfg threadKey ip
        = String.mk ("forum-ip-".data ++ ((jsSliceTo (sha256Hex threadKey) 12).data ++ '-' ::
            (moderationIpHash sha256Hex cfg ip).data)) := by
      apply String.ext
      simp [forumIpCounterName, moderationIpHash, String.data_append]
    rw [e]
    apply internalName_props _ _ (by decide) (by decide)
    · intro c hc
      rcases List.mem_append.1 hc with h1 | h1
      · exact take_lowerHex sha256Hex hhex _ _ c h1
      · rcases List.mem_cons.1 h1 with h2 | h2
        · exact Or.inr (Or.inr h2)
        · exact take_lowerHex sha256Hex hhex _ _ c h2
    · have h1 := jsSliceTo_length (sha256Hex threadKey) 12
      have h2 : (moderationIpHash sha256Hex cfg ip).data.length ≤ 16 := jsSliceTo_length _ 16
      have h3 : "forum-ip-".data.length = 9 := by decide
      simp only [List.length_append, List.length_cons, h3]
      omega
  · rw [h]
    have e : forumUniqueCounterName sha256Hex threadKey
        = String.mk ("forum-unique-".data ++ (jsSliceTo (sha256Hex threadKey) 12).data) := by
      apply String.ext
      simp [forumUniqueCounterName, String.data_append]
    rw [e]
    apply internalName_props _ _ (by decide) (by decide)
      (take_lowerHex sha256Hex hhex _ _)
    have h1 := jsSliceTo_length (sha256Hex threadKey) 12
    have h3 : "forum-unique-".data.length = 13 := by decide
    rw [h3]; omega
  · rw [h]
    have e : moderationBanCounterName (moderationIpHash sha256Hex cfg ip)
        = String.mk ("forum-ban-".data ++ (moderationIpHash sha256Hex cfg ip).data) := by
      apply String.ext
      simp [moderationBanCounterName, String.data_append]
    rw [e]
    apply internalName_props _ _ (by decide) (by decide)
      (take_lowerHex sha256Hex hhex _ _)
    have h2 : (jsSliceTo (sha256Hex ((if cfg.ADMIN_TOKEN_SECRET ≠ "" then
        cfg.ADMIN_TOKEN_SECRET else cfg.LICZNIK_API_KEY) ++ "|" ++ ip)) 16).data.length ≤ 16 :=
      jsSliceTo_length _ 16
    have h3 : "forum-ban-".data.length = 10 := by decide
    rw [h3]; omega
  · rw [h]
    have e : moderationCountCounterName (moderationIpHash sha256Hex cfg ip)
        = String.mk ("forum-mod-count-".data ++ (moderationIpHash sha256Hex cfg ip).data) := by
      apply String.ext
      simp [moderationCountCounterName, String.data_append]
    rw [e]
    apply internalName_props _ _ (by decide) (by decide)
      (take_lowerHex sha256Hex hhex _ _)
    have h2 : (jsSliceTo (sha256Hex ((if cfg.ADMIN_TOKEN_SECRET ≠ "" then
        cfg.ADMIN_TOKEN_SECRET else cfg.LICZNIK_API_KEY) ++ "|" ++ ip)) 16).data.length ≤ 16 :=
      jsSliceTo_length _ 16
    have h3 : "forum-mod-count-".data.length = 16 := by decide
    rw [h3]; omega
  · rw [h]
    have e : moderationSumCounterName (moderationIpHash sha256Hex cfg ip)
        = String.mk ("forum-mod-sum-".data ++ (moderationIpHash sha256Hex cfg ip).data) := by
      apply String.ext
      simp [moderationSumCounterName, String.data_append]
    rw [e]
    apply internalName_props _ _ (by decide) (by decide)
      (take_lowerHex sha256Hex hhex _ _)
    have h2 : (jsSliceTo (sha256Hex ((if cfg.ADMIN_TOKEN_SECRET ≠ "" then
        cfg.ADMIN_TOKEN_SECRET else cfg.LICZNIK_API_KEY) ++ "|" ++ ip)) 16).data.length ≤ 16 :=
      jsSliceTo_length _ 16
    have h3 : "forum-mod-sum-".data.length = 14 := by decide
    rw [h3]; omega

theorem dodajDelta_not_public (req : CounterRequest)
    (hpublic : isAllowedPublicCounterName req.name = false) :
    ∃ response : Response, dodajDelta req false = .error response ∧
      (response.status = 400 ∨ response.status = 403) ∧
      (∀ d : Int, isDeltaText (deltaRawOf req) = true → jsParseInt (deltaRawOf req) = some d →
        0 ≤ d → response.status = 403) := by
  unfold dodajDelta
  split
  · rename_i h
    refine ⟨_, rfl, Or.inl rfl, ?_⟩
    intro d hd _ _
    rw [hd] at h
    cases h
  · split
    · rename_i hp
      refine ⟨_, rfl, Or.inl rfl, ?_⟩
      intro d _ hd _
      rw [hd] at hp
      cases hp
    · rename_i delta hp
      split
      · rename_i hneg
        refine ⟨_, rfl, Or.inl rfl, ?_⟩
        intro d _ hd h0
        rw [hd] at hp
        cases hp
        omega
      · simp only [Bool.not_false, if_true, hpublic]
        split
        · exact ⟨_, rfl, Or.inr rfl, fun _ _ _ _ => rfl⟩
        · exact ⟨_, rfl, Or.inr rfl, fun _ _ _ _ => rfl⟩

theorem hexOfBytes_lowerHex (bs : List Nat) : ∀ c ∈ (hexOfBytes bs).data, IsLowerHex c := by
  have hdigit : ∀ k : Nat, k < 16 → IsLowerHex ("0123456789abcdef".data.getD k '0') := by
    intro k hk
    interval_cases k <;> (unfold IsLowerHex; decide)
  intro c hc
  simp only [hexOfBytes, List.mem_flatMap, List.mem_cons, List.mem_singleton,
    List.not_mem_nil, or_false] at hc
  obtain ⟨b, _, h | h⟩ := hc
  · rw [h]; exact hdigit _ (Nat.mod_lt _ (by decide))
  · rw [h]; exact hdigit _ (Nat.mod_lt _ (by decide))

/-- C29. The server's internal counter names are always valid and never public: for every
thread key and IP, with `sha256Hex` returning lower-case hex characters, `forumIpCounterName`,
`forumUniqueCounterName` and the moderation ban, count and sum counter names satisfy
`isAllowedCounterName` (they begin with `forum-`) and do not satisfy
`isAllowedPublicCounterName`, so a non-admin can neither read them via `/ile` (404, nothing
sent) nor increment them via `/dodaj` (nothing sent; 403 for a well-formed delta that is not
negative once the rate limit is passed, 400 or 429 otherwise). -/
theorem internalCounterNames_hidden (R : ProxyRuntime) (cfg : Config) (threadKey ip : String)
    (hhex : ∀ s : String, ∀ c ∈ (R.sha256Hex s).data, IsLowerHex c) :
    ∀ name ∈ internalCounterNames R.sha256Hex cfg threadKey ip,
      isAllowedCounterName name = true ∧ isAllowedPublicCounterName name = false ∧
      jsStartsWith name "forum-" = true ∧
      (∀ (up : Upstream) (st : ServerState) (req : CounterRequest) (now : Int),
        req.name = name →
        isAdmin R.toRuntime cfg.ADMIN_TOKEN_SECRET st.adminSessionId req.token now = false →
        handleIle R cfg up st req now = (⟨404, "", "not found"⟩, [])) ∧
      (∀ (up : Upstream) (st : ServerState) (req : CounterRequest) (clock : CounterClock),
        req.name = name →
        isAdmin R.toRuntime cfg.ADMIN_TOKEN_SECRET st.adminSessionId req.token clock.atAuth
          = false →
        (handleDodaj R cfg up st req clock).sent = [] ∧
        ((handleDodaj R cfg up st req clock).response.status = 403 ∨
          (handleDodaj R cfg up st req clock).response.status = 400 ∨
          (handleDodaj R cfg up st req clock).response.status = 429) ∧
        (∀ d : Int, (hitRateLimit st.limiters .requests req.ip REQUEST_RATE_LIMIT_RULES
            clock.atLimit).1.ok = true →
          isDeltaText (deltaRawOf req) = true → jsParseInt (deltaRawOf req) = some d →
          0 ≤ d → (handleDodaj R cfg up st req clock).response.status = 403)) := by
  intro name hname
  obtain ⟨hallowed, hpublic, hforum⟩ :=
    internalCounterNames_props R.sha256Hex cfg threadKey ip hhex name hname
  refine ⟨hallowed, hpublic, hforum, ?_, ?_⟩
  · intro up st req now hreq hadmin
    subst hreq
    simp only [handleIle, hallowed, hpublic, hadmin, Bool.not_true, Bool.not_false,
      Bool.false_eq_true, if_false, Bool.and_self, if_true]
  · intro up st req clock hreq hadmin
    subst hreq
    obtain ⟨response, hd, hstatus, h403⟩ := dodajDelta_not_public req hpublic
    simp only [handleDodaj, hallowed, hadmin, hd, Bool.not_true, Bool.false_eq_true, if_false]
    split
    · refine ⟨rfl, Or.inr (Or.inr rfl), ?_⟩
      intro d hrl
      rename_i hno
      rw [hrl] at hno
      simp at hno
    · refine ⟨rfl, ?_, fun d _ h1 h2 h3 => h403 d h1 h2 h3⟩
      rcases hstatus with h | h
      · exact Or.inr (Or.inl h)
      · exact Or.inl h

/-- C29 at the reference SHA-256, for the ban counter of an IP: a non-admin read is answered
404 and nothing is sent. -/
theorem internalCounterNames_hidden_witness :
    handleIle refProxyRuntime exampleConfig fiveUpstream exampleState
      (counterRequest "/ile/x"
        (moderationBanCounterName (moderationIpHash refProxyRuntime.sha256Hex exampleConfig
          "203.0.113.7")) none) 1000 = (⟨404, "", "not found"⟩, []) :=
  (internalCounterNames_hidden refProxyRuntime exampleConfig "staszek-forum" "203.0.113.7"
    (fun _ => hexOfBytes_lowerHex _)
    (moderationBanCounterName (moderationIpHash refProxyRuntime.sha256Hex exampleConfig
      "203.0.113.7"))
    (List.Mem.tail _ (List.Mem.tail _ (List.Mem.head _)))).2.2.2.1
    fiveUpstream exampleState _ 1000 rfl (by decide)

/-! ## C30 -/

/-- C30. base64url round trip: for every byte sequence `b`,
`base64urlDecodeToBuffer(base64urlEncode(b)) = b`, and `base64urlEncode(b)` contains none of
the characters `+`, `/`, `=`. -/
theorem base64url_roundtrip_clean (b : List Byte) :
    base64urlDecodeToBuffer (base64urlEncode b) = b ∧
    '+' ∉ (base64urlEncode b).data ∧ '/' ∉ (base64urlEncode b).data ∧
    '=' ∉ (base64urlEncode b).data := by
  have hno : ∀ c : Char, isBase64UrlChar c = false → c ∉ (base64urlEncode b).data := by
    intro c hc hmem
    rw [base64urlEncode_chars b c hmem] at hc
    cases hc
  exact ⟨base64url_roundtrip b, hno _ (by decide), hno _ (by decide), hno _ (by decide)⟩

/-! ## C1 -/

/-- One call of a trace inside the window `[t0, t0 + r.windowMs)` that rule `r` opened at `t0`
for the IP: the record of the IP stays (the sweep finds it fresh), its window of `r` keeps
its start, and the count of that window grows by one with every accepted call from the IP. -/
theorem hitRateLimit_window_step (rulesOf : LimiterId → List Rule) (which : LimiterId)
    (ip : String) (r : Rule) (hnd : ((rulesOf which).map Rule.key).Nodup)
    (hr : r ∈ rulesOf which) (hip : jsTrim ip ≠ "") (hW : r.windowMs ≤ SWEEP_TTL_MS)
    (t0 : Int) (h0 : 0 < t0) (s : Limiters) (A : Int) (c : Call)
    (hc : t0 ≤ c.now ∧ c.now < t0 + r.windowMs)
    (hinv : ∃ rec w, s.get which (jsTrim ip) = some rec ∧ rec.windows r.key = some w ∧
      w.start = t0 ∧ t0 ≤ rec.last ∧ A ≤ w.count) :
    ∃ rec w, (hitRateLimit s c.which c.ip (rulesOf c.which) c.now).2.get which (jsTrim ip)
        = some rec ∧ rec.windows r.key = some w ∧ w.start = t0 ∧ t0 ≤ rec.last ∧
      A + (countsWithin which (jsTrim ip) t0 r.windowMs
        (c, (hitRateLimit s c.which c.ip (rulesOf c.which) c.now).1) : Nat) ≤ w.count := by
  obtain ⟨rec, w, hrec, hw, hstart, hlast, hA⟩ := hinv
  by_cases hsame : c.which = which ∧ jsTrim c.ip = jsTrim ip
  · obtain ⟨e1, e2⟩ := hsame
    have hip2 : jsTrim c.ip ≠ "" := by rw [e2]; exact hip
    have hrecord := hitRateLimit_record s c.which c.ip (rulesOf c.which) c.now hip2 (by omega)
    rw [e1, e2] at hrecord
    have hw0 : (ensureLimiterRec (s.get which) (jsTrim ip) (rulesOf which) c.now).windows r.key
        = some w := by
      rw [ensureLimiterRec_some _ _ _ _ rec hrec]; exact hw
    obtain ⟨w2, g1, g2, g3, g4⟩ := hitRules_open c.now r (rulesOf which) _ w hnd hr hw0
      (by omega)
    have hok := hitRateLimit_ok_iff s c.which c.ip (rulesOf c.which) c.now hip2
    rw [e1, e2] at hok
    rw [e1]
    refine ⟨_, w2, hrecord, g1, g2.trans hstart, hc.1, ?_⟩
    rcases countsWithin_cases which (jsTrim ip) t0 r.windowMs
      (c, (hitRateLimit s which c.ip (rulesOf which) c.now).1) with h | ⟨h, hokk, _⟩
    · rw [h]; simp only [Nat.cast_zero, add_zero]; omega
    · rw [h]
      have := (g4 (hok.1 hokk)).1
      simp only [Nat.cast_one]; omega
  · have hne : c.which ≠ which ∨ jsTrim c.ip ≠ jsTrim ip := by
      by_cases h1 : c.which = which
      · right; exact fun h2 => hsame ⟨h1, h2⟩
      · left; exact h1
    have h0c : countsWithin which (jsTrim ip) t0 r.windowMs
        (c, (hitRateLimit s c.which c.ip (rulesOf c.which) c.now).1) = 0 := by
      rcases countsWithin_cases which (jsTrim ip) t0 r.windowMs
        (c, (hitRateLimit s c.which c.ip (rulesOf c.which) c.now).1) with h | ⟨_, _, h1, h2, _⟩
      · exact h
      · exact absurd ⟨h1, h2⟩ hsame
    rw [h0c]
    simp only [Nat.cast_zero, add_zero]
    rcases hitRateLimit_other s which c.which (jsTrim ip) c.ip (rulesOf c.which) c.now hne with
      h | ⟨_, rec2, hrec2, hstale⟩
    · exact ⟨rec, w, h.trans hrec, hw, hstart, hlast, hA⟩
    · exfalso
      rw [hrec] at hrec2
      simp only [Option.some.injEq] at hrec2
      subst hrec2
      rcases hstale with h | h <;> omega

/-- A trace of calls inside the window that rule `r` opened at `t0` for the IP: the count of
that window is at least the number of accepted calls from the IP. -/
theorem runCalls_window (rulesOf : LimiterId → List Rule) (which : LimiterId)
    (ip : String) (r : Rule) (hnd : ((rulesOf which).map Rule.key).Nodup)
    (hr : r ∈ rulesOf which) (hip : jsTrim ip ≠ "") (hW : r.windowMs ≤ SWEEP_TTL_MS)
    (t0 : Int) (h0 : 0 < t0) :
    ∀ (cs : List Call) (s : Limiters) (A : Int),
      (∀ c ∈ cs, t0 ≤ c.now ∧ c.now < t0 + r.windowMs) →
      (∃ rec w, s.get which (jsTrim ip) = some rec ∧ rec.windows r.key = some w ∧
        w.start = t0 ∧ t0 ≤ rec.last ∧ A ≤ w.count) →
      ∃ rec w, (runCalls rulesOf s cs).1.get which (jsTrim ip) = some rec ∧
        rec.windows r.key = some w ∧ w.start = t0 ∧ t0 ≤ rec.last ∧
        A + (acceptedWithin which (jsTrim ip) t0 r.windowMs (runCalls rulesOf s cs).2 : Nat)
          ≤ w.count := by
  intro cs
  induction cs with
  | nil =>
    intro s A _ hinv
    simpa [runCalls, acceptedWithin] using hinv
  | cons c cs ih =>
    intro s A hcs hinv
    have hstep := hitRateLimit_window_step rulesOf which ip r hnd hr hip hW t0 h0 s A c
      (hcs c (List.mem_cons_self _ _)) hinv
    obtain ⟨rec, w, k1, k2, k3, k4, k5⟩ := ih _ _ (fun d hd => hcs d (List.mem_cons_of_mem _ hd))
      hstep
    refine ⟨rec, w, k1, k2, k3, k4, ?_⟩
    simp only [runCalls, acceptedWithin_cons, Nat.cast_add]
    omega

/-- C1 as stated fails for a rule whose window is longer than the sweep TTL of two days, and
for rules that share a key.  Under the one-per-week rule, on a server whose sweep counter
stands at 498, the call from "1.2.3.4" at 1 ms is accepted; three days later the call from
"5.6.7.8" is the 500th accepted call and sweeps the idle record of "1.2.3.4" away, and the
next call from "1.2.3.4", inside the week that its first call opened, is accepted.  Under two
rules that share the key `a` the second rule resets the common window on every call, so the
limit 3 of the first rule is never reached. -/
theorem hitRateLimit_accepts_after_sweep :
    (⟨"week", 604800000, 1⟩ : Rule) ∈ weekRules ∧
    beforeSweep.get .requests (jsTrim "1.2.3.4") = none ∧
    acceptedWithin .requests (jsTrim "1.2.3.4") 1 604800000
      (runCalls (fun _ => weekRules) beforeSweep weekTrace).2 = 1 ∧
    (1 : Int) ≤ 259200002 ∧ (259200002 : Int) < 1 + 604800000 ∧
    (hitRateLimit (runCalls (fun _ => weekRules) beforeSweep weekTrace).1 .requests
      "1.2.3.4" weekRules 259200002).1.ok = true ∧
    (⟨"a", 1000, 3⟩ : Rule) ∈ sharedKeyRules ∧
    countOk (hitMany Limiters.initial .requests "1.2.3.4" sharedKeyRules [1, 2, 3]).2 = 3 ∧
    (hitRateLimit (hitMany Limiters.initial .requests "1.2.3.4" sharedKeyRules [1, 2, 3]).1
      .requests "1.2.3.4" sharedKeyRules 4).1.ok = true :=
  ⟨by decide, rfl, by decide, by decide, by decide, by decide, by decide, by decide,
    by decide⟩

/-- C1, amended. `hitRateLimit`, starting from a limiter map without a record for the IP: for
a rule list whose keys are pairwise distinct and not reserved property names, any rule `r`
of it with `r.windowMs` at most the sweep TTL of two days, and any trace of calls (any
limiter, any IP) at clock values inside the window `[t0, t0 + r.windowMs)` that the first call
from the (non-blank) IP opened at `t0 > 0`: once `r.limit` calls from that IP have been
accepted, the next call from that IP inside the same window returns `ok = false` with
`retryAfter > 0`. -/
theorem hitRateLimit_rejects_after_limit (rulesOf : LimiterId → List Rule)
    (which : LimiterId) (ip : String) (r : Rule) (hwf : RulesWellFormed (rulesOf which))
    (hr : r ∈ rulesOf which) (hip : jsTrim ip ≠ "") (hW : r.windowMs ≤ SWEEP_TTL_MS)
    (s : Limiters) (hnew : s.get which (jsTrim ip) = none)
    (t0 : Int) (h0 : 0 < t0) (cs : List Call)
    (hcs : ∀ c ∈ cs, t0 ≤ c.now ∧ c.now < t0 + r.windowMs)
    (t : Int) (ht : t0 ≤ t ∧ t < t0 + r.windowMs)
    (hacc : r.limit ≤ (acceptedWithin which (jsTrim ip) t0 r.windowMs
      (runCalls rulesOf s (⟨which, ip, t0⟩ :: cs)).2 : Nat)) :
    (hitRateLimit (runCalls rulesOf s (⟨which, ip, t0⟩ :: cs)).1 which ip (rulesOf which)
      t).1.ok = false ∧
    0 < (hitRateLimit (runCalls rulesOf s (⟨which, ip, t0⟩ :: cs)).1 which ip (rulesOf which)
      t).1.retryAfter := by
  have hnd := hwf.1
  -- the first call opens the window of `r` at `t0`
  have hw0 := ensureLimiterRec_none (s.get which) (jsTrim ip) (rulesOf which) t0 r hr hnew
  have hrecord := hitRateLimit_record s which ip (rulesOf which) t0 hip (by omega)
  obtain ⟨w1, a1, a2, a3, a4⟩ := hitRules_open t0 r (rulesOf which) _ ⟨t0, 0⟩ hnd hr hw0
    (by simp only; omega)
  have hok := hitRateLimit_ok_iff s which ip (rulesOf which) t0 hip
  have hfirst : ∃ rec w, (hitRateLimit s which ip (rulesOf which) t0).2.get which (jsTrim ip)
      = some rec ∧ rec.windows r.key = some w ∧ w.start = t0 ∧ t0 ≤ rec.last ∧
      (0 : Int) + (countsWithin which (jsTrim ip) t0 r.windowMs
        (⟨which, ip, t0⟩, (hitRateLimit s which ip (rulesOf which) t0).1) : Nat)
        ≤ w.count := by
    refine ⟨_, w1, hrecord, a1, a2, le_refl _, ?_⟩
    rcases countsWithin_cases which (jsTrim ip) t0 r.windowMs
      (⟨which, ip, t0⟩, (hitRateLimit s which ip (rulesOf which) t0).1) with h | ⟨h, hokk, _⟩
    · rw [h]; simp only [Nat.cast_zero, add_zero]; simp only at a3; exact a3
    · rw [h]
      have := (a4 (hok.1 hokk)).1
      simp only at this
      simp only [Nat.cast_one]; omega
  -- the calls that follow stay inside it
  obtain ⟨rec2, w2, b1, b2, b3, _, b5⟩ := runCalls_window rulesOf which ip r hnd hr hip hW t0
    h0 cs _ _ hcs hfirst
  have hcount : r.limit ≤ w2.count := by
    simp only [runCalls, acceptedWithin_cons, Nat.cast_add] at hacc
    omega
  -- the next call finds the window full
  have hfin : (runCalls rulesOf s (⟨which, ip, t0⟩ :: cs)).1
      = (runCalls rulesOf (hitRateLimit s which ip (rulesOf which) t0).2 cs).1 := rfl
  rw [hfin]
  have hw2 : (ensureLimiterRec ((runCalls rulesOf (hitRateLimit s which ip (rulesOf which)
      t0).2 cs).1.get which) (jsTrim ip) (rulesOf which) t).windows r.key = some w2 := by
    rw [ensureLimiterRec_some _ _ _ _ rec2 b1]; exact b2
  obtain ⟨_, w3, _, _, _, _, c5⟩ :=
    hitRateLimit_open_step _ which ip (rulesOf which) r hnd hr hip t (by omega) w2 hw2
      (by omega)
  have hrej : (hitRateLimit (runCalls rulesOf (hitRateLimit s which ip (rulesOf which) t0).2
      cs).1 which ip (rulesOf which) t).1.ok = false := by
    cases hokk : (hitRateLimit (runCalls rulesOf (hitRateLimit s which ip (rulesOf which)
      t0).2 cs).1 which ip (rulesOf which) t).1.ok
    · rfl
    · have := c5 hokk
      omega
  exact ⟨hrej, by have := hitRateLimit_retryAfter_pos _ _ _ _ _ hrej; omega⟩

/-- C1 amended, at the request rules: calls from "1.2.3.4" at 5 ms and 6 ms are accepted, a
call from another address comes in between, and the call from "1.2.3.4" at 7 ms is rejected
by the one-second rule. -/
theorem hitRateLimit_rejects_after_limit_witness :
    (hitRateLimit (runCalls serverRules Limiters.initial
      [⟨.requests, "1.2.3.4", 5⟩, ⟨.requests, "5.6.7.8", 5⟩, ⟨.requests, "1.2.3.4", 6⟩]).1
      .requests "1.2.3.4" (serverRules .requests) 7).1.ok = false ∧
    0 < (hitRateLimit (runCalls serverRules Limiters.initial
      [⟨.requests, "1.2.3.4", 5⟩, ⟨.requests, "5.6.7.8", 5⟩, ⟨.requests, "1.2.3.4", 6⟩]).1
      .requests "1.2.3.4" (serverRules .requests) 7).1.retryAfter :=
  hitRateLimit_rejects_after_limit serverRules .requests "1.2.3.4" ⟨"sec", 1000, 2⟩
    (by decide) (by decide) (by decide) (by decide) Limiters.initial rfl 5 (by decide)
    [⟨.requests, "5.6.7.8", 5⟩, ⟨.requests, "1.2.3.4", 6⟩] (by decide) 7 (by decide)
    (by decide)

/-! ## C3 -/

/-- Calls for other limiters or from other IPs leave the record of an IP as it is, or the
sweep deletes it. -/
theorem runCalls_other (rulesOf : LimiterId → List Rule) (which : LimiterId) (k : String) :
    ∀ (cs : List Call) (s : Limiters), (∀ c ∈ cs, c.which ≠ which ∨ jsTrim c.ip ≠ k) →
      (runCalls rulesOf s cs).1.get which k = s.get which k ∨
      (runCalls rulesOf s cs).1.get which k = none := by
  intro cs
  induction cs with
  | nil => intro s _; exact Or.inl rfl
  | cons c cs ih =>
    intro s hcs
    have hc := hcs c (List.mem_cons_self _ _)
    have hrest := ih (hitRateLimit s c.which c.ip (rulesOf c.which) c.now).2
      (fun d hd => hcs d (List.mem_cons_of_mem _ hd))
    show (runCalls rulesOf (hitRateLimit s c.which c.ip (rulesOf c.which) c.now).2 cs).1.get
        which k = s.get which k ∨ _ = none
    rcases hrest with h | h
    · rcases hitRateLimit_other s which c.which k c.ip (rulesOf c.which) c.now hc with
        g | ⟨g, _⟩
      · exact Or.inl (h.trans g)
      · exact Or.inr (h.trans g)
    · exact Or.inr h

/-- The rule loop never leaves a window that starts after the call. -/
theorem hitRules_start_le (now : Int) (k : String) :
    ∀ (rules : List Rule) (ws : String → Option Window),
      (∀ w, ws k = some w → w.start ≤ now) →
      ∀ w2, (hitRules now rules ws).1 k = some w2 → w2.start ≤ now := by
  intro rules
  induction rules with
  | nil => intro ws h w2 hw2; exact h w2 hw2
  | cons q qs ih =>
    intro ws h w2 hw2
    have hset : ∀ w, setKey ws q.key (bumpWindow now q ws) k = some w → w.start ≤ now := by
      intro w hw
      by_cases hk : k = q.key
      · subst hk
        rw [setKey_same] at hw
        simp only [Option.some.injEq] at hw
        rw [← hw]
        exact bumpWindow_start_le now q ws h
      · rw [setKey_other _ _ _ _ hk] at hw
        exact h w hw
    simp only [hitRules] at hw2
    split at hw2
    · exact hset w2 hw2
    · exact ih _ hset w2 hw2

/-- The rule loop accepts the call when every rule allows at least one call and finds its
window expired or empty. -/
theorem hitRules_all_reset (now : Int) :
    ∀ (rules : List Rule) (ws : String → Option Window), (rules.map Rule.key).Nodup →
      (∀ q ∈ rules, 1 ≤ q.limit ∧
        ∀ w, ws q.key = some w → now - w.start ≥ q.windowMs ∨ w.count = 0) →
      (hitRules now rules ws).2 = none := by
  intro rules
  induction rules with
  | nil => intro ws _ _; rfl
  | cons q qs ih =>
    intro ws hnd h
    simp only [List.map_cons, List.nodup_cons] at hnd
    obtain ⟨hlim, hq⟩ := h q (List.mem_cons_self _ _)
    have hcount : (bumpWindow now q ws).count = 1 := by
      unfold bumpWindow
      simp only
      split
      · rfl
      · rename_i hno
        cases hw : ws q.key with
        | none => rfl
        | some w =>
          simp only [hw, Option.getD_some] at hno ⊢
          rcases hq w hw with g | g
          · exact absurd g hno
          · rw [g]; rfl
    simp only [hitRules]
    have hle : ¬ (bumpWindow now q ws).count > q.limit := by rw [hcount]; omega
    rw [if_neg hle]
    apply ih _ hnd.2
    intro p hp
    have hkey : p.key ≠ q.key := fun e => hnd.1 (e ▸ List.mem_map_of_mem Rule.key hp)
    obtain ⟨hl, hw⟩ := h p (List.mem_cons_of_mem _ hp)
    refine ⟨hl, fun w hwp => hw w ?_⟩
    rw [setKey_other _ _ _ _ hkey] at hwp
    exact hwp

/-- C3 as stated fails, at the request rules: after sixty accepted calls in thirty seconds the
call at 29003 ms is rejected because of the one-second rule, and the call `windowMs = 1000` ms
later, with nothing in between, is rejected again, now by the one-minute rule. -/
theorem hitRateLimit_retry_after_window_rejected :
    (hitRateLimit (hitMany Limiters.initial .requests "1.2.3.4" REQUEST_RATE_LIMIT_RULES
        twoPerSecond).1 .requests "1.2.3.4" REQUEST_RATE_LIMIT_RULES 29003).1
      = ⟨false, 1, some ⟨"sec", 1000, 2⟩⟩ ∧
    (hitRateLimit (hitRateLimit (hitMany Limiters.initial .requests "1.2.3.4"
        REQUEST_RATE_LIMIT_RULES twoPerSecond).1 .requests "1.2.3.4" REQUEST_RATE_LIMIT_RULES
        29003).2 .requests "1.2.3.4" REQUEST_RATE_LIMIT_RULES (29003 + 1000)).1
      = ⟨false, 30, some ⟨"min", 60000, 60⟩⟩ := by
  decide

/-- C3, amended. For a rule list whose keys are pairwise distinct and not reserved property
names: after `hitRateLimit` has rejected a call from an IP at clock value `t` because of a
rule `r` with `r.limit ≥ 1`, the stored window of `r` having started no later than `t`, a
call from the same IP at least `r.windowMs` later, with no call from that IP on that limiter
in between (other IPs and the other limiter may be used, sweeps included), is not rejected
because of `r`: it returns `ok = true` unless another rule of the list rejects it.  It does
return `ok = true` when every rule of the list has a limit of at least 1, no stored window of
the IP started after `t`, and the call comes at least the longest `windowMs` of the list
after `t`. -/
theorem hitRateLimit_window_reopens (rulesOf : LimiterId → List Rule) (s : Limiters)
    (which : LimiterId) (ip : String) (r : Rule) (hwf : RulesWellFormed (rulesOf which))
    (hlim : 1 ≤ r.limit) (t : Int)
    (hclock : ∀ w ∈ (s.get which (jsTrim ip)).bind (fun rec => rec.windows r.key),
      w.start ≤ t)
    (hrej : (hitRateLimit s which ip (rulesOf which) t).1.ok = false)
    (hrule : (hitRateLimit s which ip (rulesOf which) t).1.rule = some r)
    (cs : List Call) (hother : ∀ c ∈ cs, c.which ≠ which ∨ jsTrim c.ip ≠ jsTrim ip)
    (t2 : Int) (ht2 : t + r.windowMs ≤ t2) :
    ((hitRateLimit (runCalls rulesOf (hitRateLimit s which ip (rulesOf which) t).2 cs).1
        which ip (rulesOf which) t2).1.ok = true ∨
      ∃ q ∈ rulesOf which, q.key ≠ r.key ∧
        (hitRateLimit (runCalls rulesOf (hitRateLimit s which ip (rulesOf which) t).2 cs).1
          which ip (rulesOf which) t2).1.rule = some q) ∧
    ((∀ q ∈ rulesOf which, 1 ≤ q.limit ∧ t + q.windowMs ≤ t2) →
      (∀ rec, s.get which (jsTrim ip) = some rec → ∀ q ∈ rulesOf which,
        ∀ w, rec.windows q.key = some w → w.start ≤ t) →
      (hitRateLimit (runCalls rulesOf (hitRateLimit s which ip (rulesOf which) t).2 cs).1
        which ip (rulesOf which) t2).1.ok = true) := by
  have hnd := hwf.1
  obtain ⟨hip, ra, q, hloop, hres, hrec⟩ :=
    hitRateLimit_rejected s which ip (rulesOf which) t hrej
  rw [hres] at hrule
  simp only [Option.some.injEq] at hrule
  subst hrule
  obtain ⟨hq, hgt, hwin, _⟩ := hitRules_rejecting_rule t (rulesOf which) _ ra q hnd hloop
  -- the window of `q` after the rejected call started no later than `t`
  have hstart : (bumpWindow t q
      (ensureLimiterRec (s.get which) (jsTrim ip) (rulesOf which) t).windows).start ≤ t := by
    apply bumpWindow_start_le
    intro w hw
    cases hs : s.get which (jsTrim ip) with
    | none =>
      rw [ensureLimiterRec_none (s.get which) (jsTrim ip) (rulesOf which) t q hq hs] at hw
      simp only [Option.some.injEq] at hw
      rw [← hw]
    | some rec =>
      rw [ensureLimiterRec_some _ _ _ _ rec hs] at hw
      exact hclock w (by simp [hs, hw])
  -- the record of the IP when the later call arrives
  have hlater := runCalls_other rulesOf which (jsTrim ip) cs
    (hitRateLimit s which ip (rulesOf which) t).2 hother
  rw [hrec] at hlater
  constructor
  · rw [hitRateLimit_result _ which ip (rulesOf which) t2 hip]
    cases hloop2 : (hitRules t2 (rulesOf which) (ensureLimiterRec
        ((runCalls rulesOf (hitRateLimit s which ip (rulesOf which) t).2 cs).1.get which)
        (jsTrim ip) (rulesOf which) t2).windows).2 with
    | none => left; rfl
    | some res =>
      obtain ⟨ra2, p⟩ := res
      right
      obtain ⟨hp, hgt2, _, _⟩ :=
        hitRules_rejecting_rule t2 (rulesOf which) _ ra2 p hnd hloop2
      refine ⟨p, hp, ?_, rfl⟩
      intro hkey
      have hpq : p = q := rule_eq_of_key_eq (rulesOf which) p q hnd hp hq hkey
      subst hpq
      rcases hlater with h | h
      · rw [ensureLimiterRec_some _ _ _ _ _ h] at hgt2
        have hreset : bumpWindow t2 p (hitRules t (rulesOf which)
            (ensureLimiterRec (s.get which) (jsTrim ip) (rulesOf which) t).windows).1
            = ⟨t2, 1⟩ := by
          have hexp : t2 - (bumpWindow t p
              (ensureLimiterRec (s.get which) (jsTrim ip) (rulesOf which) t).windows).start
              ≥ p.windowMs := by omega
          simp only [bumpWindow, hwin, Option.getD_some]
          simp only [bumpWindow] at hexp
          simp [hexp]
        rw [hreset] at hgt2
        simp only at hgt2
        omega
      · have hb : (bumpWindow t2 p (ensureLimiterRec
            ((runCalls rulesOf (hitRateLimit s which ip (rulesOf which) t).2 cs).1.get which)
            (jsTrim ip) (rulesOf which) t2).windows).count = 1 := by
          have hw := ensureLimiterRec_none
            ((runCalls rulesOf (hitRateLimit s which ip (rulesOf which) t).2 cs).1.get which)
            (jsTrim ip) (rulesOf which) t2 p hp h
          unfold bumpWindow
          simp only [hw, Option.getD_some]
          split <;> rfl
        rw [hb] at hgt2
        omega
  · intro hall hclockAll
    rw [(hitRateLimit_ok_iff _ which ip (rulesOf which) t2 hip)]
    apply hitRules_all_reset t2 (rulesOf which) _ hnd
    intro p hp
    refine ⟨(hall p hp).1, ?_⟩
    intro w hw
    rcases hlater with h | h
    · rw [ensureLimiterRec_some _ _ _ _ _ h] at hw
      left
      have hws : w.start ≤ t := by
        refine hitRules_start_le t p.key (rulesOf which) _ ?_ w hw
        intro w0 hw0
        cases hs : s.get which (jsTrim ip) with
        | none =>
          rw [ensureLimiterRec_none (s.get which) (jsTrim ip) (rulesOf which) t p hp hs] at hw0
          simp only [Option.some.injEq] at hw0
          rw [← hw0]
        | some rec =>
          rw [ensureLimiterRec_some _ _ _ _ rec hs] at hw0
          exact hclockAll rec hs p hp w0 hw0
      have := (hall p hp).2
      omega
    · rw [ensureLimiterRec_none _ (jsTrim ip) (rulesOf which) t2 p hp h] at hw
      simp only [Option.some.injEq] at hw
      right
      rw [← hw]

/-- C3 amended, at the request rules: after calls at 5 and 6 ms the call at 7 ms is rejected
by the one-second rule; another address calls at 500 ms, and the call at 1007 ms is not
rejected by the one-second rule. -/
theorem hitRateLimit_window_reopens_witness :
    (hitRateLimit (runCalls serverRules (hitRateLimit (hitMany Limiters.initial .requests
        "1.2.3.4" REQUEST_RATE_LIMIT_RULES [5, 6]).1 .requests "1.2.3.4"
        (serverRules .requests) 7).2 [⟨.requests, "5.6.7.8", 500⟩]).1
        .requests "1.2.3.4" (serverRules .requests) 1007).1.ok = true ∨
    ∃ q ∈ serverRules .requests, q.key ≠ "sec" ∧
      (hitRateLimit (runCalls serverRules (hitRateLimit (hitMany Limiters.initial .requests
        "1.2.3.4" REQUEST_RATE_LIMIT_RULES [5, 6]).1 .requests "1.2.3.4"
        (serverRules .requests) 7).2 [⟨.requests, "5.6.7.8", 500⟩]).1
        .requests "1.2.3.4" (serverRules .requests) 1007).1.rule = some q :=
  (hitRateLimit_window_reopens serverRules
    (hitMany Limiters.initial .requests "1.2.3.4" REQUEST_RATE_LIMIT_RULES [5, 6]).1
    .requests "1.2.3.4" ⟨"sec", 1000, 2⟩ (by decide) (by decide) 7
    (by decide) (by decide) (by decide) [⟨.requests, "5.6.7.8", 500⟩] (by decide) 1007
    (by decide)).1

/-! ## C4 -/

/-- A token accepted under one session id is rejected under every other id, at any time. -/
theorem isAdmin_other_session (R : Runtime) (secret sid sid2 token : String)
    (now now2 : Int) (hacc : isAdmin R secret sid token now = true) (hne : sid2 ≠ sid) :
    isAdmin R secret sid2 token now2 = false := by
  cases hnew : isAdmin R secret sid2 token now2 with
  | false => rfl
  | true =>
    exfalso
    obtain ⟨_, _, _, payload, hv, _, _, _, v, hget, _, hstr⟩ :=
      (isAdmin_eq_true_iff R secret sid token now).1 hacc
    obtain ⟨_, _, _, payload2, hv2, _, _, _, v2, hget2, _, hstr2⟩ :=
      (isAdmin_eq_true_iff R secret _ token now2).1 hnew
    have e := jwtVerify_other_time R token secret now now2 payload payload2 hv hv2
    subst e
    rw [hget] at hget2
    simp only [Option.some.injEq] at hget2
    subst hget2
    exact hne (hstr2.symm.trans hstr)

/-- The session id after a run of the login handler: the encoding of the random octets after
a 200 response, the id of before otherwise. -/
theorem handleAdminLogin_session (R : ForumRuntime) (cfg : Config) (adminPassword : String)
    (ttlDays : Int) (st : ServerState) (req : LoginRequest) (randomBytes : List Byte)
    (clock : LoginClock) :
    ((handleAdminLogin R cfg adminPassword ttlDays st req randomBytes clock).response.status
        = 200 →
      (handleAdminLogin R cfg adminPassword ttlDays st req randomBytes
        clock).state.adminSessionId = rotateAdminSession randomBytes) ∧
    ((handleAdminLogin R cfg adminPassword ttlDays st req randomBytes clock).response.status
        ≠ 200 →
      (handleAdminLogin R cfg adminPassword ttlDays st req randomBytes
        clock).state.adminSessionId = st.adminSessionId) := by
  simp only [handleAdminLogin]
  split
  · exact ⟨fun h => (by cases h), fun _ => rfl⟩
  · split
    · exact ⟨fun h => (by cases h), fun _ => rfl⟩
    · split
      · exact ⟨fun h => (by cases h), fun _ => rfl⟩
      · split
        · exact ⟨fun h => (by cases h), fun _ => rfl⟩
        · split
          · exact ⟨fun h => (by cases h), fun _ => rfl⟩
          · split
            · exact ⟨fun h => (by cases h), fun _ => rfl⟩
            · simp only [loginWithBody]
              split
              · split
                · exact ⟨fun h => (by cases h), fun _ => rfl⟩
                · exact ⟨fun h => (by cases h), fun _ => rfl⟩
              · exact ⟨fun _ => rfl, fun h => absurd rfl h⟩

/-- The session id after a run of the logout handler. -/
theorem handleAdminLogout_session (R : Runtime) (cfg : Config) (st : ServerState)
    (token : String) (randomBytes : List Byte) (now : Int) :
    ((handleAdminLogout R cfg st token randomBytes now).1.status = 200 →
      (handleAdminLogout R cfg st token randomBytes now).2.adminSessionId
        = rotateAdminSession randomBytes) ∧
    ((handleAdminLogout R cfg st token randomBytes now).1.status ≠ 200 →
      (handleAdminLogout R cfg st token randomBytes now).2 = st) := by
  unfold handleAdminLogout
  split
  · exact ⟨fun h => (by cases h), fun _ => rfl⟩
  · exact ⟨fun _ => rfl, fun h => absurd rfl h⟩

/-- C4, the failing run. `rotateAdminSession` (server.js 183-186) takes the new session id
from `crypto.randomBytes(18)` without comparing it with the id in force. A first login at
millisecond 1000000 draws the octets 7, ..., 7 and is answered 200 with a token; that token is
accepted at millisecond 1500000. A second login at millisecond 2000000 is answered 200 as
well and draws the same 18 octets: the session id is the one of before, and the token of the
first login is still accepted at millisecond 2500000. -/
theorem handleAdminLogin_keeps_token_when_id_repeats :
    (handleAdminLogin refForumRuntime exampleConfig "haslo123" 7 exampleState exampleLogin
      (List.replicate 18 (byte 7)) ⟨1000, 2000, 3000, 1000000⟩).response.status = 200 ∧
    (handleAdminLogin refForumRuntime exampleConfig "haslo123" 7 exampleState exampleLogin
      (List.replicate 18 (byte 7)) ⟨1000, 2000, 3000, 1000000⟩).token
      = some (adminLogin refRuntime exampleConfig.ADMIN_TOKEN_SECRET
          (List.replicate 18 (byte 7)) 1000000 7).2 ∧
    isAdmin refRuntime exampleConfig.ADMIN_TOKEN_SECRET
      (handleAdminLogin refForumRuntime exampleConfig "haslo123" 7 exampleState exampleLogin
        (List.replicate 18 (byte 7)) ⟨1000, 2000, 3000, 1000000⟩).state.adminSessionId
      (adminLogin refRuntime exampleConfig.ADMIN_TOKEN_SECRET
        (List.replicate 18 (byte 7)) 1000000 7).2 1500000 = true ∧
    (handleAdminLogin refForumRuntime exampleConfig "haslo123" 7
      (handleAdminLogin refForumRuntime exampleConfig "haslo123" 7 exampleState exampleLogin
        (List.replicate 18 (byte 7)) ⟨1000, 2000, 3000, 1000000⟩).state
      exampleLogin (List.replicate 18 (byte 7))
      ⟨2000000, 2000000, 2000000, 2000000⟩).response.status = 200 ∧
    (handleAdminLogin refForumRuntime exampleConfig "haslo123" 7
      (handleAdminLogin refForumRuntime exampleConfig "haslo123" 7 exampleState exampleLogin
        (List.replicate 18 (byte 7)) ⟨1000, 2000, 3000, 1000000⟩).state
      exampleLogin (List.replicate 18 (byte 7))
      ⟨2000000, 2000000, 2000000, 2000000⟩).state.adminSessionId
      = (handleAdminLogin refForumRuntime exampleConfig "haslo123" 7 exampleState exampleLogin
        (List.replicate 18 (byte 7)) ⟨1000, 2000, 3000, 1000000⟩).state.adminSessionId ∧
    isAdmin refRuntime exampleConfig.ADMIN_TOKEN_SECRET
      (handleAdminLogin refForumRuntime exampleConfig "haslo123" 7
        (handleAdminLogin refForumRuntime exampleConfig "haslo123" 7 exampleState exampleLogin
          (List.replicate 18 (byte 7)) ⟨1000, 2000, 3000, 1000000⟩).state
        exampleLogin (List.replicate 18 (byte 7))
        ⟨2000000, 2000000, 2000000, 2000000⟩).state.adminSessionId
      (adminLogin refRuntime exampleConfig.ADMIN_TOKEN_SECRET
        (List.replicate 18 (byte 7)) 1000000 7).2 2500000 = true := by
  have h1 : (handleAdminLogin refForumRuntime exampleConfig "haslo123" 7 exampleState
      exampleLogin (List.replicate 18 (byte 7)) ⟨1000, 2000, 3000, 1000000⟩).response.status
      = 200 := by rfl
  have h2 : (handleAdminLogin refForumRuntime exampleConfig "haslo123" 7
      (handleAdminLogin refForumRuntime exampleConfig "haslo123" 7 exampleState exampleLogin
        (List.replicate 18 (byte 7)) ⟨1000, 2000, 3000, 1000000⟩).state
      exampleLogin (List.replicate 18 (byte 7))
      ⟨2000000, 2000000, 2000000, 2000000⟩).response.status = 200 := by rfl
  have hacc : ∀ later : Int, later ≤ 605800000 →
      isAdmin refRuntime exampleConfig.ADMIN_TOKEN_SECRET
        (rotateAdminSession (List.replicate 18 (byte 7)))
        (adminLogin refRuntime exampleConfig.ADMIN_TOKEN_SECRET
          (List.replicate 18 (byte 7)) 1000000 7).2 later = true := by
    intro later hlater
    refine (isAdmin_jwtSign_iff refRuntime exampleConfig.ADMIN_TOKEN_SECRET
      (rotateAdminSession (List.replicate 18 (byte 7)))
      (adminTokenPayload (rotateAdminSession (List.replicate 18 (byte 7))) 1000 7)
      later (by rfl) rfl).2 ⟨by decide, by decide, ?_, rfl, rfl, rfl, _, rfl, by decide, rfl⟩
    have he : tokenExp refRuntime
        (adminTokenPayload (rotateAdminSession (List.replicate 18 (byte 7))) 1000 7)
        = 605800 := by rfl
    rw [he]
    omega
  have e1 := (handleAdminLogin_session refForumRuntime exampleConfig "haslo123" 7 exampleState
    exampleLogin (List.replicate 18 (byte 7)) ⟨1000, 2000, 3000, 1000000⟩).1 h1
  have e2 := (handleAdminLogin_session refForumRuntime exampleConfig "haslo123" 7
    (handleAdminLogin refForumRuntime exampleConfig "haslo123" 7 exampleState exampleLogin
      (List.replicate 18 (byte 7)) ⟨1000, 2000, 3000, 1000000⟩).state
    exampleLogin (List.replicate 18 (byte 7)) ⟨2000000, 2000000, 2000000, 2000000⟩).1 h2
  refine ⟨h1, by rfl, ?_, h2, e2.trans e1.symm, ?_⟩
  · rw [e1]
    exact hacc 1500000 (by decide)
  · rw [e2]
    exact hacc 2500000 (by decide)

/-- C4. What the code does for a token accepted under the session id in force: every login
answered 200 and every logout answered 200 sets the session id to the encoding of the 18
octets drawn by `rotateAdminSession`; when that id differs from the one before, the token is
rejected from then on, at any later time; when the octets give the id of before, the token
is accepted as before. -/
theorem rotation_invalidates_tokens (R : ForumRuntime) (cfg : Config) (st : ServerState)
    (token : String) (now : Int)
    (hacc : isAdmin R.toRuntime cfg.ADMIN_TOKEN_SECRET st.adminSessionId token now = true) :
    (∀ (adminPassword : String) (ttlDays : Int) (req : LoginRequest) (randomBytes : List Byte)
        (clock : LoginClock) (later : Int),
      (handleAdminLogin R cfg adminPassword ttlDays st req randomBytes clock).response.status
          = 200 →
        (handleAdminLogin R cfg adminPassword ttlDays st req randomBytes
          clock).state.adminSessionId = rotateAdminSession randomBytes ∧
        (rotateAdminSession randomBytes ≠ st.adminSessionId →
          isAdmin R.toRuntime cfg.ADMIN_TOKEN_SECRET
            (handleAdminLogin R cfg adminPassword ttlDays st req randomBytes
              clock).state.adminSessionId token later = false) ∧
        (rotateAdminSession randomBytes = st.adminSessionId →
          isAdmin R.toRuntime cfg.ADMIN_TOKEN_SECRET
            (handleAdminLogin R cfg adminPassword ttlDays st req randomBytes
              clock).state.adminSessionId token now = true)) ∧
    (∀ (caller : String) (randomBytes : List Byte) (atLogout later : Int),
      (handleAdminLogout R.toRuntime cfg st caller randomBytes atLogout).1.status = 200 →
        (handleAdminLogout R.toRuntime cfg st caller randomBytes atLogout).2.adminSessionId
          = rotateAdminSession randomBytes ∧
        (rotateAdminSession randomBytes ≠ st.adminSessionId →
          isAdmin R.toRuntime cfg.ADMIN_TOKEN_SECRET
            (handleAdminLogout R.toRuntime cfg st caller randomBytes
              atLogout).2.adminSessionId token later = false) ∧
        (rotateAdminSession randomBytes = st.adminSessionId →
          isAdmin R.toRuntime cfg.ADMIN_TOKEN_SECRET
            (handleAdminLogout R.toRuntime cfg st caller randomBytes
              atLogout).2.adminSessionId token now = true)) := by
  constructor
  · intro adminPassword ttlDays req randomBytes clock later hok
    have e := (handleAdminLogin_session R cfg adminPassword ttlDays st req randomBytes
      clock).1 hok
    rw [e]
    exact ⟨rfl, fun hne => isAdmin_other_session _ _ _ _ _ now later hacc hne,
      fun heq => by rw [heq]; exact hacc⟩
  · intro caller randomBytes atLogout later hok
    have e := (handleAdminLogout_session R.toRuntime cfg st caller randomBytes atLogout).1 hok
    rw [e]
    exact ⟨rfl, fun hne => isAdmin_other_session _ _ _ _ _ now later hacc hne,
      fun heq => by rw [heq]; exact hacc⟩

/-- The example admin token, accepted in the session "c2Vzc2lvbg", is rejected after a login
that draws the octets 7, ..., 7, and after a logout that draws them. -/
theorem rotation_invalidates_tokens_witness :
    isAdmin refRuntime exampleConfig.ADMIN_TOKEN_SECRET exampleState.adminSessionId
      exampleAdminToken 1001 = true ∧
    isAdmin refRuntime exampleConfig.ADMIN_TOKEN_SECRET
      (handleAdminLogin refForumRuntime exampleConfig "haslo123" 7 exampleState exampleLogin
        (List.replicate 18 (byte 7)) ⟨1000, 2000, 3000, 1000000⟩).state.adminSessionId
      exampleAdminToken 1000001 = false ∧
    isAdmin refRuntime exampleConfig.ADMIN_TOKEN_SECRET
      (handleAdminLogout refRuntime exampleConfig exampleState exampleAdminToken
        (List.replicate 18 (byte 7)) 1001).2.adminSessionId
      exampleAdminToken 1002 = false :=
  ⟨exampleAdminToken_isAdmin,
    ((rotation_invalidates_tokens refForumRuntime exampleConfig exampleState exampleAdminToken
      1001 exampleAdminToken_isAdmin).1 "haslo123" 7 exampleLogin (List.replicate 18 (byte 7))
      ⟨1000, 2000, 3000, 1000000⟩ 1000001 (by rfl)).2.1 (by decide),
    ((rotation_invalidates_tokens refForumRuntime exampleConfig exampleState exampleAdminToken
      1001 exampleAdminToken_isAdmin).2 exampleAdminToken (List.replicate 18 (byte 7))
      1001 1002 (by rfl)).2.1 (by decide)⟩

/-! ## C12 -/

/-- The checks of the forum write handler before the ban check, for a key that begins with
`staszek-`: the answers to a key outside the forum threads, to an empty or oversized element
and to a request that one of the two rate limits rejects, none of which sends a request
upstream; a request that passes them all reaches the admin and ban checks. -/
theorem handleBasicDbDodaj_forum_cases (R : ForumRuntime) (cfg : Config) (up : Upstream)
    (together : Together) (st : ServerState) (req : WriteRequest) (clock : WriteClock)
    (hforum : jsStartsWith req.key "staszek-" = true) :
    (isAllowedForumThreadKey req.key = false →
      handleBasicDbDodaj R cfg up together st req clock
        = ⟨⟨400, "invalid_key", ""⟩, st, [], none⟩) ∧
    (isAllowedForumThreadKey req.key = true → req.rawElement = "" →
      handleBasicDbDodaj R cfg up together st req clock
        = ⟨⟨400, "invalid_element", ""⟩, st, [], none⟩) ∧
    (isAllowedForumThreadKey req.key = true → req.rawElement ≠ "" →
      utf16Length req.rawElement > 4000 →
      handleBasicDbDodaj R cfg up together st req clock
        = ⟨⟨413, "payload_too_large", ""⟩, st, [], none⟩) ∧
    (isAllowedForumThreadKey req.key = true → req.rawElement ≠ "" →
      utf16Length req.rawElement ≤ 4000 →
      (hitRateLimit st.limiters .requests req.ip REQUEST_RATE_LIMIT_RULES
        clock.atRequestLimit).1.ok = false →
      handleBasicDbDodaj R cfg up together st req clock
        = ⟨⟨429, "rate_limited", ""⟩,
            ⟨(hitRateLimit st.limiters .requests req.ip REQUEST_RATE_LIMIT_RULES
              clock.atRequestLimit).2, st.adminSessionId⟩, [], none⟩) ∧
    (isAllowedForumThreadKey req.key = true → req.rawElement ≠ "" →
      utf16Length req.rawElement ≤ 4000 →
      (hitRateLimit st.limiters .requests req.ip REQUEST_RATE_LIMIT_RULES
        clock.atRequestLimit).1.ok = true →
      (hitRateLimit (hitRateLimit st.limiters .requests req.ip REQUEST_RATE_LIMIT_RULES
        clock.atRequestLimit).2 .comments req.ip COMMENT_RATE_LIMIT_RULES
        clock.atCommentLimit).1.ok = false →
      handleBasicDbDodaj R cfg up together st req clock
        = ⟨⟨429, "rate_limited", ""⟩,
            ⟨(hitRateLimit (hitRateLimit st.limiters .requests req.ip REQUEST_RATE_LIMIT_RULES
              clock.atRequestLimit).2 .comments req.ip COMMENT_RATE_LIMIT_RULES
              clock.atCommentLimit).2, st.adminSessionId⟩, [], none⟩) := by
  have hpv := jsStartsWith_staszek_not_pv req.key hforum
  refine ⟨?_, ?_, ?_, ?_, ?_⟩
  · intro hkey
    simp only [handleBasicDbDodaj, hforum, hkey, Bool.not_false, Bool.and_self, if_true]
    split <;> rfl
  · intro hkey helem
    have hdb : isAllowedBasicDbKey req.key = true := by
      simp only [isAllowedBasicDbKey, (isAllowedForumThreadKey_forum req.key hkey).1, hforum,
        Bool.true_or, Bool.and_self]
    simp only [handleBasicDbDodaj, hdb, hkey, hforum, hpv, helem, Bool.not_true,
      Bool.and_false, Bool.false_and, Bool.false_eq_true, if_false, if_true]
  · intro hkey helem hsize
    have hdb : isAllowedBasicDbKey req.key = true := by
      simp only [isAllowedBasicDbKey, (isAllowedForumThreadKey_forum req.key hkey).1, hforum,
        Bool.true_or, Bool.and_self]
    simp only [handleBasicDbDodaj, hdb, hkey, hforum, hpv, helem, hsize, Bool.not_true,
      Bool.and_false, Bool.false_and, Bool.false_eq_true, if_false, if_true]
  · intro hkey helem hsize hrl
    have hdb : isAllowedBasicDbKey req.key = true := by
      simp only [isAllowedBasicDbKey, (isAllowedForumThreadKey_forum req.key hkey).1, hforum,
        Bool.true_or, Bool.and_self]
    have hs : ¬ utf16Length req.rawElement > 4000 := by omega
    simp only [handleBasicDbDodaj, hdb, hkey, hforum, hpv, helem, hs, Bool.not_true,
      Bool.and_false, Bool.false_and, Bool.false_eq_true, if_false, writeAfterValidation, hrl,
      Bool.not_false, if_true]
  · intro hkey helem hsize hrl hcl
    have hdb : isAllowedBasicDbKey req.key = true := by
      simp only [isAllowedBasicDbKey, (isAllowedForumThreadKey_forum req.key hkey).1, hforum,
        Bool.true_or, Bool.and_self]
    have hs : ¬ utf16Length req.rawElement > 4000 := by omega
    simp only [handleBasicDbDodaj, hdb, hkey, hforum, hpv, helem, hs, Bool.not_true,
      Bool.and_false, Bool.false_and, Bool.false_eq_true, if_false, writeAfterValidation, hrl,
      hcl, Bool.not_false, if_true]

/-- C12 as stated fails, in two ways. `isIpBanned` (server.js 818-825) reads the flag with
`licznikGetInt`, which answers `null` when the read fails, and `null` counts as not banned:
on a counter service that answers the first request of the run with HTTP 503 and reads 1 for
every counter afterwards, the ban flag included, the comment of the banned IP is scored 6,
appended upstream and answered 200. And the request rate limit comes before the ban check: the
third attempt of the banned IP within one second is answered 429 `rate_limited`, not 403. -/
theorem forumWrite_banned_ip_stored_when_read_fails :
    (licznikGetInt (firstRequestFails bannedUpstream) []
      (moderationBanCounterName (moderationIpHash refForumRuntime.sha256Hex exampleConfig
        (jsTrim exampleComment.ip)))).1 = none ∧
    (licznikGetInt (firstRequestFails bannedUpstream) [.ile "staszek-views"]
      (moderationBanCounterName (moderationIpHash refForumRuntime.sha256Hex exampleConfig
        (jsTrim exampleComment.ip)))).1 = some 1 ∧
    isAdmin refRuntime exampleConfig.ADMIN_TOKEN_SECRET "c2Vzc2lvbg" exampleComment.token 1002
      = false ∧
    (handleBasicDbDodaj refForumRuntime exampleConfig (firstRequestFails bannedUpstream)
      scoreSixTogether ⟨Limiters.initial, "c2Vzc2lvbg"⟩ exampleComment
      ⟨1000, 1001, 1002, 1003⟩).response = ⟨200, "", "1"⟩ ∧
    (handleBasicDbDodaj refForumRuntime exampleConfig (firstRequestFails bannedUpstream)
      scoreSixTogether ⟨Limiters.initial, "c2Vzc2lvbg"⟩ exampleComment
      ⟨1000, 1001, 1002, 1003⟩).score = some 6 ∧
    (handleBasicDbDodaj refForumRuntime exampleConfig (firstRequestFails bannedUpstream)
      scoreSixTogether ⟨Limiters.initial, "c2Vzc2lvbg"⟩ exampleComment
      ⟨1000, 1001, 1002, 1003⟩).sent.filter UpstreamReq.isBasicDbWrite
      = [.basicDbAppend "staszek-forum"
          (.obj [("t", .num 1003), ("n", .str ""), ("m", .str "Dobry pomysł"), ("s", .num 6)])
          ""] ∧
    (licznikGetInt bannedUpstream []
      (moderationBanCounterName (moderationIpHash refForumRuntime.sha256Hex exampleConfig
        (jsTrim exampleComment.ip)))).1 = some 1 ∧
    (handleBasicDbDodaj refForumRuntime exampleConfig bannedUpstream scoreSixTogether
      ⟨(hitMany Limiters.initial .requests exampleComment.ip REQUEST_RATE_LIMIT_RULES
        [998, 999]).1, "c2Vzc2lvbg"⟩ exampleComment ⟨1000, 1001, 1002, 1003⟩).response
      = ⟨429, "rate_limited", ""⟩ :=
  ⟨by decide, by decide, by decide, by decide, by decide, by rfl, by decide, by decide⟩

/-- C12, amended. A non-admin write attempt to a forum key (one that begins with `staszek-`)
from an IP whose ban flag counter is read as `n ≥ 1` appends nothing upstream and computes no
score, whatever the content: it is answered 400 `invalid_key` for a key outside the forum
threads, 400 `invalid_element` for an empty element, 413 for an element of more than 4000
code units, 429 `rate_limited` when the request limit or the comment limit rejects it, and
otherwise 403 `ip_banned`, the read of the ban flag being the only request sent upstream.
When the read of the ban flag gives no number (the fetch throws, the status is not 2xx, or
the text is not an integer), `isIpBanned` answers false and the attempt goes on to the
moderation as the attempt of an IP that is not banned. -/
theorem forumWrite_banned_ip_rejected (R : ForumRuntime) (cfg : Config) (up : Upstream)
    (together : Together) (st : ServerState) (req : WriteRequest) (clock : WriteClock)
    (hforum : jsStartsWith req.key "staszek-" = true)
    (hadmin : isAdmin R.toRuntime cfg.ADMIN_TOKEN_SECRET st.adminSessionId req.token
      clock.atAuth = false)
    (hip : jsTrim req.ip ≠ "") :
    (∀ n : Int,
      (licznikGetInt up []
        (moderationBanCounterName (moderationIpHash R.sha256Hex cfg (jsTrim req.ip)))).1
        = some n → 1 ≤ n →
      (handleBasicDbDodaj R cfg up together st req clock).score = none ∧
      (handleBasicDbDodaj R cfg up together st req clock).sent.filter
        UpstreamReq.isBasicDbWrite = [] ∧
      (isAllowedForumThreadKey req.key = false →
        (handleBasicDbDodaj R cfg up together st req clock).response
          = ⟨400, "invalid_key", ""⟩) ∧
      (isAllowedForumThreadKey req.key = true → req.rawElement = "" →
        (handleBasicDbDodaj R cfg up together st req clock).response
          = ⟨400, "invalid_element", ""⟩) ∧
      (isAllowedForumThreadKey req.key = true → req.rawElement ≠ "" →
        utf16Length req.rawElement > 4000 →
        (handleBasicDbDodaj R cfg up together st req clock).response
          = ⟨413, "payload_too_large", ""⟩) ∧
      (isAllowedForumThreadKey req.key = true → req.rawElement ≠ "" →
        utf16Length req.rawElement ≤ 4000 →
        (hitRateLimit st.limiters .requests req.ip REQUEST_RATE_LIMIT_RULES
          clock.atRequestLimit).1.ok = false →
        (handleBasicDbDodaj R cfg up together st req clock).response
          = ⟨429, "rate_limited", ""⟩) ∧
      (isAllowedForumThreadKey req.key = true → req.rawElement ≠ "" →
        utf16Length req.rawElement ≤ 4000 →
        (hitRateLimit st.limiters .requests req.ip REQUEST_RATE_LIMIT_RULES
          clock.atRequestLimit).1.ok = true →
        (hitRateLimit (hitRateLimit st.limiters .requests req.ip REQUEST_RATE_LIMIT_RULES
          clock.atRequestLimit).2 .comments req.ip COMMENT_RATE_LIMIT_RULES
          clock.atCommentLimit).1.ok = false →
        (handleBasicDbDodaj R cfg up together st req clock).response
          = ⟨429, "rate_limited", ""⟩) ∧
      (isAllowedForumThreadKey req.key = true → req.rawElement ≠ "" →
        utf16Length req.rawElement ≤ 4000 →
        (hitRateLimit st.limiters .requests req.ip REQUEST_RATE_LIMIT_RULES
          clock.atRequestLimit).1.ok = true →
        (hitRateLimit (hitRateLimit st.limiters .requests req.ip REQUEST_RATE_LIMIT_RULES
          clock.atRequestLimit).2 .comments req.ip COMMENT_RATE_LIMIT_RULES
          clock.atCommentLimit).1.ok = true →
        (handleBasicDbDodaj R cfg up together st req clock).response
          = ⟨403, "ip_banned", ""⟩ ∧
        (handleBasicDbDodaj R cfg up together st req clock).sent
          = [.ile (moderationBanCounterName
              (moderationIpHash R.sha256Hex cfg (jsTrim req.ip)))])) ∧
    ((licznikGetInt up []
        (moderationBanCounterName (moderationIpHash R.sha256Hex cfg (jsTrim req.ip)))).1
        = none →
      isAllowedForumThreadKey req.key = true → req.rawElement ≠ "" →
      utf16Length req.rawElement ≤ 4000 →
      (hitRateLimit st.limiters .requests req.ip REQUEST_RATE_LIMIT_RULES
        clock.atRequestLimit).1.ok = true →
      (hitRateLimit (hitRateLimit st.limiters .requests req.ip REQUEST_RATE_LIMIT_RULES
        clock.atRequestLimit).2 .comments req.ip COMMENT_RATE_LIMIT_RULES
        clock.atCommentLimit).1.ok = true →
      handleBasicDbDodaj R cfg up together st req clock
        = moderateAndWrite R cfg up together
            ⟨(hitRateLimit (hitRateLimit st.limiters .requests req.ip REQUEST_RATE_LIMIT_RULES
              clock.atRequestLimit).2 .comments req.ip COMMENT_RATE_LIMIT_RULES
              clock.atCommentLimit).2, st.adminSessionId⟩ req false
            [.ile (moderationBanCounterName
              (moderationIpHash R.sha256Hex cfg (jsTrim req.ip)))] clock.atStore) := by
  obtain ⟨c1, c2, c3, c4, c5⟩ :=
    handleBasicDbDodaj_forum_cases R cfg up together st req clock hforum
  have hsent : ∀ name : String, (licznikGetInt up [] name).2 = [.ile name] := by
    intro name
    unfold licznikGetInt
    split <;> rfl
  constructor
  · intro n hflag hn
    have hban : isIpBanned R cfg up [] req.ip
        = (true, [.ile (moderationBanCounterName
            (moderationIpHash R.sha256Hex cfg (jsTrim req.ip)))]) := by
      simp only [isIpBanned, hip, if_false, hflag, ge_iff_le, hsent]
      simp only [hn, decide_True]
    have hreach : isAllowedForumThreadKey req.key = true → req.rawElement ≠ "" →
        utf16Length req.rawElement ≤ 4000 →
        (hitRateLimit st.limiters .requests req.ip REQUEST_RATE_LIMIT_RULES
          clock.atRequestLimit).1.ok = true →
        (hitRateLimit (hitRateLimit st.limiters .requests req.ip REQUEST_RATE_LIMIT_RULES
          clock.atRequestLimit).2 .comments req.ip COMMENT_RATE_LIMIT_RULES
          clock.atCommentLimit).1.ok = true →
        handleBasicDbDodaj R cfg up together st req clock
          = ⟨⟨403, "ip_banned", ""⟩,
              ⟨(hitRateLimit (hitRateLimit st.limiters .requests req.ip
                REQUEST_RATE_LIMIT_RULES clock.atRequestLimit).2 .comments req.ip
                COMMENT_RATE_LIMIT_RULES clock.atCommentLimit).2, st.adminSessionId⟩,
              [.ile (moderationBanCounterName
                (moderationIpHash R.sha256Hex cfg (jsTrim req.ip)))], none⟩ := by
      intro hkey helem hsize hrl hcl
      rw [handleBasicDbDodaj_reach R cfg up together st req clock hkey helem hsize hrl hcl]
      simp only [writeAfterLimits, hforum, hadmin, Bool.not_false, Bool.and_self, if_true,
        hban]
    have hall : (handleBasicDbDodaj R cfg up together st req clock).score = none ∧
        (handleBasicDbDodaj R cfg up together st req clock).sent.filter
          UpstreamReq.isBasicDbWrite = [] := by
      cases hkey : isAllowedForumThreadKey req.key with
      | false => rw [c1 hkey]; exact ⟨rfl, rfl⟩
      | true =>
        by_cases helem : req.rawElement = ""
        · rw [c2 hkey helem]; exact ⟨rfl, rfl⟩
        · by_cases hsize : utf16Length req.rawElement > 4000
          · rw [c3 hkey helem hsize]; exact ⟨rfl, rfl⟩
          · have hs : utf16Length req.rawElement ≤ 4000 := by omega
            cases hrl : (hitRateLimit st.limiters .requests req.ip REQUEST_RATE_LIMIT_RULES
              clock.atRequestLimit).1.ok with
            | false => rw [c4 hkey helem hs hrl]; exact ⟨rfl, rfl⟩
            | true =>
              cases hcl : (hitRateLimit (hitRateLimit st.limiters .requests req.ip
                REQUEST_RATE_LIMIT_RULES clock.atRequestLimit).2 .comments req.ip
                COMMENT_RATE_LIMIT_RULES clock.atCommentLimit).1.ok with
              | false => rw [c5 hkey helem hs hrl hcl]; exact ⟨rfl, rfl⟩
              | true => rw [hreach hkey helem hs hrl hcl]; exact ⟨rfl, rfl⟩
    refine ⟨hall.1, hall.2, ?_, ?_, ?_, ?_, ?_, ?_⟩
    · intro hkey; rw [c1 hkey]
    · intro hkey helem; rw [c2 hkey helem]
    · intro hkey helem hsize; rw [c3 hkey helem hsize]
    · intro hkey helem hsize hrl; rw [c4 hkey helem hsize hrl]
    · intro hkey helem hsize hrl hcl; rw [c5 hkey helem hsize hrl hcl]
    · intro hkey helem hsize hrl hcl
      rw [hreach hkey helem hsize hrl hcl]
      exact ⟨rfl, rfl⟩
  · intro hflag hkey helem hsize hrl hcl
    have hban : isIpBanned R cfg up [] req.ip
        = (false, [.ile (moderationBanCounterName
            (moderationIpHash R.sha256Hex cfg (jsTrim req.ip)))]) := by
      simp only [isIpBanned, hip, if_false, hflag, hsent]
    rw [handleBasicDbDodaj_reach R cfg up together st req clock hkey helem hsize hrl hcl]
    simp only [writeAfterLimits, hforum, hadmin, Bool.not_false, Bool.and_self, if_true,
      hban, Bool.false_eq_true, if_false]

/-- C12 amended, at a plain-text comment that the moderation service would score 6, from an
IP whose ban flag reads 1: 403 `ip_banned` after the read of the flag alone. -/
theorem forumWrite_banned_ip_rejected_witness :
    (handleBasicDbDodaj refForumRuntime exampleConfig bannedUpstream scoreSixTogether
      ⟨Limiters.initial, "c2Vzc2lvbg"⟩ exampleComment ⟨1000, 1001, 1002, 1003⟩).response
      = ⟨403, "ip_banned", ""⟩ ∧
    (handleBasicDbDodaj refForumRuntime exampleConfig bannedUpstream scoreSixTogether
      ⟨Limiters.initial, "c2Vzc2lvbg"⟩ exampleComment ⟨1000, 1001, 1002, 1003⟩).sent
      = [.ile (moderationBanCounterName
          (moderationIpHash refForumRuntime.sha256Hex exampleConfig
            (jsTrim exampleComment.ip)))] :=
  ((forumWrite_banned_ip_rejected refForumRuntime exampleConfig bannedUpstream scoreSixTogether
    ⟨Limiters.initial, "c2Vzc2lvbg"⟩ exampleComment ⟨1000, 1001, 1002, 1003⟩
    (by decide) (by decide) (by decide)).1 1 (by decide) (by decide)).2.2.2.2.2.2.2
    (by decide) (by decide) (by decide) (by decide) (by decide)

/-! ## The plain-text branches of the counter endpoints -/

/-- The text of a number from 0 to 2^53 is its decimal numeral. -/
theorem jsNumberToString_small (R : ProxyRuntime) (v : Int) (h0 : 0 ≤ v) (h : v ≤ 2 ^ 53) :
    jsNumberToString R v = toString v.toNat := by
  have hn : v.natAbs ≤ 2 ^ 53 := by omega
  simp only [jsNumberToString, hn, if_true]
  exact toString_nonneg v h0

/-- The requests sent by `licznikGetInt`. -/
theorem licznikGetInt_sent (up : Upstream) (sent : List UpstreamReq) (name : String) :
    (licznikGetInt up sent name).2 = sent ++ [.ile name] := by
  unfold licznikGetInt
  split <;> rfl

/-- The `/ile` handler on a plain-text request that passes the checks on the name and is not
answered `hidden`: the plain-text branch, after the read of the vote counter when the caller
is not an admin and asks for "staszek-vote". -/
theorem handleIle_plain (R : ProxyRuntime) (cfg : Config) (up : Upstream) (st : ServerState)
    (req : CounterRequest) (now : Int)
    (hname : isAllowedCounterName req.name = true)
    (hpublic : isAdmin R.toRuntime cfg.ADMIN_TOKEN_SECRET st.adminSessionId req.token now = true
      ∨ isAllowedPublicCounterName req.name = true)
    (hvisible : isAdmin R.toRuntime cfg.ADMIN_TOKEN_SECRET st.adminSessionId req.token now = true
      ∨ req.name ≠ "staszek-vote"
      ∨ ∀ n, (licznikGetInt up [] req.name).1 = some n → 20 ≤ n)
    (hplain : wantsJsonResponse R req = false) :
    handleIle R cfg up st req now
      = ilePlainText R cfg up
          (if !isAdmin R.toRuntime cfg.ADMIN_TOKEN_SECRET st.adminSessionId req.token now
              && req.name == "staszek-vote" then [.ile req.name] else []) req := by
  simp only [handleIle, hname, Bool.not_true, Bool.false_eq_true, if_false, hplain,
    Bool.not_false, if_true]
  cases hadmin : isAdmin R.toRuntime cfg.ADMIN_TOKEN_SECRET st.adminSessionId req.token now with
  | true =>
    simp only [Bool.not_true, Bool.false_and, Bool.false_eq_true, if_false]
  | false =>
    simp only [hadmin, Bool.false_eq_true, false_or] at hpublic hvisible
    simp only [hpublic, Bool.not_false, Bool.not_true, Bool.and_false, Bool.false_eq_true,
      if_false, Bool.true_and]
    by_cases hv : req.name = "staszek-vote"
    · have h20 := hvisible.resolve_left (fun h => h hv)
      simp only [hv, beq_self_eq_true, if_true] at h20 ⊢
      rw [licznikGetInt_sent]
      cases hread : (licznikGetInt up [] "staszek-vote").1 with
      | none => rfl
      | some n =>
        have := h20 n hread
        have hnot : ¬ n < MIN_PUBLIC_VOTE_COUNT := by
          simp only [MIN_PUBLIC_VOTE_COUNT]; omega
        simp only [hnot, decide_False, Bool.false_eq_true, if_false]
        rfl
    · have hb : (req.name == "staszek-vote") = false := by simpa using hv
      simp only [hb, Bool.false_eq_true, if_false]

/-- The plain-text branch of `/ile`, case by case: no API key, a read that throws, a read
answered with a failure, and a read answered with an ok response, which gives 200 with the
text of the number read, 0 taking the place of a negative or missing number. -/
theorem ilePlainText_cases (R : ProxyRuntime) (cfg : Config) (up : Upstream)
    (sent : List UpstreamReq) (req : CounterRequest) :
    (cfg.LICZNIK_API_KEY = "" →
      ilePlainText R cfg up sent req = (⟨500, "missing_api_key", ""⟩, sent)) ∧
    (cfg.LICZNIK_API_KEY ≠ "" →
      up sent (.counterRead req.name (stripKeyQuery R req.search)) = none →
      ilePlainText R cfg up sent req
        = (internalError, sent ++ [.counterRead req.name (stripKeyQuery R req.search)])) ∧
    (∀ r : FetchResult, cfg.LICZNIK_API_KEY ≠ "" →
      up sent (.counterRead req.name (stripKeyQuery R req.search)) = some r → r.ok = false →
      ilePlainText R cfg up sent req
        = (upstreamFailure r,
            sent ++ [.counterRead req.name (stripKeyQuery R req.search)])) ∧
    (∀ r : FetchResult, cfg.LICZNIK_API_KEY ≠ "" →
      up sent (.counterRead req.name (stripKeyQuery R req.search)) = some r → r.ok = true →
      (ilePlainText R cfg up sent req).1
        = ⟨200, "", jsNumberToString R (max 0 ((parseIntOrNull r.text).getD 0))⟩ ∧
      (ilePlainText R cfg up sent req).2
        = sent ++ (if (parseIntOrNull r.text).getD 0 < 0 then
            [.counterRead req.name (stripKeyQuery R req.search), .wyzeruj req.name]
          else [.counterRead req.name (stripKeyQuery R req.search)])) := by
  refine ⟨?_, ?_, ?_, ?_⟩
  · intro hkey
    simp only [ilePlainText, hkey, if_true]
  · intro hkey hup
    simp only [ilePlainText, hkey, if_false, hup]
  · intro r hkey hup hok
    simp only [ilePlainText, hkey, if_false, hup, hok, Bool.not_false, if_true]
  · intro r hkey hup hok
    simp only [ilePlainText, hkey, if_false, hup, hok, Bool.not_true, Bool.false_eq_true]
    cases hn : parseIntOrNull r.text with
    | none =>
      simp only [Option.getD_none, lt_self_iff_false, if_false]
      constructor <;> first | rfl | trivial
    | some n =>
      simp only [Option.getD_some]
      split
      · rename_i hneg
        rw [max_eq_left (le_of_lt hneg)]
        exact ⟨rfl, rfl⟩
      · exact ⟨rfl, rfl⟩

/-- The plain-text branch of `/dodaj`, case by case. -/
theorem dodajPlainText_cases (R : ProxyRuntime) (cfg : Config) (up : Upstream)
    (req : CounterRequest) (delta : Int) :
    (cfg.LICZNIK_API_KEY = "" →
      dodajPlainText R cfg up req delta = (⟨500, "missing_api_key", ""⟩, [])) ∧
    (cfg.LICZNIK_API_KEY ≠ "" →
      up [] (.counterAdd req.name delta (stripKeyQuery R req.search)) = none →
      dodajPlainText R cfg up req delta
        = (internalError, [.counterAdd req.name delta (stripKeyQuery R req.search)])) ∧
    (∀ r : FetchResult, cfg.LICZNIK_API_KEY ≠ "" →
      up [] (.counterAdd req.name delta (stripKeyQuery R req.search)) = some r →
      (r.ok = false →
        dodajPlainText R cfg up req delta
          = (upstreamFailure r, [.counterAdd req.name delta (stripKeyQuery R req.search)])) ∧
      (r.ok = true → parseIntOrNull r.text = none →
        dodajPlainText R cfg up req delta
          = (⟨200, "", "0"⟩, [.counterAdd req.name delta (stripKeyQuery R req.search)])) ∧
      (∀ n : Int, r.ok = true → parseIntOrNull r.text = some n → 0 ≤ n →
        dodajPlainText R cfg up req delta
          = (⟨200, "", jsNumberToString R n⟩,
              [.counterAdd req.name delta (stripKeyQuery R req.search)])) ∧
      (∀ n : Int, r.ok = true → parseIntOrNull r.text = some n → n < 0 →
        (dodajPlainText R cfg up req delta).2
          = [.counterAdd req.name delta (stripKeyQuery R req.search), .wyzeruj req.name,
              .counterAdd req.name delta (stripKeyQuery R req.search)] ∧
        (up [.counterAdd req.name delta (stripKeyQuery R req.search), .wyzeruj req.name]
            (.counterAdd req.name delta (stripKeyQuery R req.search)) = none →
          (dodajPlainText R cfg up req delta).1 = internalError) ∧
        (∀ r2 : FetchResult,
          up [.counterAdd req.name delta (stripKeyQuery R req.search), .wyzeruj req.name]
            (.counterAdd req.name delta (stripKeyQuery R req.search)) = some r2 →
          (dodajPlainText R cfg up req delta).1
            = ⟨200, "", jsNumberToString R
                (max 0 ((if r2.ok then parseIntOrNull r2.text else none).getD 0))⟩))) := by
  refine ⟨?_, ?_, ?_⟩
  · intro hkey
    simp only [dodajPlainText, hkey, if_true]
  · intro hkey hup
    simp only [dodajPlainText, hkey, if_false, hup]
  · intro r hkey hup
    refine ⟨?_, ?_, ?_, ?_⟩
    · intro hok
      simp only [dodajPlainText, hkey, if_false, hup, hok, Bool.not_false, if_true]
    · intro hok hn
      simp only [dodajPlainText, hkey, if_false, hup, hok, Bool.not_true, Bool.false_eq_true,
        hn]
      rfl
    · intro n hok hn hnonneg
      have hneg : ¬ n < 0 := by omega
      simp only [dodajPlainText, hkey, if_false, hup, hok, Bool.not_true, Bool.false_eq_true,
        hn, hneg, clampedText, Option.getD_some, max_eq_right hnonneg]
    · intro n hok hn hneg
      simp only [dodajPlainText, hkey, if_false, hup, hok, Bool.not_true, Bool.false_eq_true,
        hn, hneg, if_true]
      refine ⟨?_, ?_, ?_⟩
      · split <;> rfl
      · intro h2
        simp only [h2]
      · intro r2 h2
        simp only [h2, clampedText]

/-- The `/dodaj` handler on a request that the rate limit rejects, and on a request with a
name that is not an allowed counter name. -/
theorem handleDodaj_early (R : ProxyRuntime) (cfg : Config) (up : Upstream)
    (st : ServerState) (req : CounterRequest) (clock : CounterClock) :
    ((hitRateLimit st.limiters .requests req.ip REQUEST_RATE_LIMIT_RULES
        clock.atLimit).1.ok = false →
      (handleDodaj R cfg up st req clock).response = ⟨429, "rate_limited", ""⟩ ∧
      (handleDodaj R cfg up st req clock).sent = []) ∧
    ((hitRateLimit st.limiters .requests req.ip REQUEST_RATE_LIMIT_RULES
        clock.atLimit).1.ok = true → isAllowedCounterName req.name = false →
      (handleDodaj R cfg up st req clock).response = ⟨400, "invalid_counter", ""⟩ ∧
      (handleDodaj R cfg up st req clock).sent = []) := by
  constructor
  · intro hrl
    simp only [handleDodaj, hrl, Bool.not_false, if_true, and_self]
  · intro hrl hname
    simp only [handleDodaj, hrl, hname, Bool.not_true, Bool.false_eq_true, if_false,
      Bool.not_false, if_true, and_self]

/-- Numbers beyond 2^53 on the reference runtime: the text 9007199254740993 is read as the
double 9007199254740992, 2^60 + 1 is printed with the shortest digits that read back as its
double, and 10^21 is printed in exponent notation. -/
theorem handleIle_text_of_double :
    parseIntOrNull "9007199254740993" = some 9007199254740992 ∧
    (handleIle refProxyRuntime exampleConfig (readingUpstream "9007199254740993") exampleState
      (counterRequest "/ile/staszek-views" "staszek-views" none) 1000).1
      = ⟨200, "", "9007199254740992"⟩ ∧
    (handleIle refProxyRuntime exampleConfig (readingUpstream "1152921504606846977")
      exampleState (counterRequest "/ile/staszek-views" "staszek-views" none) 1000).1
      = ⟨200, "", "1152921504606847000"⟩ ∧
    (handleIle refProxyRuntime exampleConfig (readingUpstream "1000000000000000000000")
      exampleState (counterRequest "/ile/staszek-views" "staszek-views" none) 1000).1
      = ⟨200, "", "1e+21"⟩ :=
  ⟨by decide, by decide, by decide, by decide⟩

/-! ## C14 -/

/-- C14 as stated fails: "staszek-vote" is a public name, and a non-admin plain-text read of
it while the counter reads 5 is answered 404 `hidden`, not 200 with the value. -/
theorem handleIle_public_name_hidden :
    isAllowedPublicCounterName "staszek-vote" = true ∧
    wantsJsonResponse refProxyRuntime (counterRequest "/ile/staszek-vote" "staszek-vote" none)
      = false ∧
    isAdmin refProxyRuntime.toRuntime exampleConfig.ADMIN_TOKEN_SECRET
      exampleState.adminSessionId
      (counterRequest "/ile/staszek-vote" "staszek-vote" none).token 1000 = false ∧
    (handleIle refProxyRuntime exampleConfig fiveUpstream exampleState
      (counterRequest "/ile/staszek-vote" "staszek-vote" none) 1000).1
      = ⟨404, "", "hidden"⟩ := by
  decide

/-- C14, amended. `GET /ile/{name}` in plain-text mode: a name that is not an allowed counter
name is answered 400 `invalid_counter`; an allowed name that is not public, requested without
admin rights, 404 `not found`; a read of "staszek-vote" without admin rights while the vote
counter reads below 20, 404 `hidden`. Every other read goes to the upstream service, after the
read of the vote counter if there was one: without an API key the answer is 500; a read that
throws gives 500 `internal error`; a read answered with a failure is passed on with its status
(502 for status 0); a read answered with an ok response gives 200 with the text `String(v)`
of a number `v ≥ 0`, namely the number read, rounded to a double, with 0 in place of a negative
or missing number. Up to 2^53 that text is the decimal numeral of `v`. -/
theorem handleIle_plain_text (R : ProxyRuntime) (cfg : Config) (up : Upstream)
    (st : ServerState) (req : CounterRequest) (now : Int)
    (hplain : wantsJsonResponse R req = false) :
    (isAllowedCounterName req.name = false →
      handleIle R cfg up st req now = (⟨400, "invalid_counter", ""⟩, [])) ∧
    (isAllowedCounterName req.name = true →
      isAdmin R.toRuntime cfg.ADMIN_TOKEN_SECRET st.adminSessionId req.token now = false →
      isAllowedPublicCounterName req.name = false →
      handleIle R cfg up st req now = (⟨404, "", "not found"⟩, [])) ∧
    (∀ n : Int, req.name = "staszek-vote" →
      isAdmin R.toRuntime cfg.ADMIN_TOKEN_SECRET st.adminSessionId req.token now = false →
      (licznikGetInt up [] "staszek-vote").1 = some n → n < 20 →
      handleIle R cfg up st req now = (⟨404, "", "hidden"⟩, [.ile "staszek-vote"])) ∧
    (isAllowedCounterName req.name = true →
      (isAdmin R.toRuntime cfg.ADMIN_TOKEN_SECRET st.adminSessionId req.token now = true
        ∨ isAllowedPublicCounterName req.name = true) →
      (isAdmin R.toRuntime cfg.ADMIN_TOKEN_SECRET st.adminSessionId req.token now = true
        ∨ req.name ≠ "staszek-vote"
        ∨ ∀ n, (licznikGetInt up [] req.name).1 = some n → 20 ≤ n) →
      (cfg.LICZNIK_API_KEY = "" →
        (handleIle R cfg up st req now).1 = ⟨500, "missing_api_key", ""⟩) ∧
      (cfg.LICZNIK_API_KEY ≠ "" →
        up (if !isAdmin R.toRuntime cfg.ADMIN_TOKEN_SECRET st.adminSessionId req.token now
              && req.name == "staszek-vote" then [.ile req.name] else [])
          (.counterRead req.name (stripKeyQuery R req.search)) = none →
        (handleIle R cfg up st req now).1 = internalError) ∧
      (∀ r : FetchResult, cfg.LICZNIK_API_KEY ≠ "" →
        up (if !isAdmin R.toRuntime cfg.ADMIN_TOKEN_SECRET st.adminSessionId req.token now
              && req.name == "staszek-vote" then [.ile req.name] else [])
          (.counterRead req.name (stripKeyQuery R req.search)) = some r →
        (r.ok = false → (handleIle R cfg up st req now).1 = upstreamFailure r) ∧
        (r.ok = true →
          (handleIle R cfg up st req now).1
            = ⟨200, "", jsNumberToString R (max 0 ((parseIntOrNull r.text).getD 0))⟩ ∧
          0 ≤ max 0 ((parseIntOrNull r.text).getD 0) ∧
          (max 0 ((parseIntOrNull r.text).getD 0) ≤ 2 ^ 53 →
            (handleIle R cfg up st req now).1.body
              = toString (max 0 ((parseIntOrNull r.text).getD 0)).toNat)))) := by
  refine ⟨?_, ?_, ?_, ?_⟩
  · intro h
    exact handleIle_invalid R cfg up st req now h
  · intro h1 h2 h3
    simp only [handleIle, h1, h2, h3, Bool.not_true, Bool.not_false, Bool.false_eq_true,
      if_false, Bool.and_self, if_true]
  · intro n hname hadmin hread hn
    exact handleIle_hidden R cfg up st req now n hname hadmin hread hn
  · intro hname hpublic hvisible
    rw [handleIle_plain R cfg up st req now hname hpublic hvisible hplain]
    obtain ⟨c1, c2, c3, c4⟩ := ilePlainText_cases R cfg up
      (if !isAdmin R.toRuntime cfg.ADMIN_TOKEN_SECRET st.adminSessionId req.token now
          && req.name == "staszek-vote" then [.ile req.name] else []) req
    refine ⟨?_, ?_, ?_⟩
    · intro hkey
      rw [c1 hkey]
    · intro hkey hup
      rw [c2 hkey hup]
    · intro r hkey hup
      constructor
      · intro hok
        rw [c3 r hkey hup hok]
      · intro hok
        refine ⟨(c4 r hkey hup hok).1, le_max_left _ _, ?_⟩
        intro hsmall
        rw [(c4 r hkey hup hok).1]
        exact jsNumberToString_small R _ (le_max_left _ _) hsmall

/-- C14 amended, at a plain-text read of "staszek-views" while the counter reads 5: 200 with
the text "5". -/
theorem handleIle_plain_text_witness :
    (handleIle refProxyRuntime exampleConfig fiveUpstream exampleState
      (counterRequest "/ile/staszek-views" "staszek-views" none) 1000).1
      = ⟨200, "", jsNumberToString refProxyRuntime (max 0 ((parseIntOrNull "5").getD 0))⟩ ∧
    (handleIle refProxyRuntime exampleConfig fiveUpstream exampleState
      (counterRequest "/ile/staszek-views" "staszek-views" none) 1000).1.body
      = toString (max 0 ((parseIntOrNull "5").getD 0)).toNat :=
  ⟨((((handleIle_plain_text refProxyRuntime exampleConfig fiveUpstream exampleState
      (counterRequest "/ile/staszek-views" "staszek-views" none) 1000 (by decide)).2.2.2
      (by decide) (Or.inr (by decide)) (Or.inr (Or.inl (by decide)))).2.2
      ⟨true, 200, "5"⟩ (by decide) rfl).2 rfl).1,
   ((((handleIle_plain_text refProxyRuntime exampleConfig fiveUpstream exampleState
      (counterRequest "/ile/staszek-views" "staszek-views" none) 1000 (by decide)).2.2.2
      (by decide) (Or.inr (by decide)) (Or.inr (Or.inl (by decide)))).2.2
      ⟨true, 200, "5"⟩ (by decide) rfl).2 rfl).2.2 (by decide)⟩

/-! ## C15 -/

/-- C15 as stated fails: a non-admin `GET /dodaj/licznik/5` that the rate limit lets through is
answered 400 `invalid_counter`, not 403, because the name is checked before the caller; and
the third request of an IP within one second is answered 429. -/
theorem handleDodaj_five_invalid_counter :
    isAdmin refProxyRuntime.toRuntime exampleConfig.ADMIN_TOKEN_SECRET
      exampleState.adminSessionId
      (counterRequest "/dodaj/licznik/5" "licznik" (some "5")).token 1001 = false ∧
    (handleDodaj refProxyRuntime exampleConfig fiveUpstream exampleState
      (counterRequest "/dodaj/licznik/5" "licznik" (some "5")) ⟨1000, 1001⟩).response
      = ⟨400, "invalid_counter", ""⟩ ∧
    (handleDodaj refProxyRuntime exampleConfig fiveUpstream
      ⟨(hitMany Limiters.initial .requests "203.0.113.7" REQUEST_RATE_LIMIT_RULES
        [998, 999]).1, "c2Vzc2lvbg"⟩
      (counterRequest "/dodaj/staszek-views/5" "staszek-views" (some "5"))
      ⟨1000, 1001⟩).response = ⟨429, "rate_limited", ""⟩ := by
  decide

/-- C15, amended. `GET /dodaj/{counter}/5`: a request that the rate limit rejects is answered
429; otherwise a name that is not an allowed counter name is answered 400 `invalid_counter`,
for every caller; otherwise a non-admin caller is answered 403 `admin_required`; in these
three cases nothing is sent upstream. For an admin caller and an allowed counter name the
increment by 5 is sent upstream. In plain-text mode with the API key set: when the upstream
answers with the text of a number `n ≥ 0` the response is 200 with the text `String(n)` of
that number as a double, which up to 2^53 is its decimal numeral; a text that is no number
gives "0"; a negative number starts the reset; a failure is passed on with its status, and a
fetch that throws gives 500 `internal error`. In JSON or pixel mode the upstream response is
passed on, 502 standing for an upstream that cannot be reached. Without the API key the
answer is 500. -/
theorem handleDodaj_five (R : ProxyRuntime) (cfg : Config) (up : Upstream) (st : ServerState)
    (req : CounterRequest) (clock : CounterClock)
    (hfive : req.deltaSegment = some "5") :
    ((hitRateLimit st.limiters .requests req.ip REQUEST_RATE_LIMIT_RULES
        clock.atLimit).1.ok = false →
      (handleDodaj R cfg up st req clock).response = ⟨429, "rate_limited", ""⟩ ∧
      (handleDodaj R cfg up st req clock).sent = []) ∧
    ((hitRateLimit st.limiters .requests req.ip REQUEST_RATE_LIMIT_RULES
        clock.atLimit).1.ok = true → isAllowedCounterName req.name = false →
      (handleDodaj R cfg up st req clock).response = ⟨400, "invalid_counter", ""⟩ ∧
      (handleDodaj R cfg up st req clock).sent = []) ∧
    ((hitRateLimit st.limiters .requests req.ip REQUEST_RATE_LIMIT_RULES
        clock.atLimit).1.ok = true → isAllowedCounterName req.name = true →
      isAdmin R.toRuntime cfg.ADMIN_TOKEN_SECRET st.adminSessionId req.token clock.atAuth
        = false →
      (handleDodaj R cfg up st req clock).response = ⟨403, "admin_required", ""⟩ ∧
      (handleDodaj R cfg up st req clock).sent = []) ∧
    ((hitRateLimit st.limiters .requests req.ip REQUEST_RATE_LIMIT_RULES
        clock.atLimit).1.ok = true → isAllowedCounterName req.name = true →
      isAdmin R.toRuntime cfg.ADMIN_TOKEN_SECRET st.adminSessionId req.token clock.atAuth
        = true →
      (cfg.LICZNIK_API_KEY = "" →
        (handleDodaj R cfg up st req clock).response = ⟨500, "missing_api_key", ""⟩ ∧
        (handleDodaj R cfg up st req clock).sent = []) ∧
      (cfg.LICZNIK_API_KEY ≠ "" → wantsJsonResponse R req = false →
        hasQueryFlag "pixel=1" (stripKeyQuery R req.search) = false →
        (up [] (.counterAdd req.name 5 (stripKeyQuery R req.search)) = none →
          (handleDodaj R cfg up st req clock).response = internalError) ∧
        (∀ r : FetchResult,
          up [] (.counterAdd req.name 5 (stripKeyQuery R req.search)) = some r →
          (r.ok = false →
            (handleDodaj R cfg up st req clock).response = upstreamFailure r ∧
            (handleDodaj R cfg up st req clock).sent
              = [.counterAdd req.name 5 (stripKeyQuery R req.search)]) ∧
          (r.ok = true → parseIntOrNull r.text = none →
            (handleDodaj R cfg up st req clock).response = ⟨200, "", "0"⟩ ∧
            (handleDodaj R cfg up st req clock).sent
              = [.counterAdd req.name 5 (stripKeyQuery R req.search)]) ∧
          (∀ n : Int, r.ok = true → parseIntOrNull r.text = some n → 0 ≤ n →
            (handleDodaj R cfg up st req clock).response
              = ⟨200, "", jsNumberToString R n⟩ ∧
            (handleDodaj R cfg up st req clock).sent
              = [.counterAdd req.name 5 (stripKeyQuery R req.search)] ∧
            (n ≤ 2 ^ 53 →
              (handleDodaj R cfg up st req clock).response = ⟨200, "", toString n.toNat⟩)) ∧
          (∀ n : Int, r.ok = true → parseIntOrNull r.text = some n → n < 0 →
            (handleDodaj R cfg up st req clock).sent
              = [.counterAdd req.name 5 (stripKeyQuery R req.search), .wyzeruj req.name,
                  .counterAdd req.name 5 (stripKeyQuery R req.search)]))) ∧
      (cfg.LICZNIK_API_KEY ≠ "" →
        (wantsJsonResponse R req = true ∨
          hasQueryFlag "pixel=1" (stripKeyQuery R req.search) = true) →
        (handleDodaj R cfg up st req clock).sent
          = [.passthrough req.path (stripKeyQuery R (stripKeyQuery R req.search))] ∧
        (up [] (.passthrough req.path (stripKeyQuery R (stripKeyQuery R req.search))) = none →
          (handleDodaj R cfg up st req clock).response
            = ⟨502, "upstream_unreachable", ""⟩) ∧
        (∀ r : FetchResult,
          up [] (.passthrough req.path (stripKeyQuery R (stripKeyQuery R req.search)))
            = some r →
          (handleDodaj R cfg up st req clock).response = ⟨r.status, "", r.text⟩))) := by
  have htext : isDeltaText (deltaRawOf req) = true := by
    simp only [deltaRawOf, hfive, Option.getD_some]; decide
  have hparse : jsParseInt (deltaRawOf req) = some 5 := by
    simp only [deltaRawOf, hfive, Option.getD_some]; decide
  refine ⟨(handleDodaj_early R cfg up st req clock).1,
    (handleDodaj_early R cfg up st req clock).2, ?_, ?_⟩
  · intro hrl hname hadmin
    rw [handleDodaj_allowed R cfg up st req clock hrl hname]
    simp only [dodajDelta, htext, hparse, hadmin, Bool.not_true, Bool.not_false,
      Bool.false_eq_true, if_false, if_true]
    exact ⟨rfl, rfl⟩
  · intro hrl hname hadmin
    have hd : dodajDelta req true = .ok 5 := by
      simp only [dodajDelta, htext, hparse, Bool.not_true, Bool.false_eq_true, if_false]
      rfl
    rw [handleDodaj_allowed R cfg up st req clock hrl hname, hadmin, hd]
    simp only
    obtain ⟨p1, p2, p3⟩ := dodajPlainText_cases R cfg up req 5
    refine ⟨?_, ?_, ?_⟩
    · intro hkey
      unfold dodajForward
      split
      · rw [p1 hkey]; exact ⟨rfl, rfl⟩
      · simp only [proxyToLicznik, hkey, if_true, and_self]
    · intro hkey hplain hpixel
      have hm : dodajForward R cfg up req 5 = dodajPlainText R cfg up req 5 := by
        simp only [dodajForward, hplain, hpixel, Bool.not_false, Bool.and_self, if_true]
      rw [hm]
      refine ⟨?_, ?_⟩
      · intro hup
        rw [p2 hkey hup]
      · intro r hup
        obtain ⟨q1, q2, q3, q4⟩ := p3 r hkey hup
        refine ⟨?_, ?_, ?_, ?_⟩
        · intro hok
          rw [q1 hok]; exact ⟨rfl, rfl⟩
        · intro hok hn
          rw [q2 hok hn]; exact ⟨rfl, rfl⟩
        · intro n hok hn hnonneg
          rw [q3 n hok hn hnonneg]
          refine ⟨rfl, rfl, ?_⟩
          intro hsmall
          simp only [jsNumberToString_small R n hnonneg hsmall]
        · intro n hok hn hneg
          exact (q4 n hok hn hneg).1
    · intro hkey hmode
      have hm : (!wantsJsonResponse R req &&
          !hasQueryFlag "pixel=1" (stripKeyQuery R req.search)) = false := by
        rcases hmode with h | h <;> simp [h]
      simp only [dodajForward, hm, Bool.false_eq_true, if_false, proxyToLicznik, hkey,
        List.nil_append]
      refine ⟨?_, ?_, ?_⟩
      · split <;> rfl
      · intro hup
        simp only [hup]
      · intro r hup
        simp only [hup]

/-- C15 amended, at "staszek-views": 403 without a token, and "5" with the admin token when
the upstream answers the increment with "5". -/
theorem handleDodaj_five_witness :
    ((handleDodaj refProxyRuntime exampleConfig fiveUpstream exampleState
        (counterRequest "/dodaj/staszek-views/5" "staszek-views" (some "5"))
        ⟨1000, 1001⟩).response = ⟨403, "admin_required", ""⟩ ∧
      (handleDodaj refProxyRuntime exampleConfig fiveUpstream exampleState
        (counterRequest "/dodaj/staszek-views/5" "staszek-views" (some "5"))
        ⟨1000, 1001⟩).sent = []) ∧
    (handleDodaj refProxyRuntime exampleConfig fiveUpstream exampleState
        (adminCounterRequest "/dodaj/staszek-views/5" "staszek-views" (some "5"))
        ⟨1000, 1001⟩).response = ⟨200, "", toString (5 : Int).toNat⟩ :=
  ⟨(handleDodaj_five refProxyRuntime exampleConfig fiveUpstream exampleState
      (counterRequest "/dodaj/staszek-views/5" "staszek-views" (some "5")) ⟨1000, 1001⟩
      rfl).2.2.1 (by decide) (by decide) (by decide),
   ((((((handleDodaj_five refProxyRuntime exampleConfig fiveUpstream exampleState
      (adminCounterRequest "/dodaj/staszek-views/5" "staszek-views" (some "5")) ⟨1000, 1001⟩
      rfl).2.2.2 (by decide) (by decide) exampleAdminToken_isAdmin).2.1
      (by decide) (by decide) (by decide)).2
      ⟨true, 200, "5"⟩ rfl).2.2.1 5 rfl (by decide) (by decide)).2.2 (by decide))⟩

/-! ## C17 -/

/-- C17, the failing run. The vote check of `/ile` (server.js 1346-1358) hides the counter
only when `licznikGetInt` returns a number below 20; a read that fails returns `null`, and
the handler goes on to the second read (1375-1396), whose value it returns. On a counter
service that answers the first request with HTTP 503 and reads 5 afterwards, a non-admin
`GET /ile/staszek-vote` is answered 200 with the text "5". The increment endpoint has no vote
check at all: a non-admin `GET /dodaj/staszek-vote` on a service that answers "5" is answered
200 with "5". -/
theorem handleIle_vote_leaks_when_read_fails :
    isAdmin refProxyRuntime.toRuntime exampleConfig.ADMIN_TOKEN_SECRET
      exampleState.adminSessionId
      (counterRequest "/ile/staszek-vote" "staszek-vote" none).token 1000 = false ∧
    (licznikGetInt (firstRequestFails fiveUpstream) [] "staszek-vote").1 = none ∧
    (licznikGetInt (firstRequestFails fiveUpstream) [.ile "staszek-vote"] "staszek-vote").1
      = some 5 ∧
    handleIle refProxyRuntime exampleConfig (firstRequestFails fiveUpstream) exampleState
      (counterRequest "/ile/staszek-vote" "staszek-vote" none) 1000
      = (⟨200, "", "5"⟩, [.ile "staszek-vote", .counterRead "staszek-vote" ""]) ∧
    (handleDodaj refProxyRuntime exampleConfig fiveUpstream exampleState
      (counterRequest "/dodaj/staszek-vote" "staszek-vote" none) ⟨1000, 1001⟩).response
      = ⟨200, "", "5"⟩ :=
  ⟨by decide, by decide, by decide, by rfl, by decide⟩

/-- C17. What the code does for a non-admin `GET /ile/staszek-vote`. When the read of the
vote check returns a number below 20 the response is 404 with the fixed text `hidden`, and
that read is the only request sent upstream. When that read returns no number (the fetch
throws, the status is not 2xx, or the text is not an integer) the request is not hidden: in
plain-text mode the handler reads the counter a second time and answers with what that read
gives, in JSON mode it passes the request on. A 200 response is therefore given only when the
first read failed or returned a number of at least 20. -/
theorem handleIle_vote_hidden (R : ProxyRuntime) (cfg : Config) (up : Upstream)
    (st : ServerState) (req : CounterRequest) (now : Int)
    (hname : req.name = "staszek-vote")
    (hadmin : isAdmin R.toRuntime cfg.ADMIN_TOKEN_SECRET st.adminSessionId req.token now
      = false) :
    (∀ n : Int, (licznikGetInt up [] "staszek-vote").1 = some n → n < 20 →
      handleIle R cfg up st req now = (⟨404, "", "hidden"⟩, [.ile "staszek-vote"])) ∧
    (((licznikGetInt up [] "staszek-vote").1 = none ∨
        ∃ n : Int, (licznikGetInt up [] "staszek-vote").1 = some n ∧ 20 ≤ n) →
      handleIle R cfg up st req now
        = if wantsJsonResponse R req = false then
            ilePlainText R cfg up [.ile "staszek-vote"] req
          else proxyToLicznik R cfg up [.ile "staszek-vote"] req.path
            (stripKeyQuery R req.search)) ∧
    ((handleIle R cfg up st req now).1.status = 200 →
      (licznikGetInt up [] "staszek-vote").1 = none ∨
        ∃ n : Int, (licznikGetInt up [] "staszek-vote").1 = some n ∧ 20 ≤ n) := by
  have h1 : isAllowedCounterName "staszek-vote" = true := by decide
  have h2 : isAllowedPublicCounterName "staszek-vote" = true := by decide
  refine ⟨?_, ?_, ?_⟩
  · intro n hread hn
    exact handleIle_hidden R cfg up st req now n hname hadmin hread hn
  · intro hread
    simp only [handleIle, hname, h1, h2, hadmin, Bool.not_true, Bool.not_false,
      Bool.and_false, Bool.false_eq_true, if_false, beq_self_eq_true, Bool.and_self, if_true,
      licznikGetInt_sent, List.nil_append]
    rcases hread with h | ⟨n, h, hn⟩
    · simp only [h, Bool.false_eq_true, if_false]
      cases wantsJsonResponse R req <;> rfl
    · have hnot : ¬ n < MIN_PUBLIC_VOTE_COUNT := by
        simp only [MIN_PUBLIC_VOTE_COUNT]; omega
      simp only [h, hnot, decide_False, Bool.false_eq_true, if_false]
      cases wantsJsonResponse R req <;> rfl
  · intro hstatus
    cases hread : (licznikGetInt up [] "staszek-vote").1 with
    | none => exact Or.inl rfl
    | some n =>
      refine Or.inr ⟨n, rfl, ?_⟩
      by_contra hlt
      rw [handleIle_hidden R cfg up st req now n hname hadmin hread (by omega)] at hstatus
      cases hstatus

/-- C17 at a vote counter that reads 5: 404 `hidden` after the read of the check alone. -/
theorem handleIle_vote_hidden_witness :
    handleIle refProxyRuntime exampleConfig fiveUpstream exampleState
        (counterRequest "/ile/staszek-vote" "staszek-vote" none) 1000
      = (⟨404, "", "hidden"⟩, [.ile "staszek-vote"]) :=
  (handleIle_vote_hidden refProxyRuntime exampleConfig fiveUpstream exampleState
    (counterRequest "/ile/staszek-vote" "staszek-vote" none) 1000 rfl (by decide)).1 5
    (by decide) (by decide)

/-! ## C18 -/

/-- C18 as stated fails, in two ways. A non-admin plain-text `GET /ile/staszek-vote` while
the upstream reports -3 is answered 404 `hidden` by the vote check, which comes before the
auto-heal: no reset is sent and the answer is not "0". And the repeated increment of `/dodaj`
is not guarded: when the upstream reports -3 for the increment and cannot be reached after
that, the exception leaves the handler and the answer is 500 with the text `internal error`,
which is no number. -/
theorem negative_counter_not_healed :
    wantsJsonResponse refProxyRuntime (counterRequest "/ile/staszek-vote" "staszek-vote" none)
      = false ∧
    (licznikGetInt negativeUpstream [] "staszek-vote").1 = some (-3) ∧
    handleIle refProxyRuntime exampleConfig negativeUpstream exampleState
      (counterRequest "/ile/staszek-vote" "staszek-vote" none) 1000
      = (⟨404, "", "hidden"⟩, [.ile "staszek-vote"]) ∧
    negativeThenUnreachable [] (.counterAdd "staszek-views" 1 "") = some ⟨true, 200, "-3"⟩ ∧
    (handleDodaj refProxyRuntime exampleConfig negativeThenUnreachable exampleState
      (counterRequest "/dodaj/staszek-views" "staszek-views" none) ⟨1000, 1001⟩).response
      = ⟨500, "", "internal error"⟩ ∧
    (handleDodaj refProxyRuntime exampleConfig negativeThenUnreachable exampleState
      (counterRequest "/dodaj/staszek-views" "staszek-views" none) ⟨1000, 1001⟩).sent
      = [.counterAdd "staszek-views" 1 "", .wyzeruj "staszek-views",
          .counterAdd "staszek-views" 1 ""] :=
  ⟨by decide, by decide, by rfl, by rfl, by decide, by rfl⟩

/-- C18, amended. Negative-counter auto-heal in plain-text mode. A non-admin read of
"staszek-vote" whose vote check reads a negative number is answered 404 `hidden` and sends
no reset. Every other `/ile` request that reaches the read (API key set, allowed name, public
name or admin, not hidden), when the upstream answers the read with a negative number, sends
the reset `/wyzeruj` for that counter after the read and answers 200 with the text "0". A
`/dodaj` request that reaches the increment (API key set, rate limit passed, allowed name,
checked delta, no pixel flag), when the upstream answers the increment with a negative number,
sends the reset and then the same increment again; when that second increment throws, the
answer is 500 `internal error`; otherwise it is 200 with the text `String(v)` of a number
`v ≥ 0`, the number the second increment reports, as a double, with 0 in place of a negative
or missing one, and up to 2^53 that text is the decimal numeral of `v`. -/
theorem negative_counter_auto_heal (R : ProxyRuntime) (cfg : Config) (up : Upstream)
    (st : ServerState) (req : CounterRequest)
    (hplain : wantsJsonResponse R req = false) :
    (∀ (now : Int) (n : Int), req.name = "staszek-vote" →
      isAdmin R.toRuntime cfg.ADMIN_TOKEN_SECRET st.adminSessionId req.token now = false →
      (licznikGetInt up [] "staszek-vote").1 = some n → n < 0 →
      handleIle R cfg up st req now = (⟨404, "", "hidden"⟩, [.ile "staszek-vote"])) ∧
    (∀ (now : Int) (r : FetchResult) (n : Int),
      cfg.LICZNIK_API_KEY ≠ "" → isAllowedCounterName req.name = true →
      (isAdmin R.toRuntime cfg.ADMIN_TOKEN_SECRET st.adminSessionId req.token now = true
        ∨ isAllowedPublicCounterName req.name = true) →
      (isAdmin R.toRuntime cfg.ADMIN_TOKEN_SECRET st.adminSessionId req.token now = true
        ∨ req.name ≠ "staszek-vote"
        ∨ ∀ m, (licznikGetInt up [] req.name).1 = some m → 20 ≤ m) →
      up (if !isAdmin R.toRuntime cfg.ADMIN_TOKEN_SECRET st.adminSessionId req.token now
            && req.name == "staszek-vote" then [.ile req.name] else [])
        (.counterRead req.name (stripKeyQuery R req.search)) = some r →
      r.ok = true → parseIntOrNull r.text = some n → n < 0 →
      handleIle R cfg up st req now
        = (⟨200, "", "0"⟩,
            (if !isAdmin R.toRuntime cfg.ADMIN_TOKEN_SECRET st.adminSessionId req.token now
              && req.name == "staszek-vote" then [.ile req.name] else [])
            ++ [.counterRead req.name (stripKeyQuery R req.search), .wyzeruj req.name])) ∧
    (∀ (clock : CounterClock) (delta : Int) (r : FetchResult) (n : Int),
      cfg.LICZNIK_API_KEY ≠ "" →
      (hitRateLimit st.limiters .requests req.ip REQUEST_RATE_LIMIT_RULES
        clock.atLimit).1.ok = true →
      isAllowedCounterName req.name = true →
      dodajDelta req (isAdmin R.toRuntime cfg.ADMIN_TOKEN_SECRET st.adminSessionId req.token
        clock.atAuth) = .ok delta →
      hasQueryFlag "pixel=1" (stripKeyQuery R req.search) = false →
      up [] (.counterAdd req.name delta (stripKeyQuery R req.search)) = some r →
      r.ok = true → parseIntOrNull r.text = some n → n < 0 →
      (handleDodaj R cfg up st req clock).sent
        = [.counterAdd req.name delta (stripKeyQuery R req.search), .wyzeruj req.name,
            .counterAdd req.name delta (stripKeyQuery R req.search)] ∧
      (up [.counterAdd req.name delta (stripKeyQuery R req.search), .wyzeruj req.name]
          (.counterAdd req.name delta (stripKeyQuery R req.search)) = none →
        (handleDodaj R cfg up st req clock).response = internalError) ∧
      (∀ r2 : FetchResult,
        up [.counterAdd req.name delta (stripKeyQuery R req.search), .wyzeruj req.name]
          (.counterAdd req.name delta (stripKeyQuery R req.search)) = some r2 →
        (handleDodaj R cfg up st req clock).response
          = ⟨200, "", jsNumberToString R
              (max 0 ((if r2.ok then parseIntOrNull r2.text else none).getD 0))⟩ ∧
        0 ≤ max 0 ((if r2.ok then parseIntOrNull r2.text else none).getD 0) ∧
        (max 0 ((if r2.ok then parseIntOrNull r2.text else none).getD 0) ≤ 2 ^ 53 →
          (handleDodaj R cfg up st req clock).response.body
            = toString
                (max 0 ((if r2.ok then parseIntOrNull r2.text else none).getD 0)).toNat))) := by
  refine ⟨?_, ?_, ?_⟩
  · intro now n hname hadmin hread hneg
    exact handleIle_hidden R cfg up st req now n hname hadmin hread (by omega)
  · intro now r n hkey hname hpublic hvisible hup hok hn hneg
    rw [handleIle_plain R cfg up st req now hname hpublic hvisible hplain]
    have h4 := (ilePlainText_cases R cfg up
      (if !isAdmin R.toRuntime cfg.ADMIN_TOKEN_SECRET st.adminSessionId req.token now
          && req.name == "staszek-vote" then [.ile req.name] else []) req).2.2.2 r hkey hup hok
    rw [hn] at h4
    simp only [Option.getD_some, hneg, if_true, max_eq_left (le_of_lt hneg)] at h4
    have hzero : jsNumberToString R 0 = "0" := by rfl
    rw [hzero] at h4
    exact Prod.ext h4.1 h4.2
  · intro clock delta r n hkey hrl hname hd hpixel hup hok hn hneg
    have hm : dodajForward R cfg up req delta = dodajPlainText R cfg up req delta := by
      simp only [dodajForward, hplain, hpixel, Bool.not_false, Bool.and_self, if_true]
    rw [handleDodaj_allowed R cfg up st req clock hrl hname, hd]
    simp only [hm]
    obtain ⟨q1, q2, q3⟩ :=
      ((dodajPlainText_cases R cfg up req delta).2.2 r hkey hup).2.2.2 n hok hn hneg
    refine ⟨q1, q2, ?_⟩
    intro r2 hup2
    refine ⟨q3 r2 hup2, le_max_left _ _, ?_⟩
    intro hsmall
    rw [q3 r2 hup2]
    exact jsNumberToString_small R _ (le_max_left _ _) hsmall

/-- C18 amended, at "staszek-views" on an upstream whose counters read -3 until they are
reset: `/ile` sends the read and the reset and answers "0"; `/dodaj` sends the increment, the
reset and the increment again and answers "1". -/
theorem negative_counter_auto_heal_witness :
    handleIle refProxyRuntime exampleConfig negativeUpstream exampleState
        (counterRequest "/ile/staszek-views" "staszek-views" none) 1000
      = (⟨200, "", "0"⟩,
          (if !isAdmin refProxyRuntime.toRuntime exampleConfig.ADMIN_TOKEN_SECRET
              exampleState.adminSessionId
              (counterRequest "/ile/staszek-views" "staszek-views" none).token 1000
            && (counterRequest "/ile/staszek-views" "staszek-views" none).name
              == "staszek-vote" then
            [.ile (counterRequest "/ile/staszek-views" "staszek-views" none).name] else [])
          ++ [.counterRead "staszek-views" "", .wyzeruj "staszek-views"]) ∧
    (handleDodaj refProxyRuntime exampleConfig negativeUpstream exampleState
        (counterRequest "/dodaj/staszek-views" "staszek-views" none) ⟨1000, 1001⟩).sent
        = [.counterAdd "staszek-views" 1 "", .wyzeruj "staszek-views",
            .counterAdd "staszek-views" 1 ""] ∧
    (handleDodaj refProxyRuntime exampleConfig negativeUpstream exampleState
        (counterRequest "/dodaj/staszek-views" "staszek-views" none) ⟨1000, 1001⟩).response
        = ⟨200, "", jsNumberToString refProxyRuntime
            (max 0 ((if (FetchResult.mk true 200 "1").ok then
              parseIntOrNull (FetchResult.mk true 200 "1").text else none).getD 0))⟩ :=
  ⟨(negative_counter_auto_heal refProxyRuntime exampleConfig negativeUpstream exampleState
      (counterRequest "/ile/staszek-views" "staszek-views" none) (by decide)).2.1
      1000 ⟨true, 200, "-3"⟩ (-3) (by decide) (by decide) (Or.inr (by decide))
      (Or.inr (Or.inl (by decide))) (by rfl) rfl (by decide) (by decide),
   ((negative_counter_auto_heal refProxyRuntime exampleConfig negativeUpstream exampleState
      (counterRequest "/dodaj/staszek-views" "staszek-views" none) (by decide)).2.2
      ⟨1000, 1001⟩ 1 ⟨true, 200, "-2"⟩ (-2) (by decide) (by decide) (by decide) (by rfl)
      (by decide) (by rfl) rfl (by decide) (by decide)).1,
   (((negative_counter_auto_heal refProxyRuntime exampleConfig negativeUpstream exampleState
      (counterRequest "/dodaj/staszek-views" "staszek-views" none) (by decide)).2.2
      ⟨1000, 1001⟩ 1 ⟨true, 200, "-2"⟩ (-2) (by decide) (by decide) (by decide) (by rfl)
      (by decide) (by rfl) rfl (by decide) (by decide)).2.2 ⟨true, 200, "1"⟩ (by rfl)).1⟩

/-! ## C24 -/

/-- A text in which `*/` occurs splits at its first `*/`: the part before it contains none. -/
theorem hasCommentEnd_first : ∀ rest : List Char, hasCommentEnd rest = true →
    ∃ b c : List Char, rest = b ++ '*' :: '/' :: c ∧
      ∀ u v : List Char, b ≠ u ++ '*' :: '/' :: v := by
  intro rest
  induction rest with
  | nil => intro h; cases h
  | cons y t iht =>
    intro h
    by_cases h0 : ∃ r, y :: t = '*' :: '/' :: r
    · obtain ⟨r, hr⟩ := h0
      refine ⟨[], r, by rw [hr]; rfl, ?_⟩
      intro u v e
      cases u <;> cases e
    · have ht : hasCommentEnd t = true := by
        unfold hasCommentEnd at h
        split at h
        · rename_i heq
          exact absurd ⟨_, heq⟩ h0
        · rename_i heq
          simp only [List.cons.injEq] at heq
          rw [← heq.2] at h
          exact h
        · cases h
      obtain ⟨b, c, hbc, hb⟩ := iht ht
      refine ⟨y :: b, c, by rw [hbc]; rfl, ?_⟩
      intro u v e
      cases u with
      | nil =>
        simp only [List.nil_append, List.cons.injEq] at e
        apply h0
        refine ⟨v ++ '*' :: '/' :: c, ?_⟩
        rw [hbc, e.1, e.2]
        rfl
      | cons z u1 =>
        simp only [List.cons_append, List.cons.injEq] at e
        exact hb u1 v e.2

/-- The scan outside a comment copies a text without `/*` that stands before a `/`. -/
theorem stripFrom_before (a t : List Char)
    (ha : ∀ u v : List Char, a ≠ u ++ '/' :: '*' :: v) :
    stripFrom false (a ++ '/' :: t) = a ++ stripFrom false ('/' :: t) := by
  induction a with
  | nil => rfl
  | cons x a1 ih =>
    have ha1 : ∀ u v : List Char, a1 ≠ u ++ '/' :: '*' :: v := by
      intro u v e
      exact ha (x :: u) v (by rw [e]; rfl)
    rw [List.cons_append, stripFrom]
    · rw [ih ha1]; rfl
    · intro r ex er
      cases a1 with
      | nil =>
        simp only [List.nil_append, List.cons.injEq] at er
        exact absurd er.1 (by decide)
      | cons y a2 =>
        simp only [List.cons_append, List.cons.injEq] at er
        exact ha [] a2 (by rw [ex, er.1]; rfl)

/-- The scan inside a comment drops a text without `*/` and the `*/` behind it. -/
theorem stripFrom_body (b c : List Char)
    (hb : ∀ u v : List Char, b ≠ u ++ '*' :: '/' :: v) :
    stripFrom true (b ++ '*' :: '/' :: c) = stripFrom false c := by
  induction b with
  | nil => simp [stripFrom]
  | cons y b1 ih =>
    have hb1 : ∀ u v : List Char, b1 ≠ u ++ '*' :: '/' :: v := by
      intro u v e
      exact hb (y :: u) v (by rw [e]; rfl)
    rw [List.cons_append, stripFrom]
    · exact ih hb1
    · intro r ey er
      cases b1 with
      | nil =>
        simp only [List.nil_append, List.cons.injEq] at er
        exact absurd er.1 (by decide)
      | cons z b2 =>
        simp only [List.cons_append, List.cons.injEq] at er
        exact hb [] b2 (by rw [ey, er.1]; rfl)

/-- A text with `/*` followed later by `*/` splits at its first `/*` and at the first `*/`
behind that. -/
theorem comment_first : ∀ (inside : Bool) (l : List Char), inside = false →
    (∃ a b c : List Char, l = a ++ '/' :: '*' :: (b ++ '*' :: '/' :: c)) →
    ∃ a b c : List Char, l = a ++ '/' :: '*' :: (b ++ '*' :: '/' :: c) ∧
      (∀ u v : List Char, a ≠ u ++ '/' :: '*' :: v) ∧
      (∀ u v : List Char, b ≠ u ++ '*' :: '/' :: v) := by
  intro inside l
  induction inside, l using stripFrom.induct with
  | case1 inside =>
    rintro _ ⟨a, b, c, h⟩
    have := congrArg List.length h
    simp only [List.length_nil, List.length_append, List.length_cons] at this
    omega
  | case2 rest ih => intro h; cases h
  | case3 c rest _ ih => intro h; cases h
  | case4 rest h ih =>
    intro _ _
    obtain ⟨b, c, hbc, hb⟩ := hasCommentEnd_first rest h
    refine ⟨[], b, c, by rw [hbc]; rfl, ?_, hb⟩
    intro u v e
    cases u <;> cases e
  | case5 rest h =>
    rintro _ ⟨a, b, c, habc⟩
    exact absurd (hasCommentEnd_of_comment rest a b c habc) h
  | case6 ch rest hother ih =>
    rintro _ ⟨a, b, c2, habc⟩
    obtain ⟨a1, ha1⟩ := comment_tail ch rest a b c2 hother habc
    obtain ⟨a2, b2, c3, h2, hA, hB⟩ := ih rfl ⟨a1, b, c2, ha1⟩
    refine ⟨ch :: a2, b2, c3, by rw [h2]; rfl, ?_, hB⟩
    intro u v e
    cases u with
    | nil =>
      simp only [List.nil_append, List.cons.injEq] at e
      exact hother (v ++ '/' :: '*' :: (b2 ++ '*' :: '/' :: c3)) e.1 (by rw [h2, e.2]; rfl)
    | cons z u1 =>
      simp only [List.cons_append, List.cons.injEq] at e
      exact hA u1 v e.2

/-- C24 as stated fails: removing the comment `/**/` from `//**/* x */` joins a `/` and a
`*`, so the result `/* x */` contains `/*` followed by `*/`, and a second pass gives another
text. -/
theorem stripJsBlockComments_not_idempotent :
    stripJsBlockComments "//**/* x */" = "/* x */" ∧
    HasBlockComment (stripJsBlockComments "//**/* x */") ∧
    stripJsBlockComments (stripJsBlockComments "//**/* x */")
      ≠ stripJsBlockComments "//**/* x */" :=
  ⟨by decide, ⟨[], [' ', 'x', ' '], [], by decide⟩, by decide⟩

/-- C24, amended. `stripJsBlockComments` removes the block comments that a scan from the left
finds. Every text that contains `/*` followed later by `*/` splits as `a /* b */ c` with no
`/*` inside `a` and no `*/` inside `b` (the first `/*` and the first `*/` behind it), and for
every such split the result is `a` followed by the result for `c`: the comment is removed and
the scan goes on behind it. The result is never longer than the source, and it is the source
itself exactly when the source contains no `/*` that is followed later by `*/`. The result can
contain such a pair again, made of characters that stood on the two sides of a removed
comment, so a second pass changes the result exactly when it does. -/
theorem stripJsBlockComments_fixed_iff :
    (∀ x : String, stripJsBlockComments x = x ↔ ¬ HasBlockComment x) ∧
    (∀ x : String, (stripJsBlockComments x).data.length ≤ x.data.length) ∧
    (∀ a b c : List Char, (∀ u v : List Char, a ≠ u ++ '/' :: '*' :: v) →
      (∀ u v : List Char, b ≠ u ++ '*' :: '/' :: v) →
      stripJsBlockComments (String.mk (a ++ '/' :: '*' :: (b ++ '*' :: '/' :: c)))
        = String.mk a ++ stripJsBlockComments (String.mk c)) ∧
    (∀ x : String, HasBlockComment x →
      ∃ a b c : List Char, x.data = a ++ '/' :: '*' :: (b ++ '*' :: '/' :: c) ∧
        (∀ u v : List Char, a ≠ u ++ '/' :: '*' :: v) ∧
        (∀ u v : List Char, b ≠ u ++ '*' :: '/' :: v) ∧
        stripJsBlockComments x = String.mk a ++ stripJsBlockComments (String.mk c)) ∧
    (∀ x : String, stripJsBlockComments (stripJsBlockComments x) = stripJsBlockComments x ↔
      ¬ HasBlockComment (stripJsBlockComments x)) := by
  have key : ∀ x : String, stripJsBlockComments x = x ↔ ¬ HasBlockComment x := by
    intro x
    constructor
    · intro h hc
      have hlt := stripFrom_comment_shorter false x.data rfl hc
      have := congrArg (fun s : String => s.data.length) h
      simp only [stripJsBlockComments] at this
      omega
    · intro h
      exact String.ext (stripFrom_no_comment false x.data rfl h)
  have removal : ∀ a b c : List Char, (∀ u v : List Char, a ≠ u ++ '/' :: '*' :: v) →
      (∀ u v : List Char, b ≠ u ++ '*' :: '/' :: v) →
      stripFrom false (a ++ '/' :: '*' :: (b ++ '*' :: '/' :: c)) = a ++ stripFrom false c := by
    intro a b c ha hb
    rw [stripFrom_before a _ ha]
    congr 1
    rw [stripFrom, if_pos (hasCommentEnd_append b c)]
    exact stripFrom_body b c hb
  refine ⟨key, fun x => stripFrom_length false x.data, ?_, ?_, fun x => key _⟩
  · intro a b c ha hb
    apply String.ext
    exact removal a b c ha hb
  · intro x hx
    obtain ⟨a, b, c, h, ha, hb⟩ := comment_first false x.data rfl hx
    refine ⟨a, b, c, h, ha, hb, ?_⟩
    apply String.ext
    show stripFrom false x.data = a ++ stripFrom false c
    rw [h]
    exact removal a b c ha hb

end Staszek
